import Mathlib

/-!
Pip timing-class classification of `ecp5/tools/trellis_import.cpp`.

A shallow embedding of the string helpers and of the pip classifier of
`trellis_import.cpp`, followed by theorems about them.

Modelling conventions.

* A `std::string` is the list of its characters (`Str`).  `wire[i]` with
  `i = wire.size()` is the NUL character, as C++11 defines it.
* `::tolower` is taken in the "C" locale: it maps `A`..`Z` to `a`..`z` and
  leaves every other character alone (`Char.toLower`).
* `int` values are `Int`; the grid positions handled here are far from the
  limits of a 32-bit `int`, so no wrap-around is modelled.
* Indexing a `std::vector` out of range is undefined behaviour; functions
  that can do so return `Option`, with `none` for that case.
* `std::map<std::string, int>` is an association list with pairwise distinct
  keys; `find`, `operator[]` and `size` are the operations the code uses.
* `Trellis::get_row_col_pair_from_chipsize` belongs to the Trellis library and
  not to this repository: it is a parameter (`RowColDecoder`).
-/

namespace TrellisImport

/-- A `std::string`. -/
abbrev Str := List Char

/-! ## `StringRef` and `split` -/

/-- The class `StringRef`: a view into a string.  The pointer `begin_` is kept
as its offset from the start of the underlying string; `size_`, a difference of
two pointers of which the second is never before the first, is a natural
number. -/
structure StringRef where
  begin_ : Nat
  size_ : Nat
  deriving DecidableEq, Repr

/-- The string `std::string(ref.begin(), ref.end())` for a view `ref` into `str`. -/
def StringRef.str (ref : StringRef) (str : Str) : Str :=
  (str.drop ref.begin_).take ref.size_

/-- The states `enum State { inSpace, inToken }` of `split`. -/
inductive State where
  | inSpace
  | inToken
  deriving DecidableEq, Repr

/-- The `for` loop of `split`.  The first list argument is the part of the
string from the iterator `it` on, the next argument the offset of `it`; the
result is the triple `(result, state, pTokenBegin)` at loop exit.  When the
limit is reached the loop is left with `pTokenBegin` one past the delimiter,
which is the end of the string when the delimiter is its last character. -/
def splitLoop (delimiter : Char) (limit : Int) :
    Str → Nat → State → Nat → Int → List StringRef → List StringRef × State × Nat
  | [], _, state, pTokenBegin, _, result => (result, state, pTokenBegin)
  | c :: rest, it, state, pTokenBegin, count, result =>
    let newState := if c = delimiter then State.inSpace else State.inToken
    if newState ≠ state then
      if newState = State.inSpace then
        let result := result ++ [⟨pTokenBegin, it - pTokenBegin⟩]
        if limit ≠ -1 then
          let count := count + 1
          if count = limit then
            -- it++; pTokenBegin = &*it; state = inToken; break;
            (result, State.inToken, it + 1)
          else
            splitLoop delimiter limit rest (it + 1) newState pTokenBegin count result
        else
          splitLoop delimiter limit rest (it + 1) newState pTokenBegin count result
      else
        -- newState == inToken
        splitLoop delimiter limit rest (it + 1) newState it count result
    else
      splitLoop delimiter limit rest (it + 1) newState pTokenBegin count result

/-- The function `split(str, delimiter, limit)`. -/
def split (str : Str) (delimiter : Char) (limit : Int) : List StringRef :=
  match splitLoop delimiter limit str 0 State.inSpace 0 0 [] with
  | (result, state, pTokenBegin) =>
    if state = State.inToken then
      result ++ [⟨pTokenBegin, str.length - pTokenBegin⟩]
    else
      result

/-! ## Character and string helpers -/

/-- The function `is_digit(c)`. -/
def is_digit (c : Char) : Bool :=
  decide ('0' ≤ c) && decide (c ≤ '9')

/-- The function `::tolower` in the "C" locale. -/
def tolower (c : Char) : Char := c.toLower

/-- The test `s.compare(pos, len, str) == 0`: the substring of `s` that starts at `pos`
and has at most `len` characters equals `str`. -/
def compare_eq (s : Str) (pos len : Nat) (str : Str) : Bool :=
  decide ((s.drop pos).take len = str)

/-- The call `s.find(pat)`: the first offset at which `pat` occurs in `s`, `none` for
`std::string::npos`. -/
def find : Str → Str → Option Nat
  | [], pat => if pat = [] then some 0 else none
  | c :: s, pat =>
    if pat.isPrefixOf (c :: s) then some 0 else (find s pat).map (· + 1)

/-- The test `s.find(pat) != std::string::npos`. -/
def found (s pat : Str) : Bool := (find s pat).isSome

/-- The character `wire[i]` of a `std::string`; the NUL character at `i = size()`. -/
def charAt (s : Str) (i : Nat) : Char := s.getD i (Char.ofNat 0)

/-- The string left by `s.pop_back()`. -/
def pop_back (s : Str) : Str := s.dropLast

/-- The string left by `std::transform(s.begin(), s.end(), s.begin(), ::tolower)`. -/
def lower (s : Str) : Str := s.map tolower

/-- The function `std::to_string(int)`. -/
def to_string (i : Int) : Str :=
  if i < 0 then '-' :: Nat.toDigits 10 i.natAbs else Nat.toDigits 10 i.toNat

/-- The function `endsWith(fullString, ending)`. -/
def endsWith (fullString ending : Str) : Bool :=
  if fullString.length ≥ ending.length then
    compare_eq fullString (fullString.length - ending.length) ending.length ending
  else
    false

/-- The function `is_denorm(wire)`. -/
def is_denorm (wire : Str) : Bool :=
  if (compare_eq wire 0 3 "H06".toList || compare_eq wire 0 3 "V06".toList)
      && !(endsWith wire "03".toList) then
    true
  else if (compare_eq wire 0 3 "H02".toList || compare_eq wire 0 3 "V02".toList)
      && !(endsWith wire "01".toList) then
    true
  else
    false

/-- The function `get_span(wire)`. -/
def get_span (wire : Str) : Str :=
  if (compare_eq wire 0 1 "H".toList || compare_eq wire 0 1 "V".toList)
      && is_digit (charAt wire 1) && is_digit (charAt wire 2) then
    let w0 := charAt wire 0
    let w3 := charAt wire 3
    "span".toList ++ [charAt wire 2] ++ [tolower w0] ++ [tolower w3]
  else
    []

/-! ## Regular expressions -/

/-- The fragment of ECMAScript regular expressions that the two patterns of
`get_pip_class_name` use. -/
inductive Regex where
  /-- A literal character. -/
  | chr (c : Char)
  /-- A bracket expression `[...]` listing its characters. -/
  | cls (cs : List Char)
  /-- The class `\d`. -/
  | digit
  /-- An optional item `r?`. -/
  | opt (r : Regex)
  /-- Concatenation. -/
  | seq (r s : Regex)
  /-- Alternation `r|s`. -/
  | alt (r s : Regex)
  deriving Repr

/-- The literal text `s` as a pattern; the empty text matches the empty string. -/
def Regex.lit : Str → Regex
  | [] => Regex.opt (Regex.cls [])
  | [c] => Regex.chr c
  | c :: cs => Regex.seq (Regex.chr c) (Regex.lit cs)

/-- All the ways `r` matches a prefix of `s`: the list of what is left of `s`
after each such match. -/
def Regex.run : Regex → Str → List Str
  | Regex.chr c, x :: xs => if x = c then [xs] else []
  | Regex.chr _, [] => []
  | Regex.cls cs, x :: xs => if x ∈ cs then [xs] else []
  | Regex.cls _, [] => []
  | Regex.digit, x :: xs => if is_digit x then [xs] else []
  | Regex.digit, [] => []
  | Regex.opt r, s => r.run s ++ [s]
  | Regex.seq r t, s => (r.run s).flatMap t.run
  | Regex.alt r t, s => r.run s ++ t.run s

/-- The call `std::regex_match(s, re)`: the pattern matches the whole of `s`. -/
def regex_match (s : Str) (re : Regex) : Bool :=
  (re.run s).any List.isEmpty

/-- The pattern `lc_input_re("(J?[ABCDM]|CLK|LSR|CE)\\d")`. -/
def lc_input_re : Regex :=
  Regex.seq
    (Regex.alt (Regex.seq (Regex.opt (Regex.chr 'J')) (Regex.cls "ABCDM".toList))
      (Regex.alt (Regex.lit "CLK".toList)
        (Regex.alt (Regex.lit "LSR".toList) (Regex.lit "CE".toList))))
    Regex.digit

/-- The pattern `lc_output_re("J?[FQ]\\d")`. -/
def lc_output_re : Regex :=
  Regex.seq (Regex.opt (Regex.chr 'J')) (Regex.seq (Regex.cls "FQ".toList) Regex.digit)

/-! ## Relative positions -/

/-- The type of `Trellis::get_row_col_pair_from_chipsize(name, chip_size, bias)`,
a function of the Trellis library. -/
abbrev RowColDecoder := Str → Int × Int → Int → Int × Int

/-- The function `pos_from_name(tile, chip_size_x, chip_size_y, bias)`. -/
def pos_from_name (rc : RowColDecoder) (tile : Str) (chip_size_x chip_size_y bias : Int) :
    Int × Int :=
  let size : Int × Int := (chip_size_x, chip_size_y)
  rc tile size bias

/-- The function `format_rel(a, b)`. -/
def format_rel (rc : RowColDecoder) (a b : Str) : Str :=
  let rca := pos_from_name rc a 126 95 0
  let rcb := pos_from_name rc b 126 95 0
  let rel : Str := []
  let rel :=
    if rcb.1 < rca.1 then rel ++ "n".toList ++ to_string (rca.1 - rcb.1)
    else if rcb.1 > rca.1 then rel ++ "s".toList ++ to_string (rcb.1 - rca.1)
    else rel
  let rel :=
    if rcb.2 < rca.2 then rel ++ "w".toList ++ to_string (rca.2 - rcb.2)
    else if rcb.2 > rca.2 then rel ++ "e".toList ++ to_string (rcb.2 - rca.2)
    else rel
  if rel ≠ [] then "_".toList ++ rel else rel

/-! ## The classifier -/

/-- The body of `get_pip_class_name` after the two wire names have been cut
into location token and base name. -/
def classify (rc : RowColDecoder) (source_loc source_base sink_loc sink_base : Str) : Str :=
  if is_denorm source_base || is_denorm sink_base then
    []
  else if endsWith source_base "_SLICE".toList || compare_eq source_base 0 3 "MUX".toList
      || endsWith sink_base "_SLICE".toList then
    "slice_internal".toList
  else if endsWith sink_base "_EBR".toList || endsWith source_base "_EBR".toList then
    "ebr_internal".toList
  else if found sink_base "TEST".toList || found source_base "TEST".toList then
    []
  else if found sink_base "ALU".toList || found source_base "ALU".toList
      || found sink_base "MULT".toList || found source_base "MULT".toList
      || found sink_base "PRADD".toList then
    "dsp_internal".toList
  else if regex_match sink_base lc_input_re then
    if regex_match source_base lc_output_re then
      let source_base := lower (pop_back source_base)
      let sink_base := lower (pop_back sink_base)
      source_base ++ "_to_".toList ++ sink_base
    else if get_span source_base ≠ [] then
      let sink_base := lower (pop_back sink_base)
      get_span source_base ++ "_to_".toList ++ sink_base ++ format_rel rc source_loc sink_loc
    else if found source_base "HPBX".toList then
      let sink_base := lower (pop_back sink_base)
      "global_to_".toList ++ sink_base
    else
      []
  else if get_span sink_base ≠ [] then
    if regex_match source_base lc_output_re then
      let source_base := lower (pop_back source_base)
      source_base ++ "_to_".toList ++ get_span sink_base ++ format_rel rc source_loc sink_loc
    else if get_span source_base ≠ [] then
      get_span source_base ++ "_to_".toList ++ get_span sink_base
        ++ format_rel rc source_loc sink_loc
    else if found source_base "HPBX".toList then
      "global_to_".toList ++ get_span sink_base
    else if found source_base "BOUNCE".toList then
      []
    else
      -- TODO: handle.  (falls through to the final return)
      []
  else if compare_eq source_base 0 3 "LSR".toList
      && compare_eq sink_base 0 6 "MUXLSR".toList then
    "lsr_to_muxlsr".toList
  else
    []

/-- The function `get_pip_class_name(source, sink)`; `none` when one of the names yields
fewer than two tokens, where the code indexes a vector out of range. -/
def get_pip_class_name (rc : RowColDecoder) (source sink : Str) : Option Str := do
  let sourceBits := split source '_' 1
  let source_loc := (← sourceBits[0]?).str source
  let source_base := (← sourceBits[1]?).str source
  let sinkBits := split sink '_' 1
  let sink_loc := (← sinkBits[0]?).str sink
  let sink_base := (← sinkBits[1]?).str sink
  pure (classify rc source_loc source_base sink_loc sink_base)

/-- A `std::map<std::string, int>`. -/
abbrev StrIntMap := List (Str × Int)

/-- The call `m.find(k)`, `none` for `m.end()`. -/
def StrIntMap.find (m : StrIntMap) (k : Str) : Option Int :=
  match m with
  | [] => none
  | (k', v) :: rest => if k' = k then some v else StrIntMap.find rest k

/-- The expression `m[k]` as an rvalue: the value of `k`, which is inserted with the value 0
when the map does not hold it. -/
def StrIntMap.index (m : StrIntMap) (k : Str) : Int × StrIntMap :=
  match m.find k with
  | some v => (v, m)
  | none => (0, m ++ [(k, 0)])

/-- The initial value of the global `pip_class_to_idx`. -/
def pip_class_to_idx_init : StrIntMap := [("default".toList, 0)]

/-- The function `get_pip_class(wire_from, wire_to)` on the global `pip_class_to_idx`, which
is passed in and returned. -/
def get_pip_class (rc : RowColDecoder) (pip_class_to_idx : StrIntMap)
    (wire_from wire_to : Str) : Option (Int × StrIntMap) := do
  let class_name ← get_pip_class_name rc wire_from wire_to
  let class_name :=
    if class_name ≠ [] ∧ (pip_class_to_idx.find class_name).isNone then "default".toList
    else class_name
  pure (pip_class_to_idx.index class_name)

/-- A decoder of `R<row>C<col>` location tokens into `(row, col)`, an instance
of `RowColDecoder` on which the classifier is evaluated at concrete names. -/
def sampleDecoder : RowColDecoder := fun name _ _ =>
  let digitsVal (s : Str) : Int := s.foldl (fun n c => 10 * n + ((c.toNat : Int) - 48)) 0
  let afterR := name.drop 1
  let row := afterR.takeWhile (fun c => is_digit c)
  let col := (afterR.dropWhile (fun c => is_digit c)).drop 1
  (digitsVal row, digitsVal (col.takeWhile (fun c => is_digit c)))

/-! ## The vocabulary of the specification -/

/-- The ten decimal digits. -/
def decimalDigits : List Char := "0123456789".toList

/-- A base name is denormalized: it begins with `H06` or `V06` and does not
end in `03`, or it begins with `H02` or `V02` and does not end in `01`. -/
def Denormalized (b : Str) : Prop :=
  (("H06".toList <+: b ∨ "V06".toList <+: b) ∧ ¬ "03".toList <:+ b) ∨
  (("H02".toList <+: b ∨ "V02".toList <+: b) ∧ ¬ "01".toList <:+ b)

instance Denormalized.decidable (b : Str) : Decidable (Denormalized b) := by
  unfold Denormalized
  infer_instance

/-- The logic-cell output shape: an optional `J`, then `F` or `Q`, then one
decimal digit. -/
def LcOutputShape (b : Str) : Prop :=
  ∃ j ∈ [[], ['J']], ∃ o ∈ "FQ".toList, ∃ d ∈ decimalDigits, b = j ++ [o, d]

instance LcOutputShape.decidable (b : Str) : Decidable (LcOutputShape b) := by
  unfold LcOutputShape
  infer_instance

/-- The logic-cell input shape as the specification words it: an optional
`J`, then one of `A`, `B`, `C`, `D`, `M`, `CLK`, `LSR`, `CE`, then one decimal
digit. -/
def SpecLcInputShape (b : Str) : Prop :=
  ∃ j ∈ [[], ['J']],
    ∃ m ∈ ["A", "B", "C", "D", "M", "CLK", "LSR", "CE"].map String.toList,
      ∃ d ∈ decimalDigits, b = j ++ m ++ [d]

instance SpecLcInputShape.decidable (b : Str) : Decidable (SpecLcInputShape b) := by
  unfold SpecLcInputShape
  infer_instance

/-- The logic-cell input shape with the optional `J` admitted before `A`,
`B`, `C`, `D`, `M` only: `CLK`, `LSR` and `CE` stand without it. -/
def LcInputShape (b : Str) : Prop :=
  (∃ j ∈ [[], ['J']], ∃ m ∈ "ABCDM".toList, ∃ d ∈ decimalDigits, b = j ++ [m, d]) ∨
  (∃ m ∈ ["CLK", "LSR", "CE"].map String.toList, ∃ d ∈ decimalDigits, b = m ++ [d])

instance LcInputShape.decidable (b : Str) : Decidable (LcInputShape b) := by
  unfold LcInputShape
  infer_instance

/-- None of the first five tests of `get_pip_class_name` (denormalized wire,
`slice_internal`, `ebr_internal`, `TEST`, `dsp_internal`) succeeds on the two
base names. -/
def NoEarlyRule (source_base sink_base : Str) : Prop :=
  (is_denorm source_base || is_denorm sink_base) = false ∧
  (endsWith source_base "_SLICE".toList || compare_eq source_base 0 3 "MUX".toList
    || endsWith sink_base "_SLICE".toList) = false ∧
  (endsWith sink_base "_EBR".toList || endsWith source_base "_EBR".toList) = false ∧
  (found sink_base "TEST".toList || found source_base "TEST".toList) = false ∧
  (found sink_base "ALU".toList || found source_base "ALU".toList
    || found sink_base "MULT".toList || found source_base "MULT".toList
    || found sink_base "PRADD".toList) = false

instance NoEarlyRule.decidable (a b : Str) : Decidable (NoEarlyRule a b) := by
  unfold NoEarlyRule
  infer_instance

/-- The span test as `get_span` makes it: `H` or `V` followed by two decimal
digits; what follows them is not examined. -/
def SpanPrefix (b : Str) : Prop :=
  ∃ a ∈ "HV".toList, ∃ d1 ∈ decimalDigits, ∃ d2 ∈ decimalDigits, [a, d1, d2] <+: b

instance SpanPrefix.decidable (b : Str) : Decidable (SpanPrefix b) := by
  unfold SpanPrefix
  infer_instance

/-- Span form as the specification words it: `H` or `V`, two digits, a
direction letter (a fourth character, which is alphabetic). -/
def SpanForm (b : Str) : Prop :=
  SpanPrefix b ∧ ∃ l ∈ (b.drop 3).take 1, l.isAlpha = true

instance SpanForm.decidable (b : Str) : Decidable (SpanForm b) := by
  unfold SpanForm
  infer_instance

/-- The span of a base name: `span`, then the second digit, the lowercased axis
letter and the lowercased fourth character, which is the NUL character when
the name has three characters only. -/
def spanName : Str → Str
  | a :: _ :: d2 :: l :: _ => "span".toList ++ [d2, a.toLower, l.toLower]
  | [a, _, d2] => "span".toList ++ [d2, a.toLower, Char.ofNat 0]
  | _ => []

/-- The decimal numeral of a natural number. -/
def decimal (n : Nat) : Str := (Nat.repr n).toList

/-- The row part of a relative position, from the source row `ra` and the
sink row `rb`. -/
def rowPart (ra rb : Int) : Str :=
  if rb < ra then 'n' :: decimal (ra - rb).toNat
  else if rb > ra then 's' :: decimal (rb - ra).toNat
  else []

/-- The column part of a relative position, from the source column `ca` and
the sink column `cb`. -/
def colPart (ca cb : Int) : Str :=
  if cb < ca then 'w' :: decimal (ca - cb).toNat
  else if cb > ca then 'e' :: decimal (cb - ca).toNat
  else []

/-- Exchanges `n` with `s` and `w` with `e`. -/
def swapDirection (c : Char) : Char :=
  if c = 'n' then 's' else if c = 's' then 'n'
  else if c = 'w' then 'e' else if c = 'e' then 'w' else c

/-- What the classifier's tests say about a sink base name of logic-cell input shape. -/
def SinkFacts (sk : Str) : Prop :=
  is_denorm sk = false ∧ endsWith sk "_SLICE".toList = false ∧ endsWith sk "_EBR".toList = false ∧
  found sk "TEST".toList = false ∧ found sk "ALU".toList = false ∧ found sk "MULT".toList = false ∧
  found sk "PRADD".toList = false ∧ regex_match sk lc_input_re = true

instance SinkFacts.decidable (b : Str) : Decidable (SinkFacts b) := by
  unfold SinkFacts
  infer_instance

/-- What the classifier's tests say about a source base name of logic-cell output shape. -/
def SourceFacts (sb : Str) : Prop :=
  is_denorm sb = false ∧ endsWith sb "_SLICE".toList = false ∧
  compare_eq sb 0 3 "MUX".toList = false ∧ endsWith sb "_EBR".toList = false ∧
  found sb "TEST".toList = false ∧ found sb "ALU".toList = false ∧ found sb "MULT".toList = false ∧
  regex_match sb lc_output_re = true

instance SourceFacts.decidable (b : Str) : Decidable (SourceFacts b) := by
  unfold SourceFacts
  infer_instance

/-! ## Interning registries -/

/-- The assignment `m[k] = v`: the value of `k` is replaced, or the key is
inserted when the map does not hold it. -/
def StrIntMap.set (m : StrIntMap) (k : Str) (v : Int) : StrIntMap :=
  match m with
  | [] => [(k, v)]
  | (k', v') :: rest =>
    if k' = k then (k', v) :: rest else (k', v') :: StrIntMap.set rest k v

/-- The function `get_tiletype_index(name)` on the global `tiletype_names`,
which is passed in and returned. -/
def get_tiletype_index (tiletype_names : StrIntMap) (name : Str) : Int × StrIntMap :=
  if (tiletype_names.find name).isSome then
    -- Found the name.
    tiletype_names.index name
  else
    let idx : Int := tiletype_names.length
    (idx, tiletype_names.set name idx)

/-- The calls `get_tiletype_index(n)` for the names `n` of a list, in order:
the indices returned and the registry left behind. -/
def register_all : StrIntMap → List Str → List Int × StrIntMap
  | reg, [] => ([], reg)
  | reg, n :: ns =>
    let r := get_tiletype_index reg n
    let rs := register_all r.2 ns
    (r.1 :: rs.1, rs.2)

/-- The number of distinct names that occur in `names` before the first
occurrence of `n`. -/
def distinctBefore (names : List Str) (n : Str) : Nat :=
  ((names.takeWhile (fun m => decide (m ≠ n))).toFinset).card

/-- The registry that the names of `pre` leave behind. -/
def RegistryOf (pre : List Str) (reg : StrIntMap) : Prop :=
  (∀ n, reg.find n = if n ∈ pre then some (distinctBefore pre n : Int) else none) ∧
  reg.length = pre.toFinset.card

/-! ## The identifier table -/

/-- The call `m.insert(std::pair(k, v))`: nothing changes when the map holds `k`. -/
def StrIntMap.insert (m : StrIntMap) (k : Str) (v : Int) : StrIntMap :=
  if (m.find k).isSome then m else m ++ [(k, v)]

/-- A line contributes a name: it has at least 4 characters, starts with `X`
and contains both `(` and `)`. -/
def Contributes (line : Str) : Prop :=
  4 ≤ line.length ∧ line.head? = some 'X' ∧ '(' ∈ line ∧ ')' ∈ line

instance Contributes.decidable (line : Str) : Decidable (Contributes line) := by
  unfold Contributes
  infer_instance

/-- How a run of the program can end other than by returning: a call of
`exit(status)`, or undefined behaviour such as an index outside a vector. -/
inductive Fault where
  | exit (status : Int)
  | undefined
  deriving DecidableEq, Repr

/-- The record `struct Delay`. -/
structure Delay where
  from_pin : Int
  to_pin : Int
  min_delay : Int
  max_delay : Int
  deriving DecidableEq, Repr

/-- The record `struct SetupHold`. -/
structure SetupHold where
  pin : Int
  clock : Int
  min_setup : Int
  max_setup : Int
  min_hold : Int
  max_hold : Int
  deriving DecidableEq, Repr

/-- The record `struct PipClass`. -/
structure PipClass where
  min_delay : Int
  max_delay : Int
  min_fanout : Int
  max_fanout : Int
  deriving DecidableEq, Repr

/-- The record `struct Cell`. -/
structure Cell where
  celltype : Int
  delays : List Delay
  setupholds : List SetupHold
  deriving DecidableEq, Repr

/-- The record `struct Chip` of the importer (not `Trellis::Chip`). -/
structure Chip where
  speed_grade : Str
  cells : List Cell
  pip_class_delays : List PipClass
  deriving DecidableEq, Repr

/-- The global `speed_grade_names`. -/
def speed_grade_names : List Str := ["6".toList, "7".toList, "8".toList, "8_5G".toList]

/-- The global `timing_port_xform`. -/
def timing_port_xform : List (Str × Str) :=
  [("RAD0".toList, "D0".toList), ("RAD1".toList, "B0".toList),
   ("RAD2".toList, "C0".toList), ("RAD3".toList, "A0".toList)]

/-- The renaming of a pin through `timing_port_xform`: the pin itself when the
map does not hold it. -/
def port_xform (pin : Str) : Str :=
  match timing_port_xform.lookup pin with
  | some p => p
  | none => pin

/-- The value `constids[k]`.  The expression inserts an absent key with the
value 0; the table is read through this expression only, so that the insertion
changes no later value and the table is not threaded. -/
def constid (constids : StrIntMap) (k : Str) : Int := (constids.index k).1

/-- One entry of a cell's array in `cells.json`, with the members that
`process_timing_data` reads: `from_pin` is the string itself or the element 1
of the array, `clock` the element 1 of the `clock` array, and the triples are
the elements 0, 1, 2 of the arrays. -/
structure TimingEntry where
  type : Str
  from_pin : Str
  to_pin : Str
  rising : Int × Int × Int
  falling : Int × Int × Int
  pin : Str
  clock : Str
  setup : Int × Int × Int
  hold : Int × Int × Int
  deriving DecidableEq, Repr

/-- One member of the object of `interconnect.json`: the class name with the
elements 0, 1, 2 of its `delay` and `fanout` arrays. -/
structure InconEntry where
  pipclass : Str
  delay : Int × Int × Int
  fanout : Int × Int × Int
  deriving DecidableEq, Repr

/-- The two files of a speed grade, each `none` when it fails to open: the
members of `cells.json` and of `interconnect.json`, in the order in which the
object is iterated. -/
structure GradeFiles where
  cells : Option (List (Str × List TimingEntry))
  interconnect : Option (List InconEntry)

/-- The loop of `process_timing_data` over the entries of one cell. -/
def convert_entries (constids : StrIntMap) : List TimingEntry → Cell → Except Fault Cell
  | [], cell => pure cell
  | entryObj :: rest, cell =>
    if entryObj.type = "Width".toList then
      -- Nothing to do for this type.
      convert_entries constids rest cell
    else if entryObj.type = "IOPath".toList then
      let from_pin := port_xform entryObj.from_pin
      let to_pin := port_xform entryObj.to_pin
      -- Get lowest & highest rising & falling from respective arrays.
      let min_delay := min entryObj.rising.1 entryObj.falling.1
      let max_delay := min entryObj.rising.2.2 entryObj.falling.2.2
      let delay : Delay :=
        { from_pin := constid constids from_pin
          to_pin := constid constids to_pin
          min_delay := constid constids (to_string min_delay)
          max_delay := constid constids (to_string max_delay) }
      convert_entries constids rest { cell with delays := cell.delays ++ [delay] }
    else if entryObj.type = "SetupHold".toList then
      let setuphold : SetupHold :=
        { pin := constid constids entryObj.pin
          clock := constid constids entryObj.clock
          min_setup := entryObj.setup.1
          max_setup := entryObj.setup.2.2
          min_hold := entryObj.hold.1
          max_hold := entryObj.hold.2.2 }
      convert_entries constids rest { cell with setupholds := cell.setupholds ++ [setuphold] }
    else
      -- Invalid cell data type: exit(1).
      throw (Fault.exit 1)

/-- The text left by `std::regex_replace(cell_name, std::regex(":|=|,"), "_")`. -/
def massage_cell_name (cell_name : Str) : Str :=
  cell_name.map (fun c => if c = ':' ∨ c = '=' ∨ c = ',' then '_' else c)

/-- The loop of `process_timing_data` over the cells of `cells.json`. -/
def convert_cells (constids : StrIntMap) :
    List (Str × List TimingEntry) → List Cell → Except Fault (List Cell)
  | [], cells => pure cells
  | (cell_name, cellArr) :: rest, cells => do
    let cell_name := massage_cell_name cell_name
    let cell ← convert_entries constids cellArr
      { celltype := constid constids cell_name, delays := [], setupholds := [] }
    convert_cells constids rest (cells ++ [cell])

/-- The pip class with which `process_timing_data` fills a new table. -/
def default_pipclass : PipClass :=
  { min_delay := 50, max_delay := 50, min_fanout := 0, max_fanout := 0 }

/-- The record `pc` that `process_timing_data` builds from one member of
`interconnect.json`; `mul11 v` is the `int` left in `v` by `v *= 1.1`. -/
def pipclass_of (mul11 : Int → Int) (e : InconEntry) : PipClass :=
  let min_delay := mul11 e.delay.1
  let max_delay := mul11 e.delay.2.2
  let min_fanout := e.fanout.1
  let max_fanout := e.fanout.1
  { min_delay := min_delay, max_delay := max_delay,
    min_fanout := min_fanout, max_fanout := max_fanout }

/-- The loop of `process_timing_data` over the members of `interconnect.json`,
on the global `pip_class_to_idx` and on `chip.pip_class_delays`. -/
def incon_loop (mul11 : Int → Int) (grade : Str) :
    List InconEntry → StrIntMap → List PipClass → Except Fault (StrIntMap × List PipClass)
  | [], pip_class_to_idx, pip_class_delays => pure (pip_class_to_idx, pip_class_delays)
  | e :: rest, pip_class_to_idx, pip_class_delays =>
    let pc := pipclass_of mul11 e
    if grade = "6".toList then
      incon_loop mul11 grade rest (pip_class_to_idx.set e.pipclass pip_class_delays.length)
        (pip_class_delays ++ [pc])
    else if (pip_class_to_idx.find e.pipclass).isSome then
      -- Overwrite.
      let r := pip_class_to_idx.index e.pipclass
      if 0 ≤ r.1 ∧ r.1 < pip_class_delays.length then
        incon_loop mul11 grade rest r.2 (pip_class_delays.set r.1.toNat pc)
      else
        throw Fault.undefined
    else
      incon_loop mul11 grade rest pip_class_to_idx pip_class_delays

/-- The call `chips.insert(std::pair(grade, chip))`: nothing changes when the
map holds the grade. -/
def chips_insert (chips : List (Str × Chip)) (grade : Str) (chip : Chip) : List (Str × Chip) :=
  if (chips.lookup grade).isSome then chips else chips ++ [(grade, chip)]

/-- The value `chips[grade]`: an empty chip when the map does not hold the grade. -/
def chips_at (chips : List (Str × Chip)) (grade : Str) : Chip :=
  match chips.lookup grade with
  | some chip => chip
  | none => { speed_grade := [], cells := [], pip_class_delays := [] }

/-- The body of the loop of `process_timing_data` for one speed grade, on the
globals `pip_class_to_idx` and `chips`. -/
def process_grade (mul11 : Int → Int) (constids : StrIntMap) (grade : Str) (files : GradeFiles)
    (st : StrIntMap × List (Str × Chip)) : Except Fault (StrIntMap × List (Str × Chip)) :=
  match files.cells with
  | none =>
    -- Failed to open cells file: continue.
    pure st
  | some cellsObject => do
    let cells ← convert_cells constids cellsObject []
    let pip_len := st.1.length
    let pip_class_delays := List.replicate pip_len default_pipclass
    match files.interconnect with
    | none =>
      -- Failed to open interconnect file: continue.
      pure st
    | some inconObject => do
      let r ← incon_loop mul11 grade inconObject st.1 pip_class_delays
      let chip : Chip := { speed_grade := grade, cells := cells, pip_class_delays := r.2 }
      pure (r.1, chips_insert st.2 grade chip)

/-- The loop of `process_timing_data` over a list of speed grades. -/
def process_grades (mul11 : Int → Int) (constids : StrIntMap) (files : Str → GradeFiles) :
    List Str → StrIntMap × List (Str × Chip) → Except Fault (StrIntMap × List (Str × Chip))
  | [], st => pure st
  | grade :: rest, st => do
    let st ← process_grade mul11 constids grade (files grade) st
    process_grades mul11 constids files rest st

/-- The function `process_timing_data()` on the globals `pip_class_to_idx` and
`chips`. -/
def process_timing_data (mul11 : Int → Int) (constids : StrIntMap) (files : Str → GradeFiles)
    (st : StrIntMap × List (Str × Chip)) : Except Fault (StrIntMap × List (Str × Chip)) :=
  process_grades mul11 constids files speed_grade_names st

/-- A sample of the scaling `v *= 1.1` on an `int`, exact for the multiples of
ten that the sample inputs use. -/
def sampleMul11 (v : Int) : Int := v * 11 / 10

/-! ## The architecture database -/

/-- Modelled from the spec: the record `Trellis::Location`, a pair of grid
numbers `x` (column) and `y` (row), absolute or relative; its 16-bit members
are integers here. -/
structure Location where
  x : Int
  y : Int
  deriving DecidableEq, Repr

/-- Modelled from the spec: the record `Trellis::DDChipDb::RelId`, a relative
location with the index of a wire, an arc or a bel there. -/
structure RelId where
  rel : Location
  id : Int
  deriving DecidableEq, Repr

/-- Modelled from the spec: the record `Trellis::DDChipDb::BelPort`, the
attachment of a wire to the pin `pin` (an identifier of the database) of a bel. -/
structure BelPort where
  bel : RelId
  pin : Int
  deriving DecidableEq, Repr

/-- Modelled from the spec: the record `Trellis::DDChipDb::BelWire`, the
attachment of a bel pin to a wire, with its direction. -/
structure BelWire where
  wire : RelId
  pin : Int
  dir : Int
  deriving DecidableEq, Repr

/-- Modelled from the spec: the record `Trellis::DDChipDb::BelData`; `name` and
`type` are identifiers of the database. -/
structure BelData where
  name : Int
  type : Int
  z : Int
  wires : List BelWire
  deriving DecidableEq, Repr

/-- Modelled from the spec: the record `Trellis::DDChipDb::WireData`, with its
downhill arcs, uphill arcs and bel pins in the order of iteration. -/
structure WireData where
  name : Int
  arcsDownhill : List RelId
  arcsUphill : List RelId
  belPins : List BelPort
  deriving DecidableEq, Repr

/-- Modelled from the spec: the value `Trellis::DDChipDb::ARC_STANDARD`. -/
def ARC_STANDARD : Int := 0

/-- Modelled from the spec: the value `Trellis::DDChipDb::ARC_FIXED`. -/
def ARC_FIXED : Int := 1

/-- Modelled from the spec: the record `Trellis::DDChipDb::DdArcData`, with
the members that the importer reads. -/
structure DdArcData where
  srcWire : RelId
  sinkWire : RelId
  cls : Int
  tiletype : Int
  deriving DecidableEq, Repr

/-- Modelled from the spec: the record `Trellis::DDChipDb::LocationData`, a
deduplicated location type. -/
structure LocationData where
  wires : List WireData
  arcs : List DdArcData
  bels : List BelData
  deriving DecidableEq, Repr

/-- Modelled from the spec: the type `Trellis::DDChipDb::checksum_t`, a pair of
64-bit numbers. -/
abbrev checksum_t := Nat × Nat

/-- Modelled from the spec: the class `Trellis::DDChipDb::DedupChipdb`.
The map `locationTypes` is the list of its entries in the order of iteration
(the order of the keys); `typeAtLocation loc` is the value
`typeAtLocation[loc]`; `to_str` resolves an identifier of the database. -/
structure DedupChipdb where
  locationTypes : List (checksum_t × LocationData)
  typeAtLocation : Location → checksum_t
  to_str : Int → Str

/-- The value `(*ddrg).locationTypes[key]`: an empty location type when the map
does not hold the key. -/
def DedupChipdb.locationTypes_at (ddrg : DedupChipdb) (key : checksum_t) : LocationData :=
  match ddrg.locationTypes.lookup key with
  | some data => data
  | none => { wires := [], arcs := [], bels := [] }

/-- Modelled from the spec: the members `info.name` and `info.type` of a
`Trellis::Tile`. -/
structure TileInfo where
  name : Str
  type : Str
  deriving DecidableEq, Repr

/-- Modelled from the spec: the record `Trellis::TapDriver`: a column and a
direction, which is `LEFT` (0) or `RIGHT` (1). -/
structure TapDriver where
  col : Int
  dir : Int
  deriving DecidableEq, Repr

/-- Modelled from the spec: the class `Trellis::Chip` with the queries that the
importer makes: the largest row and column number, the tiles at a position
(row, column), and the quadrant, tap driver and spine driver of the global
clock network. -/
structure TrellisChip where
  get_max_row : Nat
  get_max_col : Nat
  get_tiles_by_position : Int → Int → List TileInfo
  get_quadrant : Int → Int → Str
  get_tap_driver : Int → Int → TapDriver
  get_spine_driver : Str → Int → Int × Int

/-! ## Global variables -/

/-- The record `struct GlobalInfo`. -/
structure GlobalInfo where
  quad : Int
  tap_dir : Int
  tap_col : Int
  spine_col : Int
  spine_row : Int
  deriving DecidableEq, Repr

/-- The record `struct Pin`. -/
structure Pin where
  name : Str
  location : Location
  bel_index : Int
  deriving DecidableEq, Repr

/-- The record `struct Pins`. -/
structure Pins where
  pins : List Pin
  deriving DecidableEq, Repr

/-- The record `struct PinData`. -/
structure PinData where
  location : Location
  bel_index : Int
  bank : Int
  function : Str
  deriving DecidableEq, Repr

/-- The global variables that `write_database` reads.  A `std::map` is the list
of its entries; `packages` is in the order of iteration (the order of its
keys); `max_row` and `max_col`, the largest row and column number of the chip,
are natural numbers. -/
structure Globals where
  pip_class_to_idx : StrIntMap
  constids : StrIntMap
  globalInfos : List (Int × List (Int × GlobalInfo))
  packages : List (Str × Pins)
  pindata : List PinData
  chips : List (Str × Chip)
  max_row : Nat
  max_col : Nat
  tiletype_names : StrIntMap
  location_types : StrIntMap
  loc_with_type : List (Int × (Int × Int))

/-- The value `globalInfos[a][b]`: a record of zeros when a map does not hold
the key. -/
def globalInfos_at (globalInfos : List (Int × List (Int × GlobalInfo))) (a b : Int) :
    GlobalInfo :=
  match globalInfos.lookup a with
  | none => { quad := 0, tap_dir := 0, tap_col := 0, spine_col := 0, spine_row := 0 }
  | some row =>
    match row.lookup b with
    | none => { quad := 0, tap_dir := 0, tap_col := 0, spine_col := 0, spine_row := 0 }
    | some gi => gi

/-- The comparison `a < b` of two `std::string`. -/
def str_lt : Str → Str → Bool
  | _, [] => false
  | [], _ :: _ => true
  | a :: as, b :: bs => if a.toNat < b.toNat then true else if b.toNat < a.toNat then false
    else str_lt as bs

/-- The entry `p` put at its place in a list of entries ordered by key. -/
def insert_by_key (p : Str × Int) : List (Str × Int) → List (Str × Int)
  | [] => [p]
  | q :: rest => if str_lt p.1 q.1 then p :: q :: rest else q :: insert_by_key p rest

/-- The entries of a `std::map<std::string, int>` in the order of iteration,
which is the order of the keys. -/
def StrIntMap.inKeyOrder (m : StrIntMap) : List (Str × Int) :=
  m.foldr insert_by_key []

/-- The assignment `loc_with_type[pos] = value`. -/
def loc_with_type_set (m : List (Int × (Int × Int))) (pos : Int) (value : Int × Int) :
    List (Int × (Int × Int)) :=
  match m with
  | [] => [(pos, value)]
  | (k, v) :: rest =>
    if k = pos then (k, value) :: rest else (k, v) :: loc_with_type_set rest pos value

/-! ## The symbolic blob assembler -/

/-- One line written by a method of `BinaryBlobAssembler`.  The constructors
bear the names of the methods; an argument that an overload leaves out is
`none`. -/
inductive Directive where
  | l (name : Str) (ltype : Option Str)
  | r (name : Str) (comment : Option Str)
  | s (s : Str) (comment : Str)
  | u8 (v : Int) (comment : Option Str)
  | u16 (v : Int) (comment : Option Str)
  | u32 (v : Int) (comment : Option Str)
  | pre (s : Str)
  | post (s : Str)
  | push (name : Str)
  | pop
  deriving DecidableEq, Repr

/-- The function `write_loc(bba, loc, sym_name)`. -/
def write_loc (loc : Location) (sym_name : Str) : List Directive :=
  [Directive.u16 loc.x (some (sym_name ++ ".x".toList)),
   Directive.u16 loc.y (some (sym_name ++ ".y".toList))]

/-- The function `get_wire_name(ddrg, arc_loctype, rel, idx)`; `none` when the
index `idx` lies outside the vector of wires. -/
def get_wire_name (ddrg : DedupChipdb) (loc_with_type : List (Int × (Int × Int)))
    (arc_loctype : Int) (rel : Location) (idx : Int) : Option Str :=
  match loc_with_type.lookup arc_loctype with
  | none => some []
  | some loc =>
    let lt := ddrg.typeAtLocation { x := loc.1 + rel.x, y := loc.2 + rel.y }
    if idx < 0 then none
    else
      match (ddrg.locationTypes_at lt).wires[idx.toNat]? with
      | none => none
      | some wiredata =>
        some ("R".toList ++ to_string (loc.2 + rel.y) ++ "C".toList ++ to_string (loc.1 + rel.x)
          ++ "_".toList ++ ddrg.to_str wiredata.name)

/-- The coordinates `(x, y)` in the order of the loops
`for (y = 0; y < max_row + 1; ++y) for (x = 0; x < max_col + 1; ++x)`. -/
def grid_coords (max_row max_col : Nat) : List (Nat × Nat) :=
  (List.range (max_row + 1)).flatMap
    (fun y => (List.range (max_col + 1)).map (fun x => (x, y)))

/-- The vector `loctypes` of `write_database`: the keys of the location data
map. -/
def loctypes_of (ddrg : DedupChipdb) : List checksum_t :=
  ddrg.locationTypes.map (fun imap => imap.1)

/-- The distance `std::distance(v.begin(), std::find(v.begin(), v.end(), c))`:
the position of the first `c` in `v`, the length of `v` when there is none. -/
def position_of (c : checksum_t) : List checksum_t → Nat
  | [] => 0
  | k :: rest => if k = c then 0 else position_of c rest + 1

/-- The first loop of `write_database` over the grid, which fills the global
`loc_with_type`. -/
def fill_loc_with_type (ddrg : DedupChipdb) (loctypes : List checksum_t) :
    List (Nat × Nat) → List (Int × (Int × Int)) → List (Int × (Int × Int))
  | [], loc_with_type => loc_with_type
  | (x, y) :: rest, loc_with_type =>
    let pos := position_of (ddrg.typeAtLocation { x := x, y := y }) loctypes
    if pos ≥ loctypes.length then
      -- Not found.
      fill_loc_with_type ddrg loctypes rest loc_with_type
    else
      fill_loc_with_type ddrg loctypes rest (loc_with_type_set loc_with_type pos (x, y))

/-! ## The chip serializer -/

/-- The pip type that `write_database` writes for an arc of class `cls` with
the wire names `src_name` and `snk_name`. -/
def pip_type (cls : Int) (src_name snk_name : Str) : Int :=
  if (cls = ARC_STANDARD ∧ found snk_name "PCS".toList = true)
      ∨ found snk_name "DCU".toList = true
      ∨ found src_name "DCU".toList = true then
    ARC_FIXED
  else
    cls

/-- The body of the loop of `write_database` over the arcs of the location type
number `idx`, on the globals `pip_class_to_idx` and `tiletype_names`. -/
def write_arc (rc : RowColDecoder) (ddrg : DedupChipdb)
    (loc_with_type : List (Int × (Int × Int))) (idx : Nat)
    (st : StrIntMap × StrIntMap) (arc : DdArcData) :
    Option ((StrIntMap × StrIntMap) × List Directive) := do
  let src_name ← get_wire_name ddrg loc_with_type idx arc.srcWire.rel arc.srcWire.id
  let snk_name ← get_wire_name ddrg loc_with_type idx arc.sinkWire.rel arc.sinkWire.id
  let timing_class ← get_pip_class rc st.1 src_name snk_name
  let tile_type := get_tiletype_index st.2 (ddrg.to_str arc.tiletype)
  let cls := pip_type arc.cls src_name snk_name
  pure ((timing_class.2, tile_type.2),
    write_loc arc.srcWire.rel "src".toList ++ write_loc arc.sinkWire.rel "dst".toList ++
    [Directive.u32 arc.srcWire.id (some "src_idx".toList),
     Directive.u32 arc.sinkWire.id (some "dst_idx".toList),
     Directive.u32 timing_class.1 (some "timing_class".toList),
     Directive.u16 tile_type.1 (some "tile_type".toList),
     Directive.u8 cls (some "pip_type".toList),
     Directive.u8 0 (some "padding".toList)])

/-- A loop whose body, on a state, writes directives and can be undefined. -/
def emit_loop {σ α : Type} (body : σ → α → Option (σ × List Directive)) :
    σ → List α → Option (σ × List Directive)
  | st, [] => some (st, [])
  | st, a :: rest => do
    let r ← body st a
    let rs ← emit_loop body r.1 rest
    pure (rs.1, r.2 ++ rs.2)

/-- The name `"loc" + std::to_string(idx) + suffix`. -/
def loc_name (idx : Nat) (suffix : Str) : Str :=
  "loc".toList ++ to_string idx ++ suffix

/-- The name `"loc" + std::to_string(idx) + "_wire" + std::to_string(wire_idx) + suffix`. -/
def loc_wire_name (idx wire_idx : Nat) (suffix : Str) : Str :=
  "loc".toList ++ to_string idx ++ "_wire".toList ++ to_string wire_idx ++ suffix

/-- The name `"loc" + std::to_string(idx) + "_bel" + std::to_string(bel_idx) + "_wires"`. -/
def loc_bel_name (idx bel_idx : Nat) : Str :=
  "loc".toList ++ to_string idx ++ "_bel".toList ++ to_string bel_idx ++ "_wires".toList

/-- The first loop of `write_database` over the wires of the location type
number `idx`, from the wire number `wire_idx` on: the tables of downhill pips,
uphill pips and bel pins. -/
def write_wire_tables (constids : StrIntMap) (ddrg : DedupChipdb) (idx : Nat) :
    Nat → List WireData → List Directive
  | _, [] => []
  | wire_idx, wire :: rest =>
    (if wire.arcsDownhill.length > 0 then
      Directive.l (loc_wire_name idx wire_idx "_downpips".toList) (some "PipLocatorPOD".toList)
        :: wire.arcsDownhill.flatMap (fun dp =>
            write_loc dp.rel "rel_loc".toList ++ [Directive.u32 dp.id (some "index".toList)])
     else []) ++
    (if wire.arcsUphill.length > 0 then
      Directive.l (loc_wire_name idx wire_idx "_uppips".toList) (some "PipLocatorPOD".toList)
        :: wire.arcsUphill.flatMap (fun up =>
            write_loc up.rel "rel_loc".toList ++ [Directive.u32 up.id (some "index".toList)])
     else []) ++
    (if wire.belPins.length > 0 then
      Directive.l (loc_wire_name idx wire_idx "_belpins".toList) (some "BelPortPOD".toList)
        :: wire.belPins.flatMap (fun bp =>
            write_loc bp.bel.rel "rel_bel_loc".toList ++
            [Directive.u32 bp.bel.id (some "bel_index".toList),
             Directive.u32 (constid constids (ddrg.to_str bp.pin)) (some "port".toList)])
     else []) ++
    write_wire_tables constids ddrg idx (wire_idx + 1) rest

/-- The second loop of `write_database` over the wires of the location type
number `idx`, from the wire number `wire_idx` on: the wire records. -/
def write_wire_records (ddrg : DedupChipdb) (idx : Nat) : Nat → List WireData → List Directive
  | _, [] => []
  | wire_idx, wire :: rest =>
    [Directive.s (ddrg.to_str wire.name) "name".toList,
     Directive.u32 wire.arcsUphill.length (some "num_uphill".toList),
     Directive.u32 wire.arcsDownhill.length (some "num_downhill".toList),
     (if wire.arcsUphill.length > 0 then
        Directive.r (loc_wire_name idx wire_idx "_uppips".toList) (some "pips_uphill".toList)
      else Directive.r "None".toList (some "pips_uphill".toList)),
     (if wire.arcsDownhill.length > 0 then
        Directive.r (loc_wire_name idx wire_idx "_downpips".toList) (some "pips_downhill".toList)
      else Directive.r "None".toList (some "pips_downhill".toList)),
     Directive.u32 wire.belPins.length (some "num_bel_pins".toList),
     (if wire.belPins.length > 0 then
        Directive.r (loc_wire_name idx wire_idx "_belpins".toList) (some "bel_pins".toList)
      else Directive.r "None".toList (some "bel_pins".toList))] ++
    write_wire_records ddrg idx (wire_idx + 1) rest

/-- The first loop of `write_database` over the bels of the location type
number `idx`, from the bel number `bel_idx` on: the tables of bel wires. -/
def write_bel_tables (constids : StrIntMap) (ddrg : DedupChipdb) (idx : Nat) :
    Nat → List BelData → List Directive
  | _, [] => []
  | bel_idx, bel :: rest =>
    Directive.l (loc_bel_name idx bel_idx) (some "BelWirePOD".toList)
      :: bel.wires.flatMap (fun pin =>
          write_loc pin.wire.rel "rel_wire_loc".toList ++
          [Directive.u32 pin.wire.id (some "wire_index".toList),
           Directive.u32 (constid constids (ddrg.to_str pin.pin)) (some "port".toList),
           Directive.u32 pin.dir (some "dir".toList)])
    ++ write_bel_tables constids ddrg idx (bel_idx + 1) rest

/-- The second loop of `write_database` over the bels of the location type
number `idx`, from the bel number `bel_idx` on: the bel records. -/
def write_bel_records (constids : StrIntMap) (ddrg : DedupChipdb) (idx : Nat) :
    Nat → List BelData → List Directive
  | _, [] => []
  | bel_idx, bel :: rest =>
    [Directive.s (ddrg.to_str bel.name) "name".toList,
     Directive.u32 (constid constids (ddrg.to_str bel.type)) (some "type".toList),
     Directive.u32 bel.z (some "z".toList),
     Directive.u32 bel.wires.length (some "num_bel_wires".toList),
     Directive.r (loc_bel_name idx bel_idx) (some "bel_wires".toList)] ++
    write_bel_records constids ddrg idx (bel_idx + 1) rest

/-- The part of the loop `Writing location types...` of `write_database` that
writes the pips of the location type number `idx`, on the globals
`pip_class_to_idx` and `tiletype_names`. -/
def write_pips (rc : RowColDecoder) (ddrg : DedupChipdb)
    (loc_with_type : List (Int × (Int × Int))) (idx : Nat) (arcs : List DdArcData)
    (st : StrIntMap × StrIntMap) : Option ((StrIntMap × StrIntMap) × List Directive) :=
  if arcs.length > 0 then
    (emit_loop (write_arc rc ddrg loc_with_type idx) st arcs).map (fun r =>
      (r.1, Directive.l (loc_name idx "_pips".toList) (some "PipInfoPOD".toList) :: r.2))
  else
    some (st, [])

/-- The body of the loop `Writing location types...` of `write_database` for
the location type number `idx` with the key `key`. -/
def write_loctype (rc : RowColDecoder) (constids : StrIntMap) (ddrg : DedupChipdb)
    (loc_with_type : List (Int × (Int × Int))) (idx : Nat) (key : checksum_t)
    (st : StrIntMap × StrIntMap) : Option ((StrIntMap × StrIntMap) × List Directive) :=
  let loctype := ddrg.locationTypes_at key
  let locwirelen := loctype.wires.length
  let wires :=
    if locwirelen > 0 then
      write_wire_tables constids ddrg idx 0 loctype.wires ++
      Directive.l (loc_name idx "_wires".toList) (some "WireInfoPOD".toList)
        :: write_wire_records ddrg idx 0 loctype.wires
    else []
  let bels :=
    if loctype.bels.length > 0 then
      write_bel_tables constids ddrg idx 0 loctype.bels ++
      Directive.l (loc_name idx "_bels".toList) (some "BelInfoPOD".toList)
        :: write_bel_records constids ddrg idx 0 loctype.bels
    else []
  (write_pips rc ddrg loc_with_type idx loctype.arcs st).map (fun pips =>
    (pips.1, pips.2 ++ wires ++ bels))

/-- The loop `Writing location types...` of `write_database`, from the location
type number `idx` on. -/
def write_loctypes (rc : RowColDecoder) (constids : StrIntMap) (ddrg : DedupChipdb)
    (loc_with_type : List (Int × (Int × Int))) :
    Nat → List checksum_t → StrIntMap × StrIntMap →
      Option ((StrIntMap × StrIntMap) × List Directive)
  | _, [], st => some (st, [])
  | idx, key :: rest, st => do
    let r ← write_loctype rc constids ddrg loc_with_type idx key st
    let rs ← write_loctypes rc constids ddrg loc_with_type (idx + 1) rest r.1
    pure (rs.1, r.2 ++ rs.2)

/-- The loop of `write_database` under the label `locations`, from the location
type number `idx` on. -/
def write_locations (ddrg : DedupChipdb) : Nat → List checksum_t → List Directive
  | _, [] => []
  | idx, key :: rest =>
    let loctype := ddrg.locationTypes_at key
    [Directive.u32 loctype.bels.length (some "num_bels".toList),
     Directive.u32 loctype.wires.length (some "num_wires".toList),
     Directive.u32 loctype.arcs.length (some "num_pips".toList),
     (if loctype.bels.length > 0 then
        Directive.r (loc_name idx "_bels".toList) (some "bel_data".toList)
      else Directive.r "None".toList (some "bel_data".toList)),
     (if loctype.wires.length > 0 then
        Directive.r (loc_name idx "_wires".toList) (some "wire_data".toList)
      else Directive.r "None".toList (some "wire_data".toList)),
     (if loctype.arcs.length > 0 then
        Directive.r (loc_name idx "_pips".toList) (some "pips_data".toList)
      else Directive.r "None".toList (some "pips_data".toList))] ++
    write_locations ddrg (idx + 1) rest

/-- The name `"tile_info_" + std::to_string(x) + "_" + std::to_string(y)`. -/
def tile_info_name (x y : Nat) : Str :=
  "tile_info_".toList ++ to_string x ++ "_".toList ++ to_string y

/-- The loop of `write_database` over the tiles at one position, on the global
`tiletype_names`. -/
def write_tile_names : StrIntMap → List TileInfo → StrIntMap × List Directive
  | tiletype_names, [] => (tiletype_names, [])
  | tiletype_names, tile :: rest =>
    let r := get_tiletype_index tiletype_names tile.type
    let rs := write_tile_names r.2 rest
    (rs.1, [Directive.s tile.name "name".toList,
            Directive.u16 r.1 (some "type_idx".toList),
            Directive.u16 0 (some "padding".toList)] ++ rs.2)

/-- The loop of `write_database` that writes the tables `tile_info_<x>_<y>`,
over the coordinates of the grid, on the global `tiletype_names`. -/
def write_tile_infos (chip : TrellisChip) :
    StrIntMap → List (Nat × Nat) → StrIntMap × List Directive
  | tiletype_names, [] => (tiletype_names, [])
  | tiletype_names, (x, y) :: rest =>
    let r := write_tile_names tiletype_names (chip.get_tiles_by_position y x)
    let rs := write_tile_infos chip r.1 rest
    (rs.1, Directive.l (tile_info_name x y) (some "TileNamePOD".toList) :: r.2 ++ rs.2)

/-- The loop of `write_database` under the label `tiles_info`. -/
def write_tiles_info (chip : TrellisChip) (grid : List (Nat × Nat)) : List Directive :=
  grid.flatMap (fun c =>
    [Directive.u32 (chip.get_tiles_by_position c.2 c.1).length (some "num_tiles".toList),
     Directive.r (tile_info_name c.1 c.2) (some "tile_names".toList)])

/-- The loop of `write_database` under the label `location_types`. -/
def write_location_types (ddrg : DedupChipdb) (loctypes : List checksum_t) :
    List (Nat × Nat) → List Directive
  | [] => []
  | (x, y) :: rest =>
    let pos := position_of (ddrg.typeAtLocation { x := x, y := y }) loctypes
    if pos ≥ loctypes.length then
      -- Not found.
      write_location_types ddrg loctypes rest
    else
      Directive.u32 pos (some "loctype".toList) :: write_location_types ddrg loctypes rest

/-- The loop of `write_database` under the label `location_glbinfo`. -/
def write_glbinfo (globalInfos : List (Int × List (Int × GlobalInfo)))
    (grid : List (Nat × Nat)) : List Directive :=
  grid.flatMap (fun c =>
    [Directive.u16 (globalInfos_at globalInfos c.1 c.2).tap_col (some "tap_col".toList),
     Directive.u8 (globalInfos_at globalInfos c.1 c.2).tap_dir (some "tap_dir".toList),
     Directive.u8 (globalInfos_at globalInfos c.1 c.2).quad (some "quad".toList),
     Directive.u16 (globalInfos_at globalInfos c.1 c.2).spine_row (some "spine_row".toList),
     Directive.u16 (globalInfos_at globalInfos c.1 c.2).spine_col (some "spine_col".toList)])

/-- The loop of `write_database` that writes the tables `package_data_<package>`. -/
def write_package_pins (packages : List (Str × Pins)) : List Directive :=
  packages.flatMap (fun p =>
    Directive.l ("package_data_".toList ++ p.1) (some "PackagePinPOD".toList)
      :: p.2.pins.flatMap (fun pin =>
          [Directive.s pin.name "name".toList] ++ write_loc pin.location "abs_loc".toList ++
          [Directive.u32 pin.bel_index (some "bel_index".toList)]))

/-- The loop of `write_database` under the label `package_data`. -/
def write_package_data (packages : List (Str × Pins)) : List Directive :=
  packages.flatMap (fun p =>
    [Directive.s p.1 "name".toList,
     Directive.u32 p.2.pins.length (some "num_pins".toList),
     Directive.r ("package_data_".toList ++ p.1) (some "pin_data".toList)])

/-- The loop of `write_database` under the label `pio_info`. -/
def write_pio_info (pindata : List PinData) : List Directive :=
  pindata.flatMap (fun pin =>
    write_loc pin.location "abs_loc".toList ++
    [Directive.u32 pin.bel_index (some "bel_index".toList),
     Directive.s pin.function "function_name".toList,
     Directive.u16 pin.bank (some "bank".toList),
     Directive.u16 0 (some "padding".toList)])

/-- The loop of `write_database` under the label `tiletype_names`. -/
def write_tiletype_names (tiletype_names : StrIntMap) : List Directive :=
  tiletype_names.inKeyOrder.map (fun p => Directive.s p.1 "name".toList)

/-- The name `"cell_" + std::to_string(celltype) + infix + grade`. -/
def cell_name (celltype : Int) (kind grade : Str) : Str :=
  "cell_".toList ++ to_string celltype ++ kind ++ grade

/-- The first loop of `write_database` over the cells of a speed grade: the
tables of delays and of setup and hold times. -/
def write_cell_tables (grade : Str) (cells : List Cell) : List Directive :=
  cells.flatMap (fun cell =>
    (if cell.delays.length > 0 then
      Directive.l (cell_name cell.celltype "_delays_".toList grade) none
        :: cell.delays.flatMap (fun delay =>
            [Directive.u32 delay.from_pin (some "from_pin".toList),
             Directive.u32 delay.to_pin (some "to_pin".toList),
             Directive.u32 delay.min_delay (some "min_delay".toList),
             Directive.u32 delay.max_delay (some "max_delay".toList)])
     else []) ++
    (if cell.setupholds.length > 0 then
      Directive.l (cell_name cell.celltype "_setupholds_".toList grade) none
        :: cell.setupholds.flatMap (fun sh =>
            [Directive.u32 sh.pin (some "sig_port".toList),
             Directive.u32 sh.clock (some "clock_port".toList),
             Directive.u32 sh.min_setup (some "min_setup".toList),
             Directive.u32 sh.max_setup (some "max_setup".toList),
             Directive.u32 sh.min_hold (some "min_hold".toList),
             Directive.u32 sh.max_hold (some "max_hold".toList)])
     else []))

/-- The record that `write_database` writes for one cell under the label
`cell_timing_data_<grade>`. -/
def write_cell_record (grade : Str) (cell : Cell) : List Directive :=
  [Directive.u32 cell.celltype (some "cell_type".toList),
   Directive.u32 cell.delays.length (some "num_delays".toList),
   Directive.u32 cell.setupholds.length (some "num_setup_hold".toList),
   (if cell.delays.length > 0 then
      Directive.r (cell_name cell.celltype "_delays_".toList grade) (some "delays".toList)
    else
      Directive.r (cell_name cell.celltype "_delays_".toList grade) none),
   (if cell.delays.length > 0 then
      Directive.r (cell_name cell.celltype "_setupholds_".toList grade)
        (some "setupholds".toList)
    else
      Directive.r (cell_name cell.celltype "_setupholds_".toList grade) none)]

/-- The body of the loop `Writing speed grades...` of `write_database` for one
speed grade. -/
def write_speed_grade (chips : List (Str × Chip)) (grade : Str) : List Directive :=
  write_cell_tables grade (chips_at chips grade).cells ++
  Directive.l ("cell_timing_data_".toList ++ grade) none
    :: (chips_at chips grade).cells.flatMap (write_cell_record grade) ++
  Directive.l ("pip_timing_data_".toList ++ grade) none
    :: (chips_at chips grade).pip_class_delays.flatMap (fun pipclass =>
        [Directive.u32 pipclass.min_delay (some "min_delay".toList),
         Directive.u32 pipclass.max_delay (some "max_delay".toList),
         Directive.u32 pipclass.min_fanout (some "min_fanout".toList),
         Directive.u32 pipclass.max_fanout (some "max_fanout".toList)])

/-- The loop of `write_database` under the label `speed_grade_data`. -/
def write_speed_grade_data (chips : List (Str × Chip)) (grades : List Str) : List Directive :=
  grades.flatMap (fun grade =>
    let delayCount : Int :=
      ((chips_at chips grade).cells.map (fun cell => (cell.delays.length : Int))).sum
    [Directive.u32 (delayCount * 3) (some "num_cell_timings".toList),
     Directive.u32 (chips_at chips grade).pip_class_delays.length
       (some "num_pip_classes".toList),
     Directive.r ("cell_timing_data_".toList ++ grade) (some "cell_timings".toList),
     Directive.r ("pip_timing_data_".toList ++ grade) (some "pip_classes".toList)])

/-- The record `chip_info` at the end of `write_database`, without the `pop`. -/
def write_chip_info (g : Globals) : List Directive :=
  [Directive.l "chip_info".toList none,
   Directive.u32 (g.max_col + 1 : Nat) (some "width".toList),
   Directive.u32 (g.max_row + 1 : Nat) (some "height".toList),
   Directive.u32 ((g.max_col + 1) * (g.max_row + 1) : Nat) (some "num_tiles".toList),
   Directive.u32 g.location_types.length (some "num_location_types".toList),
   Directive.u32 g.packages.length (some "num_packages".toList),
   Directive.u32 g.pindata.length (some "num_pios".toList),
   Directive.r "locations".toList (some "locations".toList),
   Directive.r "location_types".toList (some "location_type".toList),
   Directive.r "location_glbinfo".toList (some "location_glbinfo".toList),
   Directive.r "tiletype_names".toList (some "tiletype_names".toList),
   Directive.r "package_data".toList (some "package_info".toList),
   Directive.r "pio_info".toList (some "pio_info".toList),
   Directive.r "tiles_info".toList (some "tile_info".toList),
   Directive.r "speed_grade_data".toList (some "speed_grades".toList)]

/-- The lines that `write_database` writes before the `push`. -/
def stream_head : List Directive :=
  [Directive.pre "#include \"nextpnr.h\"".toList,
   Directive.pre "NEXTPNR_NAMESPACE_BEGIN".toList,
   Directive.post "NEXTPNR_NAMESPACE_END".toList]

/-- The lines that `write_database` writes between the `push` and the `pop`,
given the lines `locs` of the loop `Writing location types...` and the registry
of tile types that this loop leaves behind. -/
def stream_body (g : Globals) (chip : TrellisChip) (ddrg : DedupChipdb)
    (tiletype_names : StrIntMap) (locs : List Directive) : List Directive :=
  let loctypes := loctypes_of ddrg
  let grid := grid_coords g.max_row g.max_col
  let tiles := write_tile_infos chip tiletype_names grid
  Directive.r "chip_info".toList (some "chip_info".toList) :: locs ++
  Directive.l "locations".toList (some "LocationTypePOD".toList)
    :: write_locations ddrg 0 loctypes ++
  tiles.2 ++
  Directive.l "tiles_info".toList (some "TileInfoPOD".toList)
    :: write_tiles_info chip grid ++
  Directive.l "location_types".toList (some "int32_t".toList)
    :: write_location_types ddrg loctypes grid ++
  Directive.l "location_glbinfo".toList (some "GlobalInfoPOD".toList)
    :: write_glbinfo g.globalInfos grid ++
  write_package_pins g.packages ++
  Directive.l "package_data".toList (some "PackageInfoPOD".toList)
    :: write_package_data g.packages ++
  Directive.l "pio_info".toList (some "PIOInfoPOD".toList)
    :: write_pio_info g.pindata ++
  Directive.l "tiletype_names".toList (some "RelPtr<char>".toList)
    :: write_tiletype_names tiles.1 ++
  speed_grade_names.flatMap (write_speed_grade g.chips) ++
  Directive.l "speed_grade_data".toList none
    :: write_speed_grade_data g.chips speed_grade_names ++
  write_chip_info g

/-- The function `write_database(device_name, chip, ddrg, endianness)`: the
stream of directives that it writes from the global variables `g`, `none` when
its behaviour is undefined. -/
def write_database (rc : RowColDecoder) (g : Globals) (device_name : Str) (chip : TrellisChip)
    (ddrg : DedupChipdb) : Option (List Directive) :=
  -- Get the keys from the location data map.
  let loctypes := loctypes_of ddrg
  let grid := grid_coords g.max_row g.max_col
  -- Checksum keys get combined with x/y locations.
  let loc_with_type := fill_loc_with_type ddrg loctypes grid g.loc_with_type
  (write_loctypes rc g.constids ddrg loc_with_type 0 loctypes
      (g.pip_class_to_idx, g.tiletype_names)).map (fun locs =>
    stream_head ++ Directive.push ("chipdb_blob_".toList ++ device_name)
      :: stream_body g chip ddrg locs.1.2 locs.2 ++ [Directive.pop])

/-! ## A sample input -/

/-- The names of a sample database: identifier 0 is `F0`, 1 is `A0`, 2 is
`SLICEA`, 3 is `TRELLIS_SLICE`, 4 is `PLC2`, any other `PIOA`. -/
def sample_to_str (i : Int) : Str :=
  if i = 0 then "F0".toList else if i = 1 then "A0".toList
  else if i = 2 then "SLICEA".toList else if i = 3 then "TRELLIS_SLICE".toList
  else if i = 4 then "PLC2".toList else "PIOA".toList

/-- A sample database: one location type, shared by all coordinates, with two
wires, one arc from the first wire to the second, and one bel. -/
def sample_ddrg : DedupChipdb :=
  { locationTypes :=
      [((7, 9),
        { wires :=
            [{ name := 0, arcsDownhill := [⟨⟨0, 0⟩, 0⟩], arcsUphill := [], belPins := [] },
             { name := 1, arcsDownhill := [], arcsUphill := [⟨⟨0, 0⟩, 0⟩],
               belPins := [⟨⟨⟨0, 0⟩, 0⟩, 1⟩] }],
          arcs := [{ srcWire := ⟨⟨0, 0⟩, 0⟩, sinkWire := ⟨⟨0, 0⟩, 1⟩,
                     cls := ARC_STANDARD, tiletype := 4 }],
          bels := [{ name := 2, type := 3, z := 0, wires := [⟨⟨⟨0, 0⟩, 1⟩, 1, 0⟩] }] })],
    typeAtLocation := fun _ => (7, 9),
    to_str := sample_to_str }

/-- A sample chip: a grid of two rows and two columns with one tile at every
position. -/
def sample_chip : TrellisChip :=
  { get_max_row := 1,
    get_max_col := 1,
    get_tiles_by_position := fun _ _ => [{ name := "TILE".toList, type := "PLC2".toList }],
    get_quadrant := fun _ _ => "UL".toList,
    get_tap_driver := fun _ _ => { col := 0, dir := 0 },
    get_spine_driver := fun _ _ => (0, 0) }

/-- A sample cell file: one cell with one `IOPath` entry. -/
def sample_cells : List (Str × List TimingEntry) :=
  [("TRELLIS_SLICE".toList,
    [{ type := "IOPath".toList, from_pin := "A0".toList, to_pin := "F0".toList,
       rising := (100, 110, 120), falling := (90, 100, 130),
       pin := [], clock := [], setup := (0, 0, 0), hold := (0, 0, 0) }])]

/-- The sample identifier table. -/
def sample_constids : StrIntMap :=
  [("A0".toList, 1), ("F0".toList, 2), ("TRELLIS_SLICE".toList, 3)]

/-- The global variables of a sample run: one package with one pin, the cells
of `sample_cells` for the grade `6` and a grid of two rows and two columns. -/
def sample_globals : Globals :=
  { pip_class_to_idx := [("default".toList, 0), ("f_to_a".toList, 1)],
    constids := sample_constids,
    globalInfos := [],
    packages := [("CABGA256".toList, { pins := [⟨"A1".toList, ⟨0, 1⟩, 0⟩] })],
    pindata := [],
    chips := [("6".toList,
      { speed_grade := "6".toList,
        cells := [{ celltype := 3, delays := [⟨1, 2, 0, 0⟩], setupholds := [] }],
        pip_class_delays := [default_pipclass, ⟨110, 132, 1, 1⟩] })],
    max_row := 1,
    max_col := 1,
    tiletype_names := [],
    location_types := [],
    loc_with_type := [] }

/-! ## Reading a stream of directives -/

/-- The name that a directive declares: that of a `label` line. -/
def Directive.labelName : Directive → Option Str
  | Directive.l name _ => some name
  | _ => none

/-- The name that a directive refers to: that of a `ref` line. -/
def Directive.refName : Directive → Option Str
  | Directive.r name _ => some name
  | _ => none

/-- The names declared by the `label` lines of a stream, in order. -/
def labelsOf (ds : List Directive) : List Str := ds.filterMap Directive.labelName

/-- The names referred to by the `ref` lines of a stream, in order. -/
def refsOf (ds : List Directive) : List Str := ds.filterMap Directive.refName

/-- A directive is a `push` line. -/
def Directive.isPush : Directive → Bool
  | Directive.push _ => true
  | _ => false

/-- A directive is the `pop` line. -/
def Directive.isPop : Directive → Bool
  | Directive.pop => true
  | _ => false

/-- The directives of a stream under the label `name`: those that follow the
first `label` line of that name, up to the next `label` line. -/
def sectionOf (name : Str) : List Directive → List Directive
  | [] => []
  | d :: rest =>
    if d.labelName = some name then rest.takeWhile (fun e => e.labelName.isNone)
    else sectionOf name rest

/-- No directive of the stream is a `push` or a `pop` line. -/
def NoScope (ds : List Directive) : Prop :=
  ∀ d ∈ ds, d.isPush = false ∧ d.isPop = false

/-- The name of a reference is that of the table of delays or of setup and
hold times of some cell. -/
def IsCellRef (n : Str) : Prop :=
  ∃ (t : Int) (g : Str),
    n = cell_name t "_delays_".toList g ∨ n = cell_name t "_setupholds_".toList g


/-- A stream is empty or begins with a `label` line. -/
def LabelFirst (ds : List Directive) : Prop :=
  ∀ d, ds.head? = some d → d.labelName.isSome = true

/-- The value of a directive when it is a number with the comment `c`. -/
def Directive.field (c : Str) : Directive → Option Int
  | Directive.u8 v (some c') => if c' = c then some v else none
  | Directive.u16 v (some c') => if c' = c then some v else none
  | Directive.u32 v (some c') => if c' = c then some v else none
  | _ => none

/-- The values of the numbers of a stream that carry the comment `c`, in
order. -/
def fieldValues (c : Str) (ds : List Directive) : List Int :=
  ds.filterMap (Directive.field c)
/-! ## The labels of the stream -/

/-- The labels that `write_database` declares, by kind and parameters. -/
inductive Lab where
  | pips (idx : Nat)
  | wire_down (idx wire_idx : Nat)
  | wire_up (idx wire_idx : Nat)
  | wire_belpins (idx wire_idx : Nat)
  | wires (idx : Nat)
  | bel_wires (idx bel_idx : Nat)
  | bels (idx : Nat)
  | locations
  | tile_info (x y : Nat)
  | tiles_info
  | location_types
  | location_glbinfo
  | package (name : Str)
  | package_data
  | pio_info
  | tiletype_names
  | cell_delays (celltype : Int) (grade : Str)
  | cell_setupholds (celltype : Int) (grade : Str)
  | cell_timing (grade : Str)
  | pip_timing (grade : Str)
  | speed_grade_data
  | chip_info
  deriving DecidableEq, Repr

/-- The name under which a label is declared. -/
def Lab.render : Lab → Str
  | Lab.pips idx => loc_name idx "_pips".toList
  | Lab.wire_down idx w => loc_wire_name idx w "_downpips".toList
  | Lab.wire_up idx w => loc_wire_name idx w "_uppips".toList
  | Lab.wire_belpins idx w => loc_wire_name idx w "_belpins".toList
  | Lab.wires idx => loc_name idx "_wires".toList
  | Lab.bel_wires idx b => loc_bel_name idx b
  | Lab.bels idx => loc_name idx "_bels".toList
  | Lab.locations => "locations".toList
  | Lab.tile_info x y => tile_info_name x y
  | Lab.tiles_info => "tiles_info".toList
  | Lab.location_types => "location_types".toList
  | Lab.location_glbinfo => "location_glbinfo".toList
  | Lab.package name => "package_data_".toList ++ name
  | Lab.package_data => "package_data".toList
  | Lab.pio_info => "pio_info".toList
  | Lab.tiletype_names => "tiletype_names".toList
  | Lab.cell_delays t g => cell_name t "_delays_".toList g
  | Lab.cell_setupholds t g => cell_name t "_setupholds_".toList g
  | Lab.cell_timing g => "cell_timing_data_".toList ++ g
  | Lab.pip_timing g => "pip_timing_data_".toList ++ g
  | Lab.speed_grade_data => "speed_grade_data".toList
  | Lab.chip_info => "chip_info".toList

/-- The pieces between the underscores of the name of a label. -/
def Lab.tokens : Lab → List Str
  | Lab.pips idx => ["loc".toList ++ to_string idx, "pips".toList]
  | Lab.wire_down idx w =>
    ["loc".toList ++ to_string idx, "wire".toList ++ to_string w, "downpips".toList]
  | Lab.wire_up idx w =>
    ["loc".toList ++ to_string idx, "wire".toList ++ to_string w, "uppips".toList]
  | Lab.wire_belpins idx w =>
    ["loc".toList ++ to_string idx, "wire".toList ++ to_string w, "belpins".toList]
  | Lab.wires idx => ["loc".toList ++ to_string idx, "wires".toList]
  | Lab.bel_wires idx b =>
    ["loc".toList ++ to_string idx, "bel".toList ++ to_string b, "wires".toList]
  | Lab.bels idx => ["loc".toList ++ to_string idx, "bels".toList]
  | Lab.locations => ["locations".toList]
  | Lab.tile_info x y => ["tile".toList, "info".toList, to_string x, to_string y]
  | Lab.tiles_info => ["tiles".toList, "info".toList]
  | Lab.location_types => ["location".toList, "types".toList]
  | Lab.location_glbinfo => ["location".toList, "glbinfo".toList]
  | Lab.package name => ["package".toList, "data".toList] ++ name.splitOn '_'
  | Lab.package_data => ["package".toList, "data".toList]
  | Lab.pio_info => ["pio".toList, "info".toList]
  | Lab.tiletype_names => ["tiletype".toList, "names".toList]
  | Lab.cell_delays t g => ["cell".toList, to_string t, "delays".toList] ++ g.splitOn '_'
  | Lab.cell_setupholds t g =>
    ["cell".toList, to_string t, "setupholds".toList] ++ g.splitOn '_'
  | Lab.cell_timing g => ["cell".toList, "timing".toList, "data".toList] ++ g.splitOn '_'
  | Lab.pip_timing g => ["pip".toList, "timing".toList, "data".toList] ++ g.splitOn '_'
  | Lab.speed_grade_data => ["speed".toList, "grade".toList, "data".toList]
  | Lab.chip_info => ["chip".toList, "info".toList]

/-- The labels of the tables of the wires of the location type number `idx`,
from the wire number `wire_idx` on. -/
def wire_table_labs (idx : Nat) : Nat → List WireData → List Lab
  | _, [] => []
  | wire_idx, wire :: rest =>
    (if wire.arcsDownhill.length > 0 then [Lab.wire_down idx wire_idx] else []) ++
    (if wire.arcsUphill.length > 0 then [Lab.wire_up idx wire_idx] else []) ++
    (if wire.belPins.length > 0 then [Lab.wire_belpins idx wire_idx] else []) ++
    wire_table_labs idx (wire_idx + 1) rest

/-- The labels of the tables of the bels of the location type number `idx`,
from the bel number `bel_idx` on. -/
def bel_table_labs (idx : Nat) : Nat → List BelData → List Lab
  | _, [] => []
  | bel_idx, _ :: rest => Lab.bel_wires idx bel_idx :: bel_table_labs idx (bel_idx + 1) rest

/-- The labels declared for the location type number `idx`. -/
def loctype_labs (idx : Nat) (loctype : LocationData) : List Lab :=
  (if loctype.arcs.length > 0 then [Lab.pips idx] else []) ++
  (if loctype.wires.length > 0 then
    wire_table_labs idx 0 loctype.wires ++ [Lab.wires idx] else []) ++
  (if loctype.bels.length > 0 then
    bel_table_labs idx 0 loctype.bels ++ [Lab.bels idx] else [])

/-- The labels declared for the location types, from the number `idx` on. -/
def loctypes_labs (ddrg : DedupChipdb) : Nat → List checksum_t → List Lab
  | _, [] => []
  | idx, key :: rest =>
    loctype_labs idx (ddrg.locationTypes_at key) ++ loctypes_labs ddrg (idx + 1) rest

/-- The labels of the tables of the cells of a speed grade. -/
def cell_labs (grade : Str) (cells : List Cell) : List Lab :=
  cells.flatMap (fun cell =>
    (if cell.delays.length > 0 then [Lab.cell_delays cell.celltype grade] else []) ++
    (if cell.setupholds.length > 0 then [Lab.cell_setupholds cell.celltype grade] else []))

/-- The labels declared for a speed grade. -/
def grade_labs (chips : List (Str × Chip)) (grade : Str) : List Lab :=
  cell_labs grade (chips_at chips grade).cells ++ [Lab.cell_timing grade, Lab.pip_timing grade]

/-- The labels that `write_database` declares, in the order of the stream. -/
def stream_labs (g : Globals) (ddrg : DedupChipdb) : List Lab :=
  loctypes_labs ddrg 0 (loctypes_of ddrg) ++
  Lab.locations :: (grid_coords g.max_row g.max_col).map (fun c => Lab.tile_info c.1 c.2) ++
  [Lab.tiles_info, Lab.location_types, Lab.location_glbinfo] ++
  g.packages.map (fun p => Lab.package p.1) ++
  [Lab.package_data, Lab.pio_info, Lab.tiletype_names] ++
  speed_grade_names.flatMap (grade_labs g.chips) ++
  [Lab.speed_grade_data, Lab.chip_info]


/-- The number of the location type in the name of a label, `none` for a
label that is not that of a table of a location type. -/
def Lab.locIdx : Lab → Option Nat
  | Lab.pips idx => some idx
  | Lab.wire_down idx _ => some idx
  | Lab.wire_up idx _ => some idx
  | Lab.wire_belpins idx _ => some idx
  | Lab.wires idx => some idx
  | Lab.bel_wires idx _ => some idx
  | Lab.bels idx => some idx
  | _ => none

/-- The labels that `write_database` declares after the loop `Writing location
types...`, in the order of the stream. -/
def tail_labs (g : Globals) : List Lab :=
  Lab.locations :: (grid_coords g.max_row g.max_col).map (fun c => Lab.tile_info c.1 c.2) ++
  [Lab.tiles_info, Lab.location_types, Lab.location_glbinfo] ++
  g.packages.map (fun p => Lab.package p.1) ++
  [Lab.package_data, Lab.pio_info, Lab.tiletype_names] ++
  speed_grade_names.flatMap (grade_labs g.chips) ++
  [Lab.speed_grade_data, Lab.chip_info]

/-- The lines that `write_database` writes after the loop `Writing location
types...` and before the `pop`. -/
def stream_tail (g : Globals) (chip : TrellisChip) (ddrg : DedupChipdb)
    (tiletype_names : StrIntMap) : List Directive :=
  (stream_body g chip ddrg tiletype_names []).tail

/-- The label is that of the table of pips of a location type. -/
def Lab.isPips : Lab → Bool
  | Lab.pips _ => true
  | _ => false

/-- The number of the wire or of the bel in the name of a label, `none` for a
label without one. -/
def Lab.subIdx : Lab → Option Nat
  | Lab.wire_down _ w => some w
  | Lab.wire_up _ w => some w
  | Lab.wire_belpins _ w => some w
  | Lab.bel_wires _ b => some b
  | _ => none

/-- The label is that of a table of a bel. -/
def Lab.isBelWires : Lab → Bool
  | Lab.bel_wires _ _ => true
  | _ => false

/-- The label is that of a table of a wire: downhill pips, uphill pips or bel
pins. -/
def Lab.isWireTable : Lab → Bool
  | Lab.wire_down _ _ => true
  | Lab.wire_up _ _ => true
  | Lab.wire_belpins _ _ => true
  | _ => false
/-- The label is that of a table of a speed grade. -/
def Lab.isGrade : Lab → Bool
  | Lab.cell_delays _ _ => true
  | Lab.cell_setupholds _ _ => true
  | Lab.cell_timing _ => true
  | Lab.pip_timing _ => true
  | _ => false

/-! ## The stream of the sample input -/

/-- The stream that `write_database` writes for the sample input and the device
`LFE5U-25F`. -/
def sample_stream : List Directive :=
  [Directive.pre "#include \"nextpnr.h\"".toList,
   Directive.pre "NEXTPNR_NAMESPACE_BEGIN".toList,
   Directive.post "NEXTPNR_NAMESPACE_END".toList,
   Directive.push "chipdb_blob_LFE5U-25F".toList,
   Directive.r "chip_info".toList (some "chip_info".toList),
   Directive.l "loc0_pips".toList (some "PipInfoPOD".toList),
   Directive.u16 0 (some "src.x".toList),
   Directive.u16 0 (some "src.y".toList),
   Directive.u16 0 (some "dst.x".toList),
   Directive.u16 0 (some "dst.y".toList),
   Directive.u32 0 (some "src_idx".toList),
   Directive.u32 1 (some "dst_idx".toList),
   Directive.u32 1 (some "timing_class".toList),
   Directive.u16 0 (some "tile_type".toList),
   Directive.u8 0 (some "pip_type".toList),
   Directive.u8 0 (some "padding".toList),
   Directive.l "loc0_wire0_downpips".toList (some "PipLocatorPOD".toList),
   Directive.u16 0 (some "rel_loc.x".toList),
   Directive.u16 0 (some "rel_loc.y".toList),
   Directive.u32 0 (some "index".toList),
   Directive.l "loc0_wire1_uppips".toList (some "PipLocatorPOD".toList),
   Directive.u16 0 (some "rel_loc.x".toList),
   Directive.u16 0 (some "rel_loc.y".toList),
   Directive.u32 0 (some "index".toList),
   Directive.l "loc0_wire1_belpins".toList (some "BelPortPOD".toList),
   Directive.u16 0 (some "rel_bel_loc.x".toList),
   Directive.u16 0 (some "rel_bel_loc.y".toList),
   Directive.u32 0 (some "bel_index".toList),
   Directive.u32 1 (some "port".toList),
   Directive.l "loc0_wires".toList (some "WireInfoPOD".toList),
   Directive.s "F0".toList "name".toList,
   Directive.u32 0 (some "num_uphill".toList),
   Directive.u32 1 (some "num_downhill".toList),
   Directive.r "None".toList (some "pips_uphill".toList),
   Directive.r "loc0_wire0_downpips".toList (some "pips_downhill".toList),
   Directive.u32 0 (some "num_bel_pins".toList),
   Directive.r "None".toList (some "bel_pins".toList),
   Directive.s "A0".toList "name".toList,
   Directive.u32 1 (some "num_uphill".toList),
   Directive.u32 0 (some "num_downhill".toList),
   Directive.r "loc0_wire1_uppips".toList (some "pips_uphill".toList),
   Directive.r "None".toList (some "pips_downhill".toList),
   Directive.u32 1 (some "num_bel_pins".toList),
   Directive.r "loc0_wire1_belpins".toList (some "bel_pins".toList),
   Directive.l "loc0_bel0_wires".toList (some "BelWirePOD".toList),
   Directive.u16 0 (some "rel_wire_loc.x".toList),
   Directive.u16 0 (some "rel_wire_loc.y".toList),
   Directive.u32 1 (some "wire_index".toList),
   Directive.u32 1 (some "port".toList),
   Directive.u32 0 (some "dir".toList),
   Directive.l "loc0_bels".toList (some "BelInfoPOD".toList),
   Directive.s "SLICEA".toList "name".toList,
   Directive.u32 3 (some "type".toList),
   Directive.u32 0 (some "z".toList),
   Directive.u32 1 (some "num_bel_wires".toList),
   Directive.r "loc0_bel0_wires".toList (some "bel_wires".toList),
   Directive.l "locations".toList (some "LocationTypePOD".toList),
   Directive.u32 1 (some "num_bels".toList),
   Directive.u32 2 (some "num_wires".toList),
   Directive.u32 1 (some "num_pips".toList),
   Directive.r "loc0_bels".toList (some "bel_data".toList),
   Directive.r "loc0_wires".toList (some "wire_data".toList),
   Directive.r "loc0_pips".toList (some "pips_data".toList),
   Directive.l "tile_info_0_0".toList (some "TileNamePOD".toList),
   Directive.s "TILE".toList "name".toList,
   Directive.u16 0 (some "type_idx".toList),
   Directive.u16 0 (some "padding".toList),
   Directive.l "tile_info_1_0".toList (some "TileNamePOD".toList),
   Directive.s "TILE".toList "name".toList,
   Directive.u16 0 (some "type_idx".toList),
   Directive.u16 0 (some "padding".toList),
   Directive.l "tile_info_0_1".toList (some "TileNamePOD".toList),
   Directive.s "TILE".toList "name".toList,
   Directive.u16 0 (some "type_idx".toList),
   Directive.u16 0 (some "padding".toList),
   Directive.l "tile_info_1_1".toList (some "TileNamePOD".toList),
   Directive.s "TILE".toList "name".toList,
   Directive.u16 0 (some "type_idx".toList),
   Directive.u16 0 (some "padding".toList),
   Directive.l "tiles_info".toList (some "TileInfoPOD".toList),
   Directive.u32 1 (some "num_tiles".toList),
   Directive.r "tile_info_0_0".toList (some "tile_names".toList),
   Directive.u32 1 (some "num_tiles".toList),
   Directive.r "tile_info_1_0".toList (some "tile_names".toList),
   Directive.u32 1 (some "num_tiles".toList),
   Directive.r "tile_info_0_1".toList (some "tile_names".toList),
   Directive.u32 1 (some "num_tiles".toList),
   Directive.r "tile_info_1_1".toList (some "tile_names".toList),
   Directive.l "location_types".toList (some "int32_t".toList),
   Directive.u32 0 (some "loctype".toList),
   Directive.u32 0 (some "loctype".toList),
   Directive.u32 0 (some "loctype".toList),
   Directive.u32 0 (some "loctype".toList),
   Directive.l "location_glbinfo".toList (some "GlobalInfoPOD".toList),
   Directive.u16 0 (some "tap_col".toList),
   Directive.u8 0 (some "tap_dir".toList),
   Directive.u8 0 (some "quad".toList),
   Directive.u16 0 (some "spine_row".toList),
   Directive.u16 0 (some "spine_col".toList),
   Directive.u16 0 (some "tap_col".toList),
   Directive.u8 0 (some "tap_dir".toList),
   Directive.u8 0 (some "quad".toList),
   Directive.u16 0 (some "spine_row".toList),
   Directive.u16 0 (some "spine_col".toList),
   Directive.u16 0 (some "tap_col".toList),
   Directive.u8 0 (some "tap_dir".toList),
   Directive.u8 0 (some "quad".toList),
   Directive.u16 0 (some "spine_row".toList),
   Directive.u16 0 (some "spine_col".toList),
   Directive.u16 0 (some "tap_col".toList),
   Directive.u8 0 (some "tap_dir".toList),
   Directive.u8 0 (some "quad".toList),
   Directive.u16 0 (some "spine_row".toList),
   Directive.u16 0 (some "spine_col".toList),
   Directive.l "package_data_CABGA256".toList (some "PackagePinPOD".toList),
   Directive.s "A1".toList "name".toList,
   Directive.u16 0 (some "abs_loc.x".toList),
   Directive.u16 1 (some "abs_loc.y".toList),
   Directive.u32 0 (some "bel_index".toList),
   Directive.l "package_data".toList (some "PackageInfoPOD".toList),
   Directive.s "CABGA256".toList "name".toList,
   Directive.u32 1 (some "num_pins".toList),
   Directive.r "package_data_CABGA256".toList (some "pin_data".toList),
   Directive.l "pio_info".toList (some "PIOInfoPOD".toList),
   Directive.l "tiletype_names".toList (some "RelPtr<char>".toList),
   Directive.s "PLC2".toList "name".toList,
   Directive.l "cell_3_delays_6".toList none,
   Directive.u32 1 (some "from_pin".toList),
   Directive.u32 2 (some "to_pin".toList),
   Directive.u32 0 (some "min_delay".toList),
   Directive.u32 0 (some "max_delay".toList),
   Directive.l "cell_timing_data_6".toList none,
   Directive.u32 3 (some "cell_type".toList),
   Directive.u32 1 (some "num_delays".toList),
   Directive.u32 0 (some "num_setup_hold".toList),
   Directive.r "cell_3_delays_6".toList (some "delays".toList),
   Directive.r "cell_3_setupholds_6".toList (some "setupholds".toList),
   Directive.l "pip_timing_data_6".toList none,
   Directive.u32 50 (some "min_delay".toList),
   Directive.u32 50 (some "max_delay".toList),
   Directive.u32 0 (some "min_fanout".toList),
   Directive.u32 0 (some "max_fanout".toList),
   Directive.u32 110 (some "min_delay".toList),
   Directive.u32 132 (some "max_delay".toList),
   Directive.u32 1 (some "min_fanout".toList),
   Directive.u32 1 (some "max_fanout".toList),
   Directive.l "cell_timing_data_7".toList none,
   Directive.l "pip_timing_data_7".toList none,
   Directive.l "cell_timing_data_8".toList none,
   Directive.l "pip_timing_data_8".toList none,
   Directive.l "cell_timing_data_8_5G".toList none,
   Directive.l "pip_timing_data_8_5G".toList none,
   Directive.l "speed_grade_data".toList none,
   Directive.u32 3 (some "num_cell_timings".toList),
   Directive.u32 2 (some "num_pip_classes".toList),
   Directive.r "cell_timing_data_6".toList (some "cell_timings".toList),
   Directive.r "pip_timing_data_6".toList (some "pip_classes".toList),
   Directive.u32 0 (some "num_cell_timings".toList),
   Directive.u32 0 (some "num_pip_classes".toList),
   Directive.r "cell_timing_data_7".toList (some "cell_timings".toList),
   Directive.r "pip_timing_data_7".toList (some "pip_classes".toList),
   Directive.u32 0 (some "num_cell_timings".toList),
   Directive.u32 0 (some "num_pip_classes".toList),
   Directive.r "cell_timing_data_8".toList (some "cell_timings".toList),
   Directive.r "pip_timing_data_8".toList (some "pip_classes".toList),
   Directive.u32 0 (some "num_cell_timings".toList),
   Directive.u32 0 (some "num_pip_classes".toList),
   Directive.r "cell_timing_data_8_5G".toList (some "cell_timings".toList),
   Directive.r "pip_timing_data_8_5G".toList (some "pip_classes".toList),
   Directive.l "chip_info".toList none,
   Directive.u32 2 (some "width".toList),
   Directive.u32 2 (some "height".toList),
   Directive.u32 4 (some "num_tiles".toList),
   Directive.u32 0 (some "num_location_types".toList),
   Directive.u32 1 (some "num_packages".toList),
   Directive.u32 0 (some "num_pios".toList),
   Directive.r "locations".toList (some "locations".toList),
   Directive.r "location_types".toList (some "location_type".toList),
   Directive.r "location_glbinfo".toList (some "location_glbinfo".toList),
   Directive.r "tiletype_names".toList (some "tiletype_names".toList),
   Directive.r "package_data".toList (some "package_info".toList),
   Directive.r "pio_info".toList (some "pio_info".toList),
   Directive.r "tiles_info".toList (some "tile_info".toList),
   Directive.r "speed_grade_data".toList (some "speed_grades".toList),
   Directive.pop]

/-! ## Reading a decimal numeral -/

/-- The number that a list of decimal digits stands for, on top of the number
`acc` of the digits read before. -/
def digitsValue (acc : Nat) (ds : List Char) : Nat :=
  ds.foldl (fun a c => a * 10 + (c.toNat - 48)) acc

/-- The timing files of the sample input: for the grade `6` the cells of
`sample_cells` and one interconnect entry, no file for the other grades. -/
def sample_files (grade : Str) : GradeFiles :=
  if grade = "6".toList then
    { cells := some sample_cells,
      interconnect := some [⟨"f_to_a".toList, (100, 110, 120), (1, 2, 3)⟩] }
  else
    { cells := none, interconnect := none }

/-- A cell file with two cells whose names the sample identifier table does
not hold, each with one `IOPath` entry. -/
def twin_cells : List (Str × List TimingEntry) :=
  [("CELL_A".toList,
    [{ type := "IOPath".toList, from_pin := "A0".toList, to_pin := "F0".toList,
       rising := (100, 110, 120), falling := (90, 100, 130),
       pin := [], clock := [], setup := (0, 0, 0), hold := (0, 0, 0) }]),
   ("CELL_B".toList,
    [{ type := "IOPath".toList, from_pin := "A0".toList, to_pin := "F0".toList,
       rising := (100, 110, 120), falling := (90, 100, 130),
       pin := [], clock := [], setup := (0, 0, 0), hold := (0, 0, 0) }])]

/-- The timing files with the cells of `twin_cells` for the grade `6`. -/
def twin_files (grade : Str) : GradeFiles :=
  if grade = "6".toList then
    { cells := some twin_cells,
      interconnect := some [⟨"f_to_a".toList, (100, 110, 120), (1, 2, 3)⟩] }
  else
    { cells := none, interconnect := none }

/-- The global variables of the sample input after `process_timing_data` has
loaded the files of `twin_files`: the two cells have the cell type 0. -/
def twin_globals : Globals :=
  { sample_globals with
    chips := [("6".toList,
      { speed_grade := "6".toList,
        cells := [{ celltype := 0, delays := [⟨1, 2, 0, 0⟩], setupholds := [] },
                  { celltype := 0, delays := [⟨1, 2, 0, 0⟩], setupholds := [] }],
        pip_class_delays := [default_pipclass, ⟨110, 132, 1, 1⟩] })] }

/-- The global variables of the sample input with, for the grade `6`, one
cell that has no delay and one setup and hold entry. -/
def setuphold_only_globals : Globals :=
  { sample_globals with
    chips := [("6".toList,
      { speed_grade := "6".toList,
        cells := [{ celltype := 5, delays := [], setupholds := [⟨1, 2, 10, 20, 30, 40⟩] }],
        pip_class_delays := [default_pipclass] })] }

/-! ## The inputs on which `write_database` is defined -/

/-- The wire `w`, named by an arc of the location type number `idx`, exists:
a coordinate is recorded for the location type and the number of the wire is
an index of the wires of the location type at the coordinate moved by the
offset of the wire. -/
def WireInRange (ddrg : DedupChipdb) (loc_with_type : List (Int × (Int × Int))) (idx : Nat)
    (w : RelId) : Prop :=
  ∃ loc : Int × Int, loc_with_type.lookup (idx : Int) = some loc ∧ 0 ≤ w.id
    ∧ w.id.toNat < (ddrg.locationTypes_at
        (ddrg.typeAtLocation { x := loc.1 + w.rel.x, y := loc.2 + w.rel.y })).wires.length

/-- The wires of every arc of every location type exist, for the coordinates
that `write_database` records for the location types. -/
def ArcsInRange (g : Globals) (ddrg : DedupChipdb) : Prop :=
  ∀ (idx : Nat) (key : checksum_t), (loctypes_of ddrg)[idx]? = some key →
    ∀ arc ∈ (ddrg.locationTypes_at key).arcs,
      WireInRange ddrg
          (fill_loc_with_type ddrg (loctypes_of ddrg) (grid_coords g.max_row g.max_col)
            g.loc_with_type) idx arc.srcWire
        ∧ WireInRange ddrg
          (fill_loc_with_type ddrg (loctypes_of ddrg) (grid_coords g.max_row g.max_col)
            g.loc_with_type) idx arc.sinkWire

/-! ## The global clock network: `process_loc_globals` -/

/-- The value that an `int` has once stored in an `int8_t`. -/
def int8 (v : Int) : Int := (v + 128) % 256 - 128

/-- The value that an `int` has once stored in an `int16_t`. -/
def int16 (v : Int) : Int := (v + 32768) % 65536 - 32768

/-- The global `quadrants`. -/
def quadrants : StrIntMap :=
  [("UL".toList, 0), ("UR".toList, 1), ("LL".toList, 2), ("LR".toList, 3)]

/-- The call `m.insert(std::pair<int, T>(k, v))` on a `std::map<int, T>`, which
leaves a map that holds the key as it is. -/
def int_map_insert {α : Type} (m : List (Int × α)) (k : Int) (v : α) : List (Int × α) :=
  if (m.lookup k).isSome then m else m ++ [(k, v)]

/-- The body of the inner loop of `process_loc_globals` for the row `y` and the
column `x`: the record `gi`.  `LEFT` and `RIGHT` are the values of the
enumerators of the direction of a tap driver, which `tapdrv.LEFT` and
`tapdrv.RIGHT` name and which are declared outside the repository.  The result
is `none` when `quadrants.at(quad)` throws. -/
def global_info (LEFT RIGHT : Int) (chip : TrellisChip) (y x : Nat) : Option GlobalInfo :=
  let quad := chip.get_quadrant y x
  let tapdrv := chip.get_tap_driver y x
  let spine : Int × Int :=
    if tapdrv.col = x then
      let spinedrv := chip.get_spine_driver quad x
      (int16 spinedrv.2, int16 spinedrv.1)
    else
      (int16 (-1), int16 (-1))
  match quadrants.find quad with
  | none => none
  | some q =>
    some { quad := int8 q,
           tap_col := int16 LEFT,
           tap_dir := int8 (int16 RIGHT),
           spine_col := spine.1,
           spine_row := spine.2 }

/-- The inner loop of `process_loc_globals` over the columns of the row `y`, on
the map `gi_row`. -/
def gi_row_loop (LEFT RIGHT : Int) (chip : TrellisChip) (y : Nat) :
    List Nat → List (Int × GlobalInfo) → Option (List (Int × GlobalInfo))
  | [], gi_row => some gi_row
  | x :: rest, gi_row => do
    let gi ← global_info LEFT RIGHT chip y x
    gi_row_loop LEFT RIGHT chip y rest (int_map_insert gi_row x gi)

/-- The outer loop of `process_loc_globals` over the rows, on the global
`globalInfos`. -/
def gi_rows_loop (LEFT RIGHT : Int) (chip : TrellisChip) (max_col : Nat) :
    List Nat → List (Int × List (Int × GlobalInfo)) →
      Option (List (Int × List (Int × GlobalInfo)))
  | [], globalInfos => some globalInfos
  | y :: rest, globalInfos => do
    let gi_row ← gi_row_loop LEFT RIGHT chip y (List.range (max_col + 1)) []
    gi_rows_loop LEFT RIGHT chip max_col rest (int_map_insert globalInfos y gi_row)

/-- The function `process_loc_globals(chip)` on the global `globalInfos`: the
new values of the globals `max_row`, `max_col` and `globalInfos`. -/
def process_loc_globals (LEFT RIGHT : Int) (chip : TrellisChip)
    (globalInfos : List (Int × List (Int × GlobalInfo))) :
    Option (Nat × Nat × List (Int × List (Int × GlobalInfo))) :=
  let max_row := chip.get_max_row
  let max_col := chip.get_max_col
  (gi_rows_loop LEFT RIGHT chip max_col (List.range (max_row + 1)) globalInfos).map
    (fun g => (max_row, max_col, g))

/-! ## The I/O database: `get_bel_index` and `process_pio_db` -/

/-- The loop of `get_bel_index` over the bels of a location, from the index
`idx` on. -/
def bel_index_loop (ddrg : DedupChipdb) (name : Str) : List BelData → Int → Int
  | [], _ => -1
  | bel :: rest, idx =>
    if ddrg.to_str bel.name = name then idx else bel_index_loop ddrg name rest (idx + 1)

/-- The function `get_bel_index(ddrg, loc, name)`. -/
def get_bel_index (ddrg : DedupChipdb) (loc : Location) (name : Str) : Int :=
  let locData := ddrg.locationTypes_at (ddrg.typeAtLocation loc)
  bel_index_loop ddrg name locData.bels 0

/-- An entry of a package of `iodb.json`: the members `col`, `row` and `pio` of
a pin. -/
structure IoPin where
  col : Int
  row : Int
  pio : Str
  deriving DecidableEq, Repr

/-- An entry of the array `pio_metadata` of `iodb.json`; `function` is `none`
when the entry has no such member. -/
structure PioMeta where
  col : Int
  row : Int
  pio : Str
  bank : Int
  function : Option Str
  deriving DecidableEq, Repr

/-- The document `iodb.json`: the packages, each a list of pins under their
names, and the array `pio_metadata`. -/
structure IoDb where
  packages : List (Str × List (Str × IoPin))
  pio_metadata : List PioMeta
  deriving DecidableEq, Repr

/-- The assignment `packages[k] = v`, on the entries of the map in the order of
its keys. -/
def packages_set (packages : List (Str × Pins)) (k : Str) (v : Pins) : List (Str × Pins) :=
  match packages with
  | [] => [(k, v)]
  | (k', v') :: rest =>
    if k' = k then (k, v) :: rest
    else if str_lt k k' then (k, v) :: (k', v') :: rest
    else (k', v') :: packages_set rest k v

/-- The loop of `process_pio_db` over the pins of the package `package`, whose
entries are the pairs of `valit->first` and `valit->second`. -/
def package_pins (ddrg : DedupChipdb) (package : Str) : List (Str × IoPin) → Pins → Pins
  | [], pins => pins
  | (_, itemObj) :: rest, pins =>
    let loc : Location := { x := itemObj.col, y := itemObj.row }
    let pio := "PIO".toList ++ itemObj.pio
    let bel_idx := get_bel_index ddrg loc pio
    if bel_idx ≠ -1 then
      package_pins ddrg package rest
        { pins := pins.pins ++ [{ name := package, location := loc, bel_index := bel_idx }] }
    else
      package_pins ddrg package rest pins

/-- The loop of `process_pio_db` over the packages, on the global `packages`. -/
def packages_loop (ddrg : DedupChipdb) :
    List (Str × List (Str × IoPin)) → List (Str × Pins) → List (Str × Pins)
  | [], packages => packages
  | (package, valObj) :: rest, packages =>
    packages_loop ddrg rest
      (packages_set packages package (package_pins ddrg package valObj { pins := [] }))

/-- The loop of `process_pio_db` over the array `pio_metadata`, on the global
`pindata`. -/
def pio_metadata_loop (ddrg : DedupChipdb) : List PioMeta → List PinData → List PinData
  | [], pindata => pindata
  | objPtr :: rest, pindata =>
    let loc : Location := { x := objPtr.col, y := objPtr.row }
    let pio := "PIO".toList ++ objPtr.pio
    let pinfunc : Str :=
      match objPtr.function with
      | some f => f
      | none => []
    let bel_idx := get_bel_index ddrg loc pio
    if bel_idx ≠ -1 then
      pio_metadata_loop ddrg rest
        (pindata ++ [{ location := loc, bel_index := bel_idx, bank := objPtr.bank,
                       function := pinfunc }])
    else
      pio_metadata_loop ddrg rest pindata

/-- The function `process_pio_db(ddrg, device)` on the globals `packages` and
`pindata`; `ioFile` is `none` when the file does not open. -/
def process_pio_db (ddrg : DedupChipdb) (ioFile : Option IoDb)
    (st : List (Str × Pins) × List PinData) : List (Str × Pins) × List PinData :=
  match ioFile with
  | none => st
  | some ioObject =>
    (packages_loop ddrg ioObject.packages st.1,
     pio_metadata_loop ddrg ioObject.pio_metadata st.2)

/-! ## The records of the timing entries -/

/-- The delay that `process_timing_data` builds for an `IOPath` entry. -/
def delay_record (constids : StrIntMap) (entryObj : TimingEntry) : Delay :=
  { from_pin := constid constids (port_xform entryObj.from_pin)
    to_pin := constid constids (port_xform entryObj.to_pin)
    min_delay := constid constids (to_string (min entryObj.rising.1 entryObj.falling.1))
    max_delay := constid constids (to_string (min entryObj.rising.2.2 entryObj.falling.2.2)) }

/-- The record that `process_timing_data` builds for a `SetupHold` entry. -/
def setuphold_record (constids : StrIntMap) (entryObj : TimingEntry) : SetupHold :=
  { pin := constid constids entryObj.pin
    clock := constid constids entryObj.clock
    min_setup := entryObj.setup.1
    max_setup := entryObj.setup.2.2
    min_hold := entryObj.hold.1
    max_hold := entryObj.hold.2.2 }

/-- The type tag of a timing entry is one of `Width`, `IOPath` and
`SetupHold`. -/
def KnownType (e : TimingEntry) : Prop :=
  e.type = "Width".toList ∨ e.type = "IOPath".toList ∨ e.type = "SetupHold".toList

instance KnownType.decidable (e : TimingEntry) : Decidable (KnownType e) := by
  unfold KnownType
  infer_instance

/-! ## The other reading of the condition on the type of a pip -/

/-- The type of a pip under the reading `cls == ARC_STANDARD && (... || ... ||
...)` of the condition of `write_database`, which is not the one of the
compiler. -/
def pip_type_grouped (cls : Int) (src_name snk_name : Str) : Int :=
  if cls = ARC_STANDARD ∧ (found snk_name "PCS".toList = true
      ∨ found snk_name "DCU".toList = true
      ∨ found src_name "DCU".toList = true) then
    ARC_FIXED
  else
    cls

/-! ## Reading the strings of a stream -/

/-- The text of a directive when it is a `str` line. -/
def Directive.text : Directive → Option Str
  | Directive.s t _ => some t
  | _ => none

/-- The texts of the `str` lines of a stream, in order. -/
def stringsOf (ds : List Directive) : List Str := ds.filterMap Directive.text

/-! ## More sample inputs -/

/-- A chip of two rows and two columns whose four positions lie in the four
quadrants, with the tap driver in the column 1, to the right (1) of the
column 0 and to the left (0) of the column 1, and the spine driver in the row 5
and the column 7. -/
def quad_chip : TrellisChip :=
  { get_max_row := 1,
    get_max_col := 1,
    get_tiles_by_position := fun _ _ => [{ name := "TILE".toList, type := "PLC2".toList }],
    get_quadrant := fun y x =>
      if y = 0 then (if x = 0 then "UL".toList else "UR".toList)
      else (if x = 0 then "LL".toList else "LR".toList),
    get_tap_driver := fun _ x => { col := 1, dir := if x = 0 then 1 else 0 },
    get_spine_driver := fun _ _ => (5, 7) }

/-- The chip `quad_chip` cut to its first row: one row and two columns. -/
def wide_chip : TrellisChip :=
  { quad_chip with get_max_row := 0 }

/-- The records of `process_loc_globals` for `quad_chip`, by row and column,
for the enumerators `LEFT` 0 and `RIGHT` 1. -/
def quad_globalInfos : List (Int × List (Int × GlobalInfo)) :=
  [(0, [(0, { quad := 0, tap_dir := 1, tap_col := 0, spine_col := -1, spine_row := -1 }),
        (1, { quad := 1, tap_dir := 1, tap_col := 0, spine_col := 7, spine_row := 5 })]),
   (1, [(0, { quad := 2, tap_dir := 1, tap_col := 0, spine_col := -1, spine_row := -1 }),
        (1, { quad := 3, tap_dir := 1, tap_col := 0, spine_col := 7, spine_row := 5 })])]

/-- The global variables of the sample input after `process_loc_globals` has
run on `quad_chip`. -/
def quad_globals : Globals :=
  { sample_globals with globalInfos := quad_globalInfos }

/-- The records of `process_loc_globals` for `wide_chip`. -/
def wide_globalInfos : List (Int × List (Int × GlobalInfo)) :=
  [(0, [(0, { quad := 0, tap_dir := 1, tap_col := 0, spine_col := -1, spine_row := -1 }),
        (1, { quad := 1, tap_dir := 1, tap_col := 0, spine_col := 7, spine_row := 5 })])]

/-- The global variables of the sample input after `process_loc_globals` has
run on `wide_chip`. -/
def wide_globals : Globals :=
  { sample_globals with globalInfos := wide_globalInfos, max_row := 0, max_col := 1 }

/-- A database whose location type has the bels `SLICEA` and `PIOA`. -/
def pio_ddrg : DedupChipdb :=
  { locationTypes :=
      [((7, 9),
        { wires := [],
          arcs := [],
          bels := [{ name := 2, type := 3, z := 0, wires := [] },
                   { name := 9, type := 3, z := 1, wires := [] }] })],
    typeAtLocation := fun _ => (7, 9),
    to_str := sample_to_str }

/-- An I/O database with one package of two pins: the pin `A1` of the bel
`PIOA` and the pin `B2` of the bel `PIOB`, which `pio_ddrg` does not have. -/
def sample_iodb : IoDb :=
  { packages :=
      [("CABGA256".toList,
        [("A1".toList, { col := 0, row := 1, pio := "A".toList }),
         ("B2".toList, { col := 1, row := 1, pio := "B".toList })])],
    pio_metadata :=
      [{ col := 0, row := 1, pio := "A".toList, bank := 3, function := none }] }

/-- The sample chip with tiles of the type `CIB`, while the arc of the sample
database is of the tile type `PLC2`. -/
def cib_chip : TrellisChip :=
  { sample_chip with
    get_tiles_by_position := fun _ _ => [{ name := "TILE".toList, type := "CIB".toList }] }

/-- An `IOPath` entry from `RAD0` to `F0` with the rising delays 100, 110, 120
and the falling delays 90, 100, 130. -/
def sample_iopath : TimingEntry :=
  { type := "IOPath".toList, from_pin := "RAD0".toList, to_pin := "F0".toList,
    rising := (100, 110, 120), falling := (90, 100, 130),
    pin := [], clock := [], setup := (0, 0, 0), hold := (0, 0, 0) }

/-- An identifier table that holds the pins `D0` and `F0` and the numerals
`90` and `120`. -/
def numeral_constids : StrIntMap :=
  [("D0".toList, 1), ("F0".toList, 2), ("90".toList, 7), ("120".toList, 8)]


/-- The timing files of two speed grades: for the grade `6` the cells of
`sample_cells` and the classes `f_to_a` and `a_to_f`, for the grade `7` the
same cells, the class `a_to_f` and a class `x_to_y` that the grade `6` does not
list; no file for the other grades. -/
def graded_files (grade : Str) : GradeFiles :=
  if grade = "6".toList then
    { cells := some sample_cells,
      interconnect := some [⟨"f_to_a".toList, (100, 110, 120), (1, 2, 3)⟩,
                            ⟨"a_to_f".toList, (200, 210, 220), (4, 5, 6)⟩] }
  else if grade = "7".toList then
    { cells := some sample_cells,
      interconnect := some [⟨"a_to_f".toList, (300, 310, 320), (7, 8, 9)⟩,
                            ⟨"x_to_y".toList, (10, 20, 30), (1, 1, 1)⟩] }
  else
    { cells := none, interconnect := none }

/-- The timing files of `graded_files` without the file `cells.json` of the
grade `6`: the interconnect data of the grade `6` lists `f_to_a` and
`a_to_f`, and both files of the grade `7` open. -/
def headless_files (grade : Str) : GradeFiles :=
  if grade = "6".toList then
    { cells := none, interconnect := (graded_files grade).interconnect }
  else
    graded_files grade
/-! ## Lemmas on the string helpers and on `split` -/

theorem is_digit_mem (c : Char) (h : is_digit c = true) :
    c ∈ ['0', '1', '2', '3', '4', '5', '6', '7', '8', '9'] := by
  simp only [is_digit, Bool.and_eq_true, decide_eq_true_eq] at h
  obtain ⟨h1, h2⟩ := h
  have h1' : 48 ≤ c.toNat := h1
  have h2' : c.toNat ≤ 57 := h2
  have hc : c = Char.ofNat c.toNat := by simp
  rw [hc]
  generalize c.toNat = n at *
  interval_cases n <;> decide

theorem compare_eq_iff (s e : Str) :
    compare_eq s 0 e.length e = true ↔ e <+: s := by
  simp only [compare_eq, List.drop_zero, decide_eq_true_eq]
  constructor
  · intro h
    rw [← h]
    exact List.take_prefix _ _
  · intro h
    exact List.prefix_iff_eq_take.mp h ▸ rfl

theorem endsWith_iff (s e : Str) : endsWith s e = true ↔ e <:+ s := by
  unfold endsWith
  split
  · rename_i hlen
    simp only [compare_eq, decide_eq_true_eq]
    constructor
    · intro h
      have hl : (List.drop (s.length - e.length) s).length = e.length := by
        simp; omega
      rw [List.take_of_length_le (le_of_eq hl)] at h
      rw [← h]
      exact List.drop_suffix _ _
    · intro h
      obtain ⟨t, rfl⟩ := h
      simp
  · rename_i hlen
    simp only [Bool.false_eq_true, false_iff]
    intro h
    exact hlen (h.length_le)

theorem find_isSome_iff (s pat : Str) : (find s pat).isSome = true ↔ pat <:+: s := by
  induction s with
  | nil =>
    simp only [find]
    split <;> simp_all
  | cons c s ih =>
    simp only [find]
    split
    · rename_i h
      simp only [Option.isSome_some, true_iff]
      exact (List.isPrefixOf_iff_prefix.mp h).isInfix
    · rename_i h
      simp only [Option.isSome_map']
      rw [ih]
      constructor
      · intro hi
        exact hi.trans (List.suffix_cons c s).isInfix
      · intro hi
        rcases List.infix_cons_iff.mp hi with hp | hi'
        · exact absurd (List.isPrefixOf_iff_prefix.mpr hp) h
        · exact hi'

theorem found_iff (s pat : Str) : found s pat = true ↔ pat <:+: s :=
  find_isSome_iff s pat

theorem splitLoop_inToken (w : Str) :
    ∀ (L : Str) (it p : Nat) (res : List StringRef), '_' ∉ L →
      splitLoop '_' 1 (L ++ '_' :: w) it State.inToken p 0 res
        = (res ++ [⟨p, it + L.length - p⟩], State.inToken, it + L.length + 1) := by
  intro L
  induction L with
  | nil =>
    intro it p res _
    simp [splitLoop]
  | cons c L ih =>
    intro it p res hc
    have hc1 : c ≠ '_' := fun h => hc (by simp [h])
    have hc2 : '_' ∉ L := fun h => hc (by simp [h])
    simp only [List.cons_append, splitLoop, hc1, if_false, ne_eq, not_true_eq_false, List.append_eq]
    rw [ih (it + 1) p res hc2]
    simp only [List.length_cons]
    have e1 : it + 1 + L.length = it + (L.length + 1) := by omega
    rw [e1]

theorem split_loc_base (L w : Str) (hL : L ≠ []) (hu : '_' ∉ L) :
    split (L ++ '_' :: w) '_' 1 = [⟨0, L.length⟩, ⟨L.length + 1, w.length⟩] := by
  cases L with
  | nil => exact absurd rfl hL
  | cons c L =>
    have hc1 : c ≠ '_' := fun h => hu (by simp [h])
    have hc2 : '_' ∉ L := fun h => hu (by simp [h])
    simp only [split, List.cons_append, splitLoop, hc1, if_false, ne_eq, List.append_eq]
    simp only [reduceCtorEq, not_false_eq_true, if_true, if_false]
    rw [splitLoop_inToken w L (0 + 1) 0 [] hc2]
    simp only [if_true, List.nil_append, List.length_cons, List.length_append]
    simp
    constructor <;> omega

theorem get_pip_class_name_wf (rc : RowColDecoder) (L1 b1 L2 b2 : Str)
    (hL1 : L1 ≠ []) (hu1 : '_' ∉ L1) (hL2 : L2 ≠ []) (hu2 : '_' ∉ L2) :
    get_pip_class_name rc (L1 ++ '_' :: b1) (L2 ++ '_' :: b2)
      = some (classify rc L1 b1 L2 b2) := by
  have d1 : ∀ (L b : Str), List.take L.length (L ++ '_' :: b) = L := by
    intro L b; simp
  have d2 : ∀ (L b : Str), List.take b.length (List.drop (L.length + 1) (L ++ '_' :: b)) = b := by
    intro L b
    have : List.drop (L.length + 1) (L ++ '_' :: b) = b := by
      rw [← List.drop_drop]; simp
    rw [this]; simp
  simp only [get_pip_class_name, split_loc_base L1 b1 hL1 hu1, split_loc_base L2 b2 hL2 hu2,
    StringRef.str]
  simp [d1, d2]

/-! ## The classifier: tests one to five and the logic-cell shapes -/

theorem compare_eq_iff_len (s e : Str) (n : Nat) (hn : e.length = n) :
    compare_eq s 0 n e = true ↔ e <+: s := by
  subst hn
  exact compare_eq_iff s e

theorem is_denorm_iff (b : Str) : is_denorm b = true ↔ Denormalized b := by
  have p1 := compare_eq_iff_len b "H06".toList 3 rfl
  have p2 := compare_eq_iff_len b "V06".toList 3 rfl
  have p3 := compare_eq_iff_len b "H02".toList 3 rfl
  have p4 := compare_eq_iff_len b "V02".toList 3 rfl
  have s1 := endsWith_iff b "03".toList
  have s2 := endsWith_iff b "01".toList
  unfold is_denorm Denormalized
  rw [← p1, ← p2, ← p3, ← p4, ← s1, ← s2]
  cases compare_eq b 0 3 "H06".toList <;> cases compare_eq b 0 3 "V06".toList <;>
    cases compare_eq b 0 3 "H02".toList <;> cases compare_eq b 0 3 "V02".toList <;>
    cases endsWith b "03".toList <;> cases endsWith b "01".toList <;> simp

/-- Claim C1.  For wire names `L1_b1` and `L2_b2` whose location tokens are
non-empty and free of `_`: when the source base name or the sink base name is
denormalized (begins with `H06` or `V06` and does not end in `03`, or begins
with `H02` or `V02` and does not end in `01`), `get_pip_class_name` returns the
empty class, whatever the other base name is. -/
theorem C1_denormalized_wire_gives_empty_class (rc : RowColDecoder) (L1 b1 L2 b2 : Str)
    (hL1 : L1 ≠ []) (hu1 : '_' ∉ L1) (hL2 : L2 ≠ []) (hu2 : '_' ∉ L2)
    (hden : Denormalized b1 ∨ Denormalized b2) :
    get_pip_class_name rc (L1 ++ '_' :: b1) (L2 ++ '_' :: b2) = some [] := by
  rw [get_pip_class_name_wf rc L1 b1 L2 b2 hL1 hu1 hL2 hu2]
  have h : (is_denorm b1 || is_denorm b2) = true := by
    rw [Bool.or_eq_true, is_denorm_iff, is_denorm_iff]
    exact hden
  simp only [classify, h, if_true]

theorem C1_witness :
    (Denormalized "H06_0100".toList ∨ Denormalized "FOO_SLICE".toList) ∧
    get_pip_class_name sampleDecoder ("R1C1".toList ++ '_' :: "H06_0100".toList)
      ("R7C9".toList ++ '_' :: "FOO_SLICE".toList) = some [] :=
  ⟨by decide, C1_denormalized_wire_gives_empty_class sampleDecoder "R1C1".toList
    "H06_0100".toList "R7C9".toList "FOO_SLICE".toList (by decide) (by decide) (by decide)
    (by decide) (by decide)⟩


set_option maxRecDepth 100000 in
theorem sinkFacts_of_shape (sk : Str) (h : LcInputShape sk) : SinkFacts sk := by
  have h1 : ∀ j ∈ [[], ['J']], ∀ m ∈ "ABCDM".toList, ∀ d ∈ decimalDigits,
      SinkFacts (j ++ [m, d]) := by decide
  have h2 : ∀ m ∈ ["CLK", "LSR", "CE"].map String.toList, ∀ d ∈ decimalDigits,
      SinkFacts (m ++ [d]) := by decide
  rcases h with ⟨j, hj, m, hm, d, hd, rfl⟩ | ⟨m, hm, d, hd, rfl⟩
  · exact h1 j hj m hm d hd
  · exact h2 m hm d hd

set_option maxRecDepth 100000 in
theorem sourceFacts_of_shape (sb : Str) (h : LcOutputShape sb) : SourceFacts sb := by
  have h1 : ∀ j ∈ [[], ['J']], ∀ o ∈ "FQ".toList, ∀ d ∈ decimalDigits,
      SourceFacts (j ++ [o, d]) := by decide
  obtain ⟨j, hj, o, ho, d, hd, rfl⟩ := h
  exact h1 j hj o ho d hd

theorem classify_lc_output_to_input (rc : RowColDecoder) (l1 sb l2 sk : Str)
    (hs : LcOutputShape sb) (hk : LcInputShape sk) :
    classify rc l1 sb l2 sk
      = lower (pop_back sb) ++ "_to_".toList ++ lower (pop_back sk) := by
  obtain ⟨a1, a2, a3, a4, a5, a6, a7, a8⟩ := sourceFacts_of_shape sb hs
  obtain ⟨b1, b2, b3, b4, b5, b6, b7, b8⟩ := sinkFacts_of_shape sk hk
  simp only [classify, a1, a2, a3, a4, a5, a6, a7, a8, b1, b2, b3, b4, b5, b6, b7, b8,
    Bool.or_self, Bool.false_eq_true, if_false, if_true]

theorem endsWith_false (s e : Str) (h : ¬ e <:+ s) : endsWith s e = false := by
  rw [← Bool.not_eq_true, endsWith_iff]; exact h

theorem found_false (s pat : Str) (h : ¬ pat <:+: s) : found s pat = false := by
  rw [← Bool.not_eq_true, found_iff]; exact h

theorem found_true (s pat : Str) (h : pat <:+: s) : found s pat = true :=
  (found_iff s pat).mpr h

theorem is_denorm_false (b : Str) (h : ¬ Denormalized b) : is_denorm b = false := by
  rw [← Bool.not_eq_true, is_denorm_iff]; exact h

theorem compare_eq_false (s e : Str) (n : Nat) (hn : e.length = n) (h : ¬ e <+: s) :
    compare_eq s 0 n e = false := by
  rw [← Bool.not_eq_true, compare_eq_iff_len s e n hn]; exact h

theorem mem_decimalDigits (c : Char) (h : is_digit c = true) : c ∈ decimalDigits :=
  is_digit_mem c h

/-- Claim C2 fails as stated.  The sink base `JCE1` is an optional `J`, then
`CE`, then a digit, and the source base `JQ3` has the output shape; none of
the first five tests applies; yet the classifier returns the empty class and
not `jq_to_jce`, because the pattern `(J?[ABCDM]|CLK|LSR|CE)\d` admits the `J`
before `A`, `B`, `C`, `D`, `M` only. -/
theorem C2_counterexample :
    NoEarlyRule "JQ3".toList "JCE1".toList ∧
    LcOutputShape "JQ3".toList ∧ SpecLcInputShape "JCE1".toList ∧
    lower (pop_back "JQ3".toList) ++ "_to_".toList ++ lower (pop_back "JCE1".toList)
      = "jq_to_jce".toList ∧
    get_pip_class_name sampleDecoder "R1C1_JQ3".toList "R1C1_JCE1".toList = some [] ∧
    get_pip_class_name sampleDecoder "R1C1_JQ3".toList "R1C1_JCE1".toList
      ≠ some "jq_to_jce".toList := by
  decide

/-- Claim C2, amended.  When the sink base name is an optional `J` followed by
one of `A`, `B`, `C`, `D`, `M` and a decimal digit, or one of `CLK`, `LSR`,
`CE` (without `J`) and a decimal digit, and the source base name is an optional
`J`, then `F` or `Q`, then a decimal digit, `get_pip_class_name` returns the
lowercased source base name without its last character, then `_to_`, then the
lowercased sink base name without its last character, for all location tokens.
None of the first five tests can apply to such names, so the statement needs
no hypothesis about them. -/
theorem C2_lc_output_to_lc_input (rc : RowColDecoder) (L1 sb L2 sk : Str)
    (hL1 : L1 ≠ []) (hu1 : '_' ∉ L1) (hL2 : L2 ≠ []) (hu2 : '_' ∉ L2)
    (hs : LcOutputShape sb) (hk : LcInputShape sk) :
    get_pip_class_name rc (L1 ++ '_' :: sb) (L2 ++ '_' :: sk)
      = some (lower (pop_back sb) ++ "_to_".toList ++ lower (pop_back sk)) := by
  rw [get_pip_class_name_wf rc L1 sb L2 sk hL1 hu1 hL2 hu2,
    classify_lc_output_to_input rc L1 sb L2 sk hs hk]

theorem C2_witness :
    (LcOutputShape "JQ3".toList ∧ LcInputShape "CE1".toList) ∧
    get_pip_class_name sampleDecoder ("R1C1".toList ++ '_' :: "JQ3".toList)
      ("R4C2".toList ++ '_' :: "CE1".toList) = some "jq_to_ce".toList :=
  ⟨by decide,
    C2_lc_output_to_lc_input sampleDecoder "R1C1".toList "JQ3".toList "R4C2".toList
      "CE1".toList (by decide) (by decide) (by decide) (by decide) (by decide) (by decide)⟩

/-- Claim C3.  For all location tokens `L1`, `L2` (non-empty, free of `_`) and
all decimal digits `d`, `e`, `get_pip_class_name` applied to the source
`L1_F<d>` and the sink `L2_A<e>` returns exactly `f_to_a`. -/
theorem C3_f_to_a (rc : RowColDecoder) (L1 L2 : Str) (d e : Char)
    (hL1 : L1 ≠ []) (hu1 : '_' ∉ L1) (hL2 : L2 ≠ []) (hu2 : '_' ∉ L2)
    (hd : is_digit d = true) (he : is_digit e = true) :
    get_pip_class_name rc (L1 ++ "_F".toList ++ [d]) (L2 ++ "_A".toList ++ [e])
      = some "f_to_a".toList := by
  have e1 : L1 ++ "_F".toList ++ [d] = L1 ++ '_' :: ['F', d] := by simp
  have e2 : L2 ++ "_A".toList ++ [e] = L2 ++ '_' :: ['A', e] := by simp
  have hs : LcOutputShape ['F', d] :=
    ⟨[], by simp, 'F', by decide, d, mem_decimalDigits d hd, rfl⟩
  have hk : LcInputShape ['A', e] :=
    Or.inl ⟨[], by simp, 'A', by decide, e, mem_decimalDigits e he, rfl⟩
  rw [e1, e2, get_pip_class_name_wf rc L1 _ L2 _ hL1 hu1 hL2 hu2,
    classify_lc_output_to_input rc L1 _ L2 _ hs hk]
  rfl

theorem C3_witness :
    get_pip_class_name sampleDecoder ("R1C1".toList ++ "_F".toList ++ ['0'])
      ("R1C1".toList ++ "_A".toList ++ ['0']) = some "f_to_a".toList :=
  C3_f_to_a sampleDecoder "R1C1".toList "R1C1".toList '0' '0' (by decide) (by decide)
    (by decide) (by decide) (by decide) (by decide)

/-- Claim C4 fails as stated.  For the source `R1C1_LSR0` and the sink
`R1C1_MUXLSR` neither base name is denormalized and the sink base name starts
with `MUX`, yet the classifier returns `lsr_to_muxlsr` and not
`slice_internal`: the `MUX` test is made on the source base name only. -/
theorem C4_counterexample :
    ¬ Denormalized "LSR0".toList ∧ ¬ Denormalized "MUXLSR".toList ∧
    "MUX".toList <+: "MUXLSR".toList ∧
    get_pip_class_name sampleDecoder "R1C1_LSR0".toList "R1C1_MUXLSR".toList
      = some "lsr_to_muxlsr".toList ∧
    get_pip_class_name sampleDecoder "R1C1_LSR0".toList "R1C1_MUXLSR".toList
      ≠ some "slice_internal".toList := by
  decide

/-- Claim C4, amended.  For wire names in which neither base name is
denormalized: when the source base name ends in `_SLICE` or starts with `MUX`,
or the sink base name ends in `_SLICE`, `get_pip_class_name` returns
`slice_internal`. -/
theorem C4_slice_internal (rc : RowColDecoder) (L1 sb L2 sk : Str)
    (hL1 : L1 ≠ []) (hu1 : '_' ∉ L1) (hL2 : L2 ≠ []) (hu2 : '_' ∉ L2)
    (hd1 : ¬ Denormalized sb) (hd2 : ¬ Denormalized sk)
    (h : "_SLICE".toList <:+ sb ∨ "MUX".toList <+: sb ∨ "_SLICE".toList <:+ sk) :
    get_pip_class_name rc (L1 ++ '_' :: sb) (L2 ++ '_' :: sk)
      = some "slice_internal".toList := by
  rw [get_pip_class_name_wf rc L1 sb L2 sk hL1 hu1 hL2 hu2]
  have h1 : (is_denorm sb || is_denorm sk) = false := by
    rw [is_denorm_false sb hd1, is_denorm_false sk hd2]; rfl
  have h2 : (endsWith sb "_SLICE".toList || compare_eq sb 0 3 "MUX".toList
      || endsWith sk "_SLICE".toList) = true := by
    rw [Bool.or_eq_true, Bool.or_eq_true, endsWith_iff, endsWith_iff,
      compare_eq_iff_len sb "MUX".toList 3 rfl]
    tauto
  simp only [classify, h1, h2, Bool.false_eq_true, if_false, if_true]

theorem C4_witness :
    (¬ Denormalized "MUXCLK0".toList ∧ ¬ Denormalized "CLK0_SLICE".toList ∧
      ("_SLICE".toList <:+ "MUXCLK0".toList ∨ "MUX".toList <+: "MUXCLK0".toList ∨
        "_SLICE".toList <:+ "CLK0_SLICE".toList)) ∧
    get_pip_class_name sampleDecoder ("R2C2".toList ++ '_' :: "MUXCLK0".toList)
      ("R2C2".toList ++ '_' :: "CLK0_SLICE".toList) = some "slice_internal".toList :=
  ⟨by decide, C4_slice_internal sampleDecoder "R2C2".toList "MUXCLK0".toList "R2C2".toList
    "CLK0_SLICE".toList (by decide) (by decide) (by decide) (by decide) (by decide)
    (by decide) (by decide)⟩

/-- Claim C5 fails as stated.  For the source `R2C3_PRADD0` and the sink
`R2C3_A0` none of the tests for a denormalized wire, `slice_internal`,
`ebr_internal` or `TEST` applies and the source base name contains `PRADD`, yet
the classifier returns the empty class and not `dsp_internal`: `PRADD` is looked
for in the sink base name only. -/
theorem C5_counterexample :
    ¬ Denormalized "PRADD0".toList ∧ ¬ Denormalized "A0".toList ∧
    ¬ "_SLICE".toList <:+ "PRADD0".toList ∧ ¬ "_SLICE".toList <:+ "A0".toList ∧
    ¬ "MUX".toList <+: "PRADD0".toList ∧ ¬ "MUX".toList <+: "A0".toList ∧
    ¬ "_EBR".toList <:+ "PRADD0".toList ∧ ¬ "_EBR".toList <:+ "A0".toList ∧
    ¬ "TEST".toList <:+: "PRADD0".toList ∧ ¬ "TEST".toList <:+: "A0".toList ∧
    "PRADD".toList <:+: "PRADD0".toList ∧
    get_pip_class_name sampleDecoder "R2C3_PRADD0".toList "R2C3_A0".toList = some [] ∧
    get_pip_class_name sampleDecoder "R2C3_PRADD0".toList "R2C3_A0".toList
      ≠ some "dsp_internal".toList := by
  decide

/-- Claim C5, amended.  For wire names to which none of the first four tests
applies (neither base name denormalized, source not ending in `_SLICE` nor
starting with `MUX`, sink not ending in `_SLICE`, neither ending in `_EBR`,
neither containing `TEST`): when the source or the sink base name contains `ALU`
or `MULT`, or the sink base name contains `PRADD`, `get_pip_class_name` returns
`dsp_internal`. -/
theorem C5_dsp_internal (rc : RowColDecoder) (L1 sb L2 sk : Str)
    (hL1 : L1 ≠ []) (hu1 : '_' ∉ L1) (hL2 : L2 ≠ []) (hu2 : '_' ∉ L2)
    (hd1 : ¬ Denormalized sb) (hd2 : ¬ Denormalized sk)
    (hs1 : ¬ "_SLICE".toList <:+ sb) (hm : ¬ "MUX".toList <+: sb)
    (hs2 : ¬ "_SLICE".toList <:+ sk)
    (he1 : ¬ "_EBR".toList <:+ sb) (he2 : ¬ "_EBR".toList <:+ sk)
    (ht1 : ¬ "TEST".toList <:+: sb) (ht2 : ¬ "TEST".toList <:+: sk)
    (h : "ALU".toList <:+: sb ∨ "ALU".toList <:+: sk ∨ "MULT".toList <:+: sb ∨
      "MULT".toList <:+: sk ∨ "PRADD".toList <:+: sk) :
    get_pip_class_name rc (L1 ++ '_' :: sb) (L2 ++ '_' :: sk)
      = some "dsp_internal".toList := by
  rw [get_pip_class_name_wf rc L1 sb L2 sk hL1 hu1 hL2 hu2]
  have h5 : (found sk "ALU".toList || found sb "ALU".toList
      || found sk "MULT".toList || found sb "MULT".toList
      || found sk "PRADD".toList) = true := by
    simp only [Bool.or_eq_true, found_iff]
    tauto
  simp only [classify, is_denorm_false sb hd1, is_denorm_false sk hd2,
    endsWith_false sb _ hs1, endsWith_false sk _ hs2, endsWith_false sb _ he1,
    endsWith_false sk _ he2, compare_eq_false sb "MUX".toList 3 rfl hm,
    found_false sb _ ht1, found_false sk _ ht2, h5,
    Bool.or_self, Bool.false_eq_true, if_false, if_true]

theorem C5_witness :
    (¬ Denormalized "ALU0".toList ∧ ¬ Denormalized "A0".toList ∧
      ¬ "_SLICE".toList <:+ "ALU0".toList ∧ ¬ "MUX".toList <+: "ALU0".toList ∧
      ¬ "_SLICE".toList <:+ "A0".toList ∧
      ¬ "_EBR".toList <:+ "ALU0".toList ∧ ¬ "_EBR".toList <:+ "A0".toList ∧
      ¬ "TEST".toList <:+: "ALU0".toList ∧ ¬ "TEST".toList <:+: "A0".toList ∧
      ("ALU".toList <:+: "ALU0".toList ∨ "ALU".toList <:+: "A0".toList ∨
        "MULT".toList <:+: "ALU0".toList ∨ "MULT".toList <:+: "A0".toList ∨
        "PRADD".toList <:+: "A0".toList)) ∧
    get_pip_class_name sampleDecoder ("R2C3".toList ++ '_' :: "ALU0".toList)
      ("R2C3".toList ++ '_' :: "A0".toList) = some "dsp_internal".toList :=
  ⟨by decide, C5_dsp_internal sampleDecoder "R2C3".toList "ALU0".toList "R2C3".toList
    "A0".toList (by decide) (by decide) (by decide) (by decide) (by decide) (by decide)
    (by decide) (by decide) (by decide) (by decide) (by decide) (by decide) (by decide)
    (by decide)⟩

theorem regex_input_muxlsr (rest : Str) :
    regex_match ("MUXLSR".toList ++ rest) lc_input_re = false := by
  simp [regex_match, lc_input_re, Regex.run, Regex.lit]

theorem get_span_M (rest : Str) : get_span ('M' :: rest) = [] := by
  simp [get_span, compare_eq]

/-- Claim C6.  For wire names whose source base name starts with `LSR` and
whose sink base name starts with `MUXLSR`, where neither base name ends in
`_SLICE` or `_EBR` and neither contains `TEST`, `ALU`, `MULT` or `PRADD`,
`get_pip_class_name` returns `lsr_to_muxlsr`, for all location tokens. -/
theorem C6_lsr_to_muxlsr (rc : RowColDecoder) (L1 sb L2 sk : Str)
    (hL1 : L1 ≠ []) (hu1 : '_' ∉ L1) (hL2 : L2 ≠ []) (hu2 : '_' ∉ L2)
    (hsrc : "LSR".toList <+: sb) (hsnk : "MUXLSR".toList <+: sk)
    (hs1 : ¬ "_SLICE".toList <:+ sb) (hs2 : ¬ "_SLICE".toList <:+ sk)
    (he1 : ¬ "_EBR".toList <:+ sb) (he2 : ¬ "_EBR".toList <:+ sk)
    (ht1 : ¬ "TEST".toList <:+: sb) (ht2 : ¬ "TEST".toList <:+: sk)
    (ha1 : ¬ "ALU".toList <:+: sb) (ha2 : ¬ "ALU".toList <:+: sk)
    (hm1 : ¬ "MULT".toList <:+: sb) (hm2 : ¬ "MULT".toList <:+: sk)
    (_hp1 : ¬ "PRADD".toList <:+: sb) (hp2 : ¬ "PRADD".toList <:+: sk) :
    get_pip_class_name rc (L1 ++ '_' :: sb) (L2 ++ '_' :: sk)
      = some "lsr_to_muxlsr".toList := by
  rw [get_pip_class_name_wf rc L1 sb L2 sk hL1 hu1 hL2 hu2]
  have c1 := (compare_eq_iff_len sb "LSR".toList 3 rfl).mpr hsrc
  have c2 := (compare_eq_iff_len sk "MUXLSR".toList 6 rfl).mpr hsnk
  obtain ⟨r1, rfl⟩ := hsrc
  obtain ⟨r2, rfl⟩ := hsnk
  have d1 : is_denorm ("LSR".toList ++ r1) = false := by
    simp [is_denorm, compare_eq]
  have d2 : is_denorm ("MUXLSR".toList ++ r2) = false := by
    simp [is_denorm, compare_eq]
  have m1 : compare_eq ("LSR".toList ++ r1) 0 3 "MUX".toList = false := by
    simp [compare_eq]
  have g : get_span ("MUXLSR".toList ++ r2) = [] := get_span_M _
  simp only [classify, d1, d2, m1, endsWith_false _ _ hs1, endsWith_false _ _ hs2,
    endsWith_false _ _ he1, endsWith_false _ _ he2, found_false _ _ ht1, found_false _ _ ht2,
    found_false _ _ ha1, found_false _ _ ha2, found_false _ _ hm1, found_false _ _ hm2,
    found_false _ _ hp2, regex_input_muxlsr r2, g, c1, c2,
    Bool.or_self, Bool.and_self, Bool.false_eq_true, if_false, if_true, ne_eq, not_true_eq_false]

theorem C6_witness :
    ("LSR".toList <+: "LSR0".toList ∧ "MUXLSR".toList <+: "MUXLSR".toList) ∧
    get_pip_class_name sampleDecoder ("R1C1".toList ++ '_' :: "LSR0".toList)
      ("R1C1".toList ++ '_' :: "MUXLSR".toList) = some "lsr_to_muxlsr".toList :=
  ⟨by decide, C6_lsr_to_muxlsr sampleDecoder "R1C1".toList "LSR0".toList "R1C1".toList
    "MUXLSR".toList (by decide) (by decide) (by decide) (by decide) (by decide) (by decide)
    (by decide) (by decide) (by decide) (by decide) (by decide) (by decide) (by decide)
    (by decide) (by decide) (by decide) (by decide) (by decide)⟩

/-! ## The classifier: span names -/

theorem is_digit_iff (c : Char) : is_digit c = true ↔ c ∈ decimalDigits := by
  constructor
  · exact mem_decimalDigits c
  · have h : ∀ d ∈ decimalDigits, is_digit d = true := by decide
    exact h c

theorem spanPrefix_cons (a d1 d2 : Char) (rest : Str) :
    SpanPrefix (a :: d1 :: d2 :: rest)
      ↔ (a = 'H' ∨ a = 'V') ∧ is_digit d1 = true ∧ is_digit d2 = true := by
  rw [is_digit_iff, is_digit_iff]
  unfold SpanPrefix
  constructor
  · rintro ⟨a', ha, e1, h1, e2, h2, hp⟩
    have hp2 : [a', e1, e2] = [a, d1, d2] := by
      have := List.prefix_iff_eq_take.mp hp
      simpa using this
    simp only [List.cons.injEq, and_true] at hp2
    obtain ⟨rfl, rfl, rfl⟩ := hp2
    refine ⟨?_, h1, h2⟩
    simpa using ha
  · rintro ⟨ha, h1, h2⟩
    refine ⟨a, ?_, d1, h1, d2, h2, ?_⟩
    · rcases ha with rfl | rfl <;> decide
    · exact ⟨rest, rfl⟩

theorem not_spanPrefix_short (b : Str) (h : b.length < 3) : ¬ SpanPrefix b := by
  rintro ⟨a, _, d1, _, d2, _, hp⟩
  have := hp.length_le
  simp at this
  omega

theorem get_span_eq (b : Str) : get_span b = if SpanPrefix b then spanName b else [] := by
  match b with
  | [] => rw [if_neg (not_spanPrefix_short _ (by simp))]; rfl
  | [a] =>
    rw [if_neg (not_spanPrefix_short _ (by simp))]
    have : is_digit (charAt [a] 1) = false := rfl
    simp [get_span, this]
  | [a, d1] =>
    rw [if_neg (not_spanPrefix_short _ (by simp))]
    have : is_digit (charAt [a, d1] 2) = false := rfl
    simp [get_span, this]
  | [a, d1, d2] =>
    by_cases h : SpanPrefix [a, d1, d2]
    · rw [if_pos h]
      obtain ⟨ha, h1, h2⟩ := (spanPrefix_cons a d1 d2 []).mp h
      have hc : (compare_eq [a, d1, d2] 0 1 "H".toList || compare_eq [a, d1, d2] 0 1 "V".toList)
          = true := by
        rcases ha with rfl | rfl <;> simp [compare_eq]
      have e1 : charAt [a, d1, d2] 1 = d1 := rfl
      have e2 : charAt [a, d1, d2] 2 = d2 := rfl
      simp only [get_span, hc, e1, e2, h1, h2, Bool.and_self, if_true]
      rfl
    · rw [if_neg h]
      have hn := (not_congr (spanPrefix_cons a d1 d2 [])).mp h
      have e1 : charAt [a, d1, d2] 1 = d1 := rfl
      have e2 : charAt [a, d1, d2] 2 = d2 := rfl
      unfold get_span
      rw [if_neg]
      rw [e1, e2]
      intro hc
      apply hn
      simp only [Bool.and_eq_true, Bool.or_eq_true, compare_eq, decide_eq_true_eq] at hc
      obtain ⟨⟨ha, h1⟩, h2⟩ := hc
      refine ⟨?_, h1, h2⟩
      simpa using ha
  | a :: d1 :: d2 :: l :: rest =>
    by_cases h : SpanPrefix (a :: d1 :: d2 :: l :: rest)
    · rw [if_pos h]
      obtain ⟨ha, h1, h2⟩ := (spanPrefix_cons a d1 d2 (l :: rest)).mp h
      have hc : (compare_eq (a :: d1 :: d2 :: l :: rest) 0 1 "H".toList
          || compare_eq (a :: d1 :: d2 :: l :: rest) 0 1 "V".toList) = true := by
        rcases ha with rfl | rfl <;> simp [compare_eq]
      have e1 : charAt (a :: d1 :: d2 :: l :: rest) 1 = d1 := rfl
      have e2 : charAt (a :: d1 :: d2 :: l :: rest) 2 = d2 := rfl
      simp only [get_span, hc, e1, e2, h1, h2, Bool.and_self, if_true]
      rfl
    · rw [if_neg h]
      have hn := (not_congr (spanPrefix_cons a d1 d2 (l :: rest))).mp h
      have e1 : charAt (a :: d1 :: d2 :: l :: rest) 1 = d1 := rfl
      have e2 : charAt (a :: d1 :: d2 :: l :: rest) 2 = d2 := rfl
      unfold get_span
      rw [if_neg]
      rw [e1, e2]
      intro hc
      apply hn
      simp only [Bool.and_eq_true, Bool.or_eq_true, compare_eq, decide_eq_true_eq] at hc
      obtain ⟨⟨ha, h1⟩, h2⟩ := hc
      refine ⟨?_, h1, h2⟩
      simpa using ha

theorem spanName_ne_nil (b : Str) (h : SpanPrefix b) : spanName b ≠ [] := by
  match b with
  | [] => exact absurd h (not_spanPrefix_short _ (by simp))
  | [_] => exact absurd h (not_spanPrefix_short _ (by simp))
  | [_, _] => exact absurd h (not_spanPrefix_short _ (by simp))
  | [_, _, _] => simp [spanName]
  | _ :: _ :: _ :: _ :: _ => simp [spanName]

theorem get_span_ne_nil_iff (b : Str) : get_span b ≠ [] ↔ SpanPrefix b := by
  rw [get_span_eq]
  by_cases h : SpanPrefix b
  · simp [h, spanName_ne_nil b h]
  · simp [h]


theorem classify_lc_input (rc : RowColDecoder) (l1 sb l2 sk : Str)
    (hno : NoEarlyRule sb sk)
    (hin : regex_match sk lc_input_re = true) (hout : regex_match sb lc_output_re = false) :
    classify rc l1 sb l2 sk
      = if SpanPrefix sb then
          spanName sb ++ "_to_".toList ++ lower (pop_back sk) ++ format_rel rc l1 l2
        else if "HPBX".toList <:+: sb then "global_to_".toList ++ lower (pop_back sk)
        else [] := by
  obtain ⟨h1, h2, h3, h4, h5⟩ := hno
  simp only [classify, h1, h2, h3, h4, h5, hin, hout, Bool.false_eq_true, if_false, if_true]
  by_cases hsp : SpanPrefix sb
  · have hg : get_span sb = spanName sb := by rw [get_span_eq, if_pos hsp]
    rw [if_pos ((get_span_ne_nil_iff sb).mpr hsp), if_pos hsp, hg]
  · have hg : ¬ get_span sb ≠ [] := fun h => hsp ((get_span_ne_nil_iff sb).mp h)
    rw [if_neg hg, if_neg hsp]
    by_cases hh : "HPBX".toList <:+: sb
    · rw [if_pos hh, if_pos (found_true sb _ hh)]
    · rw [if_neg hh, found_false sb _ hh]
      rfl

theorem classify_span_sink (rc : RowColDecoder) (l1 sb l2 sk : Str)
    (hno : NoEarlyRule sb sk)
    (hin : regex_match sk lc_input_re = false) (hsk : SpanPrefix sk) :
    classify rc l1 sb l2 sk
      = if regex_match sb lc_output_re = true then
          lower (pop_back sb) ++ "_to_".toList ++ spanName sk ++ format_rel rc l1 l2
        else if SpanPrefix sb then
          spanName sb ++ "_to_".toList ++ spanName sk ++ format_rel rc l1 l2
        else if "HPBX".toList <:+: sb then "global_to_".toList ++ spanName sk
        else [] := by
  obtain ⟨h1, h2, h3, h4, h5⟩ := hno
  have hk : get_span sk = spanName sk := by rw [get_span_eq, if_pos hsk]
  have hkn : spanName sk ≠ [] := spanName_ne_nil sk hsk
  simp only [classify, h1, h2, h3, h4, h5, hin, hk, Bool.false_eq_true, if_false]
  rw [if_pos hkn]
  by_cases ho : regex_match sb lc_output_re = true
  · rw [if_pos ho, if_pos ho]
  · rw [if_neg ho, if_neg ho]
    by_cases hsp : SpanPrefix sb
    · have hg : get_span sb = spanName sb := by rw [get_span_eq, if_pos hsp]
      rw [if_pos ((get_span_ne_nil_iff sb).mpr hsp), if_pos hsp, hg]
    · have hg : ¬ get_span sb ≠ [] := fun h => hsp ((get_span_ne_nil_iff sb).mp h)
      rw [if_neg hg, if_neg hsp]
      by_cases hh : "HPBX".toList <:+: sb
      · rw [if_pos hh, if_pos (found_true sb _ hh)]
      · rw [if_neg hh, found_false sb _ hh]
        simp

/-- Claim C7 fails as stated.  For the source `R1C1_H01` and the sink `R1C1_A0`
none of the first five tests applies, the sink base name is accepted by the
input pattern, the source base name is not accepted by the output pattern, has
no direction letter (so it is not of span form) and does not contain `HPBX`; yet
the classifier does not return the empty class: `get_span` tests the first three
characters only and takes the NUL character as direction. -/
theorem C7_counterexample :
    NoEarlyRule "H01".toList "A0".toList ∧
    regex_match "A0".toList lc_input_re = true ∧
    regex_match "H01".toList lc_output_re = false ∧
    ¬ SpanForm "H01".toList ∧ ¬ "HPBX".toList <:+: "H01".toList ∧
    get_pip_class_name sampleDecoder "R1C1_H01".toList "R1C1_A0".toList
      = some ("span1h".toList ++ [Char.ofNat 0] ++ "_to_a".toList) ∧
    get_pip_class_name sampleDecoder "R1C1_H01".toList "R1C1_A0".toList ≠ some [] := by
  decide

/-- Claim C7, amended.  For wire names to which none of the first five tests
applies, whose sink base name is accepted by the input pattern and whose source
base name is not accepted by the output pattern: when the source base name
begins with `H` or `V` followed by two decimal digits (nothing further is
examined) the result is the source's span, then `_to_`, then the lowercased sink
base name without its last character, then `format_rel` of the source and the
sink location; otherwise, when the source base name contains `HPBX`, the result
is `global_to_` followed by the lowercased sink base name without its last
character; otherwise the result is empty.  The span is `span`, the second digit,
the lowercased first character and the lowercased fourth character (the NUL
character when there is none). -/
theorem C7_input_sink_class (rc : RowColDecoder) (L1 sb L2 sk : Str)
    (hL1 : L1 ≠ []) (hu1 : '_' ∉ L1) (hL2 : L2 ≠ []) (hu2 : '_' ∉ L2)
    (hno : NoEarlyRule sb sk)
    (hin : regex_match sk lc_input_re = true) (hout : regex_match sb lc_output_re = false) :
    get_pip_class_name rc (L1 ++ '_' :: sb) (L2 ++ '_' :: sk)
      = some (if SpanPrefix sb then
          spanName sb ++ "_to_".toList ++ lower (pop_back sk) ++ format_rel rc L1 L2
        else if "HPBX".toList <:+: sb then "global_to_".toList ++ lower (pop_back sk)
        else []) := by
  rw [get_pip_class_name_wf rc L1 sb L2 sk hL1 hu1 hL2 hu2,
    classify_lc_input rc L1 sb L2 sk hno hin hout]

theorem C7_witness :
    (NoEarlyRule "H02W0701".toList "A0".toList ∧
      regex_match "A0".toList lc_input_re = true ∧
      regex_match "H02W0701".toList lc_output_re = false) ∧
    get_pip_class_name sampleDecoder ("R1C1".toList ++ '_' :: "H02W0701".toList)
        ("R3C4".toList ++ '_' :: "A0".toList)
      = some "span2hw_to_a_s2e3".toList :=
  ⟨by decide, by
    have h := C7_input_sink_class sampleDecoder "R1C1".toList "H02W0701".toList
      "R3C4".toList "A0".toList (by decide) (by decide) (by decide) (by decide) (by decide)
      (by decide) (by decide)
    rw [h]
    decide⟩

/-- Claim C8 fails as stated.  For the source `R1C1_V01` and the sink
`R1C1_H02W0701` none of the first five tests applies, the sink base name is not
accepted by the input pattern and has span form, the source base name is not
accepted by the output pattern, has no direction letter (so it is not of span
form) and does not contain `HPBX`; yet the classifier does not return the empty
class. -/
theorem C8_counterexample :
    NoEarlyRule "V01".toList "H02W0701".toList ∧
    regex_match "H02W0701".toList lc_input_re = false ∧ SpanForm "H02W0701".toList ∧
    regex_match "V01".toList lc_output_re = false ∧
    ¬ SpanForm "V01".toList ∧ ¬ "HPBX".toList <:+: "V01".toList ∧
    get_pip_class_name sampleDecoder "R1C1_V01".toList "R1C1_H02W0701".toList
      = some ("span1v".toList ++ [Char.ofNat 0] ++ "_to_span2hw".toList) ∧
    get_pip_class_name sampleDecoder "R1C1_V01".toList "R1C1_H02W0701".toList ≠ some [] := by
  decide

/-- Claim C8, amended.  For wire names to which none of the first five tests
applies, whose sink base name is not accepted by the input pattern and begins
with `H` or `V` followed by two decimal digits: when the source base name is
accepted by the output pattern the result is the lowercased source base name
without its last character, `_to_`, the sink's span, then `format_rel` of the
source and the sink location; else when the source base name begins with `H` or
`V` followed by two decimal digits the result is the source's span, `_to_`, the
sink's span, then the same `format_rel`; else when the source base name contains
`HPBX` the result is `global_to_` followed by the sink's span; else (so also
when the source base name contains `BOUNCE`) the result is empty. -/
theorem C8_span_sink_class (rc : RowColDecoder) (L1 sb L2 sk : Str)
    (hL1 : L1 ≠ []) (hu1 : '_' ∉ L1) (hL2 : L2 ≠ []) (hu2 : '_' ∉ L2)
    (hno : NoEarlyRule sb sk)
    (hin : regex_match sk lc_input_re = false) (hsk : SpanPrefix sk) :
    get_pip_class_name rc (L1 ++ '_' :: sb) (L2 ++ '_' :: sk)
      = some (if regex_match sb lc_output_re = true then
          lower (pop_back sb) ++ "_to_".toList ++ spanName sk ++ format_rel rc L1 L2
        else if SpanPrefix sb then
          spanName sb ++ "_to_".toList ++ spanName sk ++ format_rel rc L1 L2
        else if "HPBX".toList <:+: sb then "global_to_".toList ++ spanName sk
        else []) := by
  rw [get_pip_class_name_wf rc L1 sb L2 sk hL1 hu1 hL2 hu2,
    classify_span_sink rc L1 sb L2 sk hno hin hsk]

theorem C8_witness :
    (NoEarlyRule "Q1".toList "V02N0501".toList ∧
      regex_match "V02N0501".toList lc_input_re = false ∧ SpanPrefix "V02N0501".toList) ∧
    get_pip_class_name sampleDecoder ("R5C5".toList ++ '_' :: "Q1".toList)
        ("R4C5".toList ++ '_' :: "V02N0501".toList)
      = some "q_to_span2vn_n1".toList :=
  ⟨by decide, by
    have h := C8_span_sink_class sampleDecoder "R5C5".toList "Q1".toList
      "R4C5".toList "V02N0501".toList (by decide) (by decide) (by decide) (by decide)
      (by decide) (by decide) (by decide)
    rw [h]
    decide⟩

/-! ## Relative positions and the class index -/

theorem digitChar_mem (n : Nat) (h : n < 10) : n.digitChar ∈ decimalDigits := by
  interval_cases n <;> decide

theorem toDigitsCore_mem (fuel : Nat) :
    ∀ (n : Nat) (ds : List Char), (∀ c ∈ ds, c ∈ decimalDigits) →
      ∀ c ∈ Nat.toDigitsCore 10 fuel n ds, c ∈ decimalDigits := by
  induction fuel with
  | zero =>
    intro n ds hds c hc
    simpa [Nat.toDigitsCore] using hds c hc
  | succ fuel ih =>
    intro n ds hds c hc
    have hd : ∀ x ∈ (n % 10).digitChar :: ds, x ∈ decimalDigits := by
      intro x hx
      rcases List.mem_cons.mp hx with rfl | hx
      · exact digitChar_mem _ (Nat.mod_lt _ (by decide))
      · exact hds x hx
    unfold Nat.toDigitsCore at hc
    by_cases h0 : n / 10 = 0
    · simp only [h0, if_true] at hc
      exact hd c hc
    · simp only [h0, if_false] at hc
      exact ih _ _ hd c hc

theorem toDigits_mem (n : Nat) : ∀ c ∈ Nat.toDigits 10 n, c ∈ decimalDigits :=
  toDigitsCore_mem _ n [] (by simp)

theorem swapDirection_digit (c : Char) (h : c ∈ decimalDigits) : swapDirection c = c := by
  have : ∀ d ∈ decimalDigits, swapDirection d = d := by decide
  exact this c h

theorem map_swap_decimal (n : Nat) : (decimal n).map swapDirection = decimal n := by
  have h : ∀ c ∈ decimal n, swapDirection c = c :=
    fun c hc => swapDirection_digit c (toDigits_mem n c hc)
  calc (decimal n).map swapDirection = (decimal n).map id := List.map_congr_left h
    _ = decimal n := List.map_id _

theorem to_string_nonneg (i : Int) (h : 0 ≤ i) : to_string i = decimal i.toNat := by
  unfold to_string
  rw [if_neg (by omega)]
  rfl

theorem format_rel_eq (rc : RowColDecoder) (a b : Str) :
    format_rel rc a b
      = if (rc a (126, 95) 0).1 = (rc b (126, 95) 0).1
            ∧ (rc a (126, 95) 0).2 = (rc b (126, 95) 0).2 then []
        else '_' :: (rowPart (rc a (126, 95) 0).1 (rc b (126, 95) 0).1
          ++ colPart (rc a (126, 95) 0).2 (rc b (126, 95) 0).2) := by
  simp only [format_rel, pos_from_name, rowPart, colPart]
  generalize (rc a (126, 95) 0).1 = ra
  generalize (rc a (126, 95) 0).2 = ca
  generalize (rc b (126, 95) 0).1 = rb
  generalize (rc b (126, 95) 0).2 = cb
  rcases lt_trichotomy rb ra with h1 | h1 | h1 <;>
    rcases lt_trichotomy cb ca with h2 | h2 | h2
  all_goals
    first
    | subst h1; subst h2; simp
    | subst h1
      simp [h2, not_lt_of_gt h2, ne_of_gt h2, ne_of_lt h2, to_string_nonneg, le_of_lt h2]
    | subst h2
      simp [h1, not_lt_of_gt h1, ne_of_gt h1, ne_of_lt h1, to_string_nonneg, le_of_lt h1]
    | simp [h1, h2, not_lt_of_gt h1, not_lt_of_gt h2, ne_of_gt h1, ne_of_lt h1, ne_of_gt h2,
        ne_of_lt h2, to_string_nonneg, le_of_lt h1, le_of_lt h2]

theorem rowPart_swap (ra rb : Int) : (rowPart ra rb).map swapDirection = rowPart rb ra := by
  have hn : swapDirection 'n' = 's' := by decide
  have hs : swapDirection 's' = 'n' := by decide
  unfold rowPart
  rcases lt_trichotomy rb ra with h | h | h
  · simp [h, not_lt_of_gt h, map_swap_decimal, hn]
  · subst h; simp
  · simp [h, not_lt_of_gt h, map_swap_decimal, hs]

theorem colPart_swap (ca cb : Int) : (colPart ca cb).map swapDirection = colPart cb ca := by
  have hw : swapDirection 'w' = 'e' := by decide
  have he : swapDirection 'e' = 'w' := by decide
  unfold colPart
  rcases lt_trichotomy cb ca with h | h | h
  · simp [h, not_lt_of_gt h, map_swap_decimal, hw]
  · subst h; simp
  · simp [h, not_lt_of_gt h, map_swap_decimal, he]

theorem format_rel_swap (rc : RowColDecoder) (a b : Str) :
    format_rel rc b a = (format_rel rc a b).map swapDirection := by
  have hu : swapDirection '_' = '_' := by decide
  rw [format_rel_eq rc b a, format_rel_eq rc a b]
  by_cases h : (rc a (126, 95) 0).1 = (rc b (126, 95) 0).1
      ∧ (rc a (126, 95) 0).2 = (rc b (126, 95) 0).2
  · rw [if_pos h, if_pos ⟨h.1.symm, h.2.symm⟩]
    rfl
  · rw [if_neg h, if_neg (fun h2 => h ⟨h2.1.symm, h2.2.symm⟩)]
    simp only [List.map_cons, List.map_append, rowPart_swap, colPart_swap, hu]

/-- Claim C9.  With `(ra, ca)` and `(rb, cb)` the positions decoded from the
location tokens `a` and `b`: `format_rel a b` is empty when `ra = rb` and
`ca = cb`, and otherwise `_` followed by the row part (`n` and the decimal of
`ra - rb` when `rb < ra`, `s` and the decimal of `rb - ra` when `rb > ra`) and
the column part (`w` and the decimal of `ca - cb` when `cb < ca`, `e` and the
decimal of `cb - ca` when `cb > ca`).  Moreover `format_rel a a` is empty and
`format_rel b a` is `format_rel a b` with `n`, `s` exchanged and `w`, `e`
exchanged. -/
theorem C9_format_rel (rc : RowColDecoder) (a b : Str) :
    (format_rel rc a b
      = if (pos_from_name rc a 126 95 0).1 = (pos_from_name rc b 126 95 0).1
            ∧ (pos_from_name rc a 126 95 0).2 = (pos_from_name rc b 126 95 0).2 then []
        else '_' :: (rowPart (pos_from_name rc a 126 95 0).1 (pos_from_name rc b 126 95 0).1
          ++ colPart (pos_from_name rc a 126 95 0).2 (pos_from_name rc b 126 95 0).2))
    ∧ format_rel rc a a = []
    ∧ format_rel rc b a = (format_rel rc a b).map swapDirection := by
  refine ⟨format_rel_eq rc a b, ?_, format_rel_swap rc a b⟩
  rw [format_rel_eq rc a a, if_pos ⟨rfl, rfl⟩]

theorem find_append_of_some (m : StrIntMap) (k : Str) (i : Int) (extra : StrIntMap)
    (h : m.find k = some i) : StrIntMap.find (m ++ extra) k = some i := by
  induction m with
  | nil => simp [StrIntMap.find] at h
  | cons p rest ih =>
    obtain ⟨k', v⟩ := p
    simp only [List.cons_append, StrIntMap.find] at h ⊢
    by_cases hk : k' = k
    · simpa [hk] using h
    · simp only [hk, if_false] at h ⊢
      exact ih h

theorem index_preserves (m : StrIntMap) (k : Str) :
    ∀ k' i, m.find k' = some i → (m.index k).2.find k' = some i := by
  intro k' i h
  unfold StrIntMap.index
  cases hk : m.find k with
  | some v => exact h
  | none => exact find_append_of_some m k' i _ h

/-- Claim C10.  For a class-to-index table in which `default` has index 0 and
the empty name is absent, and for wire names on which the classifier yields the
class `name`: `get_pip_class` returns a result; the index returned is the
table's index of `name` when `name` is non-empty and present, and 0 both when
`name` is empty and when it is non-empty but absent; and every name of the table
keeps its index in the table left behind. -/
theorem C10_get_pip_class (rc : RowColDecoder) (tbl : StrIntMap)
    (wire_from wire_to name : Str)
    (hdef : tbl.find "default".toList = some 0) (hemp : tbl.find [] = none)
    (hname : get_pip_class_name rc wire_from wire_to = some name) :
    ∃ idx tbl', get_pip_class rc tbl wire_from wire_to = some (idx, tbl') ∧
      (name ≠ [] → ∀ i, tbl.find name = some i → idx = i) ∧
      (name = [] → idx = 0) ∧
      (name ≠ [] → tbl.find name = none → idx = 0) ∧
      (∀ k i, tbl.find k = some i → tbl'.find k = some i) := by
  by_cases hn : name = []
  · subst hn
    refine ⟨0, tbl ++ [([], 0)], ?_, ?_, ?_, ?_, ?_⟩
    · simp [get_pip_class, hname, StrIntMap.index, hemp]
    · intro h; exact absurd rfl h
    · intro _; rfl
    · intro h; exact absurd rfl h
    · intro k i h; exact find_append_of_some tbl k i _ h
  · cases hf : tbl.find name with
    | none =>
      refine ⟨0, tbl, ?_, ?_, ?_, ?_, ?_⟩
      · simp [get_pip_class, hname, StrIntMap.index, hf, hn]
        simp at hdef
        simp [hdef]
      · intro _ i hi; simp at hi
      · intro h; exact absurd h hn
      · intro _ _; rfl
      · intro k i h; exact h
    | some v =>
      refine ⟨v, tbl, ?_, ?_, ?_, ?_, ?_⟩
      · simp [get_pip_class, hname, StrIntMap.index, hf, hn]
      · intro _ i hi
        simp at hi
        exact hi
      · intro h; exact absurd h hn
      · intro _ h; simp at h
      · intro k i h; exact h

theorem C10_witness :
    (StrIntMap.find [("default".toList, 0), ("f_to_a".toList, 1)] "default".toList = some 0 ∧
      StrIntMap.find [("default".toList, 0), ("f_to_a".toList, 1)] [] = none ∧
      get_pip_class_name sampleDecoder "R1C1_F0".toList "R1C1_A0".toList
        = some "f_to_a".toList) ∧
    ∃ idx tbl', get_pip_class sampleDecoder [("default".toList, 0), ("f_to_a".toList, 1)]
        "R1C1_F0".toList "R1C1_A0".toList = some (idx, tbl') ∧
      ("f_to_a".toList ≠ [] → ∀ i,
        StrIntMap.find [("default".toList, 0), ("f_to_a".toList, 1)] "f_to_a".toList = some i
          → idx = i) ∧
      ("f_to_a".toList = [] → idx = 0) ∧
      ("f_to_a".toList ≠ [] →
        StrIntMap.find [("default".toList, 0), ("f_to_a".toList, 1)] "f_to_a".toList = none
          → idx = 0) ∧
      (∀ k i, StrIntMap.find [("default".toList, 0), ("f_to_a".toList, 1)] k = some i
        → StrIntMap.find tbl' k = some i) :=
  ⟨by decide, C10_get_pip_class sampleDecoder [("default".toList, 0), ("f_to_a".toList, 1)]
    "R1C1_F0".toList "R1C1_A0".toList "f_to_a".toList (by decide) (by decide) (by decide)⟩

/-! ## The tile-type registry -/

theorem find_set (m : StrIntMap) (k : Str) (v : Int) (k2 : Str) :
    (m.set k v).find k2 = if k = k2 then some v else m.find k2 := by
  induction m with
  | nil =>
    simp only [StrIntMap.set, StrIntMap.find]
  | cons p rest ih =>
    obtain ⟨k1, v1⟩ := p
    simp only [StrIntMap.set]
    by_cases h1 : k1 = k
    · subst h1
      simp only [if_true, StrIntMap.find]
      by_cases h2 : k1 = k2
      · simp [h2]
      · simp [h2]
    · simp only [h1, if_false, StrIntMap.find, ih]
      by_cases h2 : k1 = k2
      · subst h2
        simp [Ne.symm h1]
      · simp [h2]

theorem length_set_of_none (m : StrIntMap) (k : Str) (v : Int) (h : m.find k = none) :
    (m.set k v).length = m.length + 1 := by
  induction m with
  | nil => rfl
  | cons p rest ih =>
    obtain ⟨k1, v1⟩ := p
    simp only [StrIntMap.find] at h
    by_cases h1 : k1 = k
    · simp [h1] at h
    · simp only [h1, if_false] at h
      simp [StrIntMap.set, h1, ih h]

theorem get_tiletype_index_found (reg : StrIntMap) (name : Str) (i : Int)
    (h : reg.find name = some i) : get_tiletype_index reg name = (i, reg) := by
  simp [get_tiletype_index, StrIntMap.index, h]

theorem get_tiletype_index_new (reg : StrIntMap) (name : Str)
    (h : reg.find name = none) :
    get_tiletype_index reg name = ((reg.length : Int), reg.set name reg.length) := by
  simp [get_tiletype_index, h]

theorem takeWhile_ne_append (pre ns : List Str) (m : Str) (hm : m ∈ pre) :
    (pre ++ ns).takeWhile (fun x => decide (x ≠ m))
      = pre.takeWhile (fun x => decide (x ≠ m)) := by
  induction pre with
  | nil => simp at hm
  | cons a pre ih =>
    rw [List.cons_append, List.takeWhile_cons, List.takeWhile_cons]
    by_cases ha : a = m
    · have hd : decide (a ≠ m) = false := decide_eq_false (not_not.mpr ha)
      rw [hd]
      rfl
    · have hm2 : m ∈ pre := by
        rcases List.mem_cons.mp hm with h | h
        · exact absurd h.symm ha
        · exact h
      have hd : decide (a ≠ m) = true := decide_eq_true ha
      rw [hd, ih hm2]

theorem takeWhile_ne_snoc (pre : List Str) (n : Str) (hn : n ∉ pre) :
    (pre ++ [n]).takeWhile (fun x => decide (x ≠ n)) = pre := by
  induction pre with
  | nil =>
    have hd : decide (n ≠ n) = false := decide_eq_false (not_not.mpr rfl)
    rw [List.nil_append, List.takeWhile_cons, hd]
    rfl
  | cons a pre ih =>
    have ha : a ≠ n := fun e => hn (by simp [e])
    have hn2 : n ∉ pre := fun h => hn (List.mem_cons_of_mem _ h)
    have hd : decide (a ≠ n) = true := decide_eq_true ha
    rw [List.cons_append, List.takeWhile_cons, hd, ih hn2]
    rfl

theorem distinctBefore_append (pre ns : List Str) (m : Str) (hm : m ∈ pre) :
    distinctBefore (pre ++ ns) m = distinctBefore pre m := by
  unfold distinctBefore
  rw [takeWhile_ne_append pre ns m hm]

theorem distinctBefore_new (pre : List Str) (n : Str) (hn : n ∉ pre) :
    distinctBefore (pre ++ [n]) n = pre.toFinset.card := by
  unfold distinctBefore
  rw [takeWhile_ne_snoc pre n hn]

theorem registryOf_step (pre : List Str) (reg : StrIntMap) (n : Str)
    (h : RegistryOf pre reg) :
    (get_tiletype_index reg n).1 = (distinctBefore (pre ++ [n]) n : Int) ∧
    RegistryOf (pre ++ [n]) (get_tiletype_index reg n).2 := by
  obtain ⟨hf, hl⟩ := h
  by_cases hn : n ∈ pre
  · have hfn : reg.find n = some (distinctBefore pre n : Int) := by
      rw [hf n, if_pos hn]
    rw [get_tiletype_index_found reg n _ hfn]
    refine ⟨?_, ?_, ?_⟩
    · rw [distinctBefore_append pre [n] n hn]
    · intro m
      by_cases hm : m ∈ pre
      · rw [hf m, if_pos hm, if_pos (List.mem_append_left _ hm),
          distinctBefore_append pre [n] m hm]
      · have hmn : m ≠ n := fun e => hm (e ▸ hn)
        rw [hf m, if_neg hm, if_neg]
        simp [hm, hmn]
    · rw [hl]
      congr 1
      ext x
      simp only [List.mem_toFinset, List.mem_append, List.mem_singleton]
      constructor
      · intro hx; exact Or.inl hx
      · rintro (hx | rfl)
        · exact hx
        · exact hn
  · have hfn : reg.find n = none := by rw [hf n, if_neg hn]
    rw [get_tiletype_index_new reg n hfn]
    refine ⟨?_, ?_, ?_⟩
    · rw [distinctBefore_new pre n hn, hl]
    · intro m
      rw [find_set]
      by_cases hmn : n = m
      · subst hmn
        rw [if_pos rfl, if_pos (by simp), distinctBefore_new pre n hn, hl]
      · rw [if_neg hmn, hf m]
        by_cases hm : m ∈ pre
        · rw [if_pos hm, if_pos (List.mem_append_left _ hm),
            distinctBefore_append pre [n] m hm]
        · rw [if_neg hm, if_neg]
          simp [hm, Ne.symm hmn]
    · rw [length_set_of_none reg n _ hfn, hl]
      have : (pre ++ [n]).toFinset = insert n pre.toFinset := by
        ext x
        simp only [List.mem_toFinset, List.mem_append, List.mem_singleton, Finset.mem_insert]
        tauto
      rw [this, Finset.card_insert_of_not_mem (by simpa using hn)]

theorem register_all_indices (ns : List Str) :
    ∀ (pre : List Str) (reg : StrIntMap), RegistryOf pre reg →
      (register_all reg ns).1 = ns.map (fun n => (distinctBefore (pre ++ ns) n : Int)) ∧
      RegistryOf (pre ++ ns) (register_all reg ns).2 := by
  induction ns with
  | nil =>
    intro pre reg h
    simpa [register_all] using h
  | cons n ns ih =>
    intro pre reg h
    obtain ⟨h1, h2⟩ := registryOf_step pre reg n h
    obtain ⟨h3, h4⟩ := ih (pre ++ [n]) _ h2
    have e : pre ++ n :: ns = (pre ++ [n]) ++ ns := by simp
    simp only [register_all, List.map_cons]
    rw [e]
    refine ⟨?_, h4⟩
    rw [h1, h3, distinctBefore_append (pre ++ [n]) ns n (by simp)]

theorem registryOf_nil : RegistryOf [] [] := by
  refine ⟨?_, rfl⟩
  intro n
  simp [StrIntMap.find]

theorem register_all_nodup_aux (ns : List Str) :
    ∀ (pre : List Str), (pre ++ ns).Nodup →
      ns.map (fun n => (distinctBefore (pre ++ ns) n : Int))
        = (List.range ns.length).map (fun k => ((pre.length + k : Nat) : Int)) := by
  induction ns with
  | nil => intro pre _; rfl
  | cons n ns ih =>
    intro pre hnd
    have e : pre ++ n :: ns = (pre ++ [n]) ++ ns := by simp
    have hn : n ∉ pre := by
      intro h
      have := List.nodup_append.mp hnd
      exact this.2.2 h (List.mem_cons_self _ _) 
    have hpre : pre.Nodup := (List.nodup_append.mp hnd).1
    have h1 : distinctBefore (pre ++ n :: ns) n = pre.length := by
      rw [e, distinctBefore_append (pre ++ [n]) ns n (by simp), distinctBefore_new pre n hn,
        List.toFinset_card_of_nodup hpre]
    have h2 := ih (pre ++ [n]) (by rw [← e]; exact hnd)
    rw [← e] at h2
    rw [List.map_cons, h1, h2, List.length_cons, List.range_succ_eq_map, List.map_cons,
      List.map_map]
    simp only [Nat.add_zero, List.cons.injEq, true_and]
    apply List.map_congr_left
    intro k _
    simp only [Function.comp, List.length_append, List.length_singleton]
    congr 1
    omega

theorem register_all_nodup (names : List Str) (hnd : names.Nodup) :
    (register_all [] names).1 = (List.range names.length).map Int.ofNat := by
  rw [(register_all_indices names [] [] registryOf_nil).1]
  have h := register_all_nodup_aux names [] (by simpa using hnd)
  simp only [List.nil_append, List.length_nil, Nat.zero_add] at h ⊢
  rw [h]
  rfl

/-- Claim C13.  For every sequence of tile-type names registered with
`get_tiletype_index` from the empty registry, each call returns the number of
distinct names that occurred before the first occurrence of its argument; when
the names are pairwise distinct the indices returned are 0, 1, ..., N-1 in
order; and registering a name that a registry holds returns the index it holds
and leaves the registry as it is. -/
theorem C13_get_tiletype_index (names : List Str) :
    (register_all [] names).1 = names.map (fun n => (distinctBefore names n : Int)) ∧
    (names.Nodup → (register_all [] names).1 = (List.range names.length).map Int.ofNat) ∧
    (∀ (reg : StrIntMap) (name : Str) (i : Int), reg.find name = some i →
      get_tiletype_index reg name = (i, reg)) := by
  refine ⟨?_, register_all_nodup names, get_tiletype_index_found⟩
  simpa using (register_all_indices names [] [] registryOf_nil).1

theorem C13_witness :
    (register_all [] ["PLC2".toList, "CIB".toList, "PLC2".toList, "MIB_EBR0".toList]).1
      = [0, 1, 0, 2] ∧
    (register_all [] ["PLC2".toList, "CIB".toList, "MIB_EBR0".toList]).1 = [0, 1, 2] := by
  have h1 := (C13_get_tiletype_index
    ["PLC2".toList, "CIB".toList, "PLC2".toList, "MIB_EBR0".toList]).1
  have h2 := (C13_get_tiletype_index ["PLC2".toList, "CIB".toList, "MIB_EBR0".toList]).2.1
    (by decide)
  refine ⟨?_, ?_⟩
  · rw [h1]; decide
  · rw [h2]; decide

/-! ## The identifier table -/

theorem incon_loop_frame (mul11 : Int → Int) (grade : Str) (hg : grade ≠ "6".toList)
    (entries : List InconEntry) (tbl : StrIntMap) :
    ∀ (pcd : List PipClass) (r : StrIntMap × List PipClass),
      incon_loop mul11 grade entries tbl pcd = Except.ok r → r.1 = tbl := by
  induction entries with
  | nil =>
    intro pcd r h
    simp only [incon_loop, pure, Except.pure, Except.ok.injEq] at h
    rw [← h]
  | cons e rest ih =>
    intro pcd r h
    simp only [incon_loop, hg, if_false] at h
    cases hf : tbl.find e.pipclass with
    | none =>
      simp only [hf, Option.isSome_none, Bool.false_eq_true, if_false] at h
      exact ih pcd r h
    | some v =>
      have hidx : tbl.index e.pipclass = (v, tbl) := by simp [StrIntMap.index, hf]
      simp only [hf, Option.isSome_some, if_true, hidx] at h
      by_cases hr : 0 ≤ v ∧ v < (pcd.length : Int)
      · simp only [hr, and_self, if_true] at h
        exact ih _ r h
      · simp only [hr, if_false] at h
        cases h

theorem incon_loop_total (mul11 : Int → Int) (grade : Str) (hg : grade ≠ "6".toList)
    (entries : List InconEntry) (tbl : StrIntMap) :
    ∀ (pcd : List PipClass),
      (∀ k i, tbl.find k = some i → 0 ≤ i ∧ i < (pcd.length : Int)) →
      ∃ pcd2, incon_loop mul11 grade entries tbl pcd = Except.ok (tbl, pcd2)
        ∧ pcd2.length = pcd.length := by
  induction entries with
  | nil =>
    intro pcd _
    exact ⟨pcd, rfl, rfl⟩
  | cons e rest ih =>
    intro pcd hr
    simp only [incon_loop, hg, if_false]
    cases hf : tbl.find e.pipclass with
    | none =>
      simp only [Option.isSome_none, Bool.false_eq_true, if_false]
      exact ih pcd hr
    | some v =>
      have hidx : tbl.index e.pipclass = (v, tbl) := by simp [StrIntMap.index, hf]
      have hv := hr _ _ hf
      simp only [Option.isSome_some, if_true, hidx, hv, and_self]
      obtain ⟨pcd2, h1, h2⟩ := ih (pcd.set v.toNat (pipclass_of mul11 e))
        (by simpa using hr)
      exact ⟨pcd2, h1, by simpa using h2⟩

theorem process_grade_frame (mul11 : Int → Int) (constids : StrIntMap) (grade : Str)
    (hg : grade ≠ "6".toList) (files : GradeFiles) (st st2 : StrIntMap × List (Str × Chip))
    (h : process_grade mul11 constids grade files st = Except.ok st2) : st2.1 = st.1 := by
  unfold process_grade at h
  cases hc : files.cells with
  | none =>
    simp only [hc, pure, Except.pure, Except.ok.injEq] at h
    rw [← h]
  | some cellsObject =>
    simp only [hc] at h
    cases hcc : convert_cells constids cellsObject [] with
    | error f =>
      simp only [hcc, bind, Except.bind] at h
      cases h
    | ok cells =>
      simp only [hcc, bind, Except.bind] at h
      cases hi : files.interconnect with
      | none =>
        simp only [hi, pure, Except.pure, Except.ok.injEq] at h
        rw [← h]
      | some inconObject =>
        simp only [hi] at h
        cases hl : incon_loop mul11 grade inconObject st.1
            (List.replicate st.1.length default_pipclass) with
        | error f =>
          simp only [hl] at h
          cases h
        | ok r =>
          simp only [hl, pure, Except.pure, Except.ok.injEq] at h
          rw [← h]
          exact incon_loop_frame mul11 grade hg inconObject st.1 _ r hl

/-- Claim C11.  For a speed grade other than `6`, the loop over the members of
the interconnect data returns the class-to-index table it was given, whatever
class names the data contains, and it does return when the indices of the table
lie within the grade's pip-class table; so does the whole step of
`process_timing_data` for that grade. -/
theorem C11_later_grades_keep_table (mul11 : Int → Int) (grade : Str)
    (hg : grade ≠ "6".toList) (entries : List InconEntry) (tbl : StrIntMap)
    (pcd : List PipClass) :
    (∀ r, incon_loop mul11 grade entries tbl pcd = Except.ok r → r.1 = tbl) ∧
    ((∀ k i, tbl.find k = some i → 0 ≤ i ∧ i < (pcd.length : Int)) →
      ∃ pcd2, incon_loop mul11 grade entries tbl pcd = Except.ok (tbl, pcd2)) ∧
    (∀ (constids : StrIntMap) (files : GradeFiles) (chips chips2 : List (Str × Chip))
      (tbl2 : StrIntMap),
      process_grade mul11 constids grade files (tbl, chips) = Except.ok (tbl2, chips2) →
      tbl2 = tbl) := by
  refine ⟨incon_loop_frame mul11 grade hg entries tbl pcd, ?_, ?_⟩
  · intro hr
    obtain ⟨pcd2, h, _⟩ := incon_loop_total mul11 grade hg entries tbl pcd hr
    exact ⟨pcd2, h⟩
  · intro constids files chips chips2 tbl2 h
    exact process_grade_frame mul11 constids grade hg files _ _ h

theorem C11_witness :
    "7".toList ≠ "6".toList ∧
    ∃ pcd2, incon_loop sampleMul11 "7".toList
        [⟨"f_to_a".toList, (100, 110, 120), (1, 2, 3)⟩,
          ⟨"new_class".toList, (10, 20, 30), (0, 0, 0)⟩]
        [("default".toList, 0), ("f_to_a".toList, 1)] [default_pipclass, default_pipclass]
      = Except.ok ([("default".toList, 0), ("f_to_a".toList, 1)], pcd2) :=
  ⟨by decide, (C11_later_grades_keep_table sampleMul11 "7".toList (by decide)
    [⟨"f_to_a".toList, (100, 110, 120), (1, 2, 3)⟩,
      ⟨"new_class".toList, (10, 20, 30), (0, 0, 0)⟩]
    [("default".toList, 0), ("f_to_a".toList, 1)] [default_pipclass, default_pipclass]).2.1
    (by
      intro k i h
      simp only [StrIntMap.find] at h
      split_ifs at h <;> simp at h <;> subst h <;> decide)⟩

@[simp] theorem labelsOf_nil : labelsOf [] = [] := rfl

@[simp] theorem labelsOf_append (a b : List Directive) :
    labelsOf (a ++ b) = labelsOf a ++ labelsOf b := by
  simp [labelsOf, List.filterMap_append]

@[simp] theorem labelsOf_cons (d : Directive) (ds : List Directive) :
    labelsOf (d :: ds) = (match d.labelName with | some n => [n] | none => []) ++ labelsOf ds := by
  cases h : d.labelName <;> simp [labelsOf, List.filterMap_cons, h]

@[simp] theorem refsOf_nil : refsOf [] = [] := rfl

@[simp] theorem refsOf_append (a b : List Directive) :
    refsOf (a ++ b) = refsOf a ++ refsOf b := by
  simp [refsOf, List.filterMap_append]

@[simp] theorem refsOf_cons (d : Directive) (ds : List Directive) :
    refsOf (d :: ds) = (match d.refName with | some n => [n] | none => []) ++ refsOf ds := by
  cases h : d.refName <;> simp [refsOf, List.filterMap_cons, h]

theorem labelsOf_flatMap {α : Type} (l : List α) (f : α → List Directive) :
    labelsOf (l.flatMap f) = l.flatMap (fun a => labelsOf (f a)) := by
  induction l with
  | nil => rfl
  | cons a l ih => simp [List.flatMap_cons, ih]

theorem refsOf_flatMap {α : Type} (l : List α) (f : α → List Directive) :
    refsOf (l.flatMap f) = l.flatMap (fun a => refsOf (f a)) := by
  induction l with
  | nil => rfl
  | cons a l ih => simp [List.flatMap_cons, ih]

theorem flatMap_nil_of {α β : Type} (l : List α) (f : α → List β) (h : ∀ a, f a = []) :
    l.flatMap f = [] := by
  induction l with
  | nil => rfl
  | cons a l ih => simp [List.flatMap_cons, ih, h]

@[simp] theorem labelsOf_write_loc (loc : Location) (n : Str) : labelsOf (write_loc loc n) = [] := by
  simp [write_loc, Directive.labelName]

@[simp] theorem refsOf_write_loc (loc : Location) (n : Str) : refsOf (write_loc loc n) = [] := by
  simp [write_loc, Directive.refName]

/-! ## The labels and references of each part of the stream -/

theorem write_arc_labels (rc : RowColDecoder) (ddrg : DedupChipdb)
    (lwt : List (Int × (Int × Int))) (idx : Nat) (st : StrIntMap × StrIntMap) (arc : DdArcData)
    (r : (StrIntMap × StrIntMap) × List Directive)
    (h : write_arc rc ddrg lwt idx st arc = some r) :
    labelsOf r.2 = [] ∧ refsOf r.2 = [] ∧ r.2.length = 10
      ∧ (∀ d ∈ r.2, d.isPush = false ∧ d.isPop = false) := by
  simp only [write_arc, Option.bind_eq_bind, Option.bind_eq_some, Option.pure_def,
    Option.some.injEq] at h
  obtain ⟨src, _, snk, _, tc, _, h⟩ := h
  subst h
  simp [write_loc, Directive.labelName, Directive.refName, Directive.isPush,
    Directive.isPop]

theorem emit_loop_props {σ α : Type} (body : σ → α → Option (σ × List Directive)) (n : Nat)
    (hb : ∀ st a r, body st a = some r →
      labelsOf r.2 = [] ∧ refsOf r.2 = [] ∧ r.2.length = n
        ∧ (∀ d ∈ r.2, d.isPush = false ∧ d.isPop = false)) :
    ∀ (l : List α) (st : σ) (r : σ × List Directive), emit_loop body st l = some r →
      labelsOf r.2 = [] ∧ refsOf r.2 = [] ∧ r.2.length = n * l.length
        ∧ (∀ d ∈ r.2, d.isPush = false ∧ d.isPop = false) := by
  intro l
  induction l with
  | nil =>
    intro st r h
    simp only [emit_loop, Option.some.injEq] at h
    subst h
    simp
  | cons a l ih =>
    intro st r h
    simp only [emit_loop, Option.bind_eq_bind, Option.bind_eq_some, Option.pure_def,
      Option.some.injEq] at h
    obtain ⟨r1, h1, r2, h2, h⟩ := h
    subst h
    obtain ⟨a1, a2, a3, a4⟩ := hb _ _ _ h1
    obtain ⟨b1, b2, b3, b4⟩ := ih _ _ h2
    refine ⟨by simp [a1, b1], by simp [a2, b2], ?_, ?_⟩
    · simp only [List.length_append, a3, b3, List.length_cons]
      ring
    · intro d hd
      rcases List.mem_append.mp hd with hd | hd
      · exact a4 d hd
      · exact b4 d hd

theorem write_wire_tables_labels (constids : StrIntMap) (ddrg : DedupChipdb) (idx : Nat)
    (wires : List WireData) :
    ∀ wire_idx, labelsOf (write_wire_tables constids ddrg idx wire_idx wires)
      = (wire_table_labs idx wire_idx wires).map Lab.render := by
  induction wires with
  | nil => intro _; rfl
  | cons wire rest ih =>
    intro wire_idx
    simp only [write_wire_tables, wire_table_labs, labelsOf_append, List.map_append, ih]
    congr 1
    congr 1
    congr 1
    · split
      · simp [labelsOf_flatMap, Directive.labelName, Lab.render, flatMap_nil_of]
      · rfl
    · split
      · simp [labelsOf_flatMap, Directive.labelName, Lab.render, flatMap_nil_of]
      · rfl
    · split
      · simp [labelsOf_flatMap, Directive.labelName, Lab.render, flatMap_nil_of]
      · rfl


@[simp] theorem noScope_nil : NoScope [] := by
  intro d hd; cases hd

@[simp] theorem noScope_append (a b : List Directive) :
    NoScope (a ++ b) ↔ NoScope a ∧ NoScope b := by
  simp only [NoScope, List.mem_append]
  constructor
  · intro h
    exact ⟨fun d hd => h d (Or.inl hd), fun d hd => h d (Or.inr hd)⟩
  · rintro ⟨h1, h2⟩ d (hd | hd)
    · exact h1 d hd
    · exact h2 d hd

@[simp] theorem noScope_cons (d : Directive) (ds : List Directive) :
    NoScope (d :: ds) ↔ (d.isPush = false ∧ d.isPop = false) ∧ NoScope ds := by
  simp only [NoScope, List.mem_cons]
  constructor
  · intro h
    exact ⟨h d (Or.inl rfl), fun e he => h e (Or.inr he)⟩
  · rintro ⟨h1, h2⟩ e (rfl | he)
    · exact h1
    · exact h2 e he

theorem noScope_flatMap {α : Type} (l : List α) (f : α → List Directive)
    (h : ∀ a, NoScope (f a)) : NoScope (l.flatMap f) := by
  induction l with
  | nil => simp
  | cons a l ih => simp [List.flatMap_cons, ih, h a]

@[simp] theorem noScope_write_loc (loc : Location) (n : Str) : NoScope (write_loc loc n) := by
  simp [write_loc, Directive.isPush, Directive.isPop]

theorem write_wire_tables_refs (constids : StrIntMap) (ddrg : DedupChipdb) (idx : Nat)
    (wires : List WireData) :
    ∀ wire_idx, refsOf (write_wire_tables constids ddrg idx wire_idx wires) = []
      ∧ NoScope (write_wire_tables constids ddrg idx wire_idx wires) := by
  induction wires with
  | nil => intro _; simp [write_wire_tables]
  | cons wire rest ih =>
    intro wire_idx
    have h1 := (ih (wire_idx + 1)).1
    have h2 := (ih (wire_idx + 1)).2
    refine ⟨?_, ?_⟩
    · simp only [write_wire_tables, refsOf_append, h1]
      split <;> split <;> split <;>
        simp [refsOf_flatMap, Directive.refName, flatMap_nil_of]
    · simp only [write_wire_tables, noScope_append]
      refine ⟨⟨⟨?_, ?_⟩, ?_⟩, h2⟩
      · split
        · simp only [noScope_cons, Directive.isPush, Directive.isPop, and_self, true_and]
          exact noScope_flatMap _ _ (fun a => by simp [Directive.isPush, Directive.isPop])
        · simp
      · split
        · simp only [noScope_cons, Directive.isPush, Directive.isPop, and_self, true_and]
          exact noScope_flatMap _ _ (fun a => by simp [Directive.isPush, Directive.isPop])
        · simp
      · split
        · simp only [noScope_cons, Directive.isPush, Directive.isPop, and_self, true_and]
          exact noScope_flatMap _ _ (fun a => by simp [Directive.isPush, Directive.isPop])
        · simp

theorem write_wire_records_props (ddrg : DedupChipdb) (idx : Nat) (wires : List WireData) :
    ∀ wire_idx, labelsOf (write_wire_records ddrg idx wire_idx wires) = []
      ∧ NoScope (write_wire_records ddrg idx wire_idx wires)
      ∧ (∀ n ∈ refsOf (write_wire_records ddrg idx wire_idx wires),
          n = "None".toList ∨ n ∈ (wire_table_labs idx wire_idx wires).map Lab.render) := by
  induction wires with
  | nil => intro _; simp [write_wire_records]
  | cons wire rest ih =>
    intro wire_idx
    obtain ⟨h1, h2, h3⟩ := ih (wire_idx + 1)
    refine ⟨?_, ?_, ?_⟩
    · simp only [write_wire_records, labelsOf_append, h1]
      split <;> split <;> split <;> simp [Directive.labelName]
    · simp only [write_wire_records, noScope_append, h2, and_true]
      split <;> split <;> split <;> simp [Directive.isPush, Directive.isPop]
    · intro n hn
      simp only [write_wire_records, refsOf_append, List.mem_append] at hn
      rcases hn with hn | hn
      · simp only [wire_table_labs, List.map_append, List.mem_append]
        by_cases hu : wire.arcsUphill.length > 0 <;> by_cases hd : wire.arcsDownhill.length > 0 <;>
          by_cases hb : wire.belPins.length > 0 <;>
          simp [hu, hd, hb, Directive.refName, Lab.render] at hn ⊢ <;>
          rcases hn with rfl | rfl | rfl <;> simp
      · rcases h3 n hn with h | h
        · exact Or.inl h
        · right
          simp only [wire_table_labs, List.map_append, List.mem_append]
          exact Or.inr h


theorem write_bel_tables_props (constids : StrIntMap) (ddrg : DedupChipdb) (idx : Nat)
    (bels : List BelData) :
    ∀ bel_idx, labelsOf (write_bel_tables constids ddrg idx bel_idx bels)
        = (bel_table_labs idx bel_idx bels).map Lab.render
      ∧ refsOf (write_bel_tables constids ddrg idx bel_idx bels) = []
      ∧ NoScope (write_bel_tables constids ddrg idx bel_idx bels) := by
  induction bels with
  | nil => intro _; simp [write_bel_tables, bel_table_labs]
  | cons bel rest ih =>
    intro bel_idx
    obtain ⟨h1, h2, h3⟩ := ih (bel_idx + 1)
    refine ⟨?_, ?_, ?_⟩
    · simp [write_bel_tables, bel_table_labs, h1, labelsOf_flatMap, Directive.labelName,
        Lab.render, flatMap_nil_of]
    · simp [write_bel_tables, h2, refsOf_flatMap, Directive.refName, flatMap_nil_of]
    · simp only [write_bel_tables, noScope_append, noScope_cons, Directive.isPush,
        Directive.isPop, and_self, true_and, h3, and_true]
      exact noScope_flatMap _ _ (fun a => by simp [Directive.isPush, Directive.isPop])

theorem write_bel_records_props (constids : StrIntMap) (ddrg : DedupChipdb) (idx : Nat)
    (bels : List BelData) :
    ∀ bel_idx, labelsOf (write_bel_records constids ddrg idx bel_idx bels) = []
      ∧ NoScope (write_bel_records constids ddrg idx bel_idx bels)
      ∧ refsOf (write_bel_records constids ddrg idx bel_idx bels)
          = (bel_table_labs idx bel_idx bels).map Lab.render := by
  induction bels with
  | nil => intro _; simp [write_bel_records, bel_table_labs]
  | cons bel rest ih =>
    intro bel_idx
    obtain ⟨h1, h2, h3⟩ := ih (bel_idx + 1)
    refine ⟨?_, ?_, ?_⟩
    · simp [write_bel_records, h1, Directive.labelName]
    · simp [write_bel_records, h2, Directive.isPush, Directive.isPop]
    · simp [write_bel_records, bel_table_labs, h3, Directive.refName, Lab.render]

theorem write_loctype_props (rc : RowColDecoder) (constids : StrIntMap) (ddrg : DedupChipdb)
    (lwt : List (Int × (Int × Int))) (idx : Nat) (key : checksum_t)
    (st : StrIntMap × StrIntMap) (r : (StrIntMap × StrIntMap) × List Directive)
    (h : write_loctype rc constids ddrg lwt idx key st = some r) :
    labelsOf r.2 = (loctype_labs idx (ddrg.locationTypes_at key)).map Lab.render
      ∧ NoScope r.2
      ∧ (∀ n ∈ refsOf r.2, n = "None".toList
          ∨ n ∈ (loctype_labs idx (ddrg.locationTypes_at key)).map Lab.render) := by
  simp only [write_loctype, Option.map_eq_some'] at h
  obtain ⟨pips, hp, h⟩ := h
  subst h
  have hpips : labelsOf pips.2 = (if (ddrg.locationTypes_at key).arcs.length > 0
        then [Lab.pips idx] else []).map Lab.render
      ∧ refsOf pips.2 = [] ∧ NoScope pips.2 := by
    unfold write_pips at hp
    by_cases ha : (ddrg.locationTypes_at key).arcs.length > 0
    · simp only [ha, if_true, Option.map_eq_some'] at hp
      obtain ⟨r1, h1, hp⟩ := hp
      subst hp
      obtain ⟨a1, a2, _, a4⟩ := emit_loop_props (write_arc rc ddrg lwt idx) 10
        (fun st a r hr => write_arc_labels rc ddrg lwt idx st a r hr) _ _ _ h1
      rw [if_pos ha]
      refine ⟨by simp [a1, Directive.labelName, Lab.render], by simp [a2, Directive.refName],
        ?_⟩
      simp only [noScope_cons, Directive.isPush, Directive.isPop, and_self, true_and]
      exact a4
    · simp only [ha, if_false, Option.some.injEq] at hp
      subst hp
      rw [if_neg ha]
      simp
  obtain ⟨p1, p2, p3⟩ := hpips
  obtain ⟨w1, w2, w3⟩ := write_wire_records_props ddrg idx (ddrg.locationTypes_at key).wires 0
  have w4 := write_wire_tables_labels constids ddrg idx (ddrg.locationTypes_at key).wires 0
  obtain ⟨w5, w6⟩ := write_wire_tables_refs constids ddrg idx (ddrg.locationTypes_at key).wires 0
  obtain ⟨b1, b2, b3⟩ := write_bel_tables_props constids ddrg idx
    (ddrg.locationTypes_at key).bels 0
  obtain ⟨c1, c2, c3⟩ := write_bel_records_props constids ddrg idx
    (ddrg.locationTypes_at key).bels 0
  refine ⟨?_, ?_, ?_⟩
  · simp only [labelsOf_append, p1, loctype_labs, List.map_append]
    congr 1
    · congr 1
      split
      · simp [w4, w1, Directive.labelName, Lab.render]
      · rfl
    · split
      · simp [b1, c1, Directive.labelName, Lab.render]
      · rfl
  · simp only [noScope_append, p3, true_and]
    constructor
    · split
      · simp [w6, w2, Directive.isPush, Directive.isPop]
      · simp
    · split
      · simp [b3, c2, Directive.isPush, Directive.isPop]
      · simp
  · intro n hn
    simp only [refsOf_append, p2, List.nil_append, List.mem_append] at hn
    simp only [loctype_labs, List.map_append, List.mem_append]
    rcases hn with hn | hn
    · by_cases hw : (ddrg.locationTypes_at key).wires.length > 0
      · simp only [hw, if_true, refsOf_append, w5, List.nil_append, refsOf_cons,
          Directive.refName] at hn
        rcases w3 n hn with h | h
        · exact Or.inl h
        · right; left; right
          simp only [hw, if_true, List.map_append, List.mem_append]
          exact Or.inl h
      · simp [hw] at hn
    · by_cases hb : (ddrg.locationTypes_at key).bels.length > 0
      · simp only [hb, if_true, refsOf_append, b2, List.nil_append, refsOf_cons,
          Directive.refName, c3] at hn
        right; right
        simp only [hb, if_true, List.map_append, List.mem_append]
        exact Or.inl hn
      · simp [hb] at hn

theorem write_loctypes_props (rc : RowColDecoder) (constids : StrIntMap) (ddrg : DedupChipdb)
    (lwt : List (Int × (Int × Int))) (keys : List checksum_t) :
    ∀ (idx : Nat) (st : StrIntMap × StrIntMap) (r : (StrIntMap × StrIntMap) × List Directive),
      write_loctypes rc constids ddrg lwt idx keys st = some r →
      labelsOf r.2 = (loctypes_labs ddrg idx keys).map Lab.render
        ∧ NoScope r.2
        ∧ (∀ n ∈ refsOf r.2, n = "None".toList
            ∨ n ∈ (loctypes_labs ddrg idx keys).map Lab.render) := by
  induction keys with
  | nil =>
    intro idx st r h
    simp only [write_loctypes, Option.some.injEq] at h
    subst h
    simp [loctypes_labs]
  | cons key rest ih =>
    intro idx st r h
    simp only [write_loctypes, Option.bind_eq_bind, Option.bind_eq_some, Option.pure_def,
      Option.some.injEq] at h
    obtain ⟨r1, h1, r2, h2, h⟩ := h
    subst h
    obtain ⟨a1, a2, a3⟩ := write_loctype_props rc constids ddrg lwt idx key st r1 h1
    obtain ⟨b1, b2, b3⟩ := ih (idx + 1) r1.1 r2 h2
    refine ⟨by simp [a1, b1, loctypes_labs], by simp [a2, b2], ?_⟩
    intro n hn
    simp only [refsOf_append, List.mem_append] at hn
    simp only [loctypes_labs, List.map_append, List.mem_append]
    rcases hn with hn | hn
    · rcases a3 n hn with h | h
      · exact Or.inl h
      · exact Or.inr (Or.inl h)
    · rcases b3 n hn with h | h
      · exact Or.inl h
      · exact Or.inr (Or.inr h)


theorem write_locations_props (ddrg : DedupChipdb) (keys : List checksum_t) :
    ∀ idx, labelsOf (write_locations ddrg idx keys) = []
      ∧ NoScope (write_locations ddrg idx keys)
      ∧ (∀ n ∈ refsOf (write_locations ddrg idx keys), n = "None".toList
          ∨ n ∈ (loctypes_labs ddrg idx keys).map Lab.render) := by
  induction keys with
  | nil => intro _; simp [write_locations]
  | cons key rest ih =>
    intro idx
    obtain ⟨h1, h2, h3⟩ := ih (idx + 1)
    refine ⟨?_, ?_, ?_⟩
    · simp only [write_locations, labelsOf_append, h1]
      split <;> split <;> split <;> simp [Directive.labelName]
    · simp only [write_locations, noScope_append, h2, and_true]
      split <;> split <;> split <;> simp [Directive.isPush, Directive.isPop]
    · intro n hn
      simp only [write_locations, refsOf_append, List.mem_append] at hn
      simp only [loctypes_labs, loctype_labs, List.map_append, List.mem_append]
      rcases hn with hn | hn
      · by_cases hb : (ddrg.locationTypes_at key).bels.length > 0 <;>
          by_cases hw : (ddrg.locationTypes_at key).wires.length > 0 <;>
          by_cases ha : (ddrg.locationTypes_at key).arcs.length > 0 <;>
          simp [hb, hw, ha, Directive.refName, Lab.render] at hn ⊢ <;>
          rcases hn with rfl | rfl | rfl <;> simp
      · rcases h3 n hn with h | h
        · exact Or.inl h
        · exact Or.inr (Or.inr h)

theorem write_tile_names_props (tiles : List TileInfo) :
    ∀ tt : StrIntMap, labelsOf (write_tile_names tt tiles).2 = []
      ∧ refsOf (write_tile_names tt tiles).2 = []
      ∧ NoScope (write_tile_names tt tiles).2 := by
  induction tiles with
  | nil => intro _; simp [write_tile_names]
  | cons tile rest ih =>
    intro tt
    obtain ⟨h1, h2, h3⟩ := ih (get_tiletype_index tt tile.type).2
    simp [write_tile_names, h1, h2, h3, Directive.labelName, Directive.refName,
      Directive.isPush, Directive.isPop]

theorem write_tile_infos_props (chip : TrellisChip) (grid : List (Nat × Nat)) :
    ∀ tt : StrIntMap, labelsOf (write_tile_infos chip tt grid).2
        = (grid.map (fun c => Lab.tile_info c.1 c.2)).map Lab.render
      ∧ refsOf (write_tile_infos chip tt grid).2 = []
      ∧ NoScope (write_tile_infos chip tt grid).2 := by
  induction grid with
  | nil => intro _; simp [write_tile_infos]
  | cons c rest ih =>
    intro tt
    obtain ⟨x, y⟩ := c
    obtain ⟨a1, a2, a3⟩ := write_tile_names_props (chip.get_tiles_by_position y x) tt
    obtain ⟨h1, h2, h3⟩ := ih (write_tile_names tt (chip.get_tiles_by_position y x)).1
    simp [write_tile_infos, h1, h2, h3, a1, a2, a3, Directive.labelName, Directive.refName,
      Directive.isPush, Directive.isPop, Lab.render]

theorem write_tiles_info_props (chip : TrellisChip) (grid : List (Nat × Nat)) :
    labelsOf (write_tiles_info chip grid) = []
      ∧ refsOf (write_tiles_info chip grid)
          = (grid.map (fun c => Lab.tile_info c.1 c.2)).map Lab.render
      ∧ NoScope (write_tiles_info chip grid) := by
  refine ⟨?_, ?_, ?_⟩
  · simp [write_tiles_info, labelsOf_flatMap, Directive.labelName, flatMap_nil_of]
  · induction grid with
    | nil => rfl
    | cons c rest ih =>
      simp only [write_tiles_info, List.flatMap_cons, refsOf_append] at ih ⊢
      rw [ih]
      simp [Directive.refName, Lab.render]
  · exact noScope_flatMap _ _ (fun a => by simp [Directive.isPush, Directive.isPop])

theorem write_location_types_props (ddrg : DedupChipdb) (loctypes : List checksum_t)
    (grid : List (Nat × Nat)) :
    labelsOf (write_location_types ddrg loctypes grid) = []
      ∧ refsOf (write_location_types ddrg loctypes grid) = []
      ∧ NoScope (write_location_types ddrg loctypes grid) := by
  induction grid with
  | nil => simp [write_location_types]
  | cons c rest ih =>
    obtain ⟨x, y⟩ := c
    obtain ⟨h1, h2, h3⟩ := ih
    simp only [write_location_types]
    split
    · exact ⟨h1, h2, h3⟩
    · simp [h1, h2, h3, Directive.labelName, Directive.refName, Directive.isPush,
        Directive.isPop]

theorem write_glbinfo_props (gi : List (Int × List (Int × GlobalInfo)))
    (grid : List (Nat × Nat)) :
    labelsOf (write_glbinfo gi grid) = [] ∧ refsOf (write_glbinfo gi grid) = []
      ∧ NoScope (write_glbinfo gi grid) := by
  refine ⟨?_, ?_, ?_⟩
  · simp [write_glbinfo, labelsOf_flatMap, Directive.labelName, flatMap_nil_of]
  · simp [write_glbinfo, refsOf_flatMap, Directive.refName, flatMap_nil_of]
  · exact noScope_flatMap _ _ (fun a => by simp [Directive.isPush, Directive.isPop])

theorem write_package_pins_props (packages : List (Str × Pins)) :
    labelsOf (write_package_pins packages)
        = (packages.map (fun p => Lab.package p.1)).map Lab.render
      ∧ refsOf (write_package_pins packages) = []
      ∧ NoScope (write_package_pins packages) := by
  have hl : ∀ pins : List Pin, labelsOf (pins.flatMap (fun pin =>
      [Directive.s pin.name "name".toList] ++ write_loc pin.location "abs_loc".toList ++
      [Directive.u32 pin.bel_index (some "bel_index".toList)])) = [] := by
    intro pins
    rw [labelsOf_flatMap]
    exact flatMap_nil_of _ _ (fun a => by simp [Directive.labelName])
  have hr : ∀ pins : List Pin, refsOf (pins.flatMap (fun pin =>
      [Directive.s pin.name "name".toList] ++ write_loc pin.location "abs_loc".toList ++
      [Directive.u32 pin.bel_index (some "bel_index".toList)])) = [] := by
    intro pins
    rw [refsOf_flatMap]
    exact flatMap_nil_of _ _ (fun a => by simp [Directive.refName])
  refine ⟨?_, ?_, ?_⟩
  · induction packages with
    | nil => rfl
    | cons p rest ih =>
      simp only [write_package_pins, List.flatMap_cons, labelsOf_append, labelsOf_cons,
        Directive.labelName, hl, List.append_nil] at ih ⊢
      rw [ih]
      rfl
  · induction packages with
    | nil => rfl
    | cons p rest ih =>
      simp only [write_package_pins, List.flatMap_cons, refsOf_append, refsOf_cons,
        Directive.refName, hr, List.append_nil] at ih ⊢
      rw [ih]
      rfl
  · apply noScope_flatMap
    intro p
    simp only [noScope_cons, Directive.isPush, Directive.isPop, and_self, true_and]
    exact noScope_flatMap _ _ (fun a => by simp [Directive.isPush, Directive.isPop])

theorem write_package_data_props (packages : List (Str × Pins)) :
    labelsOf (write_package_data packages) = []
      ∧ refsOf (write_package_data packages)
          = (packages.map (fun p => Lab.package p.1)).map Lab.render
      ∧ NoScope (write_package_data packages) := by
  refine ⟨?_, ?_, ?_⟩
  · unfold write_package_data
    rw [labelsOf_flatMap]
    exact flatMap_nil_of _ _ (fun a => by simp [Directive.labelName])
  · induction packages with
    | nil => rfl
    | cons p rest ih =>
      simp only [write_package_data, List.flatMap_cons, refsOf_append, refsOf_cons,
        Directive.refName, refsOf_nil, List.append_nil, List.nil_append] at ih ⊢
      rw [ih]
      rfl
  · exact noScope_flatMap _ _ (fun a => by simp [Directive.isPush, Directive.isPop])

theorem write_pio_info_props (pindata : List PinData) :
    labelsOf (write_pio_info pindata) = [] ∧ refsOf (write_pio_info pindata) = []
      ∧ NoScope (write_pio_info pindata) := by
  refine ⟨?_, ?_, ?_⟩
  · simp [write_pio_info, labelsOf_flatMap, Directive.labelName, flatMap_nil_of]
  · simp [write_pio_info, refsOf_flatMap, Directive.refName, flatMap_nil_of]
  · exact noScope_flatMap _ _ (fun a => by simp [Directive.isPush, Directive.isPop])

theorem write_tiletype_names_props (tt : StrIntMap) :
    labelsOf (write_tiletype_names tt) = [] ∧ refsOf (write_tiletype_names tt) = []
      ∧ NoScope (write_tiletype_names tt) := by
  unfold write_tiletype_names
  generalize tt.inKeyOrder = l
  induction l with
  | nil => simp
  | cons p rest ih =>
    obtain ⟨h1, h2, h3⟩ := ih
    simp only [List.map_cons, labelsOf_cons, refsOf_cons, noScope_cons, Directive.labelName,
      Directive.refName, Directive.isPush, Directive.isPop, h1, h2, h3, List.append_nil,
      and_self]


theorem write_cell_tables_props (grade : Str) (cells : List Cell) :
    labelsOf (write_cell_tables grade cells) = (cell_labs grade cells).map Lab.render
      ∧ refsOf (write_cell_tables grade cells) = []
      ∧ NoScope (write_cell_tables grade cells) := by
  have hd : ∀ ds : List Delay, labelsOf (ds.flatMap (fun delay =>
      [Directive.u32 delay.from_pin (some "from_pin".toList),
       Directive.u32 delay.to_pin (some "to_pin".toList),
       Directive.u32 delay.min_delay (some "min_delay".toList),
       Directive.u32 delay.max_delay (some "max_delay".toList)])) = []
      ∧ refsOf (ds.flatMap (fun delay =>
      [Directive.u32 delay.from_pin (some "from_pin".toList),
       Directive.u32 delay.to_pin (some "to_pin".toList),
       Directive.u32 delay.min_delay (some "min_delay".toList),
       Directive.u32 delay.max_delay (some "max_delay".toList)])) = [] := by
    intro ds
    rw [labelsOf_flatMap, refsOf_flatMap]
    exact ⟨flatMap_nil_of _ _ (fun a => by simp [Directive.labelName]),
      flatMap_nil_of _ _ (fun a => by simp [Directive.refName])⟩
  have hs : ∀ ss : List SetupHold, labelsOf (ss.flatMap (fun sh =>
      [Directive.u32 sh.pin (some "sig_port".toList),
       Directive.u32 sh.clock (some "clock_port".toList),
       Directive.u32 sh.min_setup (some "min_setup".toList),
       Directive.u32 sh.max_setup (some "max_setup".toList),
       Directive.u32 sh.min_hold (some "min_hold".toList),
       Directive.u32 sh.max_hold (some "max_hold".toList)])) = []
      ∧ refsOf (ss.flatMap (fun sh =>
      [Directive.u32 sh.pin (some "sig_port".toList),
       Directive.u32 sh.clock (some "clock_port".toList),
       Directive.u32 sh.min_setup (some "min_setup".toList),
       Directive.u32 sh.max_setup (some "max_setup".toList),
       Directive.u32 sh.min_hold (some "min_hold".toList),
       Directive.u32 sh.max_hold (some "max_hold".toList)])) = [] := by
    intro ss
    rw [labelsOf_flatMap, refsOf_flatMap]
    exact ⟨flatMap_nil_of _ _ (fun a => by simp [Directive.labelName]),
      flatMap_nil_of _ _ (fun a => by simp [Directive.refName])⟩
  refine ⟨?_, ?_, ?_⟩
  · induction cells with
    | nil => rfl
    | cons cell rest ih =>
      simp only [write_cell_tables, cell_labs, List.flatMap_cons, labelsOf_append,
        List.map_append] at ih ⊢
      rw [ih]
      congr 1
      congr 1
      · split
        · simp only [labelsOf_cons, Directive.labelName, (hd _).1, List.append_nil,
            List.map_cons, List.map_nil, Lab.render]
        · rfl
      · split
        · simp only [labelsOf_cons, Directive.labelName, (hs _).1, List.append_nil,
            List.map_cons, List.map_nil, Lab.render]
        · rfl
  · induction cells with
    | nil => rfl
    | cons cell rest ih =>
      simp only [write_cell_tables, List.flatMap_cons, refsOf_append] at ih ⊢
      rw [ih]
      split <;> split <;>
        simp only [refsOf_cons, Directive.refName, (hd _).2, (hs _).2, List.append_nil,
          refsOf_nil]
  · apply noScope_flatMap
    intro cell
    simp only [noScope_append]
    constructor
    · split
      · simp only [noScope_cons, Directive.isPush, Directive.isPop, and_self, true_and]
        exact noScope_flatMap _ _ (fun a => by simp [Directive.isPush, Directive.isPop])
      · simp
    · split
      · simp only [noScope_cons, Directive.isPush, Directive.isPop, and_self, true_and]
        exact noScope_flatMap _ _ (fun a => by simp [Directive.isPush, Directive.isPop])
      · simp

theorem write_cell_record_props (grade : Str) (cell : Cell) :
    labelsOf (write_cell_record grade cell) = []
      ∧ refsOf (write_cell_record grade cell)
          = [cell_name cell.celltype "_delays_".toList grade,
             cell_name cell.celltype "_setupholds_".toList grade]
      ∧ NoScope (write_cell_record grade cell) := by
  unfold write_cell_record
  by_cases h : cell.delays.length > 0
  · simp only [h, if_true, labelsOf_cons, refsOf_cons, noScope_cons, Directive.labelName,
      Directive.refName, Directive.isPush, Directive.isPop, labelsOf_nil, refsOf_nil,
      noScope_nil, List.append_nil, List.nil_append, and_self, List.singleton_append]
  · simp only [h, if_false, labelsOf_cons, refsOf_cons, noScope_cons, Directive.labelName,
      Directive.refName, Directive.isPush, Directive.isPop, labelsOf_nil, refsOf_nil,
      noScope_nil, List.append_nil, List.nil_append, and_self, List.singleton_append]

theorem write_speed_grade_props (chips : List (Str × Chip)) (grade : Str) :
    labelsOf (write_speed_grade chips grade) = (grade_labs chips grade).map Lab.render
      ∧ NoScope (write_speed_grade chips grade)
      ∧ (∀ n ∈ refsOf (write_speed_grade chips grade), IsCellRef n) := by
  obtain ⟨a1, a2, a3⟩ := write_cell_tables_props grade (chips_at chips grade).cells
  have hp : ∀ ps : List PipClass, labelsOf (ps.flatMap (fun pipclass =>
      [Directive.u32 pipclass.min_delay (some "min_delay".toList),
       Directive.u32 pipclass.max_delay (some "max_delay".toList),
       Directive.u32 pipclass.min_fanout (some "min_fanout".toList),
       Directive.u32 pipclass.max_fanout (some "max_fanout".toList)])) = []
      ∧ refsOf (ps.flatMap (fun pipclass =>
      [Directive.u32 pipclass.min_delay (some "min_delay".toList),
       Directive.u32 pipclass.max_delay (some "max_delay".toList),
       Directive.u32 pipclass.min_fanout (some "min_fanout".toList),
       Directive.u32 pipclass.max_fanout (some "max_fanout".toList)])) = [] := by
    intro ps
    rw [labelsOf_flatMap, refsOf_flatMap]
    exact ⟨flatMap_nil_of _ _ (fun a => by simp [Directive.labelName]),
      flatMap_nil_of _ _ (fun a => by simp [Directive.refName])⟩
  have hc : labelsOf ((chips_at chips grade).cells.flatMap (write_cell_record grade)) = [] := by
    rw [labelsOf_flatMap]
    exact flatMap_nil_of _ _ (fun a => (write_cell_record_props grade a).1)
  refine ⟨?_, ?_, ?_⟩
  · simp only [write_speed_grade, labelsOf_append, labelsOf_cons, Directive.labelName, a1, hc,
      (hp _).1, grade_labs, List.map_append, List.map_cons, List.map_nil, Lab.render,
      List.append_nil, List.nil_append, List.append_assoc, List.singleton_append]
  · simp only [write_speed_grade, noScope_append, noScope_cons, Directive.isPush,
      Directive.isPop, and_self, true_and, a3]
    exact ⟨noScope_flatMap _ _ (fun a => (write_cell_record_props grade a).2.2),
      noScope_flatMap _ _ (fun a => by simp [Directive.isPush, Directive.isPop])⟩
  · intro n hn
    simp only [write_speed_grade, refsOf_append, refsOf_cons, Directive.refName, a2, (hp _).2,
      List.append_nil, List.nil_append, refsOf_flatMap, List.mem_flatMap] at hn
    obtain ⟨cell, _, hcell⟩ := hn
    rw [(write_cell_record_props grade cell).2.1] at hcell
    simp only [List.mem_cons, List.mem_singleton, List.not_mem_nil, or_false] at hcell
    exact ⟨cell.celltype, grade, hcell⟩

theorem write_speed_grades_props (chips : List (Str × Chip)) (grades : List Str) :
    labelsOf (grades.flatMap (write_speed_grade chips))
        = (grades.flatMap (grade_labs chips)).map Lab.render
      ∧ NoScope (grades.flatMap (write_speed_grade chips))
      ∧ (∀ n ∈ refsOf (grades.flatMap (write_speed_grade chips)), IsCellRef n) := by
  refine ⟨?_, noScope_flatMap _ _ (fun g => (write_speed_grade_props chips g).2.1), ?_⟩
  · induction grades with
    | nil => rfl
    | cons g rest ih =>
      simp only [List.flatMap_cons, labelsOf_append, List.map_append, ih,
        (write_speed_grade_props chips g).1]
  · intro n hn
    rw [refsOf_flatMap, List.mem_flatMap] at hn
    obtain ⟨g, _, hg⟩ := hn
    exact (write_speed_grade_props chips g).2.2 n hg

theorem write_speed_grade_data_props (chips : List (Str × Chip)) (grades : List Str) :
    labelsOf (write_speed_grade_data chips grades) = []
      ∧ refsOf (write_speed_grade_data chips grades)
          = (grades.flatMap (fun g => [Lab.cell_timing g, Lab.pip_timing g])).map Lab.render
      ∧ NoScope (write_speed_grade_data chips grades) := by
  refine ⟨?_, ?_, ?_⟩
  · unfold write_speed_grade_data
    rw [labelsOf_flatMap]
    exact flatMap_nil_of _ _ (fun a => by simp [Directive.labelName])
  · induction grades with
    | nil => rfl
    | cons g rest ih =>
      simp only [write_speed_grade_data, List.flatMap_cons, refsOf_append, refsOf_cons,
        Directive.refName, refsOf_nil, List.append_nil, List.nil_append, List.map_append,
        List.map_cons, List.map_nil, Lab.render] at ih ⊢
      rw [ih]
      rfl
  · exact noScope_flatMap _ _ (fun a => by simp [Directive.isPush, Directive.isPop])


theorem write_chip_info_props (g : Globals) :
    labelsOf (write_chip_info g) = [Lab.chip_info].map Lab.render
      ∧ refsOf (write_chip_info g)
          = [Lab.locations, Lab.location_types, Lab.location_glbinfo, Lab.tiletype_names,
             Lab.package_data, Lab.pio_info, Lab.tiles_info, Lab.speed_grade_data].map
              Lab.render
      ∧ NoScope (write_chip_info g) := by
  simp only [write_chip_info, labelsOf_cons, refsOf_cons, noScope_cons, Directive.labelName,
    Directive.refName, Directive.isPush, Directive.isPop, labelsOf_nil, refsOf_nil, noScope_nil,
    List.append_nil, List.nil_append, and_self, List.singleton_append, List.map_cons,
    List.map_nil, Lab.render]

theorem mem_stream_labs (g : Globals) (ddrg : DedupChipdb) (lab : Lab) :
    lab ∈ stream_labs g ddrg ↔
      lab ∈ loctypes_labs ddrg 0 (loctypes_of ddrg) ∨ lab = Lab.locations
      ∨ lab ∈ (grid_coords g.max_row g.max_col).map (fun c => Lab.tile_info c.1 c.2)
      ∨ lab = Lab.tiles_info ∨ lab = Lab.location_types ∨ lab = Lab.location_glbinfo
      ∨ lab ∈ g.packages.map (fun p => Lab.package p.1)
      ∨ lab = Lab.package_data ∨ lab = Lab.pio_info ∨ lab = Lab.tiletype_names
      ∨ lab ∈ speed_grade_names.flatMap (grade_labs g.chips)
      ∨ lab = Lab.speed_grade_data ∨ lab = Lab.chip_info := by
  simp only [stream_labs, List.mem_append, List.mem_cons, List.mem_singleton,
    List.not_mem_nil, or_false, or_assoc]

theorem mem_grade_labs_timing (chips : List (Str × Chip)) (grades : List Str) (lab : Lab)
    (h : lab ∈ grades.flatMap (fun g => [Lab.cell_timing g, Lab.pip_timing g])) :
    lab ∈ grades.flatMap (grade_labs chips) := by
  rw [List.mem_flatMap] at h ⊢
  obtain ⟨g, hg, hl⟩ := h
  refine ⟨g, hg, ?_⟩
  unfold grade_labs
  exact List.mem_append_right _ hl

theorem stream_body_props (g : Globals) (chip : TrellisChip) (ddrg : DedupChipdb)
    (tt : StrIntMap) (locs : List Directive)
    (h1 : labelsOf locs = (loctypes_labs ddrg 0 (loctypes_of ddrg)).map Lab.render)
    (h2 : NoScope locs)
    (h3 : ∀ n ∈ refsOf locs, n = "None".toList
      ∨ n ∈ (loctypes_labs ddrg 0 (loctypes_of ddrg)).map Lab.render) :
    labelsOf (stream_body g chip ddrg tt locs) = (stream_labs g ddrg).map Lab.render
      ∧ NoScope (stream_body g chip ddrg tt locs)
      ∧ (∀ n ∈ refsOf (stream_body g chip ddrg tt locs), n = "None".toList ∨ IsCellRef n
          ∨ n ∈ (stream_labs g ddrg).map Lab.render) := by
  obtain ⟨a1, a2, a3⟩ := write_locations_props ddrg (loctypes_of ddrg) 0
  obtain ⟨b1, b2, b3⟩ := write_tile_infos_props chip (grid_coords g.max_row g.max_col) tt
  obtain ⟨c1, c2, c3⟩ := write_tiles_info_props chip (grid_coords g.max_row g.max_col)
  obtain ⟨d1, d2, d3⟩ := write_location_types_props ddrg (loctypes_of ddrg)
    (grid_coords g.max_row g.max_col)
  obtain ⟨e1, e2, e3⟩ := write_glbinfo_props g.globalInfos (grid_coords g.max_row g.max_col)
  obtain ⟨f1, f2, f3⟩ := write_package_pins_props g.packages
  obtain ⟨g1, g2, g3⟩ := write_package_data_props g.packages
  obtain ⟨i1, i2, i3⟩ := write_pio_info_props g.pindata
  obtain ⟨j1, j2, j3⟩ := write_tiletype_names_props
    (write_tile_infos chip tt (grid_coords g.max_row g.max_col)).1
  obtain ⟨k1, k2, k3⟩ := write_speed_grades_props g.chips speed_grade_names
  obtain ⟨l1, l2, l3⟩ := write_speed_grade_data_props g.chips speed_grade_names
  obtain ⟨m1, m2, m3⟩ := write_chip_info_props g
  refine ⟨?_, ?_, ?_⟩
  · simp only [stream_body, labelsOf_append, labelsOf_cons, Directive.labelName, h1, a1, b1,
      c1, d1, e1, f1, g1, i1, j1, k1, l1, m1, stream_labs, List.map_append, List.map_cons,
      List.map_nil, Lab.render, List.append_nil, List.nil_append, List.append_assoc,
      List.singleton_append, List.cons_append]
  · simp only [stream_body, noScope_append, noScope_cons, Directive.isPush, Directive.isPop,
      and_self, true_and, h2, a2, b3, c3, d3, e3, f3, g3, i3, j3, k2, l3, m3]
  · intro n hn
    simp only [stream_body, refsOf_append, refsOf_cons, Directive.refName, b2, d2, e2, f2, i2,
      j2, c2, g2, l2, m2, List.append_nil, List.nil_append, List.mem_append, List.mem_cons,
      List.singleton_append] at hn
    have key : ∀ lab : Lab, lab ∈ stream_labs g ddrg → n = lab.render →
        n = "None".toList ∨ IsCellRef n ∨ n ∈ (stream_labs g ddrg).map Lab.render :=
      fun lab hl hr => Or.inr (Or.inr (List.mem_map.mpr ⟨lab, hl, hr.symm⟩))
    rcases hn with ((((((hn | hn) | hn) | hn) | hn) | hn) | hn) | hn
    · refine key Lab.chip_info ((mem_stream_labs g ddrg _).mpr ?_) hn
      simp only [eq_self, or_true]
    · rcases h3 n hn with h | h
      · exact Or.inl h
      · obtain ⟨lab, hl, hr⟩ := List.mem_map.mp h
        exact key lab ((mem_stream_labs g ddrg _).mpr (Or.inl hl)) hr.symm
    · rcases a3 n hn with h | h
      · exact Or.inl h
      · obtain ⟨lab, hl, hr⟩ := List.mem_map.mp h
        exact key lab ((mem_stream_labs g ddrg _).mpr (Or.inl hl)) hr.symm
    · obtain ⟨lab, hl, hr⟩ := List.mem_map.mp hn
      exact key lab ((mem_stream_labs g ddrg _).mpr (Or.inr (Or.inr (Or.inl hl)))) hr.symm
    · obtain ⟨lab, hl, hr⟩ := List.mem_map.mp hn
      exact key lab ((mem_stream_labs g ddrg _).mpr
        (Or.inr (Or.inr (Or.inr (Or.inr (Or.inr (Or.inr (Or.inl hl)))))))) hr.symm
    · exact Or.inr (Or.inl (k3 n hn))
    · obtain ⟨lab, hl, hr⟩ := List.mem_map.mp hn
      have hm := mem_grade_labs_timing g.chips speed_grade_names lab hl
      exact key lab ((mem_stream_labs g ddrg _).mpr
        (Or.inr (Or.inr (Or.inr (Or.inr (Or.inr (Or.inr (Or.inr (Or.inr (Or.inr (Or.inr
          (Or.inl hm)))))))))))) hr.symm
    · obtain ⟨lab, hl, hr⟩ := List.mem_map.mp hn
      refine key lab ((mem_stream_labs g ddrg _).mpr ?_) hr.symm
      simp only [List.mem_cons, List.mem_singleton, List.not_mem_nil, or_false] at hl
      rcases hl with h | h | h | h | h | h | h | h <;> subst h <;>
        simp only [eq_self, true_or, or_true]

/-! ## The shape of the stream of `write_database` -/

theorem write_database_shape (rc : RowColDecoder) (g : Globals) (device_name : Str)
    (chip : TrellisChip) (ddrg : DedupChipdb) (stream : List Directive)
    (h : write_database rc g device_name chip ddrg = some stream) :
    ∃ body : List Directive,
      stream = stream_head ++ Directive.push ("chipdb_blob_".toList ++ device_name)
        :: body ++ [Directive.pop]
      ∧ labelsOf body = (stream_labs g ddrg).map Lab.render
      ∧ NoScope body
      ∧ (∀ n ∈ refsOf body, n = "None".toList ∨ IsCellRef n
          ∨ n ∈ (stream_labs g ddrg).map Lab.render) := by
  unfold write_database at h
  simp only [Option.map_eq_some'] at h
  obtain ⟨locs, hl, hs⟩ := h
  obtain ⟨h1, h2, h3⟩ := write_loctypes_props rc g.constids ddrg _ _ 0 _ locs hl
  obtain ⟨p1, p2, p3⟩ := stream_body_props g chip ddrg locs.1.2 locs.2 h1 h2 h3
  exact ⟨_, hs.symm, p1, p2, p3⟩

theorem labelsOf_stream (device_name : Str) (body : List Directive) :
    labelsOf (stream_head ++ Directive.push ("chipdb_blob_".toList ++ device_name)
      :: body ++ [Directive.pop]) = labelsOf body := by
  simp only [stream_head, labelsOf, List.cons_append, List.nil_append, List.filterMap_cons,
    List.filterMap_append, Directive.labelName, List.filterMap_nil, List.append_nil]

theorem refsOf_stream (device_name : Str) (body : List Directive) :
    refsOf (stream_head ++ Directive.push ("chipdb_blob_".toList ++ device_name)
      :: body ++ [Directive.pop]) = refsOf body := by
  simp only [stream_head, refsOf, List.cons_append, List.nil_append, List.filterMap_cons,
    List.filterMap_append, Directive.refName, List.filterMap_nil, List.append_nil]

theorem countP_isPush_noScope (body : List Directive) (h : NoScope body) :
    body.countP Directive.isPush = 0 := by
  rw [List.countP_eq_zero]
  intro d hd
  rw [(h d hd).1]
  exact Bool.false_ne_true

theorem countP_isPop_noScope (body : List Directive) (h : NoScope body) :
    body.countP Directive.isPop = 0 := by
  rw [List.countP_eq_zero]
  intro d hd
  rw [(h d hd).2]
  exact Bool.false_ne_true

theorem stream_counts (device_name : Str) (body : List Directive) (h : NoScope body) :
    (stream_head ++ Directive.push ("chipdb_blob_".toList ++ device_name)
        :: body).countP Directive.isPush = 1
    ∧ (stream_head ++ Directive.push ("chipdb_blob_".toList ++ device_name)
        :: body).countP Directive.isPop = 0 := by
  have a := countP_isPush_noScope body h
  have b := countP_isPop_noScope body h
  constructor
  · rw [List.countP_append, List.countP_cons, a]
    rfl
  · rw [List.countP_append, List.countP_cons, b]
    rfl

theorem stream_balanced (device_name : Str) (body : List Directive) (h : NoScope body) (k : Nat) :
    ((stream_head ++ Directive.push ("chipdb_blob_".toList ++ device_name)
        :: body ++ [Directive.pop]).take k).countP Directive.isPop
      ≤ ((stream_head ++ Directive.push ("chipdb_blob_".toList ++ device_name)
        :: body ++ [Directive.pop]).take k).countP Directive.isPush := by
  obtain ⟨a, b⟩ := stream_counts device_name body h
  have hp := List.take_prefix k
    ((stream_head ++ Directive.push ("chipdb_blob_".toList ++ device_name) :: body)
      ++ [Directive.pop])
  rcases List.prefix_concat_iff.mp hp with hq | hq
  · rw [hq, List.countP_append (p := Directive.isPop),
      List.countP_append (p := Directive.isPush), a, b]
    decide
  · have := hq.sublist.countP_le Directive.isPop
    omega

/-! ## The names of the labels determine the labels -/

theorem digitChar_value (k : Nat) (h : k < 10) : k.digitChar.toNat - 48 = k := by
  interval_cases k <;> rfl

theorem toDigitsCore_value (fuel : Nat) :
    ∀ (n : Nat) (ds : List Char), n < fuel →
      digitsValue 0 (Nat.toDigitsCore 10 fuel n ds) = digitsValue n ds := by
  induction fuel with
  | zero =>
    intro n ds h
    omega
  | succ fuel ih =>
    intro n ds h
    unfold Nat.toDigitsCore
    have hd : digitsValue (n / 10) ((n % 10).digitChar :: ds) = digitsValue n ds := by
      simp only [digitsValue, List.foldl_cons]
      rw [digitChar_value _ (Nat.mod_lt _ (by decide))]
      congr 1
      omega
    by_cases h0 : n / 10 = 0
    · simp only [h0, if_true]
      rw [← hd, h0]
    · simp only [h0, if_false]
      rw [ih _ _ (by omega), hd]

theorem toDigits_value (n : Nat) : digitsValue 0 (Nat.toDigits 10 n) = n := by
  unfold Nat.toDigits
  rw [toDigitsCore_value (n + 1) n [] (by omega)]
  rfl

theorem toDigits_injective (a b : Nat) (h : Nat.toDigits 10 a = Nat.toDigits 10 b) : a = b := by
  rw [← toDigits_value a, ← toDigits_value b, h]

theorem to_string_chars (i : Int) : ∀ c ∈ to_string i, c ∈ decimalDigits ∨ c = '-' := by
  intro c hc
  unfold to_string at hc
  split_ifs at hc
  · rcases List.mem_cons.mp hc with h | h
    · exact Or.inr h
    · exact Or.inl (toDigits_mem _ c h)
  · exact Or.inl (toDigits_mem _ c hc)

theorem to_string_injective (i j : Int) (h : to_string i = to_string j) : i = j := by
  have hm : '-' ∉ decimalDigits := by decide
  unfold to_string at h
  split_ifs at h with hi hj hj
  · have := toDigits_injective _ _ (List.cons.inj h).2
    omega
  · exact absurd (toDigits_mem _ '-' (h ▸ List.mem_cons_self _ _)) hm
  · exact absurd (toDigits_mem _ '-' (h ▸ List.mem_cons_self _ _)) hm
  · have := toDigits_injective _ _ h
    omega

theorem to_string_inj (i j : Int) : to_string i = to_string j ↔ i = j :=
  ⟨to_string_injective i j, fun h => by rw [h]⟩

theorem to_string_no_underscore (i : Int) : '_' ∉ to_string i := by
  intro h
  rcases to_string_chars i '_' h with h | h
  · revert h
    decide
  · revert h
    decide

theorem to_string_ne_timing (i : Int) : to_string i ≠ "timing".toList := by
  intro h
  have hc : 't' ∈ to_string i := by
    rw [h]
    decide
  rcases to_string_chars i 't' hc with h | h
  · revert h
    decide
  · revert h
    decide

theorem splitOn_pieces (x : Char) :
    ∀ (xs : Str), ∀ l ∈ xs.splitOn x, x ∉ l := by
  intro xs
  induction xs with
  | nil =>
    intro l hl
    rw [List.splitOn_nil] at hl
    simp only [List.mem_singleton] at hl
    rw [hl]
    exact List.not_mem_nil x
  | cons a xs ih =>
    intro l hl
    unfold List.splitOn at hl ih
    rw [List.splitOnP_cons] at hl
    by_cases ha : (a == x) = true
    · rw [if_pos ha] at hl
      rcases List.mem_cons.mp hl with h | h
      · rw [h]
        exact List.not_mem_nil x
      · exact ih l h
    · rw [if_neg ha] at hl
      cases hs : List.splitOnP (fun y => y == x) xs with
      | nil => exact absurd hs (List.splitOnP_ne_nil _ _)
      | cons hd tl =>
        rw [hs] at hl ih
        simp only [List.modifyHead_cons, List.mem_cons] at hl
        rcases hl with h | h
        · rw [h]
          intro hx
          rcases List.mem_cons.mp hx with e | e
          · exact ha (by rw [e]; exact beq_self_eq_true a)
          · exact ih hd (List.mem_cons_self _ _) e
        · exact ih l (List.mem_cons_of_mem _ h)

theorem splitOn_ne_nil (x : Char) (xs : Str) : xs.splitOn x ≠ [] :=
  List.splitOnP_ne_nil _ _

theorem splitOn_injective (x : Char) (a b : Str) (h : a.splitOn x = b.splitOn x) : a = b := by
  have ha := @List.intercalate_splitOn Char a x _
  have hb := @List.intercalate_splitOn Char b x _
  rw [← ha, ← hb, h]

theorem intercalate_cons_cons (sep a b : Str) (l : List Str) :
    sep.intercalate (a :: b :: l) = a ++ sep ++ sep.intercalate (b :: l) := by
  simp [List.intercalate, List.intersperse]

theorem intercalate_cons_of_ne_nil (sep a : Str) (l : List Str) (h : l ≠ []) :
    sep.intercalate (a :: l) = a ++ sep ++ sep.intercalate l := by
  cases l with
  | nil => exact absurd rfl h
  | cons b l => exact intercalate_cons_cons sep a b l

theorem render_eq_intercalate (l : Lab) : l.render = ['_'].intercalate l.tokens := by
  cases l <;>
    simp only [Lab.render, Lab.tokens, loc_name, loc_wire_name, loc_bel_name, tile_info_name,
      cell_name, List.cons_append, List.nil_append,
      intercalate_cons_of_ne_nil _ _ _ (splitOn_ne_nil '_' _), intercalate_cons_cons,
      List.intercalate_splitOn] <;>
    simp [List.intercalate]

theorem tokens_no_underscore (l : Lab) : ∀ t ∈ l.tokens, '_' ∉ t := by
  have hs := to_string_no_underscore
  have hp := splitOn_pieces '_'
  cases l <;>
    simp only [Lab.tokens, List.cons_append, List.nil_append, List.forall_mem_cons,
      List.mem_append, not_or, hs, not_false_eq_true, and_true, true_and] <;>
    first
    | decide
    | exact ⟨by decide, by decide, hp _⟩
    | exact ⟨by decide, by decide, by decide, hp _⟩

theorem tokens_ne_nil (l : Lab) : l.tokens ≠ [] := by
  cases l <;> simp [Lab.tokens]

theorem splitOn_render (l : Lab) : l.render.splitOn '_' = l.tokens := by
  rw [render_eq_intercalate]
  exact List.splitOn_intercalate _ '_' (tokens_no_underscore l) (tokens_ne_nil l)

set_option maxHeartbeats 1000000 in
theorem tokens_injective (a b : Lab) (h : a.tokens = b.tokens) : a = b := by
  have hn := splitOn_ne_nil '_'
  have hi := splitOn_injective '_'
  cases a <;> cases b <;>
    simp only [Lab.tokens, List.cons_append, List.nil_append, List.cons.injEq,
      List.append_cancel_left_eq, to_string_inj, Nat.cast_inj, and_true, true_and] at h <;>
    first
    | rfl
    | (simp at h; done)
    | (rw [h])
    | (rw [h.1, h.2])
    | (rw [hi _ _ h])
    | (rw [h.1, hi _ _ h.2])
    | exact absurd h (hn _)
    | exact absurd h.symm (hn _)

theorem render_injective : Function.Injective Lab.render := by
  intro a b h
  apply tokens_injective
  rw [← splitOn_render a, ← splitOn_render b, h]

theorem mem_map_render (lab : Lab) (L : List Lab) :
    lab.render ∈ L.map Lab.render ↔ lab ∈ L :=
  List.mem_map_of_injective render_injective

/-! ## The part of a stream under a label -/

theorem labelFirst_nil : LabelFirst [] := by
  intro d h
  simp at h

theorem labelFirst_label (n : Str) (t : Option Str) (rest : List Directive) :
    LabelFirst (Directive.l n t :: rest) := by
  intro d h
  simp only [List.head?_cons, Option.some.injEq] at h
  rw [← h]
  rfl

theorem labelFirst_append (a b : List Directive) (ha : LabelFirst a) (hb : LabelFirst b) :
    LabelFirst (a ++ b) := by
  cases a with
  | nil => exact hb
  | cons d a =>
    intro e he
    exact ha e he

theorem labelFirst_flatMap {α : Type} (l : List α) (f : α → List Directive)
    (h : ∀ a ∈ l, LabelFirst (f a)) : LabelFirst (l.flatMap f) := by
  induction l with
  | nil => exact labelFirst_nil
  | cons a l ih =>
    rw [List.flatMap_cons]
    exact labelFirst_append _ _ (h a (List.mem_cons_self _ _))
      (ih (fun b hb => h b (List.mem_cons_of_mem _ hb)))

theorem labelsOf_eq_nil (ds : List Directive) :
    labelsOf ds = [] ↔ ∀ d ∈ ds, d.labelName = none := by
  unfold labelsOf
  rw [List.filterMap_eq_nil_iff]

theorem takeWhile_section (sect rest : List Directive) (hs : labelsOf sect = [])
    (hr : LabelFirst rest) :
    (sect ++ rest).takeWhile (fun e => e.labelName.isNone) = sect := by
  induction sect with
  | nil =>
    cases rest with
    | nil => rfl
    | cons d rest =>
      have := hr d rfl
      rw [List.nil_append, List.takeWhile_cons]
      cases hd : d.labelName with
      | none => rw [hd] at this; exact absurd this (by decide)
      | some n => rfl
  | cons d sect ih =>
    have hd : d.labelName = none := (labelsOf_eq_nil _).mp hs d (List.mem_cons_self _ _)
    have hs2 : labelsOf sect = [] :=
      (labelsOf_eq_nil _).mpr (fun e he => (labelsOf_eq_nil _).mp hs e (List.mem_cons_of_mem _ he))
    rw [List.cons_append, List.takeWhile_cons, hd, ih hs2]
    rfl

theorem sectionOf_cons (name : Str) (d : Directive) (rest : List Directive) :
    sectionOf name (d :: rest)
      = if d.labelName = some name then rest.takeWhile (fun e => e.labelName.isNone)
        else sectionOf name rest := by
  rw [sectionOf]

theorem sectionOf_not_mem (name : Str) (a : List Directive) (h : name ∉ labelsOf a) :
    sectionOf name a = [] := by
  induction a with
  | nil => rfl
  | cons d a ih =>
    rw [sectionOf_cons]
    cases hd : d.labelName with
    | none =>
      rw [if_neg (by simp)]
      apply ih
      intro hm
      apply h
      simp only [labelsOf, List.filterMap_cons, hd] at hm ⊢
      exact hm
    | some n =>
      simp only [labelsOf, List.filterMap_cons, hd, List.mem_cons, not_or] at h
      rw [if_neg (by simp only [Option.some.injEq]; exact fun e => h.1 e.symm)]
      exact ih h.2

theorem sectionOf_append_right (name : Str) (a b : List Directive) (h : name ∉ labelsOf a) :
    sectionOf name (a ++ b) = sectionOf name b := by
  induction a with
  | nil => rfl
  | cons d a ih =>
    rw [List.cons_append, sectionOf_cons]
    cases hd : d.labelName with
    | none =>
      rw [if_neg (by simp)]
      apply ih
      intro hm
      apply h
      simp only [labelsOf, List.filterMap_cons, hd] at hm ⊢
      exact hm
    | some n =>
      simp only [labelsOf, List.filterMap_cons, hd, List.mem_cons, not_or] at h
      rw [if_neg (by simp only [Option.some.injEq]; exact fun e => h.1 e.symm)]
      exact ih h.2

theorem takeWhile_append_labelFirst (a b : List Directive) (hb : LabelFirst b) :
    (a ++ b).takeWhile (fun e => e.labelName.isNone)
      = a.takeWhile (fun e => e.labelName.isNone) := by
  induction a with
  | nil => exact takeWhile_section [] b rfl hb
  | cons d a ih =>
    rw [List.cons_append, List.takeWhile_cons, List.takeWhile_cons, ih]

theorem sectionOf_append_left (name : Str) (a b : List Directive) (h : name ∈ labelsOf a)
    (hb : LabelFirst b) : sectionOf name (a ++ b) = sectionOf name a := by
  induction a with
  | nil => simp [labelsOf] at h
  | cons d a ih =>
    rw [List.cons_append, sectionOf_cons, sectionOf_cons]
    by_cases hd : d.labelName = some name
    · rw [if_pos hd, if_pos hd]
      exact takeWhile_append_labelFirst a b hb
    · rw [if_neg hd, if_neg hd]
      apply ih
      simp only [labelsOf, List.filterMap_cons] at h ⊢
      cases hn : d.labelName with
      | none => rw [hn] at h; exact h
      | some n =>
        rw [hn] at h hd
        rcases List.mem_cons.mp h with e | e
        · exact absurd (by rw [e]) hd
        · exact e

theorem sectionOf_label (name : Str) (t : Option Str) (sect rest : List Directive)
    (hs : labelsOf sect = []) (hr : LabelFirst rest) :
    sectionOf name (Directive.l name t :: (sect ++ rest)) = sect := by
  rw [sectionOf_cons, if_pos (by rfl)]
  exact takeWhile_section sect rest hs hr
/-! ## The labels of the location types and the labels after them -/

theorem wire_table_labs_locIdx (idx : Nat) (wires : List WireData) :
    ∀ (w : Nat), ∀ l ∈ wire_table_labs idx w wires, l.locIdx = some idx := by
  induction wires with
  | nil =>
    intro w l hl
    simp [wire_table_labs] at hl
  | cons wire rest ih =>
    intro w l hl
    simp only [wire_table_labs, List.mem_append] at hl
    rcases hl with ((hl | hl) | hl) | hl
    · split_ifs at hl
      · rw [List.mem_singleton.mp hl]; rfl
      · simp at hl
    · split_ifs at hl
      · rw [List.mem_singleton.mp hl]; rfl
      · simp at hl
    · split_ifs at hl
      · rw [List.mem_singleton.mp hl]; rfl
      · simp at hl
    · exact ih _ l hl

theorem bel_table_labs_locIdx (idx : Nat) (bels : List BelData) :
    ∀ (b : Nat), ∀ l ∈ bel_table_labs idx b bels, l.locIdx = some idx := by
  induction bels with
  | nil =>
    intro b l hl
    simp [bel_table_labs] at hl
  | cons bel rest ih =>
    intro b l hl
    simp only [bel_table_labs, List.mem_cons] at hl
    rcases hl with hl | hl
    · rw [hl]; rfl
    · exact ih _ l hl

theorem loctype_labs_locIdx (idx : Nat) (loctype : LocationData) :
    ∀ l ∈ loctype_labs idx loctype, l.locIdx = some idx := by
  intro l hl
  simp only [loctype_labs, List.mem_append] at hl
  rcases hl with (hl | hl) | hl
  · split_ifs at hl
    · rw [List.mem_singleton.mp hl]; rfl
    · simp at hl
  · split_ifs at hl
    · rcases List.mem_append.mp hl with h | h
      · exact wire_table_labs_locIdx idx _ 0 l h
      · rw [List.mem_singleton.mp h]; rfl
    · simp at hl
  · split_ifs at hl
    · rcases List.mem_append.mp hl with h | h
      · exact bel_table_labs_locIdx idx _ 0 l h
      · rw [List.mem_singleton.mp h]; rfl
    · simp at hl

theorem loctypes_labs_locIdx (ddrg : DedupChipdb) (keys : List checksum_t) :
    ∀ (idx : Nat), ∀ l ∈ loctypes_labs ddrg idx keys, ∃ i, idx ≤ i ∧ l.locIdx = some i := by
  induction keys with
  | nil =>
    intro idx l hl
    simp [loctypes_labs] at hl
  | cons key rest ih =>
    intro idx l hl
    simp only [loctypes_labs, List.mem_append] at hl
    rcases hl with hl | hl
    · exact ⟨idx, le_refl _, loctype_labs_locIdx idx _ l hl⟩
    · obtain ⟨i, hi, h⟩ := ih (idx + 1) l hl
      exact ⟨i, by omega, h⟩

theorem stream_labs_eq (g : Globals) (ddrg : DedupChipdb) :
    stream_labs g ddrg = loctypes_labs ddrg 0 (loctypes_of ddrg) ++ tail_labs g := by
  simp only [stream_labs, tail_labs, List.append_assoc, List.cons_append]

theorem grade_labs_locIdx (chips : List (Str × Chip)) (grade : Str) :
    ∀ l ∈ grade_labs chips grade, l.locIdx = none := by
  intro l hl
  simp only [grade_labs, cell_labs, List.mem_append, List.mem_flatMap, List.mem_cons,
    List.mem_singleton, List.not_mem_nil, or_false] at hl
  rcases hl with ⟨cell, -, h | h⟩ | h | h
  · split_ifs at h
    · rw [List.mem_singleton.mp h]; rfl
    · simp at h
  · split_ifs at h
    · rw [List.mem_singleton.mp h]; rfl
    · simp at h
  · rw [h]; rfl
  · rw [h]; rfl

theorem tail_labs_locIdx (g : Globals) : ∀ l ∈ tail_labs g, l.locIdx = none := by
  intro l hl
  simp only [tail_labs, List.mem_append, List.mem_cons, List.mem_map, List.mem_flatMap,
    List.mem_singleton, List.not_mem_nil, or_false] at hl
  casesm* _ ∨ _, ∃ _, _, _ ∧ _
  all_goals first
    | (subst l; rfl)
    | exact grade_labs_locIdx _ _ l (by assumption)

theorem stream_body_eq (g : Globals) (chip : TrellisChip) (ddrg : DedupChipdb)
    (tt : StrIntMap) (locs : List Directive) :
    stream_body g chip ddrg tt locs
      = Directive.r "chip_info".toList (some "chip_info".toList)
        :: (locs ++ stream_tail g chip ddrg tt) := by
  simp only [stream_tail, stream_body, List.nil_append, List.cons_append, List.tail_cons,
    List.append_assoc]

theorem stream_tail_labels (g : Globals) (chip : TrellisChip) (ddrg : DedupChipdb)
    (tt : StrIntMap) (locs : List Directive)
    (h1 : labelsOf locs = (loctypes_labs ddrg 0 (loctypes_of ddrg)).map Lab.render)
    (h2 : NoScope locs)
    (h3 : ∀ n ∈ refsOf locs, n = "None".toList
      ∨ n ∈ (loctypes_labs ddrg 0 (loctypes_of ddrg)).map Lab.render) :
    labelsOf (stream_tail g chip ddrg tt) = (tail_labs g).map Lab.render := by
  have h := (stream_body_props g chip ddrg tt locs h1 h2 h3).1
  rw [stream_body_eq, stream_labs_eq, labelsOf_cons, labelsOf_append, List.map_append, h1] at h
  exact List.append_cancel_left h

/-! ## The sections of the stream of `write_database` -/

theorem write_database_parts (rc : RowColDecoder) (g : Globals) (device_name : Str)
    (chip : TrellisChip) (ddrg : DedupChipdb) (stream : List Directive)
    (h : write_database rc g device_name chip ddrg = some stream) :
    ∃ r : (StrIntMap × StrIntMap) × List Directive,
      write_loctypes rc g.constids ddrg
          (fill_loc_with_type ddrg (loctypes_of ddrg) (grid_coords g.max_row g.max_col)
            g.loc_with_type)
          0 (loctypes_of ddrg) (g.pip_class_to_idx, g.tiletype_names) = some r
      ∧ stream = stream_head ++ Directive.push ("chipdb_blob_".toList ++ device_name)
          :: Directive.r "chip_info".toList (some "chip_info".toList)
          :: (r.2 ++ (stream_tail g chip ddrg r.1.2 ++ [Directive.pop])) := by
  unfold write_database at h
  simp only [Option.map_eq_some'] at h
  obtain ⟨locs, hl, hs⟩ := h
  refine ⟨locs, hl, ?_⟩
  rw [← hs, stream_body_eq]
  simp only [List.cons_append, List.append_assoc]

theorem stream_tail_eq (g : Globals) (chip : TrellisChip) (ddrg : DedupChipdb)
    (tt : StrIntMap) :
    stream_tail g chip ddrg tt ++ [Directive.pop]
      = Directive.l "locations".toList (some "LocationTypePOD".toList)
        :: (write_locations ddrg 0 (loctypes_of ddrg)
        ++ ((write_tile_infos chip tt (grid_coords g.max_row g.max_col)).2
        ++ Directive.l "tiles_info".toList (some "TileInfoPOD".toList)
        :: (write_tiles_info chip (grid_coords g.max_row g.max_col)
        ++ Directive.l "location_types".toList (some "int32_t".toList)
        :: (write_location_types ddrg (loctypes_of ddrg) (grid_coords g.max_row g.max_col)
        ++ Directive.l "location_glbinfo".toList (some "GlobalInfoPOD".toList)
        :: (write_glbinfo g.globalInfos (grid_coords g.max_row g.max_col)
        ++ (write_package_pins g.packages
        ++ Directive.l "package_data".toList (some "PackageInfoPOD".toList)
        :: (write_package_data g.packages
        ++ Directive.l "pio_info".toList (some "PIOInfoPOD".toList)
        :: (write_pio_info g.pindata
        ++ Directive.l "tiletype_names".toList (some "RelPtr<char>".toList)
        :: (write_tiletype_names (write_tile_infos chip tt (grid_coords g.max_row g.max_col)).1
        ++ (speed_grade_names.flatMap (write_speed_grade g.chips)
        ++ Directive.l "speed_grade_data".toList none
        :: (write_speed_grade_data g.chips speed_grade_names
        ++ (write_chip_info g ++ [Directive.pop])))))))))))) := by
  simp only [stream_tail, stream_body, List.nil_append, List.cons_append, List.tail_cons,
    List.append_assoc]

theorem sectionOf_skip (name n : Str) (t : Option Str) (rest : List Directive) (h : n ≠ name) :
    sectionOf name (Directive.l n t :: rest) = sectionOf name rest := by
  rw [sectionOf_cons, if_neg]
  simp only [Directive.labelName, Option.some.injEq]
  exact h

theorem sectionOf_skip_plain (name : Str) (a rest : List Directive) (h : labelsOf a = []) :
    sectionOf name (a ++ rest) = sectionOf name rest :=
  sectionOf_append_right name a rest (by rw [h]; exact List.not_mem_nil _)

theorem not_mem_tile_labels (chip : TrellisChip) (tt : StrIntMap) (grid : List (Nat × Nat))
    (name : Str) (lab : Lab) (hn : lab.render = name) (h : ∀ x y, lab ≠ Lab.tile_info x y) :
    name ∉ labelsOf (write_tile_infos chip tt grid).2 := by
  rw [← hn, (write_tile_infos_props chip grid tt).1, mem_map_render]
  intro hm
  obtain ⟨c, -, hc⟩ := List.mem_map.mp hm
  exact h _ _ hc.symm

theorem not_mem_package_labels (packages : List (Str × Pins))
    (name : Str) (lab : Lab) (hn : lab.render = name) (h : ∀ n, lab ≠ Lab.package n) :
    name ∉ labelsOf (write_package_pins packages) := by
  rw [← hn, (write_package_pins_props packages).1, mem_map_render]
  intro hm
  obtain ⟨c, -, hc⟩ := List.mem_map.mp hm
  exact h _ hc.symm

theorem labelFirst_tile_infos (chip : TrellisChip) (tt : StrIntMap) (grid : List (Nat × Nat)) :
    LabelFirst (write_tile_infos chip tt grid).2 := by
  cases grid with
  | nil => exact labelFirst_nil
  | cons c grid =>
    obtain ⟨x, y⟩ := c
    simp only [write_tile_infos]
    exact labelFirst_label _ _ _

theorem sectionOf_locations (g : Globals) (chip : TrellisChip) (ddrg : DedupChipdb)
    (tt : StrIntMap) :
    sectionOf "locations".toList (stream_tail g chip ddrg tt ++ [Directive.pop])
      = write_locations ddrg 0 (loctypes_of ddrg) := by
  rw [stream_tail_eq]
  exact sectionOf_label _ _ _ _ (write_locations_props ddrg _ 0).1
    (labelFirst_append _ _ (labelFirst_tile_infos _ _ _) (labelFirst_label _ _ _))

theorem sectionOf_location_types (g : Globals) (chip : TrellisChip) (ddrg : DedupChipdb)
    (tt : StrIntMap) :
    sectionOf "location_types".toList (stream_tail g chip ddrg tt ++ [Directive.pop])
      = write_location_types ddrg (loctypes_of ddrg) (grid_coords g.max_row g.max_col) := by
  rw [stream_tail_eq, sectionOf_skip _ _ _ _ (by decide),
    sectionOf_skip_plain _ _ _ (write_locations_props ddrg _ 0).1,
    sectionOf_append_right _ _ _
      (not_mem_tile_labels chip tt _ "location_types".toList Lab.location_types rfl
        (fun _ _ => by simp)),
    sectionOf_skip _ _ _ _ (by decide),
    sectionOf_skip_plain _ _ _ (write_tiles_info_props chip _).1]
  exact sectionOf_label _ _ _ _ (write_location_types_props ddrg _ _).1 (labelFirst_label _ _ _)
theorem sectionOf_package_data (g : Globals) (chip : TrellisChip) (ddrg : DedupChipdb)
    (tt : StrIntMap) :
    sectionOf "package_data".toList (stream_tail g chip ddrg tt ++ [Directive.pop])
      = write_package_data g.packages := by
  rw [stream_tail_eq, sectionOf_skip _ _ _ _ (by decide),
    sectionOf_skip_plain _ _ _ (write_locations_props ddrg _ 0).1,
    sectionOf_append_right _ _ _
      (not_mem_tile_labels chip tt _ "package_data".toList Lab.package_data rfl
        (fun _ _ => by simp)),
    sectionOf_skip _ _ _ _ (by decide),
    sectionOf_skip_plain _ _ _ (write_tiles_info_props chip _).1,
    sectionOf_skip _ _ _ _ (by decide),
    sectionOf_skip_plain _ _ _ (write_location_types_props ddrg _ _).1,
    sectionOf_skip _ _ _ _ (by decide),
    sectionOf_skip_plain _ _ _ (write_glbinfo_props _ _).1,
    sectionOf_append_right _ _ _
      (not_mem_package_labels _ "package_data".toList Lab.package_data rfl
        (fun _ => by simp))]
  exact sectionOf_label _ _ _ _ (write_package_data_props _).1 (labelFirst_label _ _ _)

theorem labelsOf_pin_records (pins : List Pin) :
    labelsOf (pins.flatMap (fun pin =>
      [Directive.s pin.name "name".toList] ++ write_loc pin.location "abs_loc".toList ++
      [Directive.u32 pin.bel_index (some "bel_index".toList)])) = [] := by
  rw [labelsOf_flatMap]
  apply flatMap_nil_of
  intro pin
  simp only [labelsOf_append, labelsOf_cons, labelsOf_nil, labelsOf_write_loc,
    Directive.labelName, List.append_nil]

theorem labelFirst_package_pins (packages : List (Str × Pins)) :
    LabelFirst (write_package_pins packages) := by
  unfold write_package_pins
  exact labelFirst_flatMap _ _ (fun p _ => labelFirst_label _ _ _)

theorem sectionOf_package_pins (rest : List Directive) (hr : LabelFirst rest) :
    ∀ (packages : List (Str × Pins)), (packages.map Prod.fst).Nodup →
      ∀ p ∈ packages,
        sectionOf ("package_data_".toList ++ p.1) (write_package_pins packages ++ rest)
          = p.2.pins.flatMap (fun pin =>
              [Directive.s pin.name "name".toList] ++
              write_loc pin.location "abs_loc".toList ++
              [Directive.u32 pin.bel_index (some "bel_index".toList)]) := by
  intro packages
  induction packages with
  | nil =>
    intro _ p hp
    exact absurd hp (List.not_mem_nil p)
  | cons q Q ih =>
    intro hnd p hp
    have e : write_package_pins (q :: Q) ++ rest
        = Directive.l ("package_data_".toList ++ q.1) (some "PackagePinPOD".toList)
          :: (q.2.pins.flatMap (fun pin =>
              [Directive.s pin.name "name".toList] ++
              write_loc pin.location "abs_loc".toList ++
              [Directive.u32 pin.bel_index (some "bel_index".toList)])
            ++ (write_package_pins Q ++ rest)) := by
      simp only [write_package_pins, List.flatMap_cons, List.cons_append, List.append_assoc]
    rw [e]
    simp only [List.map_cons, List.nodup_cons] at hnd
    rcases List.mem_cons.mp hp with h | h
    · rw [h]
      exact sectionOf_label _ _ _ _ (labelsOf_pin_records _)
        (labelFirst_append _ _ (labelFirst_package_pins Q) hr)
    · have hne : "package_data_".toList ++ q.1 ≠ "package_data_".toList ++ p.1 := by
        intro he
        have := List.append_cancel_left he
        exact hnd.1 (this ▸ List.mem_map_of_mem Prod.fst h)
      rw [sectionOf_skip _ _ _ _ hne, sectionOf_skip_plain _ _ _ (labelsOf_pin_records _)]
      exact ih hnd.2 p h

theorem sectionOf_package (g : Globals) (chip : TrellisChip) (ddrg : DedupChipdb)
    (tt : StrIntMap) (hnd : (g.packages.map Prod.fst).Nodup) (p : Str × Pins)
    (hp : p ∈ g.packages) :
    sectionOf ("package_data_".toList ++ p.1) (stream_tail g chip ddrg tt ++ [Directive.pop])
      = p.2.pins.flatMap (fun pin =>
          [Directive.s pin.name "name".toList] ++
          write_loc pin.location "abs_loc".toList ++
          [Directive.u32 pin.bel_index (some "bel_index".toList)]) := by
  have hd : ∀ s : Str, s ≠ "package_data_".toList ++ p.1 →
      ∀ (t : Option Str) (rest : List Directive),
        sectionOf ("package_data_".toList ++ p.1) (Directive.l s t :: rest)
          = sectionOf ("package_data_".toList ++ p.1) rest :=
    fun s hs t rest => sectionOf_skip _ _ _ _ hs
  rw [stream_tail_eq, hd _ (by simp),
    sectionOf_skip_plain _ _ _ (write_locations_props ddrg _ 0).1,
    sectionOf_append_right _ _ _
      (not_mem_tile_labels chip tt _ ("package_data_".toList ++ p.1) (Lab.package p.1) rfl
        (fun _ _ => by simp)),
    hd _ (by simp),
    sectionOf_skip_plain _ _ _ (write_tiles_info_props chip _).1,
    hd _ (by simp),
    sectionOf_skip_plain _ _ _ (write_location_types_props ddrg _ _).1,
    hd _ (by simp),
    sectionOf_skip_plain _ _ _ (write_glbinfo_props _ _).1]
  exact sectionOf_package_pins _ (labelFirst_label _ _ _) _ hnd p hp
theorem labelsOf_cell_records (grade : Str) (cells : List Cell) :
    labelsOf (cells.flatMap (write_cell_record grade)) = [] := by
  rw [labelsOf_flatMap]
  exact flatMap_nil_of _ _ (fun cell => (write_cell_record_props grade cell).1)

theorem cell_timing_not_mem_cell_labs (g grade : Str) (cells : List Cell) :
    Lab.cell_timing g ∉ cell_labs grade cells := by
  intro h
  simp only [cell_labs, List.mem_flatMap, List.mem_append] at h
  obtain ⟨cell, -, h | h⟩ := h
  · split_ifs at h <;> simp at h
  · split_ifs at h <;> simp at h

theorem labelFirst_cell_tables (grade : Str) (cells : List Cell) :
    LabelFirst (write_cell_tables grade cells) := by
  unfold write_cell_tables
  apply labelFirst_flatMap
  intro cell _
  apply labelFirst_append
  · split_ifs
    · exact labelFirst_label _ _ _
    · exact labelFirst_nil
  · split_ifs
    · exact labelFirst_label _ _ _
    · exact labelFirst_nil

theorem labelFirst_speed_grade (chips : List (Str × Chip)) (grade : Str) :
    LabelFirst (write_speed_grade chips grade) := by
  unfold write_speed_grade
  exact labelFirst_append _ _
    (labelFirst_append _ _ (labelFirst_cell_tables _ _) (labelFirst_label _ _ _))
    (labelFirst_label _ _ _)

theorem sectionOf_cell_timing (chips : List (Str × Chip)) (rest : List Directive) :
    ∀ (grades : List Str), grades.Nodup → ∀ g ∈ grades,
      sectionOf ("cell_timing_data_".toList ++ g)
          (grades.flatMap (write_speed_grade chips) ++ rest)
        = (chips_at chips g).cells.flatMap (write_cell_record g) := by
  intro grades
  induction grades with
  | nil =>
    intro _ g hg
    exact absurd hg (List.not_mem_nil g)
  | cons q Q ih =>
    intro hnd g hg
    rw [List.nodup_cons] at hnd
    rw [List.flatMap_cons, List.append_assoc]
    rcases List.mem_cons.mp hg with h | h
    · subst h
      have e : write_speed_grade chips g ++ (Q.flatMap (write_speed_grade chips) ++ rest)
          = write_cell_tables g (chips_at chips g).cells
            ++ Directive.l ("cell_timing_data_".toList ++ g) none
            :: ((chips_at chips g).cells.flatMap (write_cell_record g)
              ++ Directive.l ("pip_timing_data_".toList ++ g) none
              :: ((chips_at chips g).pip_class_delays.flatMap (fun pipclass =>
                  [Directive.u32 pipclass.min_delay (some "min_delay".toList),
                   Directive.u32 pipclass.max_delay (some "max_delay".toList),
                   Directive.u32 pipclass.min_fanout (some "min_fanout".toList),
                   Directive.u32 pipclass.max_fanout (some "max_fanout".toList)])
                ++ (Q.flatMap (write_speed_grade chips) ++ rest))) := by
        simp only [write_speed_grade, List.cons_append, List.append_assoc]
      rw [e, sectionOf_append_right]
      · exact sectionOf_label _ _ _ _ (labelsOf_cell_records _ _) (labelFirst_label _ _ _)
      · rw [(write_cell_tables_props _ _).1]
        have : "cell_timing_data_".toList ++ g = (Lab.cell_timing g).render := rfl
        rw [this, mem_map_render]
        exact cell_timing_not_mem_cell_labs _ _ _
    · rw [sectionOf_append_right]
      · exact ih hnd.2 g h
      · rw [(write_speed_grade_props _ _).1]
        have : "cell_timing_data_".toList ++ g = (Lab.cell_timing g).render := rfl
        rw [this, mem_map_render]
        intro hm
        simp only [grade_labs, List.mem_append, List.mem_cons, Lab.cell_timing.injEq,
          reduceCtorEq, List.not_mem_nil, or_false] at hm
        rcases hm with hm | hm
        · exact cell_timing_not_mem_cell_labs _ _ _ hm
        · exact hnd.1 (hm ▸ h)

theorem speed_grade_names_nodup : speed_grade_names.Nodup := by decide

theorem sectionOf_cell_timing_data (g : Globals) (chip : TrellisChip) (ddrg : DedupChipdb)
    (tt : StrIntMap) (grade : Str) (hg : grade ∈ speed_grade_names) :
    sectionOf ("cell_timing_data_".toList ++ grade)
        (stream_tail g chip ddrg tt ++ [Directive.pop])
      = (chips_at g.chips grade).cells.flatMap (write_cell_record grade) := by
  have hd : ∀ s : Str, s ≠ "cell_timing_data_".toList ++ grade →
      ∀ (t : Option Str) (rest : List Directive),
        sectionOf ("cell_timing_data_".toList ++ grade) (Directive.l s t :: rest)
          = sectionOf ("cell_timing_data_".toList ++ grade) rest :=
    fun s hs t rest => sectionOf_skip _ _ _ _ hs
  rw [stream_tail_eq, hd _ (by simp),
    sectionOf_skip_plain _ _ _ (write_locations_props ddrg _ 0).1,
    sectionOf_append_right _ _ _
      (not_mem_tile_labels chip tt _ ("cell_timing_data_".toList ++ grade)
        (Lab.cell_timing grade) rfl (fun _ _ => by simp)),
    hd _ (by simp),
    sectionOf_skip_plain _ _ _ (write_tiles_info_props chip _).1,
    hd _ (by simp),
    sectionOf_skip_plain _ _ _ (write_location_types_props ddrg _ _).1,
    hd _ (by simp),
    sectionOf_skip_plain _ _ _ (write_glbinfo_props _ _).1,
    sectionOf_append_right _ _ _
      (not_mem_package_labels _ ("cell_timing_data_".toList ++ grade)
        (Lab.cell_timing grade) rfl (fun _ => by simp)),
    hd _ (by simp),
    sectionOf_skip_plain _ _ _ (write_package_data_props _).1,
    hd _ (by simp),
    sectionOf_skip_plain _ _ _ (write_pio_info_props _).1,
    hd _ (by simp),
    sectionOf_skip_plain _ _ _ (write_tiletype_names_props _).1]
  exact sectionOf_cell_timing _ _ _ speed_grade_names_nodup grade hg

/-! ## The pips of a location type -/

theorem fieldValues_nil (c : Str) : fieldValues c [] = [] := rfl

theorem fieldValues_append (c : Str) (a b : List Directive) :
    fieldValues c (a ++ b) = fieldValues c a ++ fieldValues c b := by
  simp [fieldValues, List.filterMap_append]

theorem fieldValues_flatMap {α : Type} (c : Str) (l : List α) (f : α → List Directive)
    (v : α → Int) (h : ∀ a, fieldValues c (f a) = [v a]) :
    fieldValues c (l.flatMap f) = l.map v := by
  induction l with
  | nil => rfl
  | cons a l ih => rw [List.flatMap_cons, fieldValues_append, h, ih]; rfl

theorem write_arc_field (rc : RowColDecoder) (ddrg : DedupChipdb)
    (lwt : List (Int × (Int × Int))) (idx : Nat) (st : StrIntMap × StrIntMap) (arc : DdArcData)
    (r : (StrIntMap × StrIntMap) × List Directive)
    (h : write_arc rc ddrg lwt idx st arc = some r) :
    fieldValues "src_idx".toList r.2 = [arc.srcWire.id] := by
  simp only [write_arc, Option.bind_eq_bind, Option.bind_eq_some, Option.pure_def,
    Option.some.injEq] at h
  obtain ⟨src, _, snk, _, tc, _, h⟩ := h
  subst h
  simp only [write_loc, fieldValues, List.cons_append, List.nil_append, List.filterMap_cons,
    Directive.field]
  simp

theorem emit_loop_field {σ α : Type} (body : σ → α → Option (σ × List Directive)) (c : Str)
    (v : α → Int)
    (hb : ∀ st a r, body st a = some r → fieldValues c r.2 = [v a]) :
    ∀ (l : List α) (st : σ) (r : σ × List Directive), emit_loop body st l = some r →
      fieldValues c r.2 = l.map v := by
  intro l
  induction l with
  | nil =>
    intro st r h
    simp only [emit_loop, Option.some.injEq] at h
    subst h
    rfl
  | cons a l ih =>
    intro st r h
    simp only [emit_loop, Option.bind_eq_bind, Option.bind_eq_some, Option.pure_def,
      Option.some.injEq] at h
    obtain ⟨r1, h1, r2, h2, h⟩ := h
    subst h
    rw [fieldValues_append, hb _ _ _ h1, ih _ _ h2]
    rfl

theorem wire_table_labs_isPips (idx : Nat) (wires : List WireData) :
    ∀ (w : Nat), ∀ l ∈ wire_table_labs idx w wires, l.isPips = false := by
  induction wires with
  | nil =>
    intro w l hl
    simp [wire_table_labs] at hl
  | cons wire rest ih =>
    intro w l hl
    simp only [wire_table_labs, List.mem_append] at hl
    rcases hl with ((hl | hl) | hl) | hl
    · split_ifs at hl
      · rw [List.mem_singleton.mp hl]; rfl
      · simp at hl
    · split_ifs at hl
      · rw [List.mem_singleton.mp hl]; rfl
      · simp at hl
    · split_ifs at hl
      · rw [List.mem_singleton.mp hl]; rfl
      · simp at hl
    · exact ih _ l hl

theorem bel_table_labs_isPips (idx : Nat) (bels : List BelData) :
    ∀ (b : Nat), ∀ l ∈ bel_table_labs idx b bels, l.isPips = false := by
  induction bels with
  | nil =>
    intro b l hl
    simp [bel_table_labs] at hl
  | cons bel rest ih =>
    intro b l hl
    simp only [bel_table_labs, List.mem_cons] at hl
    rcases hl with hl | hl
    · rw [hl]; rfl
    · exact ih _ l hl

theorem pips_not_mem_loctype_labs (idx j : Nat) (loctype : LocationData)
    (h : loctype.arcs.length = 0) : Lab.pips j ∉ loctype_labs idx loctype := by
  intro hl
  simp only [loctype_labs, h, lt_self_iff_false, if_false, List.nil_append, gt_iff_lt,
    List.mem_append] at hl
  rcases hl with hl | hl
  · split_ifs at hl
    · rcases List.mem_append.mp hl with h | h
      · exact Bool.noConfusion (wire_table_labs_isPips idx _ 0 _ h)
      · simp at h
    · simp at hl
  · split_ifs at hl
    · rcases List.mem_append.mp hl with h | h
      · exact Bool.noConfusion (bel_table_labs_isPips idx _ 0 _ h)
      · simp at h
    · simp at hl

theorem labelFirst_wire_tables (constids : StrIntMap) (ddrg : DedupChipdb) (idx : Nat)
    (wires : List WireData) :
    ∀ w, LabelFirst (write_wire_tables constids ddrg idx w wires) := by
  induction wires with
  | nil =>
    intro w
    exact labelFirst_nil
  | cons wire rest ih =>
    intro w
    simp only [write_wire_tables]
    refine labelFirst_append _ _ (labelFirst_append _ _ (labelFirst_append _ _ ?_ ?_) ?_) (ih _)
    all_goals
      split_ifs
      · exact labelFirst_label _ _ _
      · exact labelFirst_nil

theorem labelFirst_bel_tables (constids : StrIntMap) (ddrg : DedupChipdb) (idx : Nat)
    (bels : List BelData) :
    ∀ b, LabelFirst (write_bel_tables constids ddrg idx b bels) := by
  cases bels with
  | nil =>
    intro b
    exact labelFirst_nil
  | cons bel rest =>
    intro b
    simp only [write_bel_tables, List.cons_append]
    exact labelFirst_label _ _ _

theorem write_pips_shape (rc : RowColDecoder) (ddrg : DedupChipdb)
    (lwt : List (Int × (Int × Int))) (idx : Nat) (arcs : List DdArcData)
    (st : StrIntMap × StrIntMap) (pips : (StrIntMap × StrIntMap) × List Directive)
    (h : write_pips rc ddrg lwt idx arcs st = some pips) :
    (arcs.length = 0 ∧ pips.2 = [])
    ∨ (arcs.length > 0 ∧ ∃ recs : List Directive,
        pips.2 = Directive.l (loc_name idx "_pips".toList) (some "PipInfoPOD".toList) :: recs
        ∧ labelsOf recs = [] ∧ recs.length = 10 * arcs.length
        ∧ fieldValues "src_idx".toList recs = arcs.map (fun a => a.srcWire.id)) := by
  unfold write_pips at h
  by_cases ha : arcs.length > 0
  · rw [if_pos ha] at h
    simp only [Option.map_eq_some'] at h
    obtain ⟨r1, h1, hp⟩ := h
    subst hp
    obtain ⟨a1, -, a3, -⟩ := emit_loop_props (write_arc rc ddrg lwt idx) 10
      (fun st a r hr => write_arc_labels rc ddrg lwt idx st a r hr) _ _ _ h1
    have a5 := emit_loop_field (write_arc rc ddrg lwt idx) "src_idx".toList
      (fun a => a.srcWire.id) (fun st a r hr => write_arc_field rc ddrg lwt idx st a r hr)
      _ _ _ h1
    exact Or.inr ⟨ha, r1.2, rfl, a1, a3, a5⟩
  · rw [if_neg ha] at h
    simp only [Option.some.injEq] at h
    subst h
    exact Or.inl ⟨by omega, rfl⟩

theorem write_loctype_shape (rc : RowColDecoder) (constids : StrIntMap) (ddrg : DedupChipdb)
    (lwt : List (Int × (Int × Int))) (idx : Nat) (key : checksum_t)
    (st : StrIntMap × StrIntMap) (r : (StrIntMap × StrIntMap) × List Directive)
    (h : write_loctype rc constids ddrg lwt idx key st = some r) :
    ∃ (pips : (StrIntMap × StrIntMap) × List Directive) (rest : List Directive),
      write_pips rc ddrg lwt idx (ddrg.locationTypes_at key).arcs st = some pips
      ∧ r.2 = pips.2 ++ rest ∧ LabelFirst rest := by
  simp only [write_loctype, Option.map_eq_some'] at h
  obtain ⟨pips, hp, h⟩ := h
  subst h
  refine ⟨pips, _, hp, List.append_assoc _ _ _, labelFirst_append _ _ ?_ ?_⟩
  · split_ifs
    · exact labelFirst_append _ _ (labelFirst_wire_tables _ _ _ _ _) (labelFirst_label _ _ _)
    · exact labelFirst_nil
  · split_ifs
    · exact labelFirst_append _ _ (labelFirst_bel_tables _ _ _ _ _) (labelFirst_label _ _ _)
    · exact labelFirst_nil

theorem labelFirst_loctype (rc : RowColDecoder) (constids : StrIntMap) (ddrg : DedupChipdb)
    (lwt : List (Int × (Int × Int))) (idx : Nat) (key : checksum_t)
    (st : StrIntMap × StrIntMap) (r : (StrIntMap × StrIntMap) × List Directive)
    (h : write_loctype rc constids ddrg lwt idx key st = some r) : LabelFirst r.2 := by
  obtain ⟨pips, rest, hp, hr, hl⟩ := write_loctype_shape rc constids ddrg lwt idx key st r h
  rw [hr]
  refine labelFirst_append _ _ ?_ hl
  rcases write_pips_shape rc ddrg lwt idx _ st pips hp with ⟨-, h⟩ | ⟨-, recs, h, -⟩
  · rw [h]; exact labelFirst_nil
  · rw [h]; exact labelFirst_label _ _ _

theorem labelFirst_loctypes (rc : RowColDecoder) (constids : StrIntMap) (ddrg : DedupChipdb)
    (lwt : List (Int × (Int × Int))) (keys : List checksum_t) :
    ∀ (idx : Nat) (st : StrIntMap × StrIntMap) (r : (StrIntMap × StrIntMap) × List Directive),
      write_loctypes rc constids ddrg lwt idx keys st = some r → LabelFirst r.2 := by
  induction keys with
  | nil =>
    intro idx st r h
    simp only [write_loctypes, Option.some.injEq] at h
    subst h
    exact labelFirst_nil
  | cons key rest ih =>
    intro idx st r h
    simp only [write_loctypes, Option.bind_eq_bind, Option.bind_eq_some, Option.pure_def,
      Option.some.injEq] at h
    obtain ⟨r1, h1, r2, h2, h⟩ := h
    subst h
    exact labelFirst_append _ _ (labelFirst_loctype rc constids ddrg lwt idx key st r1 h1)
      (ih _ _ _ h2)

theorem write_loctypes_pips (rc : RowColDecoder) (constids : StrIntMap) (ddrg : DedupChipdb)
    (lwt : List (Int × (Int × Int))) (keys : List checksum_t) :
    ∀ (idx : Nat) (st : StrIntMap × StrIntMap) (r : (StrIntMap × StrIntMap) × List Directive),
      write_loctypes rc constids ddrg lwt idx keys st = some r →
      ∀ (i : Nat) (key : checksum_t), keys[i]? = some key →
        (sectionOf (loc_name (idx + i) "_pips".toList) r.2).length
            = 10 * (ddrg.locationTypes_at key).arcs.length
          ∧ fieldValues "src_idx".toList (sectionOf (loc_name (idx + i) "_pips".toList) r.2)
            = (ddrg.locationTypes_at key).arcs.map (fun a => a.srcWire.id) := by
  induction keys with
  | nil =>
    intro idx st r _ i key hk
    simp at hk
  | cons key0 rest ih =>
    intro idx st r h i key hk
    have hall := write_loctypes_props rc constids ddrg lwt (key0 :: rest) idx st r h
    simp only [write_loctypes, Option.bind_eq_bind, Option.bind_eq_some, Option.pure_def,
      Option.some.injEq] at h
    obtain ⟨r1, h1, r2, h2, h⟩ := h
    subst h
    have hl1 := write_loctype_props rc constids ddrg lwt idx key0 st r1 h1
    cases i with
    | zero =>
      simp only [List.getElem?_cons_zero, Option.some.injEq] at hk
      subst hk
      rw [Nat.add_zero]
      obtain ⟨pips, tl, hp, hr1, htl⟩ :=
        write_loctype_shape rc constids ddrg lwt idx key0 st r1 h1
      rcases write_pips_shape rc ddrg lwt idx _ st pips hp with ⟨ha, -⟩ | ⟨-, recs, hs, b1, b2, b3⟩
      · have hn : loc_name idx "_pips".toList ∉ labelsOf (r1.2 ++ r2.2) := by
          have e : loc_name idx "_pips".toList = (Lab.pips idx).render := rfl
          rw [hall.1, e, mem_map_render]
          intro hm
          simp only [loctypes_labs, List.mem_append] at hm
          rcases hm with hm | hm
          · exact pips_not_mem_loctype_labs idx idx _ ha hm
          · obtain ⟨j, hj, hj2⟩ := loctypes_labs_locIdx ddrg rest (idx + 1) _ hm
            simp only [Lab.locIdx, Option.some.injEq] at hj2
            omega
        rw [sectionOf_not_mem _ _ hn, ha]
        have : (ddrg.locationTypes_at key0).arcs = [] := List.length_eq_zero.mp ha
        rw [this]
        exact ⟨rfl, rfl⟩
      · have e : r1.2 ++ r2.2
            = Directive.l (loc_name idx "_pips".toList) (some "PipInfoPOD".toList)
              :: (recs ++ (tl ++ r2.2)) := by
          rw [hr1, hs]
          simp only [List.cons_append, List.append_assoc]
        have hlf : LabelFirst (tl ++ r2.2) :=
          labelFirst_append _ _ htl (labelFirst_loctypes rc constids ddrg lwt rest _ _ _ h2)
        rw [e, sectionOf_label _ _ _ _ b1 hlf]
        exact ⟨b2, b3⟩
    | succ i =>
      simp only [List.getElem?_cons_succ] at hk
      have hn : loc_name (idx + (i + 1)) "_pips".toList ∉ labelsOf r1.2 := by
        have e : loc_name (idx + (i + 1)) "_pips".toList
            = (Lab.pips (idx + (i + 1))).render := rfl
        rw [hl1.1, e, mem_map_render]
        intro hm
        have := loctype_labs_locIdx idx _ _ hm
        simp only [Lab.locIdx, Option.some.injEq] at this
        omega
      rw [sectionOf_append_right _ _ _ hn]
      have e : idx + (i + 1) = idx + 1 + i := by omega
      rw [e]
      exact ih (idx + 1) r1.1 r2 h2 i key hk

/-! ## The sections of the whole stream -/

theorem sectionOf_stream (name device_name : Str) (rest : List Directive) :
    sectionOf name (stream_head ++ Directive.push ("chipdb_blob_".toList ++ device_name)
        :: Directive.r "chip_info".toList (some "chip_info".toList) :: rest)
      = sectionOf name rest := by
  rw [sectionOf_skip_plain name stream_head _ rfl, sectionOf_cons, if_neg (by simp [Directive.labelName]),
    sectionOf_cons, if_neg (by simp [Directive.labelName])]

theorem labelFirst_stream_tail (g : Globals) (chip : TrellisChip) (ddrg : DedupChipdb)
    (tt : StrIntMap) : LabelFirst (stream_tail g chip ddrg tt ++ [Directive.pop]) := by
  rw [stream_tail_eq]
  exact labelFirst_label _ _ _

theorem sectionOf_stream_tail (name device_name : Str) (locs tail : List Directive)
    (h : name ∉ labelsOf locs) :
    sectionOf name (stream_head ++ Directive.push ("chipdb_blob_".toList ++ device_name)
        :: Directive.r "chip_info".toList (some "chip_info".toList) :: (locs ++ tail))
      = sectionOf name tail := by
  rw [sectionOf_stream, sectionOf_append_right _ _ _ h]

theorem sectionOf_stream_locs (name device_name : Str) (locs tail : List Directive)
    (h : name ∉ labelsOf tail) (hl : LabelFirst tail) :
    sectionOf name (stream_head ++ Directive.push ("chipdb_blob_".toList ++ device_name)
        :: Directive.r "chip_info".toList (some "chip_info".toList) :: (locs ++ tail))
      = sectionOf name locs := by
  rw [sectionOf_stream]
  by_cases hm : name ∈ labelsOf locs
  · exact sectionOf_append_left _ _ _ hm hl
  · rw [sectionOf_append_right _ _ _ hm, sectionOf_not_mem _ _ h, sectionOf_not_mem _ _ hm]

theorem fieldValues_write_locations (ddrg : DedupChipdb) (keys : List checksum_t) :
    ∀ idx, fieldValues "num_pips".toList (write_locations ddrg idx keys)
      = keys.map (fun key => ((ddrg.locationTypes_at key).arcs.length : Int)) := by
  induction keys with
  | nil =>
    intro idx
    rfl
  | cons key rest ih =>
    intro idx
    simp only [write_locations, fieldValues_append, ih, List.map_cons]
    split_ifs <;> rfl

theorem fieldValues_write_package_data (packages : List (Str × Pins)) :
    fieldValues "num_pins".toList (write_package_data packages)
      = packages.map (fun p => (p.2.pins.length : Int)) := by
  unfold write_package_data
  apply fieldValues_flatMap
  intro p
  rfl

theorem fieldValues_pin_records (pins : List Pin) :
    fieldValues "bel_index".toList (pins.flatMap (fun pin =>
      [Directive.s pin.name "name".toList] ++ write_loc pin.location "abs_loc".toList ++
      [Directive.u32 pin.bel_index (some "bel_index".toList)]))
      = pins.map (fun pin => pin.bel_index) := by
  apply fieldValues_flatMap
  intro p
  rfl

theorem fieldValues_cell_records (grade : Str) (cells : List Cell) :
    fieldValues "num_delays".toList (cells.flatMap (write_cell_record grade))
      = cells.map (fun cell => (cell.delays.length : Int)) := by
  apply fieldValues_flatMap
  intro cell
  simp only [write_cell_record]
  split_ifs <;> rfl
/-! ## The values under `location_types` -/

theorem position_of_le (c : checksum_t) (keys : List checksum_t) :
    position_of c keys ≤ keys.length := by
  induction keys with
  | nil => exact le_refl _
  | cons k rest ih =>
    simp only [position_of, List.length_cons]
    split_ifs
    · omega
    · omega

theorem position_of_mem (c : checksum_t) (keys : List checksum_t) (h : c ∈ keys) :
    position_of c keys < keys.length ∧ keys[position_of c keys]? = some c := by
  induction keys with
  | nil => exact absurd h (List.not_mem_nil c)
  | cons k rest ih =>
    simp only [position_of, List.length_cons]
    by_cases hk : k = c
    · rw [if_pos hk, hk]
      exact ⟨by omega, List.getElem?_cons_zero⟩
    · rw [if_neg hk]
      rcases List.mem_cons.mp h with e | e
      · exact absurd e.symm hk
      · obtain ⟨a, b⟩ := ih e
        exact ⟨by omega, by rw [List.getElem?_cons_succ]; exact b⟩

theorem position_of_lt_get (c : checksum_t) (keys : List checksum_t)
    (h : position_of c keys < keys.length) : keys[position_of c keys]? = some c := by
  induction keys with
  | nil => simp at h
  | cons k rest ih =>
    simp only [position_of, List.length_cons] at h ⊢
    by_cases hk : k = c
    · rw [if_pos hk, hk]
      exact List.getElem?_cons_zero
    · rw [if_neg hk] at h ⊢
      rw [List.getElem?_cons_succ]
      exact ih (by omega)

theorem write_location_types_values (ddrg : DedupChipdb) (loctypes : List checksum_t)
    (grid : List (Nat × Nat)) :
    ∀ d ∈ write_location_types ddrg loctypes grid,
      ∃ (pos : Nat) (c : Nat × Nat), c ∈ grid ∧ d = Directive.u32 pos (some "loctype".toList)
        ∧ pos < loctypes.length
        ∧ loctypes[pos]? = some (ddrg.typeAtLocation { x := c.1, y := c.2 }) := by
  induction grid with
  | nil =>
    intro d hd
    simp [write_location_types] at hd
  | cons c rest ih =>
    obtain ⟨x, y⟩ := c
    intro d hd
    simp only [write_location_types] at hd
    split_ifs at hd with hp
    · obtain ⟨pos, c, hc, h⟩ := ih d hd
      exact ⟨pos, c, List.mem_cons_of_mem _ hc, h⟩
    · rcases List.mem_cons.mp hd with e | e
      · exact ⟨_, (x, y), List.mem_cons_self _ _, e, by omega,
          position_of_lt_get _ _ (by omega)⟩
      · obtain ⟨pos, c, hc, h⟩ := ih d e
        exact ⟨pos, c, List.mem_cons_of_mem _ hc, h⟩

theorem write_location_types_full (ddrg : DedupChipdb) (loctypes : List checksum_t)
    (grid : List (Nat × Nat))
    (h : ∀ c ∈ grid, ddrg.typeAtLocation { x := c.1, y := c.2 } ∈ loctypes) :
    write_location_types ddrg loctypes grid
      = grid.map (fun c => Directive.u32
          (position_of (ddrg.typeAtLocation { x := c.1, y := c.2 }) loctypes)
          (some "loctype".toList)) := by
  induction grid with
  | nil => rfl
  | cons c rest ih =>
    obtain ⟨x, y⟩ := c
    have hc := (position_of_mem _ _ (h (x, y) (List.mem_cons_self _ _))).1
    simp only [write_location_types, List.map_cons]
    rw [if_neg (not_le.mpr hc), ih (fun c hc => h c (List.mem_cons_of_mem _ hc))]

theorem flatMap_getElem? {α β : Type} (f : α → List β) (n : Nat) (hn : ∀ a, (f a).length = n) :
    ∀ (l : List α) (i j : Nat), j < n →
      (l.flatMap f)[i * n + j]? = (l[i]?).bind (fun a => (f a)[j]?) := by
  intro l
  induction l with
  | nil =>
    intro i j _
    simp
  | cons a l ih =>
    intro i j hj
    rw [List.flatMap_cons]
    cases i with
    | zero =>
      rw [Nat.zero_mul, Nat.zero_add, List.getElem?_append_left (by rw [hn]; exact hj),
        List.getElem?_cons_zero, Option.some_bind]
    | succ i =>
      have e : (i + 1) * n + j = (f a).length + (i * n + j) := by
        rw [hn]; ring
      rw [e, List.getElem?_append_right (by omega), Nat.add_sub_cancel_left, ih i j hj,
        List.getElem?_cons_succ]

theorem grid_coords_length (max_row max_col : Nat) :
    (grid_coords max_row max_col).length = (max_row + 1) * (max_col + 1) := by
  have h : ∀ (l : List Nat),
      (l.flatMap (fun y => (List.range (max_col + 1)).map (fun x => (x, y)))).length
        = l.length * (max_col + 1) := by
    intro l
    induction l with
    | nil => simp
    | cons a l ih =>
      rw [List.flatMap_cons, List.length_append, ih, List.length_map, List.length_range,
        List.length_cons]
      ring
  rw [grid_coords, h, List.length_range]

theorem grid_coords_getElem? (max_row max_col x y : Nat) (hy : y ≤ max_row)
    (hx : x ≤ max_col) :
    (grid_coords max_row max_col)[y * (max_col + 1) + x]? = some (x, y) := by
  unfold grid_coords
  rw [flatMap_getElem? _ (max_col + 1) (fun a => by simp) _ y x (by omega)]
  rw [List.getElem?_range (by omega)]
  simp only [Option.some_bind, List.getElem?_map]
  rw [List.getElem?_range (by omega)]
  rfl

theorem grid_coords_mem (max_row max_col : Nat) (c : Nat × Nat) :
    c ∈ grid_coords max_row max_col ↔ c.1 ≤ max_col ∧ c.2 ≤ max_row := by
  obtain ⟨x, y⟩ := c
  simp only [grid_coords, List.mem_flatMap, List.mem_range, List.mem_map, Prod.mk.injEq]
  constructor
  · rintro ⟨a, ha, b, hb, h1, h2⟩
    omega
  · rintro ⟨h1, h2⟩
    exact ⟨y, by omega, x, by omega, rfl, rfl⟩
/-! ## The cells that `process_timing_data` loads -/

theorem convert_entries_delays (constids : StrIntMap) (entries : List TimingEntry) :
    ∀ (cell r : Cell), convert_entries constids entries cell = Except.ok r →
      r.delays.length
        = cell.delays.length + entries.countP (fun e => decide (e.type = "IOPath".toList)) := by
  induction entries with
  | nil =>
    intro cell r h
    simp only [convert_entries, pure, Except.pure, Except.ok.injEq] at h
    rw [← h]
    rfl
  | cons e rest ih =>
    intro cell r h
    unfold convert_entries at h
    by_cases h1 : e.type = "Width".toList
    · rw [if_pos h1] at h
      have hne : ¬ e.type = "IOPath".toList := by rw [h1]; decide
      rw [ih _ _ h, List.countP_cons_of_neg _ _ (by simpa using hne)]
    · rw [if_neg h1] at h
      by_cases h2 : e.type = "IOPath".toList
      · rw [if_pos h2] at h
        rw [ih _ _ h, List.countP_cons_of_pos _ _ (by simpa using h2)]
        simp only [List.length_append, List.length_singleton]
        omega
      · rw [if_neg h2] at h
        by_cases h3 : e.type = "SetupHold".toList
        · rw [if_pos h3] at h
          rw [ih _ _ h, List.countP_cons_of_neg _ _ (by simpa using h2)]
        · rw [if_neg h3] at h
          exact absurd h (by simp [throw, throwThe, MonadExceptOf.throw])

theorem convert_cells_delays (constids : StrIntMap) (file : List (Str × List TimingEntry)) :
    ∀ (acc cells : List Cell), convert_cells constids file acc = Except.ok cells →
      cells.map (fun c => c.delays.length)
        = acc.map (fun c => c.delays.length)
          ++ file.map (fun e => e.2.countP (fun t => decide (t.type = "IOPath".toList))) := by
  induction file with
  | nil =>
    intro acc cells h
    simp only [convert_cells, pure, Except.pure, Except.ok.injEq] at h
    rw [← h]
    simp
  | cons e rest ih =>
    obtain ⟨cell_name, cellArr⟩ := e
    intro acc cells h
    simp only [convert_cells, bind, Except.bind] at h
    split at h
    · exact absurd h (by simp)
    · rename_i cell hc
      rw [ih _ _ h]
      have := convert_entries_delays constids cellArr _ cell hc
      simp only [List.length_nil, Nat.zero_add] at this
      simp only [List.map_append, List.map_cons, List.map_nil, this, List.append_assoc,
        List.singleton_append]
theorem lookup_chips_insert (chips : List (Str × Chip)) (grade k : Str) (chip : Chip) :
    (chips_insert chips grade chip).lookup k
      = if (chips.lookup grade).isSome then chips.lookup k
        else if (chips.lookup k).isSome then chips.lookup k
        else if k = grade then some chip else none := by
  unfold chips_insert
  by_cases h : (chips.lookup grade).isSome
  · rw [if_pos h, if_pos h]
  · rw [if_neg h, if_neg h, List.lookup_append]
    cases hk : chips.lookup k with
    | some c => simp
    | none =>
      simp only [Option.none_or, Option.isSome_none, Bool.false_eq_true, if_false,
        List.lookup_cons, List.lookup_nil]
      by_cases e : k = grade
      · rw [if_pos e, e]
        simp
      · rw [if_neg e]
        have : (k == grade) = false := by simpa using e
        rw [this]

theorem process_grade_chips (mul11 : Int → Int) (constids : StrIntMap) (grade : Str)
    (files : GradeFiles) (st st2 : StrIntMap × List (Str × Chip))
    (h : process_grade mul11 constids grade files st = Except.ok st2) :
    st2.2 = st.2
    ∨ ∃ (file : List (Str × List TimingEntry)) (cells : List Cell) (pcd : List PipClass),
        files.cells = some file ∧ convert_cells constids file [] = Except.ok cells
        ∧ files.interconnect.isSome = true
        ∧ st2.2 = chips_insert st.2 grade
            { speed_grade := grade, cells := cells, pip_class_delays := pcd } := by
  unfold process_grade at h
  cases hc : files.cells with
  | none =>
    rw [hc] at h
    simp only [pure, Except.pure, Except.ok.injEq] at h
    exact Or.inl (by rw [← h])
  | some file =>
    rw [hc] at h
    simp only [bind, Except.bind] at h
    split at h
    · exact absurd h (by simp)
    · rename_i cells hcells
      cases hi : files.interconnect with
      | none =>
        rw [hi] at h
        simp only [pure, Except.pure, Except.ok.injEq] at h
        exact Or.inl (by rw [← h])
      | some incon =>
        rw [hi] at h
        simp only at h
        split at h
        · exact absurd h (by simp)
        · rename_i r hr
          simp only [pure, Except.pure, Except.ok.injEq] at h
          exact Or.inr ⟨file, cells, r.2, rfl, hcells, rfl, by rw [← h]⟩

theorem process_grade_keeps (mul11 : Int → Int) (constids : StrIntMap) (grade : Str)
    (files : GradeFiles) (st st2 : StrIntMap × List (Str × Chip))
    (h : process_grade mul11 constids grade files st = Except.ok st2) (k : Str) :
    (∀ c, st.2.lookup k = some c → st2.2.lookup k = some c)
    ∧ (k ≠ grade → st.2.lookup k = none → st2.2.lookup k = none) := by
  rcases process_grade_chips mul11 constids grade files st st2 h with e | ⟨_, _, _, _, _, _, e⟩
  · rw [e]
    exact ⟨fun c hc => hc, fun _ hn => hn⟩
  · rw [e, lookup_chips_insert]
    constructor
    · intro c hc
      split_ifs with h1 h2
      · exact hc
      · exact hc
      · rw [hc] at h2
        exact absurd rfl h2
      · rw [hc] at h2
        exact absurd rfl h2
    · intro hk hn
      split_ifs with h1 h2
      · exact hn
      · exact hn
      · rfl

theorem process_grades_keeps (mul11 : Int → Int) (constids : StrIntMap)
    (files : Str → GradeFiles) (grades : List Str) :
    ∀ (st st2 : StrIntMap × List (Str × Chip)),
      process_grades mul11 constids files grades st = Except.ok st2 →
      ∀ k c, st.2.lookup k = some c → st2.2.lookup k = some c := by
  induction grades with
  | nil =>
    intro st st2 h k c hc
    simp only [process_grades, pure, Except.pure, Except.ok.injEq] at h
    rw [← h]
    exact hc
  | cons q rest ih =>
    intro st st2 h k c hc
    simp only [process_grades, bind, Except.bind] at h
    split at h
    · exact absurd h (by simp)
    · rename_i st1 h1
      exact ih st1 st2 h k c ((process_grade_keeps mul11 constids q _ st st1 h1 k).1 c hc)

theorem process_grades_cells (mul11 : Int → Int) (constids : StrIntMap)
    (files : Str → GradeFiles) (grades : List Str) :
    ∀ (st st2 : StrIntMap × List (Str × Chip)),
      process_grades mul11 constids files grades st = Except.ok st2 →
      ∀ (grade : Str) (file : List (Str × List TimingEntry)), grade ∈ grades →
        st.2.lookup grade = none → (files grade).cells = some file →
        (files grade).interconnect.isSome = true →
        ∃ cells, convert_cells constids file [] = Except.ok cells
          ∧ (chips_at st2.2 grade).cells = cells := by
  induction grades with
  | nil =>
    intro st st2 _ grade file hg
    exact absurd hg (List.not_mem_nil grade)
  | cons q rest ih =>
    intro st st2 h grade file hg hn hf hi
    simp only [process_grades, bind, Except.bind] at h
    split at h
    · exact absurd h (by simp)
    · rename_i st1 h1
      by_cases hq : grade = q
      · subst hq
        rcases process_grade_chips mul11 constids grade _ st st1 h1 with
          e | ⟨file2, cells, pcd, e1, e2, e3, e4⟩
        · exfalso
          unfold process_grade at h1
          rw [hf] at h1
          simp only [bind, Except.bind] at h1
          split at h1
          · exact absurd h1 (by simp)
          · cases hi2 : (files grade).interconnect with
            | none => rw [hi2] at hi; exact absurd hi (by simp)
            | some incon =>
              rw [hi2] at h1
              simp only at h1
              split at h1
              · exact absurd h1 (by simp)
              · simp only [pure, Except.pure, Except.ok.injEq] at h1
                have h2 : (st1.2.lookup grade).isSome = true := by
                  rw [← h1]
                  simp only [lookup_chips_insert, hn, Option.isSome_none, Bool.false_eq_true,
                    if_false, if_true, Option.isSome_some]
                rw [e, hn] at h2
                exact absurd h2 (by simp)
        · rw [hf, Option.some.injEq] at e1
          subst e1
          refine ⟨cells, e2, ?_⟩
          have h2 : st1.2.lookup grade
              = some { speed_grade := grade, cells := cells, pip_class_delays := pcd } := by
            rw [e4]
            simp only [lookup_chips_insert, hn, Option.isSome_none, Bool.false_eq_true,
              if_false, if_true]
          have h3 := process_grades_keeps mul11 constids files rest st1 st2 h grade _ h2
          unfold chips_at
          rw [h3]
      · have hg2 : grade ∈ rest := by
          rcases List.mem_cons.mp hg with e | e
          · exact absurd e hq
          · exact e
        exact ih st1 st2 h grade file hg2
          ((process_grade_keeps mul11 constids q _ st st1 h1 grade).2 hq hn) hf hi

theorem process_timing_data_cells (mul11 : Int → Int) (constids : StrIntMap)
    (files : Str → GradeFiles) (tbl tbl2 : StrIntMap) (chips : List (Str × Chip))
    (h : process_timing_data mul11 constids files (tbl, []) = Except.ok (tbl2, chips))
    (grade : Str) (file : List (Str × List TimingEntry)) (hg : grade ∈ speed_grade_names)
    (hf : (files grade).cells = some file) (hi : (files grade).interconnect.isSome = true) :
    (chips_at chips grade).cells.map (fun c => c.delays.length)
      = file.map (fun e => e.2.countP (fun t => decide (t.type = "IOPath".toList))) := by
  obtain ⟨cells, hc, he⟩ := process_grades_cells mul11 constids files speed_grade_names
    (tbl, []) (tbl2, chips) h grade file hg rfl hf hi
  rw [he, convert_cells_delays constids file [] cells hc]
  rfl

/-! ## The inputs on which `write_database` is defined -/

theorem get_wire_name_some (ddrg : DedupChipdb) (lwt : List (Int × (Int × Int))) (idx : Nat)
    (w : RelId) (h : WireInRange ddrg lwt idx w) :
    ∃ L b : Str, get_wire_name ddrg lwt idx w.rel w.id = some (L ++ '_' :: b)
      ∧ L ≠ [] ∧ '_' ∉ L := by
  obtain ⟨loc, hl, h0, hlt⟩ := h
  unfold get_wire_name
  rw [hl]
  simp only
  rw [if_neg (by omega)]
  obtain ⟨wd, hwd⟩ : ∃ wd, (ddrg.locationTypes_at
      (ddrg.typeAtLocation { x := loc.1 + w.rel.x, y := loc.2 + w.rel.y })).wires[w.id.toNat]?
        = some wd := ⟨_, List.getElem?_eq_getElem hlt⟩
  rw [hwd]
  refine ⟨"R".toList ++ to_string (loc.2 + w.rel.y) ++ "C".toList ++ to_string (loc.1 + w.rel.x),
    ddrg.to_str wd.name, by simp, by simp, ?_⟩
  intro hm
  simp only [List.mem_append] at hm
  rcases hm with ((hm | hm) | hm) | hm
  · revert hm; decide
  · exact to_string_no_underscore _ hm
  · revert hm; decide
  · exact to_string_no_underscore _ hm

theorem write_arc_some (rc : RowColDecoder) (ddrg : DedupChipdb)
    (lwt : List (Int × (Int × Int))) (idx : Nat) (arc : DdArcData)
    (h1 : WireInRange ddrg lwt idx arc.srcWire) (h2 : WireInRange ddrg lwt idx arc.sinkWire)
    (st : StrIntMap × StrIntMap) :
    ∃ r, write_arc rc ddrg lwt idx st arc = some r := by
  obtain ⟨L1, b1, e1, n1, u1⟩ := get_wire_name_some ddrg lwt idx _ h1
  obtain ⟨L2, b2, e2, n2, u2⟩ := get_wire_name_some ddrg lwt idx _ h2
  simp only [write_arc, e1, e2, get_pip_class, get_pip_class_name_wf rc L1 b1 L2 b2 n1 u1 n2 u2,
    Option.bind_eq_bind, Option.some_bind, Option.pure_def]
  exact ⟨_, rfl⟩

theorem emit_loop_some {σ α : Type} (body : σ → α → Option (σ × List Directive)) :
    ∀ (l : List α), (∀ a ∈ l, ∀ st, ∃ r, body st a = some r) →
      ∀ st, ∃ r, emit_loop body st l = some r := by
  intro l
  induction l with
  | nil =>
    intro _ st
    exact ⟨_, rfl⟩
  | cons a l ih =>
    intro h st
    obtain ⟨r1, h1⟩ := h a (List.mem_cons_self _ _) st
    obtain ⟨r2, h2⟩ := ih (fun b hb => h b (List.mem_cons_of_mem _ hb)) r1.1
    simp only [emit_loop, h1, h2, Option.bind_eq_bind, Option.some_bind, Option.pure_def]
    exact ⟨_, rfl⟩

theorem write_loctype_some (rc : RowColDecoder) (constids : StrIntMap) (ddrg : DedupChipdb)
    (lwt : List (Int × (Int × Int))) (idx : Nat) (key : checksum_t)
    (h : ∀ arc ∈ (ddrg.locationTypes_at key).arcs,
      WireInRange ddrg lwt idx arc.srcWire ∧ WireInRange ddrg lwt idx arc.sinkWire)
    (st : StrIntMap × StrIntMap) :
    ∃ r, write_loctype rc constids ddrg lwt idx key st = some r := by
  obtain ⟨r1, h1⟩ := emit_loop_some (write_arc rc ddrg lwt idx) _
    (fun arc ha st => write_arc_some rc ddrg lwt idx arc (h arc ha).1 (h arc ha).2 st) st
  have hp : ∃ p, write_pips rc ddrg lwt idx (ddrg.locationTypes_at key).arcs st = some p := by
    unfold write_pips
    split_ifs
    · rw [h1]
      exact ⟨_, rfl⟩
    · exact ⟨_, rfl⟩
  obtain ⟨p, hp⟩ := hp
  unfold write_loctype
  simp only [hp, Option.map_some']
  exact ⟨_, rfl⟩

theorem write_loctypes_some (rc : RowColDecoder) (constids : StrIntMap) (ddrg : DedupChipdb)
    (lwt : List (Int × (Int × Int))) (keys : List checksum_t) :
    ∀ (idx : Nat),
      (∀ (i : Nat) (key : checksum_t), keys[i]? = some key →
        ∀ arc ∈ (ddrg.locationTypes_at key).arcs,
          WireInRange ddrg lwt (idx + i) arc.srcWire
            ∧ WireInRange ddrg lwt (idx + i) arc.sinkWire) →
      ∀ st, ∃ r, write_loctypes rc constids ddrg lwt idx keys st = some r := by
  induction keys with
  | nil =>
    intro idx _ st
    exact ⟨_, rfl⟩
  | cons key rest ih =>
    intro idx h st
    obtain ⟨r1, h1⟩ := write_loctype_some rc constids ddrg lwt idx key
      (fun arc ha => h 0 key List.getElem?_cons_zero arc ha) st
    obtain ⟨r2, h2⟩ := ih (idx + 1) (fun i k hk arc ha => by
      have := h (i + 1) k (by rw [List.getElem?_cons_succ]; exact hk) arc ha
      rw [show idx + (i + 1) = idx + 1 + i by omega] at this
      exact this) r1.1
    simp only [write_loctypes, h1, h2, Option.bind_eq_bind, Option.some_bind, Option.pure_def]
    exact ⟨_, rfl⟩

theorem write_database_defined (rc : RowColDecoder) (g : Globals) (device_name : Str)
    (chip : TrellisChip) (ddrg : DedupChipdb) (h : ArcsInRange g ddrg) :
    ∃ stream, write_database rc g device_name chip ddrg = some stream := by
  obtain ⟨r, hr⟩ := write_loctypes_some rc g.constids ddrg _ (loctypes_of ddrg) 0
    (fun i key hk arc ha => by
      rw [Nat.zero_add]
      exact h i key hk arc ha) (g.pip_class_to_idx, g.tiletype_names)
  unfold write_database
  simp only [hr, Option.map_some']
  exact ⟨_, rfl⟩

theorem sample_arcs_in_range : ArcsInRange sample_globals sample_ddrg := by
  intro idx key hk arc ha
  cases idx with
  | zero =>
    simp only [loctypes_of, sample_ddrg, List.map_cons, List.map_nil, List.getElem?_cons_zero,
      Option.some.injEq] at hk
    subst hk
    simp only [DedupChipdb.locationTypes_at, sample_ddrg, List.lookup_cons, beq_self_eq_true,
      List.mem_singleton] at ha
    subst ha
    exact ⟨⟨(1, 1), by rfl, by decide, by decide⟩, ⟨(1, 1), by rfl, by decide, by decide⟩⟩
  | succ i =>
    simp [loctypes_of, sample_ddrg] at hk

/-! ## The claims on the stream of `write_database` -/

theorem stream_sections_tail (rc : RowColDecoder) (g : Globals) (device_name : Str)
    (chip : TrellisChip) (ddrg : DedupChipdb) (stream : List Directive)
    (h : write_database rc g device_name chip ddrg = some stream) :
    ∃ tt : StrIntMap, ∀ (name : Str) (lab : Lab), lab.render = name → lab.locIdx = none →
      sectionOf name stream = sectionOf name (stream_tail g chip ddrg tt ++ [Directive.pop]) := by
  obtain ⟨r, hl, hs⟩ := write_database_parts rc g device_name chip ddrg stream h
  refine ⟨r.1.2, ?_⟩
  intro name lab hn hk
  rw [hs]
  apply sectionOf_stream_tail
  rw [(write_loctypes_props rc g.constids ddrg _ _ 0 _ r hl).1, ← hn, mem_map_render]
  intro hm
  obtain ⟨i, -, hi⟩ := loctypes_labs_locIdx ddrg _ 0 lab hm
  rw [hk] at hi
  exact Option.noConfusion hi

theorem stream_sections_pips (rc : RowColDecoder) (g : Globals) (device_name : Str)
    (chip : TrellisChip) (ddrg : DedupChipdb) (stream : List Directive)
    (h : write_database rc g device_name chip ddrg = some stream)
    (i : Nat) (key : checksum_t) (hk : (loctypes_of ddrg)[i]? = some key) :
    (sectionOf (loc_name i "_pips".toList) stream).length
        = 10 * (ddrg.locationTypes_at key).arcs.length
      ∧ fieldValues "src_idx".toList (sectionOf (loc_name i "_pips".toList) stream)
        = (ddrg.locationTypes_at key).arcs.map (fun a => a.srcWire.id) := by
  obtain ⟨r, hl, hs⟩ := write_database_parts rc g device_name chip ddrg stream h
  obtain ⟨h1, h2, h3⟩ := write_loctypes_props rc g.constids ddrg _ _ 0 _ r hl
  have hn : loc_name i "_pips".toList
      ∉ labelsOf (stream_tail g chip ddrg r.1.2 ++ [Directive.pop]) := by
    have e : loc_name i "_pips".toList = (Lab.pips i).render := rfl
    rw [labelsOf_append, stream_tail_labels g chip ddrg r.1.2 r.2 h1 h2 h3, e]
    simp only [labelsOf_cons, Directive.labelName, labelsOf_nil, List.append_nil]
    rw [mem_map_render]
    intro hm
    exact Option.noConfusion (tail_labs_locIdx g _ hm)
  rw [hs, sectionOf_stream_locs _ _ _ _ hn (labelFirst_stream_tail g chip ddrg _)]
  have := write_loctypes_pips rc g.constids ddrg _ _ 0 _ r hl i key hk
  rw [Nat.zero_add] at this
  exact this

/-- Claim C15, as stated, fails on the sample input: the stream refers to
the name `None`, which no `label` line of the stream declares. -/
theorem C15_counterexample :
    write_database sampleDecoder sample_globals "LFE5U-25F".toList sample_chip sample_ddrg
        = some sample_stream
      ∧ "None".toList ∈ refsOf sample_stream
      ∧ "None".toList ∉ labelsOf sample_stream := by
  refine ⟨by rfl, by decide, by decide⟩

/-- Claim C15, amended: `write_database` returns a stream whenever the wires
of all arcs exist, and every name that a `ref` line of a stream that it returns
refers to is declared by a `label` line of that stream, unless it is the name
`None` of the empty table or the name of a table of delays or of setup and hold
times of a cell. -/
theorem C15_refs_declared (rc : RowColDecoder) (g : Globals) (device_name : Str)
    (chip : TrellisChip) (ddrg : DedupChipdb) :
    (ArcsInRange g ddrg → ∃ stream, write_database rc g device_name chip ddrg = some stream)
    ∧ ∀ stream : List Directive, write_database rc g device_name chip ddrg = some stream →
      ∀ n ∈ refsOf stream, n = "None".toList ∨ IsCellRef n ∨ n ∈ labelsOf stream := by
  refine ⟨write_database_defined rc g device_name chip ddrg, ?_⟩
  intro stream h
  obtain ⟨body, hs, h1, -, h3⟩ := write_database_shape rc g device_name chip ddrg stream h
  intro n hn
  rw [hs, refsOf_stream] at hn
  rw [hs, labelsOf_stream, h1]
  exact h3 n hn

theorem C15_witness :
    write_database sampleDecoder sample_globals "LFE5U-25F".toList sample_chip sample_ddrg
        = some sample_stream
      ∧ ∀ n ∈ refsOf sample_stream,
          n = "None".toList ∨ IsCellRef n ∨ n ∈ labelsOf sample_stream :=
  have h : write_database sampleDecoder sample_globals "LFE5U-25F".toList sample_chip
      sample_ddrg = some sample_stream := by rfl
  ⟨h, (C15_refs_declared _ _ _ _ _).2 _ h⟩

/-- Claim C19: `write_database` returns a stream whenever the wires of all
arcs exist. In a stream that it returns, every line under the label
`location_types` is a number that is at least 0 and less than the number of location types, and is the position,
in the sequence of keys that numbers the `loc<idx>` tables, of the checksum of
a coordinate of the grid; when the checksum of every coordinate of the grid is
a key of the map of location types, the lines are `(max_row+1)*(max_col+1)`
and the line number `y*(max_col+1)+x` is the one of the coordinate `(x, y)`. -/
theorem C19_location_types (rc : RowColDecoder) (g : Globals) (device_name : Str)
    (chip : TrellisChip) (ddrg : DedupChipdb) :
    (ArcsInRange g ddrg → ∃ stream, write_database rc g device_name chip ddrg = some stream)
    ∧ ∀ stream : List Directive, write_database rc g device_name chip ddrg = some stream →
    (∀ d ∈ sectionOf "location_types".toList stream,
      ∃ (v : Int) (pos : Nat) (c : Nat × Nat),
        d = Directive.u32 v (some "loctype".toList) ∧ v = pos ∧ 0 ≤ v
        ∧ v < (loctypes_of ddrg).length
        ∧ c ∈ grid_coords g.max_row g.max_col
        ∧ (loctypes_of ddrg)[pos]? = some (ddrg.typeAtLocation { x := c.1, y := c.2 }))
    ∧ ((∀ x y : Nat, x ≤ g.max_col → y ≤ g.max_row →
          ddrg.typeAtLocation { x := x, y := y } ∈ loctypes_of ddrg) →
        (sectionOf "location_types".toList stream).length = (g.max_row + 1) * (g.max_col + 1)
        ∧ ∀ x y : Nat, x ≤ g.max_col → y ≤ g.max_row →
            ∃ pos : Nat,
              (sectionOf "location_types".toList stream)[y * (g.max_col + 1) + x]?
                  = some (Directive.u32 pos (some "loctype".toList))
              ∧ (loctypes_of ddrg)[pos]?
                  = some (ddrg.typeAtLocation { x := x, y := y })) := by
  refine ⟨write_database_defined rc g device_name chip ddrg, ?_⟩
  intro stream h
  obtain ⟨tt, ht⟩ := stream_sections_tail rc g device_name chip ddrg stream h
  rw [ht "location_types".toList Lab.location_types rfl rfl, sectionOf_location_types]
  constructor
  · intro d hd
    obtain ⟨pos, c, hc, hd, hp, hg⟩ := write_location_types_values ddrg _ _ d hd
    exact ⟨pos, pos, c, hd, rfl, by omega, by exact_mod_cast hp, hc, hg⟩
  · intro hall
    have hfull := write_location_types_full ddrg (loctypes_of ddrg)
      (grid_coords g.max_row g.max_col)
      (fun c hc => hall c.1 c.2 ((grid_coords_mem _ _ c).mp hc).1
        ((grid_coords_mem _ _ c).mp hc).2)
    rw [hfull]
    refine ⟨by rw [List.length_map, grid_coords_length], ?_⟩
    intro x y hx hy
    refine ⟨position_of (ddrg.typeAtLocation { x := x, y := y }) (loctypes_of ddrg), ?_,
      (position_of_mem _ _ (hall x y hx hy)).2⟩
    rw [List.getElem?_map, grid_coords_getElem? _ _ x y hy hx]
    rfl

theorem C19_witness :
    write_database sampleDecoder sample_globals "LFE5U-25F".toList sample_chip sample_ddrg
        = some sample_stream
      ∧ (sectionOf "location_types".toList sample_stream).length = 4
      ∧ (∃ pos : Nat,
          (sectionOf "location_types".toList sample_stream)[1 * (1 + 1) + 0]?
              = some (Directive.u32 pos (some "loctype".toList))
          ∧ (loctypes_of sample_ddrg)[pos]? = some (7, 9)) :=
  have h : write_database sampleDecoder sample_globals "LFE5U-25F".toList sample_chip
      sample_ddrg = some sample_stream := by rfl
  have hall : ∀ x y : Nat, x ≤ sample_globals.max_col → y ≤ sample_globals.max_row →
      sample_ddrg.typeAtLocation { x := x, y := y } ∈ loctypes_of sample_ddrg :=
    fun _ _ _ _ => by simp [sample_ddrg, loctypes_of]
  ⟨h, (((C19_location_types _ _ _ _ _).2 _ h).2 hall).1,
    (((C19_location_types _ _ _ _ _).2 _ h).2 hall).2 0 1 (by decide) (by decide)⟩

/-- Claim C17: `write_database` returns a stream whenever the wires of all
arcs exist, and every stream that it returns holds exactly one `push` line and
exactly one `pop` line; only the three lines of the head, none of them a
`label`, a `ref` or a `push`, come before the `push`; the `pop` is the last
line; and in every initial part of the stream the `pop` lines are at most as
many as the `push` lines. -/
theorem C17_one_push_one_pop (rc : RowColDecoder) (g : Globals) (device_name : Str)
    (chip : TrellisChip) (ddrg : DedupChipdb) :
    (ArcsInRange g ddrg → ∃ stream, write_database rc g device_name chip ddrg = some stream)
    ∧ ∀ stream : List Directive, write_database rc g device_name chip ddrg = some stream →
      stream.countP Directive.isPush = 1
      ∧ stream.countP Directive.isPop = 1
      ∧ (∃ rest : List Directive,
          stream = stream_head ++ Directive.push ("chipdb_blob_".toList ++ device_name) :: rest
          ∧ labelsOf stream_head = [] ∧ refsOf stream_head = []
          ∧ stream_head.countP Directive.isPush = 0)
      ∧ stream.getLast? = some Directive.pop
      ∧ (∀ k : Nat, (stream.take k).countP Directive.isPop
          ≤ (stream.take k).countP Directive.isPush) := by
  refine ⟨write_database_defined rc g device_name chip ddrg, ?_⟩
  intro stream h
  obtain ⟨body, hs, -, hn, -⟩ := write_database_shape rc g device_name chip ddrg stream h
  obtain ⟨a, b⟩ := stream_counts device_name body hn
  refine ⟨?_, ?_, ⟨body ++ [Directive.pop], hs, rfl, rfl, rfl⟩, ?_, ?_⟩
  · rw [hs, List.countP_append, a]
    rfl
  · rw [hs, List.countP_append, b]
    rfl
  · rw [hs, List.getLast?_append]
    rfl
  · intro k
    rw [hs]
    exact stream_balanced device_name body hn k

theorem C17_witness :
    ArcsInRange sample_globals sample_ddrg
      ∧ write_database sampleDecoder sample_globals "LFE5U-25F".toList sample_chip sample_ddrg
        = some sample_stream
      ∧ sample_stream.countP Directive.isPush = 1
      ∧ sample_stream.getLast? = some Directive.pop :=
  have h : write_database sampleDecoder sample_globals "LFE5U-25F".toList sample_chip
      sample_ddrg = some sample_stream := by rfl
  ⟨sample_arcs_in_range, h, ((C17_one_push_one_pop _ _ _ _ _).2 _ h).1,
    ((C17_one_push_one_pop _ _ _ _ _).2 _ h).2.2.2.1⟩

/-- Claim C20: `write_database` returns a stream whenever the wires of all
arcs exist. In a stream that it returns, the entries under
`locations` are one per location type and their `num_pips` are the numbers of
arcs of the types, which are also the numbers of pip records, of ten lines
each, under the labels `loc<idx>_pips`; the entries under `package_data` are
one per package and their `num_pins` are the numbers of pins, which are also
the numbers of pin records under the labels `package_data_<package>`; the
records under `cell_timing_data_<grade>` are one per cell of the grade and
their `num_delays` are the numbers of delays of the cells, which are the
numbers of `IOPath` entries of the cells that `process_timing_data` loaded.
The names of the packages, keys of a `std::map`, are distinct. -/
theorem C20_counts_match (rc : RowColDecoder) (g : Globals) (device_name : Str)
    (chip : TrellisChip) (ddrg : DedupChipdb)
    (hnd : (g.packages.map Prod.fst).Nodup) :
    (ArcsInRange g ddrg → ∃ stream, write_database rc g device_name chip ddrg = some stream)
    ∧ ∀ stream : List Directive, write_database rc g device_name chip ddrg = some stream →
    fieldValues "num_pips".toList (sectionOf "locations".toList stream)
        = (loctypes_of ddrg).map (fun key => ((ddrg.locationTypes_at key).arcs.length : Int))
    ∧ (∀ (i : Nat) (key : checksum_t), (loctypes_of ddrg)[i]? = some key →
        (sectionOf (loc_name i "_pips".toList) stream).length
            = 10 * (ddrg.locationTypes_at key).arcs.length
        ∧ fieldValues "src_idx".toList (sectionOf (loc_name i "_pips".toList) stream)
            = (ddrg.locationTypes_at key).arcs.map (fun a => a.srcWire.id))
    ∧ fieldValues "num_pins".toList (sectionOf "package_data".toList stream)
        = g.packages.map (fun p => (p.2.pins.length : Int))
    ∧ (∀ p ∈ g.packages,
        fieldValues "bel_index".toList (sectionOf ("package_data_".toList ++ p.1) stream)
          = p.2.pins.map (fun pin => pin.bel_index))
    ∧ (∀ grade ∈ speed_grade_names,
        fieldValues "num_delays".toList
            (sectionOf ("cell_timing_data_".toList ++ grade) stream)
          = (chips_at g.chips grade).cells.map (fun cell => (cell.delays.length : Int)))
    ∧ (∀ (mul11 : Int → Int) (files : Str → GradeFiles) (tbl tbl2 : StrIntMap),
        process_timing_data mul11 g.constids files (tbl, []) = Except.ok (tbl2, g.chips) →
        ∀ grade ∈ speed_grade_names, ∀ file : List (Str × List TimingEntry),
          (files grade).cells = some file → (files grade).interconnect.isSome = true →
          (chips_at g.chips grade).cells.map (fun cell => cell.delays.length)
            = file.map (fun e =>
                e.2.countP (fun t => decide (t.type = "IOPath".toList)))) := by
  refine ⟨write_database_defined rc g device_name chip ddrg, ?_⟩
  intro stream h
  obtain ⟨tt, ht⟩ := stream_sections_tail rc g device_name chip ddrg stream h
  refine ⟨?_, ?_, ?_, ?_, ?_, ?_⟩
  · rw [ht "locations".toList Lab.locations rfl rfl, sectionOf_locations,
      fieldValues_write_locations]
  · exact fun i key hk => stream_sections_pips rc g device_name chip ddrg stream h i key hk
  · rw [ht "package_data".toList Lab.package_data rfl rfl, sectionOf_package_data,
      fieldValues_write_package_data]
  · intro p hp
    rw [ht ("package_data_".toList ++ p.1) (Lab.package p.1) rfl rfl,
      sectionOf_package g chip ddrg tt hnd p hp, fieldValues_pin_records]
  · intro grade hg
    rw [ht ("cell_timing_data_".toList ++ grade) (Lab.cell_timing grade) rfl rfl,
      sectionOf_cell_timing_data g chip ddrg tt grade hg, fieldValues_cell_records]
  · intro mul11 files tbl tbl2 hp grade hg file hf hi
    exact process_timing_data_cells mul11 g.constids files tbl tbl2 g.chips hp grade file hg hf hi

theorem C20_witness :
    write_database sampleDecoder sample_globals "LFE5U-25F".toList sample_chip sample_ddrg
        = some sample_stream
      ∧ process_timing_data sampleMul11 sample_constids sample_files (pip_class_to_idx_init, [])
        = Except.ok (sample_globals.pip_class_to_idx, sample_globals.chips)
      ∧ fieldValues "num_pips".toList (sectionOf "locations".toList sample_stream) = [1]
      ∧ (sectionOf "loc0_pips".toList sample_stream).length = 10
      ∧ fieldValues "num_pins".toList (sectionOf "package_data".toList sample_stream) = [1]
      ∧ fieldValues "bel_index".toList
          (sectionOf "package_data_CABGA256".toList sample_stream) = [0]
      ∧ fieldValues "num_delays".toList
          (sectionOf "cell_timing_data_6".toList sample_stream) = [1]
      ∧ (chips_at sample_globals.chips "6".toList).cells.map (fun cell => cell.delays.length)
          = [1] :=
  have h : write_database sampleDecoder sample_globals "LFE5U-25F".toList sample_chip
      sample_ddrg = some sample_stream := by rfl
  have hnd : (sample_globals.packages.map Prod.fst).Nodup := by decide
  ⟨h, by rfl, ((C20_counts_match _ _ _ _ _ hnd).2 _ h).1,
    (((C20_counts_match _ _ _ _ _ hnd).2 _ h).2.1 0 (7, 9) rfl).1,
    ((C20_counts_match _ _ _ _ _ hnd).2 _ h).2.2.1,
    ((C20_counts_match _ _ _ _ _ hnd).2 _ h).2.2.2.1
      ("CABGA256".toList, { pins := [⟨"A1".toList, ⟨0, 1⟩, 0⟩] }) (by decide),
    ((C20_counts_match _ _ _ _ _ hnd).2 _ h).2.2.2.2.1 "6".toList (by decide),
    ((C20_counts_match _ _ _ _ _ hnd).2 _ h).2.2.2.2.2 sampleMul11 sample_files
      pip_class_to_idx_init sample_globals.pip_class_to_idx (by rfl) "6".toList (by decide)
      sample_cells rfl rfl⟩

/-! ## The labels of the stream are distinct -/

theorem wire_table_labs_mem (idx : Nat) (wires : List WireData) :
    ∀ (w : Nat), ∀ l ∈ wire_table_labs idx w wires,
      l.isWireTable = true ∧ ∃ w', w ≤ w' ∧ l.subIdx = some w' := by
  induction wires with
  | nil =>
    intro w l hl
    simp [wire_table_labs] at hl
  | cons wire rest ih =>
    intro w l hl
    simp only [wire_table_labs, List.mem_append] at hl
    rcases hl with ((hl | hl) | hl) | hl
    · split_ifs at hl
      · rw [List.mem_singleton.mp hl]; exact ⟨rfl, w, le_refl _, rfl⟩
      · simp at hl
    · split_ifs at hl
      · rw [List.mem_singleton.mp hl]; exact ⟨rfl, w, le_refl _, rfl⟩
      · simp at hl
    · split_ifs at hl
      · rw [List.mem_singleton.mp hl]; exact ⟨rfl, w, le_refl _, rfl⟩
      · simp at hl
    · obtain ⟨a, w', hw, b⟩ := ih _ l hl
      exact ⟨a, w', by omega, b⟩

theorem wire_table_labs_nodup (idx : Nat) (wires : List WireData) :
    ∀ (w : Nat), (wire_table_labs idx w wires).Nodup := by
  induction wires with
  | nil =>
    intro w
    simp [wire_table_labs]
  | cons wire rest ih =>
    intro w
    simp only [wire_table_labs]
    refine List.Nodup.append ?_ (ih _) ?_
    · split_ifs <;> simp
    · intro l hl hr
      obtain ⟨-, w', hw, hs⟩ := wire_table_labs_mem idx rest (w + 1) l hr
      simp only [List.mem_append] at hl
      rcases hl with (hl | hl) | hl
      all_goals
        split_ifs at hl
        · rw [List.mem_singleton.mp hl] at hs
          simp only [Lab.subIdx, Option.some.injEq] at hs
          omega
        · simp at hl

theorem bel_table_labs_mem (idx : Nat) (bels : List BelData) :
    ∀ (b : Nat), ∀ l ∈ bel_table_labs idx b bels,
      l.isBelWires = true ∧ ∃ b', b ≤ b' ∧ l.subIdx = some b' := by
  induction bels with
  | nil =>
    intro b l hl
    simp [bel_table_labs] at hl
  | cons bel rest ih =>
    intro b l hl
    simp only [bel_table_labs, List.mem_cons] at hl
    rcases hl with hl | hl
    · rw [hl]; exact ⟨rfl, b, le_refl _, rfl⟩
    · obtain ⟨a, b', hb, c⟩ := ih _ l hl
      exact ⟨a, b', by omega, c⟩

theorem bel_table_labs_nodup (idx : Nat) (bels : List BelData) :
    ∀ (b : Nat), (bel_table_labs idx b bels).Nodup := by
  induction bels with
  | nil =>
    intro b
    simp [bel_table_labs]
  | cons bel rest ih =>
    intro b
    simp only [bel_table_labs, List.nodup_cons]
    refine ⟨?_, ih _⟩
    intro hm
    obtain ⟨-, b', hb, hs⟩ := bel_table_labs_mem idx rest (b + 1) _ hm
    simp only [Lab.subIdx, Option.some.injEq] at hs
    omega

theorem loctype_labs_nodup (idx : Nat) (loctype : LocationData) :
    (loctype_labs idx loctype).Nodup := by
  unfold loctype_labs
  have hw : (if loctype.wires.length > 0 then
      wire_table_labs idx 0 loctype.wires ++ [Lab.wires idx] else []).Nodup := by
    split_ifs
    · refine List.Nodup.append (wire_table_labs_nodup _ _ _) (List.nodup_singleton _) ?_
      intro l hl hr
      rw [List.mem_singleton.mp hr] at hl
      exact Bool.noConfusion (wire_table_labs_mem idx _ 0 _ hl).1
    · exact List.nodup_nil
  have hb : (if loctype.bels.length > 0 then
      bel_table_labs idx 0 loctype.bels ++ [Lab.bels idx] else []).Nodup := by
    split_ifs
    · refine List.Nodup.append (bel_table_labs_nodup _ _ _) (List.nodup_singleton _) ?_
      intro l hl hr
      rw [List.mem_singleton.mp hr] at hl
      exact Bool.noConfusion (bel_table_labs_mem idx _ 0 _ hl).1
    · exact List.nodup_nil
  have hwk : ∀ l ∈ (if loctype.wires.length > 0 then
      wire_table_labs idx 0 loctype.wires ++ [Lab.wires idx] else []),
      l.isWireTable = true ∨ l = Lab.wires idx := by
    intro l hl
    split_ifs at hl
    · rcases List.mem_append.mp hl with h | h
      · exact Or.inl (wire_table_labs_mem idx _ 0 _ h).1
      · exact Or.inr (List.mem_singleton.mp h)
    · simp at hl
  have hbk : ∀ l ∈ (if loctype.bels.length > 0 then
      bel_table_labs idx 0 loctype.bels ++ [Lab.bels idx] else []),
      l.isBelWires = true ∨ l = Lab.bels idx := by
    intro l hl
    split_ifs at hl
    · rcases List.mem_append.mp hl with h | h
      · exact Or.inl (bel_table_labs_mem idx _ 0 _ h).1
      · exact Or.inr (List.mem_singleton.mp h)
    · simp at hl
  refine List.Nodup.append (List.Nodup.append ?_ hw ?_) hb ?_
  · split_ifs <;> simp
  · intro l hl hr
    have hp : l = Lab.pips idx := by
      split_ifs at hl
      · exact List.mem_singleton.mp hl
      · simp at hl
    rcases hwk l hr with h | h
    · rw [hp] at h; exact Bool.noConfusion h
    · rw [hp] at h; exact Lab.noConfusion h
  · intro l hl hr
    rcases hbk l hr with h | h
    · rcases List.mem_append.mp hl with hl | hl
      · split_ifs at hl
        · rw [List.mem_singleton.mp hl] at h; exact Bool.noConfusion h
        · simp at hl
      · rcases hwk l hl with e | e
        · cases l <;> first | exact Bool.noConfusion h | exact Bool.noConfusion e
        · rw [e] at h; exact Bool.noConfusion h
    · rcases List.mem_append.mp hl with hl | hl
      · split_ifs at hl
        · rw [List.mem_singleton.mp hl] at h; exact Lab.noConfusion h
        · simp at hl
      · rcases hwk l hl with e | e
        · rw [h] at e; exact Bool.noConfusion e
        · rw [h] at e; exact Lab.noConfusion e

theorem loctypes_labs_nodup (ddrg : DedupChipdb) (keys : List checksum_t) :
    ∀ (idx : Nat), (loctypes_labs ddrg idx keys).Nodup := by
  induction keys with
  | nil =>
    intro idx
    simp [loctypes_labs]
  | cons key rest ih =>
    intro idx
    simp only [loctypes_labs]
    refine List.Nodup.append (loctype_labs_nodup _ _) (ih _) ?_
    intro l hl hr
    have h1 := loctype_labs_locIdx idx _ l hl
    obtain ⟨i, hi, h2⟩ := loctypes_labs_locIdx ddrg rest (idx + 1) l hr
    rw [h1, Option.some.injEq] at h2
    omega
theorem cell_delays_mem_cell_labs (t : Int) (g grade : Str) (cells : List Cell)
    (h : Lab.cell_delays t g ∈ cell_labs grade cells) :
    t ∈ (cells.filter (fun c => decide (c.delays.length > 0))).map (fun c => c.celltype) := by
  simp only [cell_labs, List.mem_flatMap, List.mem_append] at h
  obtain ⟨cell, hc, h | h⟩ := h
  · split_ifs at h with hd
    · simp only [List.mem_singleton, Lab.cell_delays.injEq] at h
      exact List.mem_map.mpr ⟨cell, List.mem_filter.mpr ⟨hc, by simpa using hd⟩, h.1.symm⟩
    · simp at h
  · split_ifs at h <;> simp at h

theorem cell_setupholds_mem_cell_labs (t : Int) (g grade : Str) (cells : List Cell)
    (h : Lab.cell_setupholds t g ∈ cell_labs grade cells) :
    t ∈ (cells.filter (fun c => decide (c.setupholds.length > 0))).map
      (fun c => c.celltype) := by
  simp only [cell_labs, List.mem_flatMap, List.mem_append] at h
  obtain ⟨cell, hc, h | h⟩ := h
  · split_ifs at h <;> simp at h
  · split_ifs at h with hd
    · simp only [List.mem_singleton, Lab.cell_setupholds.injEq] at h
      exact List.mem_map.mpr ⟨cell, List.mem_filter.mpr ⟨hc, by simpa using hd⟩, h.1.symm⟩
    · simp at h

theorem cell_labs_nodup (grade : Str) (cells : List Cell)
    (hd : ((cells.filter (fun c => decide (c.delays.length > 0))).map
      (fun c => c.celltype)).Nodup)
    (hs : ((cells.filter (fun c => decide (c.setupholds.length > 0))).map
      (fun c => c.celltype)).Nodup) :
    (cell_labs grade cells).Nodup := by
  induction cells with
  | nil => simp [cell_labs]
  | cons cell rest ih =>
    have e : cell_labs grade (cell :: rest)
        = ((if cell.delays.length > 0 then [Lab.cell_delays cell.celltype grade] else []) ++
          (if cell.setupholds.length > 0 then [Lab.cell_setupholds cell.celltype grade]
            else [])) ++ cell_labs grade rest := by
      simp only [cell_labs, List.flatMap_cons]
    rw [e]
    have hd2 : ((rest.filter (fun c => decide (c.delays.length > 0))).map
        (fun c => c.celltype)).Nodup := by
      rw [List.filter_cons] at hd
      split_ifs at hd
      · exact (List.nodup_cons.mp hd).2
      · exact hd
    have hs2 : ((rest.filter (fun c => decide (c.setupholds.length > 0))).map
        (fun c => c.celltype)).Nodup := by
      rw [List.filter_cons] at hs
      split_ifs at hs
      · exact (List.nodup_cons.mp hs).2
      · exact hs
    refine List.Nodup.append ?_ (ih hd2 hs2) ?_
    · split_ifs <;> simp
    · intro l hl hr
      rcases List.mem_append.mp hl with hl | hl
      · split_ifs at hl with hc
        · rw [List.mem_singleton.mp hl] at hr
          have hm := cell_delays_mem_cell_labs _ _ _ _ hr
          rw [List.filter_cons, if_pos (by simpa using hc)] at hd
          exact (List.nodup_cons.mp hd).1 hm
        · simp at hl
      · split_ifs at hl with hc
        · rw [List.mem_singleton.mp hl] at hr
          have hm := cell_setupholds_mem_cell_labs _ _ _ _ hr
          rw [List.filter_cons, if_pos (by simpa using hc)] at hs
          exact (List.nodup_cons.mp hs).1 hm
        · simp at hl

theorem cell_labs_grade (grade : Str) (cells : List Cell) :
    ∀ l ∈ cell_labs grade cells,
      ∃ t, l = Lab.cell_delays t grade ∨ l = Lab.cell_setupholds t grade := by
  intro l hl
  simp only [cell_labs, List.mem_flatMap, List.mem_append] at hl
  obtain ⟨cell, -, h | h⟩ := hl
  · split_ifs at h
    · exact ⟨_, Or.inl (List.mem_singleton.mp h)⟩
    · simp at h
  · split_ifs at h
    · exact ⟨_, Or.inr (List.mem_singleton.mp h)⟩
    · simp at h

theorem grade_labs_grade (chips : List (Str × Chip)) (grade : Str) :
    ∀ l ∈ grade_labs chips grade,
      (∃ t, l = Lab.cell_delays t grade ∨ l = Lab.cell_setupholds t grade)
      ∨ l = Lab.cell_timing grade ∨ l = Lab.pip_timing grade := by
  intro l hl
  simp only [grade_labs, List.mem_append, List.mem_cons, List.not_mem_nil, or_false] at hl
  rcases hl with h | h
  · exact Or.inl (cell_labs_grade _ _ l h)
  · exact Or.inr h

theorem grade_labs_nodup (chips : List (Str × Chip)) (grade : Str)
    (hd : (((chips_at chips grade).cells.filter (fun c => decide (c.delays.length > 0))).map
      (fun c => c.celltype)).Nodup)
    (hs : (((chips_at chips grade).cells.filter
      (fun c => decide (c.setupholds.length > 0))).map (fun c => c.celltype)).Nodup) :
    (grade_labs chips grade).Nodup := by
  unfold grade_labs
  refine List.Nodup.append (cell_labs_nodup _ _ hd hs) (by simp) ?_
  intro l hl hr
  obtain ⟨t, h | h⟩ := cell_labs_grade _ _ l hl
  · rw [h] at hr; simp at hr
  · rw [h] at hr; simp at hr

theorem grades_labs_nodup (chips : List (Str × Chip)) (grades : List Str) (hn : grades.Nodup)
    (hd : ∀ grade ∈ grades,
      (((chips_at chips grade).cells.filter (fun c => decide (c.delays.length > 0))).map
        (fun c => c.celltype)).Nodup)
    (hs : ∀ grade ∈ grades,
      (((chips_at chips grade).cells.filter
        (fun c => decide (c.setupholds.length > 0))).map (fun c => c.celltype)).Nodup) :
    (grades.flatMap (grade_labs chips)).Nodup := by
  rw [List.nodup_flatMap]
  refine ⟨fun g hg => grade_labs_nodup chips g (hd g hg) (hs g hg), ?_⟩
  apply hn.pairwise_of_forall_ne
  intro a _ b _ hab l hl hr
  rcases grade_labs_grade chips a l hl with ⟨t, h | h⟩ | h | h <;>
    rcases grade_labs_grade chips b l hr with ⟨t2, h2 | h2⟩ | h2 | h2 <;>
    rw [h] at h2 <;> simp at h2 <;> first | exact hab h2 | exact hab h2.2

theorem grid_coords_nodup (max_row max_col : Nat) : (grid_coords max_row max_col).Nodup := by
  unfold grid_coords
  rw [List.nodup_flatMap]
  refine ⟨fun y _ => ?_, ?_⟩
  · exact List.Nodup.map (fun a b h => (Prod.mk.inj h).1) (List.nodup_range _)
  · apply (List.nodup_range _).pairwise_of_forall_ne
    intro a _ b _ hab c hc hr
    simp only [List.mem_map] at hc hr
    obtain ⟨x, -, h1⟩ := hc
    obtain ⟨x2, -, h2⟩ := hr
    rw [← h1] at h2
    exact hab (Prod.mk.inj h2).2.symm

theorem tail_labs_nodup (g : Globals) (hp : (g.packages.map Prod.fst).Nodup)
    (hd : ∀ grade ∈ speed_grade_names,
      (((chips_at g.chips grade).cells.filter (fun c => decide (c.delays.length > 0))).map
        (fun c => c.celltype)).Nodup)
    (hs : ∀ grade ∈ speed_grade_names,
      (((chips_at g.chips grade).cells.filter
        (fun c => decide (c.setupholds.length > 0))).map (fun c => c.celltype)).Nodup) :
    (tail_labs g).Nodup := by
  have h1 : ((grid_coords g.max_row g.max_col).map (fun c => Lab.tile_info c.1 c.2)).Nodup :=
    List.Nodup.map (fun a b h => by
      simp only [Lab.tile_info.injEq] at h
      exact Prod.ext h.1 h.2) (grid_coords_nodup _ _)
  have h2 : (g.packages.map (fun p => Lab.package p.1)).Nodup := by
    have : g.packages.map (fun p => Lab.package p.1)
        = (g.packages.map Prod.fst).map Lab.package := by
      rw [List.map_map]; rfl
    rw [this]
    exact List.Nodup.map (fun a b h => by simpa using h) hp
  have h3 := grades_labs_nodup g.chips speed_grade_names speed_grade_names_nodup hd hs
  have h4 : ∀ l, l.isGrade = false → l ∉ speed_grade_names.flatMap (grade_labs g.chips) := by
    intro l hk hl
    obtain ⟨gr, -, hg⟩ := List.mem_flatMap.mp hl
    rcases grade_labs_grade g.chips gr l hg with ⟨t, h | h⟩ | h | h <;>
      rw [h] at hk <;> exact Bool.noConfusion hk
  have h5 : ∀ l ∈ speed_grade_names.flatMap (grade_labs g.chips), l.isGrade = true := by
    intro l hl
    cases hk : l.isGrade
    · exact absurd hl (h4 l hk)
    · rfl
  unfold tail_labs
  simp only [List.cons_append, List.append_assoc, List.nodup_cons, List.nodup_append,
    List.mem_append, List.mem_cons, List.mem_map, List.not_mem_nil, or_false, h1, h2, h3,
    List.nodup_nil, List.disjoint_left, true_and, and_true, not_or, not_exists, not_and,
    reduceCtorEq, not_false_eq_true, implies_true, and_self, List.mem_singleton,
    forall_exists_index, and_imp, forall_apply_eq_imp_iff₂, imp_false, not_true_eq_false,
    false_imp_iff]
  refine ⟨h4 _ rfl, ⟨h4 _ rfl, h4 _ rfl, h4 _ rfl, ⟨h4 _ rfl, h4 _ rfl, h4 _ rfl, ?_⟩,
    fun a _ => h4 _ rfl⟩, fun a _ => h4 _ rfl⟩
  intro a ha
  constructor
  · intro h
    rw [h] at ha
    exact Bool.noConfusion (h5 _ ha)
  · intro h
    rw [h] at ha
    exact Bool.noConfusion (h5 _ ha)

theorem stream_labs_nodup (g : Globals) (ddrg : DedupChipdb)
    (hp : (g.packages.map Prod.fst).Nodup)
    (hd : ∀ grade ∈ speed_grade_names,
      (((chips_at g.chips grade).cells.filter (fun c => decide (c.delays.length > 0))).map
        (fun c => c.celltype)).Nodup)
    (hs : ∀ grade ∈ speed_grade_names,
      (((chips_at g.chips grade).cells.filter
        (fun c => decide (c.setupholds.length > 0))).map (fun c => c.celltype)).Nodup) :
    (stream_labs g ddrg).Nodup := by
  rw [stream_labs_eq]
  refine List.Nodup.append (loctypes_labs_nodup ddrg _ 0) (tail_labs_nodup g hp hd hs) ?_
  intro l hl hr
  obtain ⟨i, -, hi⟩ := loctypes_labs_locIdx ddrg _ 0 l hl
  rw [tail_labs_locIdx g l hr] at hi
  exact Option.noConfusion hi

/-- Claim C16, as stated, fails: `process_timing_data` gives the cell type 0
to the two cells of `twin_cells`, whose names the identifier table does not
hold, and `write_database` then declares the label `cell_0_delays_6` twice. -/
theorem C16_counterexample :
    process_timing_data sampleMul11 sample_constids twin_files (pip_class_to_idx_init, [])
        = Except.ok (twin_globals.pip_class_to_idx, twin_globals.chips)
      ∧ (write_database sampleDecoder twin_globals "LFE5U-25F".toList sample_chip
          sample_ddrg).map (fun s => (labelsOf s).count "cell_0_delays_6".toList) = some 2 := by
  refine ⟨by rfl, by rfl⟩

/-- Claim C16, amended: `write_database` returns a stream whenever the wires
of all arcs exist; when, for every speed grade, no two cells of the grade with
a delay have the same cell type and no two cells of the grade with a setup and
hold entry have the same cell type, no name is declared twice by the `label`
lines of a stream that `write_database` returns. The names of the packages,
keys of a `std::map`, are distinct. -/
theorem C16_labels_distinct (rc : RowColDecoder) (g : Globals) (device_name : Str)
    (chip : TrellisChip) (ddrg : DedupChipdb)
    (hp : (g.packages.map Prod.fst).Nodup)
    (hd : ∀ grade ∈ speed_grade_names,
      (((chips_at g.chips grade).cells.filter (fun c => decide (c.delays.length > 0))).map
        (fun c => c.celltype)).Nodup)
    (hs : ∀ grade ∈ speed_grade_names,
      (((chips_at g.chips grade).cells.filter
        (fun c => decide (c.setupholds.length > 0))).map (fun c => c.celltype)).Nodup) :
    (ArcsInRange g ddrg → ∃ stream, write_database rc g device_name chip ddrg = some stream)
    ∧ ∀ stream : List Directive, write_database rc g device_name chip ddrg = some stream →
      (labelsOf stream).Nodup := by
  refine ⟨write_database_defined rc g device_name chip ddrg, ?_⟩
  intro stream h
  obtain ⟨body, hb, h1, -, -⟩ := write_database_shape rc g device_name chip ddrg stream h
  rw [hb, labelsOf_stream, h1]
  exact List.Nodup.map render_injective (stream_labs_nodup g ddrg hp hd hs)

theorem C16_witness :
    write_database sampleDecoder sample_globals "LFE5U-25F".toList sample_chip sample_ddrg
        = some sample_stream
      ∧ (labelsOf sample_stream).Nodup :=
  have h : write_database sampleDecoder sample_globals "LFE5U-25F".toList sample_chip
      sample_ddrg = some sample_stream := by rfl
  ⟨h, (C16_labels_distinct _ _ _ _ _ (by decide) (by decide) (by decide)).2 _ h⟩

/-- Claim C18 on two inputs. On the sample input, whose cell has one delay
and no setup and hold entry, the record of the cell refers to
`cell_3_setupholds_6` and not to `None`, and the labels of the stream that
begin with `cell_3` are `cell_3_delays_6` alone. On the input whose cell has no
delay and one setup and hold entry, the record refers to `cell_5_delays_6` and
not to `None`, and the labels of the stream that begin with `cell_5` are
`cell_5_setupholds_6` alone. -/
theorem C18_cell_record_refs :
    sectionOf "cell_timing_data_6".toList sample_stream
        = [Directive.u32 3 (some "cell_type".toList),
           Directive.u32 1 (some "num_delays".toList),
           Directive.u32 0 (some "num_setup_hold".toList),
           Directive.r "cell_3_delays_6".toList (some "delays".toList),
           Directive.r "cell_3_setupholds_6".toList (some "setupholds".toList)]
      ∧ (labelsOf sample_stream).filter (fun n => "cell_3".toList.isPrefixOf n)
        = ["cell_3_delays_6".toList]
      ∧ (write_database sampleDecoder setuphold_only_globals "LFE5U-25F".toList sample_chip
          sample_ddrg).map (sectionOf "cell_timing_data_6".toList)
        = some [Directive.u32 5 (some "cell_type".toList),
           Directive.u32 0 (some "num_delays".toList),
           Directive.u32 1 (some "num_setup_hold".toList),
           Directive.r "cell_5_delays_6".toList none,
           Directive.r "cell_5_setupholds_6".toList none]
      ∧ (write_database sampleDecoder setuphold_only_globals "LFE5U-25F".toList sample_chip
          sample_ddrg).map
            (fun s => (labelsOf s).filter (fun n => "cell_5".toList.isPrefixOf n))
        = some ["cell_5_setupholds_6".toList] := by
  refine ⟨by rfl, by decide, by decide, by decide⟩

/-! ## The conversion of the timing entries -/

theorem convert_entries_known (constids : StrIntMap) (entries : List TimingEntry) :
    ∀ (cell : Cell), (∀ e ∈ entries, KnownType e) →
      convert_entries constids entries cell
        = Except.ok
            { celltype := cell.celltype,
              delays := cell.delays
                ++ (entries.filter (fun e => decide (e.type = "IOPath".toList))).map
                    (delay_record constids),
              setupholds := cell.setupholds
                ++ (entries.filter (fun e => decide (e.type = "SetupHold".toList))).map
                    (setuphold_record constids) } := by
  induction entries with
  | nil =>
    intro cell _
    simp only [convert_entries, List.filter_nil, List.map_nil, List.append_nil]
    rfl
  | cons e rest ih =>
    intro cell h
    have hr : ∀ x ∈ rest, KnownType x := fun x hx => h x (List.mem_cons_of_mem _ hx)
    unfold convert_entries
    by_cases h1 : e.type = "Width".toList
    · have n2 : ¬ e.type = "IOPath".toList := by rw [h1]; decide
      have n3 : ¬ e.type = "SetupHold".toList := by rw [h1]; decide
      rw [if_pos h1, ih cell hr, List.filter_cons_of_neg (by simpa using n2),
        List.filter_cons_of_neg (by simpa using n3)]
    · rw [if_neg h1]
      by_cases h2 : e.type = "IOPath".toList
      · have n3 : ¬ e.type = "SetupHold".toList := by rw [h2]; decide
        rw [if_pos h2, ih _ hr, List.filter_cons_of_pos (by simpa using h2),
          List.filter_cons_of_neg (by simpa using n3)]
        simp only [List.map_cons, List.append_assoc, List.singleton_append, delay_record]
      · rw [if_neg h2]
        by_cases h3 : e.type = "SetupHold".toList
        · rw [if_pos h3, ih _ hr, List.filter_cons_of_neg (by simpa using h2),
            List.filter_cons_of_pos (by simpa using h3)]
          simp only [List.map_cons, List.append_assoc, List.singleton_append, setuphold_record]
        · rcases h e (List.mem_cons_self _ _) with k | k | k
          · exact absurd k h1
          · exact absurd k h2
          · exact absurd k h3

theorem convert_entries_unknown (constids : StrIntMap) (entries : List TimingEntry) :
    ∀ (cell : Cell), (∃ e ∈ entries, ¬ KnownType e) →
      convert_entries constids entries cell = Except.error (Fault.exit 1) := by
  induction entries with
  | nil =>
    intro cell h
    obtain ⟨e, he, _⟩ := h
    exact absurd he (List.not_mem_nil e)
  | cons e rest ih =>
    intro cell h
    unfold convert_entries
    by_cases hk : KnownType e
    · have hr : ∃ x ∈ rest, ¬ KnownType x := by
        obtain ⟨x, hx, hn⟩ := h
        rcases List.mem_cons.mp hx with e1 | e1
        · rw [e1] at hn
          exact absurd hk hn
        · exact ⟨x, e1, hn⟩
      by_cases h1 : e.type = "Width".toList
      · rw [if_pos h1]
        exact ih cell hr
      · rw [if_neg h1]
        by_cases h2 : e.type = "IOPath".toList
        · rw [if_pos h2]
          exact ih _ hr
        · rw [if_neg h2]
          by_cases h3 : e.type = "SetupHold".toList
          · rw [if_pos h3]
            exact ih _ hr
          · rcases hk with k | k | k
            · exact absurd k h1
            · exact absurd k h2
            · exact absurd k h3
    · have h1 : ¬ e.type = "Width".toList := fun k => hk (Or.inl k)
      have h2 : ¬ e.type = "IOPath".toList := fun k => hk (Or.inr (Or.inl k))
      have h3 : ¬ e.type = "SetupHold".toList := fun k => hk (Or.inr (Or.inr k))
      rw [if_neg h1, if_neg h2, if_neg h3]
      rfl

/-- Claim C21: the conversion of the entries of a timing cell ends with
`exit(1)` if and only if the type tag of some entry is none of `Width`,
`IOPath` and `SetupHold`; otherwise it returns the cell with one more delay for
every `IOPath` entry and one more setup and hold record for every `SetupHold`
entry, in the order of the entries, a `Width` entry adding nothing. -/
theorem C21_convert_entries (constids : StrIntMap) (entries : List TimingEntry) (cell : Cell) :
    (convert_entries constids entries cell = Except.error (Fault.exit 1)
        ↔ ∃ e ∈ entries, ¬ KnownType e)
    ∧ ((∀ e ∈ entries, KnownType e) →
        convert_entries constids entries cell
          = Except.ok
              { celltype := cell.celltype,
                delays := cell.delays
                  ++ (entries.filter (fun e => decide (e.type = "IOPath".toList))).map
                      (delay_record constids),
                setupholds := cell.setupholds
                  ++ (entries.filter (fun e => decide (e.type = "SetupHold".toList))).map
                      (setuphold_record constids) }) := by
  refine ⟨⟨?_, convert_entries_unknown constids entries cell⟩,
    convert_entries_known constids entries cell⟩
  intro h
  by_contra hn
  have hall : ∀ e ∈ entries, KnownType e := by
    intro e he
    by_contra hk
    exact hn ⟨e, he, hk⟩
  rw [convert_entries_known constids entries cell hall] at h
  exact Except.noConfusion h

theorem C21_witness :
    convert_entries sample_constids
        [{ sample_iopath with type := "Width".toList }, sample_iopath,
          { sample_iopath with type := "SetupHold".toList }]
        { celltype := 3, delays := [], setupholds := [] }
      = Except.ok { celltype := 3, delays := [⟨0, 2, 0, 0⟩], setupholds := [⟨0, 0, 0, 0, 0, 0⟩] }
    ∧ convert_entries sample_constids [sample_iopath, { sample_iopath with type := "Len".toList }]
        { celltype := 3, delays := [], setupholds := [] }
      = Except.error (Fault.exit 1) :=
  ⟨((C21_convert_entries sample_constids _ _).2 (by decide)).trans rfl,
    (C21_convert_entries sample_constids _ _).1.mpr (by decide)⟩
/-! ## The two readings of the condition on the type of a pip -/

theorem pip_type_eq_grouped (cls : Int) (src_name snk_name : Str)
    (h : cls = ARC_STANDARD ∨ cls = ARC_FIXED) :
    pip_type cls src_name snk_name = pip_type_grouped cls src_name snk_name := by
  unfold pip_type pip_type_grouped
  rcases h with h | h <;> subst h <;>
    cases found snk_name "PCS".toList <;> cases found snk_name "DCU".toList <;>
    cases found src_name "DCU".toList <;> decide

theorem pip_type_fixed_iff (cls : Int) (src_name snk_name : Str)
    (h : cls = ARC_STANDARD ∨ cls = ARC_FIXED) :
    pip_type cls src_name snk_name = ARC_FIXED
      ↔ cls = ARC_FIXED ∨ found snk_name "PCS".toList = true
          ∨ found snk_name "DCU".toList = true ∨ found src_name "DCU".toList = true := by
  unfold pip_type
  rcases h with h | h <;> subst h <;>
    cases found snk_name "PCS".toList <;> cases found snk_name "DCU".toList <;>
    cases found src_name "DCU".toList <;> decide

/-- Claim C29: for an arc of class standard or fixed and any two wire names,
the pip type under the condition as the compiler reads it equals the pip type
under the reading that groups the three searches under the test of the class,
and under both it is fixed exactly when the class is fixed, or the sink name
contains `PCS` or `DCU`, or the source name contains `DCU`. -/
theorem C29_pip_type_readings (cls : Int) (src_name snk_name : Str)
    (h : cls = ARC_STANDARD ∨ cls = ARC_FIXED) :
    pip_type cls src_name snk_name = pip_type_grouped cls src_name snk_name
    ∧ (pip_type cls src_name snk_name = ARC_FIXED
        ↔ cls = ARC_FIXED ∨ found snk_name "PCS".toList = true
            ∨ found snk_name "DCU".toList = true ∨ found src_name "DCU".toList = true)
    ∧ (pip_type_grouped cls src_name snk_name = ARC_FIXED
        ↔ cls = ARC_FIXED ∨ found snk_name "PCS".toList = true
            ∨ found snk_name "DCU".toList = true ∨ found src_name "DCU".toList = true) :=
  ⟨pip_type_eq_grouped cls src_name snk_name h, pip_type_fixed_iff cls src_name snk_name h,
    (pip_type_eq_grouped cls src_name snk_name h) ▸ pip_type_fixed_iff cls src_name snk_name h⟩

theorem C29_witness :
    (ARC_STANDARD = ARC_STANDARD ∨ ARC_STANDARD = ARC_FIXED)
    ∧ pip_type ARC_STANDARD "R1C1_DCU0".toList "R1C1_F0".toList = ARC_FIXED
    ∧ pip_type_grouped ARC_STANDARD "R1C1_DCU0".toList "R1C1_F0".toList = ARC_FIXED
    ∧ pip_type ARC_STANDARD "R1C1_A0".toList "R1C1_F0".toList = ARC_STANDARD :=
  ⟨Or.inl rfl,
    (C29_pip_type_readings ARC_STANDARD "R1C1_DCU0".toList "R1C1_F0".toList (Or.inl rfl)).2.1.mpr
      (by decide),
    by decide, by decide⟩

/-! ## The cut of a wire name at its first underscore -/

theorem global_info_tap (LEFT RIGHT : Int) (y x : Nat) :
    (global_info LEFT RIGHT quad_chip y x).map (fun gi => (gi.tap_col, gi.tap_dir))
      = some (int16 LEFT, int8 (int16 RIGHT)) := by
  unfold global_info quad_chip
  simp only
  split_ifs <;> rfl

/-- Claim C22, evaluated on a chip of two rows and two columns whose tap
driver lies in the column 1, to the right (1) of the column 0 and to the left
(0) of the column 1: `process_loc_globals` stores the quadrant codes and the
spine fields of the claim, but as `tap_col` and `tap_dir` of every record the
enumerators `LEFT` (0) and `RIGHT` (1), not the column 1 and the direction of
the tap driver; whatever the values of the enumerators, all records carry the
same `tap_col` and `tap_dir`. -/
theorem C22_tap_fields :
    process_loc_globals 0 1 quad_chip [] = some (1, 1, quad_globalInfos)
    ∧ (quad_chip.get_tap_driver 0 0, quad_chip.get_tap_driver 0 1)
        = ({ col := 1, dir := 1 }, { col := 1, dir := 0 })
    ∧ (global_info 0 1 quad_chip 0 0).map (fun gi => (gi.tap_col, gi.tap_dir)) = some (0, 1)
    ∧ (global_info 0 1 quad_chip 0 1).map (fun gi => (gi.tap_col, gi.tap_dir)) = some (0, 1)
    ∧ ∀ (LEFT RIGHT : Int) (y x : Nat),
        (global_info LEFT RIGHT quad_chip y x).map (fun gi => (gi.tap_col, gi.tap_dir))
          = some (int16 LEFT, int8 (int16 RIGHT)) :=
  ⟨by rfl, by decide, by decide, by decide, global_info_tap⟩

/-- Claim C23, evaluated: for the records that `process_loc_globals` computes
on a chip of two rows and two columns, with the quadrant codes 0, 1, 2, 3 and
the spine rows -1, 5, -1, 5 in row-major order, `write_database` writes under
`location_glbinfo` the quadrant codes 0, 2, 1, 3 and the spine rows -1, -1, 5,
5: the record of the row `y` and the column `x` is the one computed for the row
`x` and the column `y`. On the chip of one row and two columns the second
record is a record of zeros, which was never computed. -/
theorem C23_glbinfo_transposed :
    process_loc_globals 0 1 quad_chip sample_globals.globalInfos
        = some (quad_globals.max_row, quad_globals.max_col, quad_globals.globalInfos)
    ∧ (write_database sampleDecoder quad_globals "LFE5U-25F".toList quad_chip sample_ddrg).map
        (fun st => (fieldValues "quad".toList (sectionOf "location_glbinfo".toList st),
          fieldValues "spine_row".toList (sectionOf "location_glbinfo".toList st)))
      = some ([0, 2, 1, 3], [-1, -1, 5, 5])
    ∧ process_loc_globals 0 1 wide_chip sample_globals.globalInfos
        = some (wide_globals.max_row, wide_globals.max_col, wide_globals.globalInfos)
    ∧ (write_database sampleDecoder wide_globals "LFE5U-25F".toList wide_chip sample_ddrg).map
        (fun st => (fieldValues "quad".toList (sectionOf "location_glbinfo".toList st),
          fieldValues "spine_row".toList (sectionOf "location_glbinfo".toList st),
          fieldValues "tap_dir".toList (sectionOf "location_glbinfo".toList st)))
      = some ([0, 0], [-1, 0], [1, 0]) :=
  ⟨by rfl, by rfl, by rfl, by rfl⟩

/-! ## The pins of the packages -/

theorem package_pins_names (ddrg : DedupChipdb) (package : Str) (items : List (Str × IoPin)) :
    ∀ pins : Pins, pins.pins.all (fun pin => decide (pin.name = package)) = true →
      (package_pins ddrg package items pins).pins.all (fun pin => decide (pin.name = package))
        = true := by
  induction items with
  | nil =>
    intro pins h
    exact h
  | cons item rest ih =>
    intro pins h
    obtain ⟨key, itemObj⟩ := item
    unfold package_pins
    simp only
    split_ifs
    · apply ih
      rw [List.all_append, h]
      simp
    · exact ih pins h

/-- Claim C24, evaluated on a package `CABGA256` with the pins `A1` of the bel
`PIOA` and `B2` of the bel `PIOB`, of which the location has only `PIOA`:
`process_pio_db` stores one pin record with the location and the bel index of
the claim, but under the name `CABGA256` of the package and not under the name
`A1` of the pin; every pin record of a package carries the name of the
package. -/
theorem C24_pin_name :
    process_pio_db pio_ddrg (some sample_iodb) ([], [])
      = ([("CABGA256".toList,
            { pins := [{ name := "CABGA256".toList, location := { x := 0, y := 1 },
                         bel_index := 1 }] })],
         [{ location := { x := 0, y := 1 }, bel_index := 1, bank := 3, function := [] }])
    ∧ get_bel_index pio_ddrg { x := 0, y := 1 } "PIOA".toList = 1
    ∧ get_bel_index pio_ddrg { x := 1, y := 1 } "PIOB".toList = -1
    ∧ ∀ (ddrg : DedupChipdb) (package : Str) (items : List (Str × IoPin)),
        (package_pins ddrg package items { pins := [] }).pins.all
          (fun pin => decide (pin.name = package)) = true :=
  ⟨by decide, by decide, by decide,
    fun ddrg package items => package_pins_names ddrg package items { pins := [] } rfl⟩

/-- Claim C25, evaluated on the sample database with tiles of the type `CIB`:
the pip, written first, carries the tile type 0, which is the index of `PLC2`,
the type of its arc, and the tile records carry the type index 1 of `CIB`, but
the strings under `tiletype_names` are `CIB`, `PLC2` in the order of the keys:
the string number 0 is `CIB` and the string number 1 is `PLC2`. -/
theorem C25_directory_order :
    (write_database sampleDecoder sample_globals "LFE5U-25F".toList cib_chip sample_ddrg).map
        (fun st => (fieldValues "tile_type".toList (sectionOf "loc0_pips".toList st),
          fieldValues "type_idx".toList (sectionOf "tile_info_0_0".toList st),
          stringsOf (sectionOf "tiletype_names".toList st)))
      = some ([0], [1], ["CIB".toList, "PLC2".toList])
    ∧ (sample_ddrg.locationTypes_at (7, 9)).arcs.map (fun a => sample_ddrg.to_str a.tiletype)
      = ["PLC2".toList]
    ∧ (cib_chip.get_tiles_by_position 0 0).map (fun t => t.type) = ["CIB".toList] :=
  ⟨by rfl, by decide, by decide⟩

/-- Claim C26, evaluated on an `IOPath` entry from `RAD0` to `F0` with the
rising delays 100, 110, 120 and the falling delays 90, 100, 130: the pins are
the identifiers of `D0` and `F0`, but `min_delay` and `max_delay` are the
identifiers 7 and 8 that the table holds for the strings `90` and `120`, where
120 is the lowest and not the highest of 120 and 130; with a table that holds
no numeral both are 0. The claim expects 90 and 130. -/
theorem C26_delay_bounds :
    convert_entries numeral_constids [sample_iopath]
        { celltype := 0, delays := [], setupholds := [] }
      = Except.ok { celltype := 0, delays := [⟨1, 2, 7, 8⟩], setupholds := [] }
    ∧ convert_entries sample_constids [sample_iopath]
        { celltype := 0, delays := [], setupholds := [] }
      = Except.ok { celltype := 0, delays := [⟨0, 2, 0, 0⟩], setupholds := [] }
    ∧ ∀ (constids : StrIntMap) (e : TimingEntry),
        (delay_record constids e).max_delay
          = constid constids (to_string (min e.rising.2.2 e.falling.2.2)) :=
  ⟨by rfl, by rfl, fun _ _ => rfl⟩

/-- Claim C27, evaluated on a class entry with the delays 100, 110, 120 and
the fanouts 1, 2, 3: the record has the delays 110 and 132, from the first and
the last delay, and the fanouts 1 and 1: `max_fanout` is the first fanout and
not the last one, for every entry. -/
theorem C27_max_fanout :
    pipclass_of sampleMul11 ⟨"f_to_a".toList, (100, 110, 120), (1, 2, 3)⟩ = ⟨110, 132, 1, 1⟩
    ∧ ∀ (mul11 : Int → Int) (e : InconEntry),
        (pipclass_of mul11 e).max_fanout = e.fanout.1
          ∧ (pipclass_of mul11 e).max_delay = mul11 e.delay.2.2 :=
  ⟨by decide, fun _ _ => ⟨rfl, rfl⟩⟩
/-! ## The summary records and the tables that they count -/

theorem sectionOf_pio_info (g : Globals) (chip : TrellisChip) (ddrg : DedupChipdb)
    (tt : StrIntMap) :
    sectionOf "pio_info".toList (stream_tail g chip ddrg tt ++ [Directive.pop])
      = write_pio_info g.pindata := by
  rw [stream_tail_eq, sectionOf_skip _ _ _ _ (by decide),
    sectionOf_skip_plain _ _ _ (write_locations_props ddrg _ 0).1,
    sectionOf_append_right _ _ _
      (not_mem_tile_labels chip tt _ "pio_info".toList Lab.pio_info rfl
        (fun _ _ => by simp)),
    sectionOf_skip _ _ _ _ (by decide),
    sectionOf_skip_plain _ _ _ (write_tiles_info_props chip _).1,
    sectionOf_skip _ _ _ _ (by decide),
    sectionOf_skip_plain _ _ _ (write_location_types_props ddrg _ _).1,
    sectionOf_skip _ _ _ _ (by decide),
    sectionOf_skip_plain _ _ _ (write_glbinfo_props _ _).1,
    sectionOf_append_right _ _ _
      (not_mem_package_labels _ "pio_info".toList Lab.pio_info rfl (fun _ => by simp)),
    sectionOf_skip _ _ _ _ (by decide),
    sectionOf_skip_plain _ _ _ (write_package_data_props _).1]
  exact sectionOf_label _ _ _ _ (write_pio_info_props _).1 (labelFirst_label _ _ _)

theorem not_mem_grade_labels (chips : List (Str × Chip)) (grades : List Str)
    (name : Str) (lab : Lab) (hn : lab.render = name)
    (h : ∀ (c : Int) (gr : Str), lab ≠ Lab.cell_delays c gr ∧ lab ≠ Lab.cell_setupholds c gr
      ∧ lab ≠ Lab.cell_timing gr ∧ lab ≠ Lab.pip_timing gr) :
    name ∉ labelsOf (grades.flatMap (write_speed_grade chips)) := by
  rw [← hn, (write_speed_grades_props chips grades).1, mem_map_render]
  intro hm
  simp only [List.mem_flatMap, grade_labs, cell_labs, List.mem_append, List.mem_cons,
    List.mem_singleton, List.not_mem_nil, or_false] at hm
  obtain ⟨grade, -, ⟨cell, -, hc | hc⟩ | hc | hc⟩ := hm
  · split_ifs at hc
    · exact (h cell.celltype grade).1 (List.mem_singleton.mp hc)
    · simp at hc
  · split_ifs at hc
    · exact (h cell.celltype grade).2.1 (List.mem_singleton.mp hc)
    · simp at hc
  · exact (h 0 grade).2.2.1 hc
  · exact (h 0 grade).2.2.2 hc

theorem sectionOf_after_names (g : Globals) (chip : TrellisChip) (ddrg : DedupChipdb)
    (tt : StrIntMap) (name : Str) (lab : Lab) (hn : lab.render = name)
    (h1 : ∀ x y, lab ≠ Lab.tile_info x y) (h2 : ∀ n, lab ≠ Lab.package n)
    (h3 : lab ∉ [Lab.locations, Lab.tiles_info, Lab.location_types, Lab.location_glbinfo,
      Lab.package_data, Lab.pio_info, Lab.tiletype_names]) :
    sectionOf name (stream_tail g chip ddrg tt ++ [Directive.pop])
      = sectionOf name (speed_grade_names.flatMap (write_speed_grade g.chips)
          ++ Directive.l "speed_grade_data".toList none
          :: (write_speed_grade_data g.chips speed_grade_names
          ++ (write_chip_info g ++ [Directive.pop]))) := by
  have hd : ∀ (s : Str) (l : Lab), l.render = s →
      l ∈ [Lab.locations, Lab.tiles_info, Lab.location_types,
        Lab.location_glbinfo, Lab.package_data, Lab.pio_info, Lab.tiletype_names] →
      ∀ (t : Option Str) (rest : List Directive),
        sectionOf name (Directive.l s t :: rest) = sectionOf name rest := by
    intro s l hs hl t rest
    apply sectionOf_skip
    intro e
    rw [← hn, ← hs] at e
    exact h3 (render_injective e ▸ hl)
  rw [stream_tail_eq]
  rw [hd "locations".toList Lab.locations rfl (by decide),
    sectionOf_skip_plain _ _ _ (write_locations_props ddrg _ 0).1,
    sectionOf_append_right _ _ _ (not_mem_tile_labels chip tt _ name lab hn h1),
    hd "tiles_info".toList Lab.tiles_info rfl (by decide),
    sectionOf_skip_plain _ _ _ (write_tiles_info_props chip _).1,
    hd "location_types".toList Lab.location_types rfl (by decide),
    sectionOf_skip_plain _ _ _ (write_location_types_props ddrg _ _).1,
    hd "location_glbinfo".toList Lab.location_glbinfo rfl (by decide),
    sectionOf_skip_plain _ _ _ (write_glbinfo_props _ _).1,
    sectionOf_append_right _ _ _ (not_mem_package_labels _ name lab hn h2),
    hd "package_data".toList Lab.package_data rfl (by decide),
    sectionOf_skip_plain _ _ _ (write_package_data_props _).1,
    hd "pio_info".toList Lab.pio_info rfl (by decide),
    sectionOf_skip_plain _ _ _ (write_pio_info_props _).1,
    hd "tiletype_names".toList Lab.tiletype_names rfl (by decide),
    sectionOf_skip_plain _ _ _ (write_tiletype_names_props _).1]

theorem write_chip_info_eq (g : Globals) :
    write_chip_info g ++ [Directive.pop]
      = Directive.l "chip_info".toList none
        :: (((write_chip_info g).tail ++ [Directive.pop]) ++ []) := by
  simp [write_chip_info]

theorem labelFirst_chip_info (g : Globals) :
    LabelFirst (write_chip_info g ++ [Directive.pop]) := by
  rw [write_chip_info_eq]
  exact labelFirst_label _ _ _

theorem sectionOf_speed_grade_data (g : Globals) (chip : TrellisChip) (ddrg : DedupChipdb)
    (tt : StrIntMap) :
    sectionOf "speed_grade_data".toList (stream_tail g chip ddrg tt ++ [Directive.pop])
      = write_speed_grade_data g.chips speed_grade_names := by
  rw [sectionOf_after_names g chip ddrg tt "speed_grade_data".toList Lab.speed_grade_data rfl
      (fun _ _ => by simp) (fun _ => by simp) (by decide),
    sectionOf_append_right _ _ _
      (not_mem_grade_labels _ _ "speed_grade_data".toList Lab.speed_grade_data rfl
        (fun _ _ => by simp))]
  exact sectionOf_label _ _ _ _ (write_speed_grade_data_props _ _).1
    (labelFirst_chip_info g)

theorem sectionOf_chip_info (g : Globals) (chip : TrellisChip) (ddrg : DedupChipdb)
    (tt : StrIntMap) :
    sectionOf "chip_info".toList (stream_tail g chip ddrg tt ++ [Directive.pop])
      = (write_chip_info g).tail ++ [Directive.pop] := by
  rw [sectionOf_after_names g chip ddrg tt "chip_info".toList Lab.chip_info rfl
      (fun _ _ => by simp) (fun _ => by simp) (by decide),
    sectionOf_append_right _ _ _
      (not_mem_grade_labels _ _ "chip_info".toList Lab.chip_info rfl (fun _ _ => by simp)),
    sectionOf_skip _ _ _ _ (by decide),
    sectionOf_skip_plain _ _ _ (write_speed_grade_data_props _ _).1,
    write_chip_info_eq]
  exact sectionOf_label _ _ _ _ (by simp [write_chip_info, Directive.labelName]) labelFirst_nil
theorem pip_timing_not_mem_cell_labs (g grade : Str) (cells : List Cell) :
    Lab.pip_timing g ∉ cell_labs grade cells := by
  intro h
  simp only [cell_labs, List.mem_flatMap, List.mem_append] at h
  obtain ⟨cell, -, h | h⟩ := h
  · split_ifs at h <;> simp at h
  · split_ifs at h <;> simp at h

theorem sectionOf_pip_timing (chips : List (Str × Chip)) (rest : List Directive)
    (hr : LabelFirst rest) :
    ∀ (grades : List Str), grades.Nodup → ∀ g ∈ grades,
      sectionOf ("pip_timing_data_".toList ++ g)
          (grades.flatMap (write_speed_grade chips) ++ rest)
        = (chips_at chips g).pip_class_delays.flatMap (fun pipclass =>
            [Directive.u32 pipclass.min_delay (some "min_delay".toList),
             Directive.u32 pipclass.max_delay (some "max_delay".toList),
             Directive.u32 pipclass.min_fanout (some "min_fanout".toList),
             Directive.u32 pipclass.max_fanout (some "max_fanout".toList)]) := by
  intro grades
  induction grades with
  | nil =>
    intro _ g hg
    exact absurd hg (List.not_mem_nil g)
  | cons q Q ih =>
    intro hnd g hg
    rw [List.nodup_cons] at hnd
    rw [List.flatMap_cons, List.append_assoc]
    rcases List.mem_cons.mp hg with h | h
    · subst h
      have e : write_speed_grade chips g ++ (Q.flatMap (write_speed_grade chips) ++ rest)
          = write_cell_tables g (chips_at chips g).cells
            ++ Directive.l ("cell_timing_data_".toList ++ g) none
            :: ((chips_at chips g).cells.flatMap (write_cell_record g)
              ++ Directive.l ("pip_timing_data_".toList ++ g) none
              :: ((chips_at chips g).pip_class_delays.flatMap (fun pipclass =>
                  [Directive.u32 pipclass.min_delay (some "min_delay".toList),
                   Directive.u32 pipclass.max_delay (some "max_delay".toList),
                   Directive.u32 pipclass.min_fanout (some "min_fanout".toList),
                   Directive.u32 pipclass.max_fanout (some "max_fanout".toList)])
                ++ (Q.flatMap (write_speed_grade chips) ++ rest))) := by
        simp only [write_speed_grade, List.cons_append, List.append_assoc]
      rw [e, sectionOf_append_right, sectionOf_skip _ _ _ _ (by simp),
        sectionOf_skip_plain _ _ _ (labelsOf_cell_records _ _)]
      · refine sectionOf_label _ _ _ _ ?_
          (labelFirst_append _ _
            (labelFirst_flatMap _ _ (fun a _ => labelFirst_speed_grade chips a)) hr)
        rw [labelsOf_flatMap]
        exact flatMap_nil_of _ _ (fun a => by simp [Directive.labelName])
      · rw [(write_cell_tables_props _ _).1]
        have : "pip_timing_data_".toList ++ g = (Lab.pip_timing g).render := rfl
        rw [this, mem_map_render]
        exact pip_timing_not_mem_cell_labs _ _ _
    · rw [sectionOf_append_right]
      · exact ih hnd.2 g h
      · rw [(write_speed_grade_props _ _).1]
        have : "pip_timing_data_".toList ++ g = (Lab.pip_timing g).render := rfl
        rw [this, mem_map_render]
        intro hm
        simp only [grade_labs, List.mem_append, List.mem_cons, Lab.pip_timing.injEq,
          reduceCtorEq, List.not_mem_nil, or_false, false_or] at hm
        rcases hm with hm | hm
        · exact pip_timing_not_mem_cell_labs _ _ _ hm
        · exact hnd.1 (hm ▸ h)

theorem sectionOf_pip_timing_data (g : Globals) (chip : TrellisChip) (ddrg : DedupChipdb)
    (tt : StrIntMap) (grade : Str) (hg : grade ∈ speed_grade_names) :
    sectionOf ("pip_timing_data_".toList ++ grade)
        (stream_tail g chip ddrg tt ++ [Directive.pop])
      = (chips_at g.chips grade).pip_class_delays.flatMap (fun pipclass =>
          [Directive.u32 pipclass.min_delay (some "min_delay".toList),
           Directive.u32 pipclass.max_delay (some "max_delay".toList),
           Directive.u32 pipclass.min_fanout (some "min_fanout".toList),
           Directive.u32 pipclass.max_fanout (some "max_fanout".toList)]) := by
  rw [sectionOf_after_names g chip ddrg tt ("pip_timing_data_".toList ++ grade)
      (Lab.pip_timing grade) rfl (fun _ _ => by simp) (fun _ => by simp) (by simp)]
  exact sectionOf_pip_timing _ _ (labelFirst_label _ _ _) _ speed_grade_names_nodup grade hg

theorem fieldValues_pio_info (pindata : List PinData) :
    fieldValues "bank".toList (write_pio_info pindata) = pindata.map (fun pin => pin.bank) := by
  unfold write_pio_info
  apply fieldValues_flatMap
  intro pin
  rfl

theorem fieldValues_pip_records (pcs : List PipClass) :
    fieldValues "min_fanout".toList (pcs.flatMap (fun pipclass =>
        [Directive.u32 pipclass.min_delay (some "min_delay".toList),
         Directive.u32 pipclass.max_delay (some "max_delay".toList),
         Directive.u32 pipclass.min_fanout (some "min_fanout".toList),
         Directive.u32 pipclass.max_fanout (some "max_fanout".toList)]))
      = pcs.map (fun pipclass => pipclass.min_fanout) := by
  apply fieldValues_flatMap
  intro pc
  rfl

theorem fieldValues_num_pip_classes (chips : List (Str × Chip)) (grades : List Str) :
    fieldValues "num_pip_classes".toList (write_speed_grade_data chips grades)
      = grades.map (fun grade => ((chips_at chips grade).pip_class_delays.length : Int)) := by
  unfold write_speed_grade_data
  apply fieldValues_flatMap
  intro grade
  rfl

theorem fieldValues_num_cell_timings (chips : List (Str × Chip)) (grades : List Str) :
    fieldValues "num_cell_timings".toList (write_speed_grade_data chips grades)
      = grades.map (fun grade =>
          ((chips_at chips grade).cells.map (fun cell => (cell.delays.length : Int))).sum * 3) := by
  unfold write_speed_grade_data
  apply fieldValues_flatMap
  intro grade
  rfl

theorem fieldValues_chip_info (g : Globals) :
    fieldValues "num_location_types".toList ((write_chip_info g).tail ++ [Directive.pop])
        = [(g.location_types.length : Int)]
    ∧ fieldValues "num_packages".toList ((write_chip_info g).tail ++ [Directive.pop])
        = [(g.packages.length : Int)]
    ∧ fieldValues "num_pios".toList ((write_chip_info g).tail ++ [Directive.pop])
        = [(g.pindata.length : Int)] :=
  ⟨rfl, rfl, rfl⟩

/-- The counts that `write_database` writes in `chip_info` and under
`speed_grade_data`, for every stream that it returns: `num_packages` and
`num_pios` are the numbers of entries under `package_data` and `pio_info`,
`num_pip_classes` is the number of records under `pip_timing_data_<grade>`,
and `num_cell_timings` is three times the sum of the `num_delays` under
`cell_timing_data_<grade>`. -/
theorem stream_summary_counts (rc : RowColDecoder) (g : Globals) (device_name : Str)
    (chip : TrellisChip) (ddrg : DedupChipdb) :
    (ArcsInRange g ddrg → ∃ stream, write_database rc g device_name chip ddrg = some stream)
    ∧ ∀ stream : List Directive, write_database rc g device_name chip ddrg = some stream →
    fieldValues "num_packages".toList (sectionOf "chip_info".toList stream)
        = [((fieldValues "num_pins".toList (sectionOf "package_data".toList stream)).length
            : Int)]
    ∧ (fieldValues "num_pins".toList (sectionOf "package_data".toList stream)).length
        = g.packages.length
    ∧ fieldValues "num_pios".toList (sectionOf "chip_info".toList stream)
        = [((fieldValues "bank".toList (sectionOf "pio_info".toList stream)).length : Int)]
    ∧ (fieldValues "bank".toList (sectionOf "pio_info".toList stream)).length
        = g.pindata.length
    ∧ fieldValues "num_pip_classes".toList (sectionOf "speed_grade_data".toList stream)
        = speed_grade_names.map (fun grade =>
            ((fieldValues "min_fanout".toList
              (sectionOf ("pip_timing_data_".toList ++ grade) stream)).length : Int))
    ∧ (∀ grade ∈ speed_grade_names,
        (fieldValues "min_fanout".toList
          (sectionOf ("pip_timing_data_".toList ++ grade) stream)).length
            = (chips_at g.chips grade).pip_class_delays.length)
    ∧ fieldValues "num_cell_timings".toList (sectionOf "speed_grade_data".toList stream)
        = speed_grade_names.map (fun grade =>
            (fieldValues "num_delays".toList
              (sectionOf ("cell_timing_data_".toList ++ grade) stream)).sum * 3) := by
  refine ⟨write_database_defined rc g device_name chip ddrg, ?_⟩
  intro stream h
  obtain ⟨tt, ht⟩ := stream_sections_tail rc g device_name chip ddrg stream h
  have hpip : ∀ grade ∈ speed_grade_names,
      fieldValues "min_fanout".toList (sectionOf ("pip_timing_data_".toList ++ grade) stream)
        = (chips_at g.chips grade).pip_class_delays.map (fun pc => pc.min_fanout) := by
    intro grade hg
    rw [ht ("pip_timing_data_".toList ++ grade) (Lab.pip_timing grade) rfl rfl,
      sectionOf_pip_timing_data g chip ddrg tt grade hg, fieldValues_pip_records]
  have hcell : ∀ grade ∈ speed_grade_names,
      fieldValues "num_delays".toList (sectionOf ("cell_timing_data_".toList ++ grade) stream)
        = (chips_at g.chips grade).cells.map (fun cell => (cell.delays.length : Int)) := by
    intro grade hg
    rw [ht ("cell_timing_data_".toList ++ grade) (Lab.cell_timing grade) rfl rfl,
      sectionOf_cell_timing_data g chip ddrg tt grade hg, fieldValues_cell_records]
  rw [ht "chip_info".toList Lab.chip_info rfl rfl, sectionOf_chip_info,
    ht "package_data".toList Lab.package_data rfl rfl, sectionOf_package_data,
    ht "pio_info".toList Lab.pio_info rfl rfl, sectionOf_pio_info,
    ht "speed_grade_data".toList Lab.speed_grade_data rfl rfl, sectionOf_speed_grade_data,
    fieldValues_write_package_data, fieldValues_pio_info, fieldValues_num_pip_classes,
    fieldValues_num_cell_timings, (fieldValues_chip_info g).2.1, (fieldValues_chip_info g).2.2,
    List.length_map, List.length_map]
  refine ⟨rfl, rfl, rfl, rfl, ?_, ?_, ?_⟩
  · apply List.map_congr_left
    intro grade hg
    rw [hpip grade hg, List.length_map]
  · intro grade hg
    rw [hpip grade hg, List.length_map]
  · apply List.map_congr_left
    intro grade hg
    rw [hcell grade hg]

/-- Claim C28, evaluated on the sample input, with one location type, one
package, no pio, and for the grade 6 one cell with one delay and two pip
classes: `num_packages`, `num_pios` and `num_pip_classes` are the numbers of
records of their tables, but `num_location_types` is 0 while one entry stands
under `locations`, and `num_cell_timings` of the grade 6 is 3 while one record
stands under `cell_timing_data_6`. For all inputs `num_location_types` is the
size of the global `location_types` and `num_cell_timings` is three times the
number of delays of the cells of the grade. -/
theorem C28_count_fields :
    write_database sampleDecoder sample_globals "LFE5U-25F".toList sample_chip sample_ddrg
        = some sample_stream
      ∧ fieldValues "num_location_types".toList (sectionOf "chip_info".toList sample_stream)
        = [0]
      ∧ fieldValues "num_pips".toList (sectionOf "locations".toList sample_stream) = [1]
      ∧ fieldValues "num_cell_timings".toList
          (sectionOf "speed_grade_data".toList sample_stream) = [3, 0, 0, 0]
      ∧ fieldValues "cell_type".toList (sectionOf "cell_timing_data_6".toList sample_stream)
        = [3]
      ∧ fieldValues "num_packages".toList (sectionOf "chip_info".toList sample_stream) = [1]
      ∧ fieldValues "num_pins".toList (sectionOf "package_data".toList sample_stream) = [1]
      ∧ fieldValues "num_pios".toList (sectionOf "chip_info".toList sample_stream) = [0]
      ∧ fieldValues "bank".toList (sectionOf "pio_info".toList sample_stream) = []
      ∧ fieldValues "num_pip_classes".toList
          (sectionOf "speed_grade_data".toList sample_stream) = [2, 0, 0, 0]
      ∧ fieldValues "min_fanout".toList (sectionOf "pip_timing_data_6".toList sample_stream)
        = [0, 1]
      ∧ (∀ g : Globals,
          fieldValues "num_location_types".toList
              ((write_chip_info g).tail ++ [Directive.pop])
            = [(g.location_types.length : Int)])
      ∧ ∀ (chips : List (Str × Chip)) (grades : List Str),
          fieldValues "num_cell_timings".toList (write_speed_grade_data chips grades)
            = grades.map (fun grade =>
                ((chips_at chips grade).cells.map
                  (fun cell => (cell.delays.length : Int))).sum * 3) :=
  ⟨by rfl, by decide, by decide, by decide, by decide, by decide, by decide, by decide,
    by decide, by decide, by decide, fun g => (fieldValues_chip_info g).1,
    fieldValues_num_cell_timings⟩
/-! ## The tables of pip classes of the speed grades -/

theorem find_eq_none_iff (m : StrIntMap) (k : Str) :
    m.find k = none ↔ k ∉ m.map Prod.fst := by
  induction m with
  | nil => simp [StrIntMap.find]
  | cons p rest ih =>
    obtain ⟨k0, v0⟩ := p
    unfold StrIntMap.find
    by_cases h : k0 = k
    · rw [if_pos h]
      simp [h]
    · rw [if_neg h, ih]
      simp only [List.map_cons, List.mem_cons, not_or]
      exact ⟨fun hn => ⟨fun e => h e.symm, hn⟩, fun hn => hn.2⟩

theorem set_of_not_mem (m : StrIntMap) (k : Str) (v : Int) (h : k ∉ m.map Prod.fst) :
    m.set k v = m ++ [(k, v)] := by
  induction m with
  | nil => rfl
  | cons p rest ih =>
    obtain ⟨k0, v0⟩ := p
    simp only [List.map_cons, List.mem_cons, not_or] at h
    unfold StrIntMap.set
    rw [if_neg (fun e => h.1 e.symm), ih h.2]
    rfl

theorem find_mem (m : StrIntMap) (k : Str) (v : Int) (h : m.find k = some v) :
    (k, v) ∈ m := by
  induction m with
  | nil => exact absurd h (by simp [StrIntMap.find])
  | cons p rest ih =>
    obtain ⟨k0, v0⟩ := p
    unfold StrIntMap.find at h
    by_cases e : k0 = k
    · rw [if_pos e, Option.some.injEq] at h
      rw [e, h]
      exact List.mem_cons_self _ _
    · rw [if_neg e] at h
      exact List.mem_cons_of_mem _ (ih h)

theorem incon_loop_base (mul11 : Int → Int) (entries : List InconEntry) :
    ∀ (tbl : StrIntMap) (pcd : List PipClass),
      (tbl.map Prod.fst ++ entries.map (fun e => e.pipclass)).Nodup →
      ∃ r : StrIntMap × List PipClass,
        incon_loop mul11 "6".toList entries tbl pcd = Except.ok r
        ∧ r.1.map Prod.fst = tbl.map Prod.fst ++ entries.map (fun e => e.pipclass)
        ∧ r.1.map Prod.snd
            = tbl.map Prod.snd
              ++ (List.range entries.length).map (fun i => ((pcd.length + i : Nat) : Int))
        ∧ r.2 = pcd ++ entries.map (pipclass_of mul11) := by
  induction entries with
  | nil =>
    intro tbl pcd _
    exact ⟨(tbl, pcd), rfl, by simp, by simp, by simp⟩
  | cons e rest ih =>
    intro tbl pcd hnd
    have hk : e.pipclass ∉ tbl.map Prod.fst := by
      intro hm
      rw [List.map_cons, List.nodup_append] at hnd
      exact hnd.2.2 hm (List.mem_cons_self _ _)
    have hnd2 : ((tbl ++ [(e.pipclass, (pcd.length : Int))]).map Prod.fst
        ++ rest.map (fun e => e.pipclass)).Nodup := by
      rw [List.map_append, List.append_assoc]
      exact hnd
    obtain ⟨r, h1, h2, h3, h4⟩ := ih (tbl ++ [(e.pipclass, (pcd.length : Int))])
      (pcd ++ [pipclass_of mul11 e]) hnd2
    refine ⟨r, ?_, ?_, ?_, ?_⟩
    · unfold incon_loop
      simp only [if_true]
      rw [set_of_not_mem _ _ _ hk]
      exact h1
    · rw [h2]
      simp
    · rw [h3, List.length_cons, List.range_succ_eq_map]
      simp only [List.map_append, List.map_cons, List.map_nil, List.append_assoc,
        List.singleton_append, List.length_append, List.length_singleton, List.length_cons,
        List.map_map, Nat.add_zero]
      congr 2
      apply List.map_congr_left
      intro i _
      simp only [Function.comp, List.length_nil]
      congr 1
      omega
    · rw [h4]
      simp

theorem incon_loop_later (mul11 : Int → Int) (grade : Str) (hg : grade ≠ "6".toList)
    (tbl : StrIntMap) (n : Nat)
    (hr : ∀ k v, tbl.find k = some v → 0 ≤ v ∧ v < n)
    (hinj : ∀ k k2 v, tbl.find k = some v → tbl.find k2 = some v → k = k2)
    (entries : List InconEntry) :
    ∀ (pcd : List PipClass), pcd.length = n →
      ∃ pcd2 : List PipClass,
        incon_loop mul11 grade entries tbl pcd = Except.ok (tbl, pcd2)
        ∧ pcd2.length = n
        ∧ ∀ k v, tbl.find k = some v → k ∉ entries.map (fun e => e.pipclass) →
            pcd2[v.toNat]? = pcd[v.toNat]? := by
  induction entries with
  | nil =>
    intro pcd hl
    exact ⟨pcd, rfl, hl, fun _ _ _ _ => rfl⟩
  | cons e rest ih =>
    intro pcd hl
    unfold incon_loop
    simp only
    rw [if_neg hg]
    cases hf : tbl.find e.pipclass with
    | none =>
      rw [if_neg (by simp)]
      obtain ⟨pcd2, h1, h2, h3⟩ := ih pcd hl
      refine ⟨pcd2, h1, h2, ?_⟩
      intro k v hkv hk
      exact h3 k v hkv (fun hm => hk (List.mem_cons_of_mem _ hm))
    | some w =>
      rw [if_pos (by simp)]
      have hi : tbl.index e.pipclass = (w, tbl) := by
        unfold StrIntMap.index
        rw [hf]
      obtain ⟨hw0, hwn⟩ := hr _ _ hf
      rw [hi]
      simp only
      rw [if_pos ⟨hw0, by rw [hl]; exact hwn⟩]
      obtain ⟨pcd2, h1, h2, h3⟩ := ih (pcd.set w.toNat (pipclass_of mul11 e))
        (by rw [List.length_set]; exact hl)
      refine ⟨pcd2, h1, h2, ?_⟩
      intro k v hkv hk
      rw [h3 k v hkv (fun hm => hk (List.mem_cons_of_mem _ hm))]
      have hne : w ≠ v := by
        intro e2
        rw [e2] at hf
        exact hk (by rw [hinj k e.pipclass v hkv hf]; exact List.mem_cons_self _ _)
      have hv0 := (hr _ _ hkv).1
      rw [List.getElem?_set_ne]
      intro e3
      exact hne (by omega)
theorem convert_entries_fault (constids : StrIntMap) (entries : List TimingEntry) (cell : Cell)
    (f : Fault) (h : convert_entries constids entries cell = Except.error f) :
    f = Fault.exit 1 := by
  by_cases hk : ∀ e ∈ entries, KnownType e
  · rw [convert_entries_known constids entries cell hk] at h
    exact Except.noConfusion h
  · have hu : ∃ e ∈ entries, ¬ KnownType e := by
      by_contra hn
      exact hk (fun e he => by
        by_contra hc
        exact hn ⟨e, he, hc⟩)
    rw [convert_entries_unknown constids entries cell hu] at h
    exact (Except.error.inj h).symm

theorem convert_cells_fault (constids : StrIntMap) (file : List (Str × List TimingEntry)) :
    ∀ (cells : List Cell) (f : Fault),
      convert_cells constids file cells = Except.error f → f = Fault.exit 1 := by
  induction file with
  | nil =>
    intro cells f h
    exact Except.noConfusion h
  | cons c rest ih =>
    intro cells f h
    obtain ⟨cell_name, cellArr⟩ := c
    simp only [convert_cells, bind, Except.bind] at h
    split at h
    · rename_i f2 hf
      rw [← Except.error.inj h]
      exact convert_entries_fault constids _ _ f2 hf
    · exact ih _ f h

theorem convert_cells_known (constids : StrIntMap) (file : List (Str × List TimingEntry)) :
    ∀ (cells : List Cell), (∀ c ∈ file, ∀ e ∈ c.2, KnownType e) →
      ∃ cells2, convert_cells constids file cells = Except.ok cells2 := by
  induction file with
  | nil =>
    intro cells _
    exact ⟨cells, rfl⟩
  | cons c rest ih =>
    intro cells h
    obtain ⟨cell_name, cellArr⟩ := c
    simp only [convert_cells, bind, Except.bind]
    rw [convert_entries_known constids cellArr _ (h _ (List.mem_cons_self _ _))]
    exact ih _ (fun c hc => h c (List.mem_cons_of_mem _ hc))

theorem table_props (tbl : StrIntMap) (n : Nat)
    (h2 : tbl.map Prod.snd = (List.range n).map (fun i : Nat => (i : Int))) :
    tbl.length = n
    ∧ (∀ k v, tbl.find k = some v → 0 ≤ v ∧ v < n)
    ∧ (∀ k k2 v, tbl.find k = some v → tbl.find k2 = some v → k = k2) := by
  have hnd : (tbl.map Prod.snd).Nodup := by
    rw [h2]
    exact (List.nodup_range n).map (fun a b hab => by exact_mod_cast hab)
  refine ⟨?_, ?_, ?_⟩
  · have := congrArg List.length h2
    simpa using this
  · intro k v hf
    have hm : v ∈ tbl.map Prod.snd := List.mem_map.mpr ⟨(k, v), find_mem tbl k v hf, rfl⟩
    rw [h2, List.mem_map] at hm
    obtain ⟨i, hi, e⟩ := hm
    rw [List.mem_range] at hi
    rw [← e]
    exact ⟨by omega, by exact_mod_cast hi⟩
  · intro k k2 v hk hk2
    have := List.inj_on_of_nodup_map hnd (find_mem tbl k v hk) (find_mem tbl k2 v hk2) rfl
    exact congrArg Prod.fst this

theorem process_grade_later (mul11 : Int → Int) (constids : StrIntMap) (grade : Str)
    (hg : grade ≠ "6".toList) (files : GradeFiles) (st : StrIntMap × List (Str × Chip))
    (n : Nat) (hl : st.1.length = n)
    (hr : ∀ k v, st.1.find k = some v → 0 ≤ v ∧ v < n)
    (hinj : ∀ k k2 v, st.1.find k = some v → st.1.find k2 = some v → k = k2) :
    (process_grade mul11 constids grade files st = Except.error (Fault.exit 1)
      ∧ ∃ file, files.cells = some file ∧ ¬ ∀ c ∈ file, ∀ e ∈ c.2, KnownType e)
    ∨ (process_grade mul11 constids grade files st = Except.ok st
        ∧ (files.cells = none ∨ files.interconnect = none))
    ∨ ∃ (file : List (Str × List TimingEntry)) (incon : List InconEntry) (cells : List Cell)
        (pcd : List PipClass),
        files.cells = some file ∧ files.interconnect = some incon
        ∧ process_grade mul11 constids grade files st
          = Except.ok (st.1, chips_insert st.2 grade
              { speed_grade := grade, cells := cells, pip_class_delays := pcd })
        ∧ pcd.length = n
        ∧ ∀ k v, st.1.find k = some v → k ∉ incon.map (fun e => e.pipclass) →
            pcd[v.toNat]? = some default_pipclass := by
  unfold process_grade
  cases hc : files.cells with
  | none => exact Or.inr (Or.inl ⟨rfl, Or.inl rfl⟩)
  | some file =>
    simp only [bind, Except.bind]
    cases hcc : convert_cells constids file [] with
    | error f =>
      left
      simp only
      rw [convert_cells_fault constids file [] f hcc]
      refine ⟨rfl, file, rfl, ?_⟩
      intro hk
      obtain ⟨cells2, h2⟩ := convert_cells_known constids file [] hk
      rw [h2] at hcc
      exact Except.noConfusion hcc
    | ok cells =>
      simp only
      cases hi : files.interconnect with
      | none => exact Or.inr (Or.inl ⟨rfl, Or.inr rfl⟩)
      | some incon =>
        right; right
        obtain ⟨pcd, h1, h2, h3⟩ := incon_loop_later mul11 grade hg st.1 n hr hinj incon
          (List.replicate st.1.length default_pipclass) (by rw [List.length_replicate, hl])
        refine ⟨file, incon, cells, pcd, rfl, rfl, ?_, h2, ?_⟩
        · simp only
          rw [h1]
          rfl
        · intro k v hkv hk
          rw [h3 k v hkv hk]
          have hv := hr k v hkv
          rw [List.getElem?_replicate, if_pos]
          rw [hl]
          omega
theorem process_grade_base (mul11 : Int → Int) (constids : StrIntMap) (files : GradeFiles)
    (chips : List (Str × Chip)) (file : List (Str × List TimingEntry)) (base : List InconEntry)
    (hc : files.cells = some file) (hi : files.interconnect = some base)
    (hnd : ("default".toList :: base.map (fun e => e.pipclass)).Nodup) :
    (process_grade mul11 constids "6".toList files (pip_class_to_idx_init, chips)
        = Except.error (Fault.exit 1)
      ∧ ¬ ∀ c ∈ file, ∀ e ∈ c.2, KnownType e)
    ∨ ∃ (cells : List Cell) (tbl : StrIntMap),
        process_grade mul11 constids "6".toList files (pip_class_to_idx_init, chips)
          = Except.ok (tbl, chips_insert chips "6".toList
              { speed_grade := "6".toList, cells := cells,
                pip_class_delays := default_pipclass :: base.map (pipclass_of mul11) })
        ∧ tbl.map Prod.fst = "default".toList :: base.map (fun e => e.pipclass)
        ∧ tbl.map Prod.snd = (List.range (base.length + 1)).map (fun i : Nat => (i : Int)) := by
  unfold process_grade
  rw [hc]
  simp only [bind, Except.bind]
  cases hcc : convert_cells constids file [] with
  | error f =>
    left
    simp only
    rw [convert_cells_fault constids file [] f hcc]
    refine ⟨rfl, ?_⟩
    intro hk
    obtain ⟨cells2, h2⟩ := convert_cells_known constids file [] hk
    rw [h2] at hcc
    exact Except.noConfusion hcc
  | ok cells =>
    right
    simp only
    rw [hi]
    obtain ⟨r, h1, h2, h3, h4⟩ := incon_loop_base mul11 base pip_class_to_idx_init
      (List.replicate pip_class_to_idx_init.length default_pipclass) hnd
    refine ⟨cells, r.1, ?_, h2, ?_⟩
    · simp only
      rw [h1]
      simp only [pure, Except.pure, h4]
      rfl
    · rw [h3, List.range_succ_eq_map]
      simp only [pip_class_to_idx_init, List.map_cons, List.map_nil, List.length_cons,
        List.length_nil, List.replicate, List.length_replicate, List.singleton_append,
        List.map_map, Nat.cast_zero, List.cons.injEq, true_and]
      apply List.map_congr_left
      intro i _
      simp only [Function.comp]
      congr 1
      omega

theorem process_grades_later (mul11 : Int → Int) (constids : StrIntMap)
    (files : Str → GradeFiles) (n : Nat) (grades : List Str)
    (hall : ∀ g ∈ grades, g ≠ "6".toList) :
    ∀ (st : StrIntMap × List (Str × Chip)), st.1.length = n →
      (∀ k v, st.1.find k = some v → 0 ≤ v ∧ v < n) →
      (∀ k k2 v, st.1.find k = some v → st.1.find k2 = some v → k = k2) →
      (process_grades mul11 constids files grades st = Except.error (Fault.exit 1)
        ∧ ∃ grade ∈ grades, ∃ file, (files grade).cells = some file
            ∧ ¬ ∀ c ∈ file, ∀ e ∈ c.2, KnownType e)
      ∨ ∃ chips2 : List (Str × Chip),
          process_grades mul11 constids files grades st = Except.ok (st.1, chips2)
          ∧ (∀ k c, st.2.lookup k = some c → chips2.lookup k = some c)
          ∧ ∀ grade ∈ grades, st.2.lookup grade = none →
              ∀ incon, (files grade).cells.isSome = true →
                (files grade).interconnect = some incon →
                ∃ chip, chips2.lookup grade = some chip
                  ∧ chip.pip_class_delays.length = n
                  ∧ ∀ k v, st.1.find k = some v → k ∉ incon.map (fun e => e.pipclass) →
                      chip.pip_class_delays[v.toNat]? = some default_pipclass := by
  induction grades with
  | nil =>
    intro st _ _ _
    exact Or.inr ⟨st.2, rfl, fun _ _ h => h, fun g hg => absurd hg (List.not_mem_nil g)⟩
  | cons q rest ih =>
    intro st hl hr hinj
    have hq : q ≠ "6".toList := hall q (List.mem_cons_self _ _)
    have hrest : ∀ g ∈ rest, g ≠ "6".toList := fun g hg => hall g (List.mem_cons_of_mem _ hg)
    simp only [process_grades, bind, Except.bind]
    rcases process_grade_later mul11 constids q hq (files q) st n hl hr hinj with
      ⟨h1, file, hf, hk⟩ | ⟨h1, hnone⟩ | ⟨file, incon, cells, pcd, hf, hi, h1, hpl, hpd⟩
    · left
      rw [h1]
      exact ⟨rfl, q, List.mem_cons_self _ _, file, hf, hk⟩
    · rw [h1]
      simp only
      rcases ih hrest st hl hr hinj with ⟨h2, g, hg, file, hf, hk⟩ | ⟨chips2, h2, h3, h4⟩
      · exact Or.inl ⟨h2, g, List.mem_cons_of_mem _ hg, file, hf, hk⟩
      · refine Or.inr ⟨chips2, h2, h3, ?_⟩
        intro grade hg hn incon hc hi
        rcases List.mem_cons.mp hg with e | e
        · subst e
          rcases hnone with e2 | e2
          · rw [e2] at hc
            exact absurd hc (by simp)
          · rw [e2] at hi
            exact Option.noConfusion hi
        · exact h4 grade e hn incon hc hi
    · rw [h1]
      simp only
      rcases ih hrest (st.1, chips_insert st.2 q
          { speed_grade := q, cells := cells, pip_class_delays := pcd }) hl hr hinj with
        ⟨h2, g, hg, file2, hf2, hk⟩ | ⟨chips2, h2, h3, h4⟩
      · exact Or.inl ⟨h2, g, List.mem_cons_of_mem _ hg, file2, hf2, hk⟩
      · refine Or.inr ⟨chips2, h2, ?_, ?_⟩
        · intro k c hkc
          apply h3
          simp only
          rw [lookup_chips_insert]
          split_ifs with a b
          · exact hkc
          · exact hkc
          · rw [hkc] at b
            exact absurd rfl b
          · rw [hkc] at b
            exact absurd rfl b
        · intro grade hg hn incon2 hc hi2
          by_cases e : grade = q
          · subst e
            rw [hi, Option.some.injEq] at hi2
            subst hi2
            refine ⟨{ speed_grade := grade, cells := cells, pip_class_delays := pcd },
              ?_, hpl, hpd⟩
            apply h3
            simp only
            rw [lookup_chips_insert, hn]
            simp only [Option.isSome_none, Bool.false_eq_true, if_false, if_true]
          · have hg2 : grade ∈ rest := by
              rcases List.mem_cons.mp hg with e2 | e2
              · exact absurd e2 e
              · exact e2
            refine h4 grade hg2 ?_ incon2 hc hi2
            simp only
            rw [lookup_chips_insert, hn]
            simp only [Option.isSome_none, Bool.false_eq_true, if_false, if_neg e, ite_self]
theorem process_timing_data_tables (mul11 : Int → Int) (constids : StrIntMap)
    (files : Str → GradeFiles) (file6 : List (Str × List TimingEntry))
    (base : List InconEntry)
    (hc : (files "6".toList).cells = some file6)
    (hi : (files "6".toList).interconnect = some base)
    (hnd : (base.map (fun e => e.pipclass)).Nodup)
    (hdef : "default".toList ∉ base.map (fun e => e.pipclass)) :
    (process_timing_data mul11 constids files (pip_class_to_idx_init, [])
        = Except.error (Fault.exit 1)
      ∧ ∃ grade ∈ speed_grade_names, ∃ file, (files grade).cells = some file
          ∧ ¬ ∀ c ∈ file, ∀ e ∈ c.2, KnownType e)
    ∨ ∃ (tbl : StrIntMap) (chips6 chips : List (Str × Chip)),
        process_grade mul11 constids "6".toList (files "6".toList) (pip_class_to_idx_init, [])
          = Except.ok (tbl, chips6)
        ∧ process_timing_data mul11 constids files (pip_class_to_idx_init, [])
          = Except.ok (tbl, chips)
        ∧ tbl.map Prod.fst = "default".toList :: base.map (fun e => e.pipclass)
        ∧ (tbl.map Prod.fst).Nodup
        ∧ tbl.map Prod.snd = (List.range (base.length + 1)).map (fun i : Nat => (i : Int))
        ∧ ∀ grade ∈ speed_grade_names, ∀ incon : List InconEntry,
            (files grade).cells.isSome = true → (files grade).interconnect = some incon →
            ∃ chip : Chip, chips.lookup grade = some chip
              ∧ chip.pip_class_delays.length = base.length + 1
              ∧ (grade ≠ "6".toList →
                  ∀ k v, tbl.find k = some v → k ∉ incon.map (fun e => e.pipclass) →
                    chip.pip_class_delays[v.toNat]? = some default_pipclass) := by
  have hnd2 : ("default".toList :: base.map (fun e => e.pipclass)).Nodup :=
    List.nodup_cons.mpr ⟨hdef, hnd⟩
  have hl : ∀ g ∈ ["7".toList, "8".toList, "8_5G".toList], g ≠ "6".toList := by decide
  have hs : speed_grade_names = "6".toList :: ["7".toList, "8".toList, "8_5G".toList] := rfl
  unfold process_timing_data
  rw [hs]
  simp only [process_grades, bind, Except.bind]
  rcases process_grade_base mul11 constids (files "6".toList) [] file6 base hc hi hnd2 with
    ⟨h1, hk⟩ | ⟨cells, tbl, h1, h2, h3⟩
  · left
    rw [h1]
    exact ⟨rfl, "6".toList, List.mem_cons_self _ _, file6, hc, hk⟩
  · rw [h1]
    simp only
    obtain ⟨t1, t2, t3⟩ := table_props tbl (base.length + 1) h3
    have hp := process_grades_later mul11 constids files (base.length + 1)
      ["7".toList, "8".toList, "8_5G".toList] hl
      (tbl, chips_insert [] "6".toList
        { speed_grade := "6".toList, cells := cells,
          pip_class_delays := default_pipclass :: base.map (pipclass_of mul11) }) t1 t2 t3
    simp only [process_grades, bind, Except.bind] at hp
    rcases hp with ⟨h4, g, hg, file, hf, hk⟩ | ⟨chips, h4, h5, h6⟩
    · left
      exact ⟨h4, g, List.mem_cons_of_mem _ hg, file, hf, hk⟩
    · right
      refine ⟨tbl, _, chips, rfl, h4, h2, by rw [h2]; exact hnd2, h3, ?_⟩
      intro grade hg incon hcs his
      rcases List.mem_cons.mp hg with e | e
      · subst e
        exact ⟨⟨"6".toList, cells, default_pipclass :: base.map (pipclass_of mul11)⟩,
          h5 _ _ rfl, by simp, fun hne => absurd rfl hne⟩
      · have hne : grade ≠ "6".toList := hl grade e
        have hn : (chips_insert [] "6".toList
            { speed_grade := "6".toList, cells := cells,
              pip_class_delays := default_pipclass :: base.map (pipclass_of mul11) }).lookup
              grade = none := by
          rw [lookup_chips_insert]
          simp only [List.lookup_nil, Option.isSome_none, Bool.false_eq_true, if_false,
            if_neg hne]
        obtain ⟨chip, c1, c2, c3⟩ := h6 grade e hn incon hcs his
        exact ⟨chip, c1, c2, fun _ => c3⟩

/-- Claim C31, as stated, fails when the file `cells.json` of the base grade
does not open: the grade 6 is skipped before its interconnect data, which lists
the two classes `f_to_a` and `a_to_f`, is read; the table of classes keeps its
single name `default`, and the table of pip classes of the grade 7, which
loads, has one entry instead of three. -/
theorem C31_counterexample :
    (headless_files "6".toList).cells = none
    ∧ (headless_files "6".toList).interconnect
        = some [⟨"f_to_a".toList, (100, 110, 120), (1, 2, 3)⟩,
                ⟨"a_to_f".toList, (200, 210, 220), (4, 5, 6)⟩]
    ∧ ((headless_files "7".toList).cells.isSome = true
        ∧ (headless_files "7".toList).interconnect.isSome = true)
    ∧ process_timing_data sampleMul11 sample_constids headless_files
          (pip_class_to_idx_init, [])
        = Except.ok
            ([("default".toList, 0)],
             [("7".toList,
                { speed_grade := "7".toList,
                  cells := [{ celltype := 3, delays := [⟨1, 2, 0, 0⟩], setupholds := [] }],
                  pip_class_delays := [default_pipclass] })]) := by
  refine ⟨by rfl, by rfl, ⟨by rfl, by rfl⟩, by rfl⟩

/-- Claim C31, amended: when both timing files of the base grade `6` open and
its interconnect data lists pairwise distinct class names, none of them
`default`, `process_timing_data`, started on the initial table, either ends
with `exit(1)` on a cell entry of unknown type or returns, and never indexes a
table of pip classes out of range. When it returns, the table of classes left
by the base grade is the final one: its names are `default` followed by the
listed names, all distinct, and their values are 0, 1, ..., N in this order;
every grade of which both files open has a chip whose table of pip classes has
N+1 entries, and in the table of a later grade the entry of every class that
the data of the grade does not list holds the default bounds 50, 50, 0, 0. -/
theorem C31_pip_class_tables (mul11 : Int → Int) (constids : StrIntMap)
    (files : Str → GradeFiles) (file6 : List (Str × List TimingEntry))
    (base : List InconEntry)
    (hc : (files "6".toList).cells = some file6)
    (hi : (files "6".toList).interconnect = some base)
    (hnd : (base.map (fun e => e.pipclass)).Nodup)
    (hdef : "default".toList ∉ base.map (fun e => e.pipclass)) :
    (process_timing_data mul11 constids files (pip_class_to_idx_init, [])
        = Except.error (Fault.exit 1)
      ∧ ∃ grade ∈ speed_grade_names, ∃ file, (files grade).cells = some file
          ∧ ¬ ∀ c ∈ file, ∀ e ∈ c.2, KnownType e)
    ∨ ∃ (tbl : StrIntMap) (chips6 chips : List (Str × Chip)),
        process_grade mul11 constids "6".toList (files "6".toList) (pip_class_to_idx_init, [])
          = Except.ok (tbl, chips6)
        ∧ process_timing_data mul11 constids files (pip_class_to_idx_init, [])
          = Except.ok (tbl, chips)
        ∧ tbl.map Prod.fst = "default".toList :: base.map (fun e => e.pipclass)
        ∧ (tbl.map Prod.fst).Nodup
        ∧ tbl.map Prod.snd = (List.range (base.length + 1)).map (fun i : Nat => (i : Int))
        ∧ ∀ grade ∈ speed_grade_names, ∀ incon : List InconEntry,
            (files grade).cells.isSome = true → (files grade).interconnect = some incon →
            ∃ chip : Chip, chips.lookup grade = some chip
              ∧ chip.pip_class_delays.length = base.length + 1
              ∧ (grade ≠ "6".toList →
                  ∀ k v, tbl.find k = some v → k ∉ incon.map (fun e => e.pipclass) →
                    chip.pip_class_delays[v.toNat]? = some default_pipclass) :=
  process_timing_data_tables mul11 constids files file6 base hc hi hnd hdef

theorem C31_witness :
    (graded_files "6".toList).cells = some sample_cells
    ∧ (graded_files "6".toList).interconnect
        = some [⟨"f_to_a".toList, (100, 110, 120), (1, 2, 3)⟩,
                ⟨"a_to_f".toList, (200, 210, 220), (4, 5, 6)⟩]
    ∧ process_timing_data sampleMul11 sample_constids graded_files (pip_class_to_idx_init, [])
        = Except.ok
            ([("default".toList, 0), ("f_to_a".toList, 1), ("a_to_f".toList, 2)],
             [("6".toList,
                { speed_grade := "6".toList,
                  cells := [{ celltype := 3, delays := [⟨1, 2, 0, 0⟩], setupholds := [] }],
                  pip_class_delays := [default_pipclass, ⟨110, 132, 1, 1⟩, ⟨220, 242, 4, 4⟩] }),
              ("7".toList,
                { speed_grade := "7".toList,
                  cells := [{ celltype := 3, delays := [⟨1, 2, 0, 0⟩], setupholds := [] }],
                  pip_class_delays := [default_pipclass, default_pipclass,
                                       ⟨330, 352, 7, 7⟩] })])
    ∧ ((process_timing_data sampleMul11 sample_constids graded_files
            (pip_class_to_idx_init, []) = Except.error (Fault.exit 1)
          ∧ ∃ grade ∈ speed_grade_names, ∃ file, (graded_files grade).cells = some file
              ∧ ¬ ∀ c ∈ file, ∀ e ∈ c.2, KnownType e)
        ∨ ∃ (tbl : StrIntMap) (chips6 chips : List (Str × Chip)),
            process_grade sampleMul11 sample_constids "6".toList (graded_files "6".toList)
                (pip_class_to_idx_init, []) = Except.ok (tbl, chips6)
            ∧ process_timing_data sampleMul11 sample_constids graded_files
                (pip_class_to_idx_init, []) = Except.ok (tbl, chips)
            ∧ tbl.map Prod.fst = "default".toList
                :: [(⟨"f_to_a".toList, (100, 110, 120), (1, 2, 3)⟩ : InconEntry),
                    ⟨"a_to_f".toList, (200, 210, 220), (4, 5, 6)⟩].map (fun e => e.pipclass)
            ∧ (tbl.map Prod.fst).Nodup
            ∧ tbl.map Prod.snd = (List.range (2 + 1)).map (fun i : Nat => (i : Int))
            ∧ ∀ grade ∈ speed_grade_names, ∀ incon : List InconEntry,
                (graded_files grade).cells.isSome = true →
                (graded_files grade).interconnect = some incon →
                ∃ chip : Chip, chips.lookup grade = some chip
                  ∧ chip.pip_class_delays.length = 2 + 1
                  ∧ (grade ≠ "6".toList →
                      ∀ k v, tbl.find k = some v → k ∉ incon.map (fun e => e.pipclass) →
                        chip.pip_class_delays[v.toNat]? = some default_pipclass)) :=
  ⟨rfl, rfl, by rfl,
    C31_pip_class_tables sampleMul11 sample_constids graded_files sample_cells
      [⟨"f_to_a".toList, (100, 110, 120), (1, 2, 3)⟩,
       ⟨"a_to_f".toList, (200, 210, 220), (4, 5, 6)⟩] rfl rfl (by decide) (by decide)⟩
end TrellisImport
